import Mathlib

/-!
Virtual-memory core: vm/page.c, vm/frame.c and vm/swap.c.

A shallow embedding of the supplemental page table, the frame table and the
swap allocator.  Every C function becomes a function on an explicit `State`.
A result of `none` means that the call does not return normally: an `ASSERT`
fails, a pointer that is dereferenced is invalid, or `lock_acquire` is called
on a lock that somebody holds (in a sequential execution nobody would ever
release it).
-/

namespace Pintos

/-- One byte of memory, of a disk sector or of a file (a `uint8_t`). -/
abbrev Byte := Nat

/-- A `struct page *`: the owning thread together with the page-aligned user
address, which is the hash key of the descriptor in that thread's table. -/
abbrev PageRef := Nat × Nat

/-- Build-time constants that come from headers outside the analysed sources
(`threads/vaddr.h`, `devices/block.h`): they are parameters of the model. -/
structure Config where
  /-- Bytes per page. -/
  PGSIZE : Nat
  /-- Bytes per sector of a block device. -/
  BLOCK_SECTOR_SIZE : Nat
  /-- Lowest kernel virtual address; user addresses lie below it. -/
  PHYS_BASE : Nat
deriving DecidableEq, Repr

/-- Maximum size of process stack, in bytes (`#define STACK_MAX (1024 * 1024)`). -/
def STACK_MAX : Nat := 1024 * 1024

/-- Number of sectors per page (`#define PAGE_SECTORS (PGSIZE / BLOCK_SECTOR_SIZE)`). -/
def PAGE_SECTORS (c : Config) : Nat := c.PGSIZE / c.BLOCK_SECTOR_SIZE

/-- Modelled from the spec: `pg_round_down` of `threads/vaddr.h` is not among the
sources; the spec calls it `round_down(vaddr)`, the nearest page boundary at or
below the address. -/
def pg_round_down (c : Config) (a : Nat) : Nat := a - a % c.PGSIZE

/-- The descriptor `struct page`.  `sector` is `none` for the sentinel
`(block_sector_t) -1`, `frame` and `file` are `none` for `NULL`; `frame` is an
index into the frame table. -/
structure Page where
  addr : Nat
  read_only : Bool
  write_back : Bool
  frame : Option Nat
  sector : Option Nat
  file : Option Nat
  file_offset : Nat
  file_bytes : Nat
  thread : Nat
deriving DecidableEq, Repr

/-- The `struct frame`; the bytes of the physical page live in `State.kmem`. -/
structure Frame where
  base : Nat
  lock : Option Nat
  page : Option PageRef
deriving DecidableEq, Repr

/-- Modelled from the spec: the architectural page directory is an external
collaborator offering "set mapping (with writeable flag), clear mapping, test
accessed bit (with clear option), test dirty bit".  One entry per user page. -/
structure PTE where
  present : Bool
  kpage : Nat
  writable : Bool
  accessed : Bool
  dirty : Bool
deriving DecidableEq, Repr

/-- The whole machine state the three managers work on. -/
structure State where
  /-- Identity of `thread_current ()`. -/
  cur : Nat
  /-- The member `pages` of every thread: `none` is a null table pointer. -/
  pages : Nat → Option (List Page)
  /-- The member `pagedir` of every thread: thread, then user page. -/
  pagedir : Nat → Nat → PTE
  /-- The member `user_esp` of every thread. -/
  user_esp : Nat → Nat
  /-- The array `frames`; `frame_cnt` is its length. -/
  frames : List Frame
  /-- Contents of the physical page of each frame: frame index, then offset. -/
  kmem : Nat → Nat → Byte
  hand : Nat
  scan_lock : Option Nat
  swap_bitmap : List Bool
  swap_lock : Option Nat
  /-- Contents of the swap block device: sector, then offset in the sector. -/
  swap_device : Nat → Nat → Byte
  /-- Contents of every file, by file identity. -/
  fs : Nat → List Byte

/-! ## Locks, hash table, page directory, bitmap, block device, files -/

/-- Modelled from the spec: `lock_acquire` on a mutex (threads/synch.c is not among
the sources).  It returns only when the lock is free. -/
def lock_acquire (l : Option Nat) (cur : Nat) : Option (Option Nat) :=
  match l with
  | none => some (some cur)
  | some _ => none

/-- Modelled from the spec: `lock_try_acquire` takes a lock "non-blockingly": it
succeeds, making the caller the holder, exactly when nobody holds the lock. -/
def lock_try_acquire (l : Option Nat) (cur : Nat) : Bool × Option Nat :=
  match l with
  | none => (true, some cur)
  | some t => (false, some t)

/-- The test `lock_held_by_current_thread (&l)`. -/
def lock_held_by_current_thread (l : Option Nat) (cur : Nat) : Bool :=
  l == some cur

/-- Lookup `hash_find` in a page table: `page_less` compares `addr` only. -/
def hash_find (h : List Page) (a : Nat) : Option Page :=
  h.find? (fun q => q.addr == a)

/-- Dereference of a `struct page *`. -/
def getPage (s : State) (r : PageRef) : Option Page :=
  (s.pages r.1).bind (fun h => hash_find h r.2)

/-- Assignment to members of the descriptor that `r` points to. -/
def setPage (s : State) (r : PageRef) (f : Page → Page) : State :=
  { s with pages := fun t =>
      if t = r.1 then
        (s.pages t).map (fun h => h.map (fun q => if q.addr == r.2 then f q else q))
      else s.pages t }

/-- Assignment to members of the frame `frames[i]`. -/
def setFrame (s : State) (i : Nat) (f : Frame → Frame) : State :=
  { s with frames := s.frames.modify f i }

/-- Modelled from the spec: "clear mapping" of the page directory; the entry is
marked not present and its accessed and dirty bits stay readable. -/
def pagedir_clear_page (s : State) (t : Nat) (upage : Nat) : State :=
  { s with pagedir := fun t' u =>
      if t' = t ∧ u = upage then { s.pagedir t u with present := false } else s.pagedir t' u }

/-- Modelled from the spec: "test dirty bit" of the page directory. -/
def pagedir_is_dirty (s : State) (t : Nat) (upage : Nat) : Bool :=
  (s.pagedir t upage).dirty

/-- Modelled from the spec: "test accessed bit" of the page directory. -/
def pagedir_is_accessed (s : State) (t : Nat) (upage : Nat) : Bool :=
  (s.pagedir t upage).accessed

/-- Modelled from the spec: set the accessed bit of an entry to a given value. -/
def pagedir_set_accessed (s : State) (t : Nat) (upage : Nat) (v : Bool) : State :=
  { s with pagedir := fun t' u =>
      if t' = t ∧ u = upage then { s.pagedir t u with accessed := v } else s.pagedir t' u }

/-- Modelled from the spec: "set mapping (with writeable flag)".  The call fails
(`ok = false`, nothing changes) when no memory for the page table is available;
otherwise a fresh entry for `upage` is installed. -/
def pagedir_set_page (s : State) (t : Nat) (upage kpage : Nat) (writable : Bool)
    (ok : Bool) : Bool × State :=
  if ok then
    (true, { s with pagedir := fun t' u =>
      if t' = t ∧ u = upage then
        { present := true, kpage := kpage, writable := writable, accessed := false, dirty := false }
      else s.pagedir t' u })
  else (false, s)

/-- Index of the first clear bit: `bitmap_scan (b, 0, 1, false)`, with `none` for
`BITMAP_ERROR`. -/
def bitmap_scan : List Bool → Option Nat
  | [] => none
  | x :: xs => if x = false then some 0 else (bitmap_scan xs).map (fun i => i + 1)

/-- The call `bitmap_scan_and_flip (b, 0, 1, false)` as the comment in swap.c
describes it: find the first clear bit, set it, return its index. -/
def bitmap_scan_and_flip (b : List Bool) : Option (Nat × List Bool) :=
  match bitmap_scan b with
  | none => none
  | some i => some (i, b.set i true)

/-- The call `bitmap_reset (b, idx)`: clear one bit. -/
def bitmap_reset (b : List Bool) (idx : Nat) : List Bool := b.set idx false

/-- The call `block_write (dev, sector, buf)`: one sector is overwritten with the
first `BLOCK_SECTOR_SIZE` bytes of the buffer. -/
def block_write (c : Config) (dev : Nat → Nat → Byte) (sector : Nat) (buf : Nat → Byte) :
    Nat → Nat → Byte :=
  fun s off => if s = sector ∧ off < c.BLOCK_SECTOR_SIZE then buf off else dev s off

/-- Store `n` bytes of `buf` into a page of memory starting at offset `start`. -/
def mem_store (mem : Nat → Byte) (start n : Nat) (buf : Nat → Byte) : Nat → Byte :=
  fun o => if start ≤ o ∧ o < start + n then buf (o - start) else mem o

/-- The call `block_read (dev, sector, mem + start)`: one sector is copied into memory. -/
def block_read (c : Config) (dev : Nat → Nat → Byte) (sector : Nat) (mem : Nat → Byte)
    (start : Nat) : Nat → Byte :=
  mem_store mem start c.BLOCK_SECTOR_SIZE (dev sector)

/-- The call `memset (mem + start, 0, n)`. -/
def memset_zero (mem : Nat → Byte) (start n : Nat) : Nat → Byte :=
  mem_store mem start n (fun _ => 0)

/-- The call `file_read_at (file, buffer, size, file_ofs)` as the comment in page.c
describes it: reads `size` bytes starting at `file_ofs`, fewer if end of file is
reached; returns the number of bytes read and the buffer. -/
def file_read_at (contents : List Byte) (mem : Nat → Byte) (size ofs : Nat) :
    Nat × (Nat → Byte) :=
  let n := min size (contents.length - ofs)
  (n, mem_store mem 0 n (fun i => contents.getD (ofs + i) 0))

/-- Modelled from the spec: "write-at (offset, size, buffer)" of the filesystem, an
external collaborator.  Writes `size` bytes of the buffer at `ofs`, fewer if end
of file is reached (the file does not grow); returns the number of bytes written
and the new contents. -/
def file_write_at (contents : List Byte) (buf : Nat → Byte) (size ofs : Nat) :
    Nat × List Byte :=
  let n := min size (contents.length - ofs)
  (n, (List.range contents.length).map
        (fun i => if ofs ≤ i ∧ i < ofs + n then buf (i - ofs) else contents.getD i 0))

/-- Pointer arithmetic `a - n` on a 32-bit `void *`. -/
def ptr_sub (a n : Nat) : Nat := (a + 2 ^ 32 - n) % 2 ^ 32

/-! ## vm/swap.c -/

/-- The writing loop of `swap_out`, after its first `n` iterations. -/
def swap_out_sectors (c : Config) (dev : Nat → Nat → Byte) (sector : Nat) (mem : Nat → Byte) :
    Nat → (Nat → Nat → Byte)
  | 0 => dev
  | n + 1 =>
    block_write c (swap_out_sectors c dev sector mem n) (sector + n)
      (fun off => mem (n * c.BLOCK_SECTOR_SIZE + off))

/-- The reading loop of `swap_in`, after its first `n` iterations. -/
def swap_in_sectors (c : Config) (dev : Nat → Nat → Byte) (sector : Nat) (mem : Nat → Byte) :
    Nat → (Nat → Byte)
  | 0 => mem
  | n + 1 =>
    block_read c dev (sector + n) (swap_in_sectors c dev sector mem n) (n * c.BLOCK_SECTOR_SIZE)

/-- Swaps in page P, which must have a locked frame (and be swapped out). -/
def swap_in (c : Config) (s : State) (r : PageRef) : Option State :=
  match getPage s r with
  | none => none
  | some p =>
    match p.frame with
    | none => none
    | some fi =>
      match s.frames[fi]? with
      | none => none
      | some f =>
        if lock_held_by_current_thread f.lock s.cur = false then none
        else
          match p.sector with
          | none => none
          | some sec =>
            let mem := swap_in_sectors c s.swap_device sec (s.kmem fi) (PAGE_SECTORS c)
            let s1 : State :=
              { s with
                kmem := fun i => if i = fi then mem else s.kmem i
                swap_bitmap := bitmap_reset s.swap_bitmap (sec / PAGE_SECTORS c) }
            some (setPage s1 r (fun q => { q with sector := none }))

/-- Swaps out page P, which must have a locked frame. -/
def swap_out (c : Config) (s : State) (r : PageRef) : Option (Bool × State) :=
  match getPage s r with
  | none => none
  | some p =>
    match p.frame with
    | none => none
    | some fi =>
      match s.frames[fi]? with
      | none => none
      | some f =>
        if lock_held_by_current_thread f.lock s.cur = false then none
        else
          match lock_acquire s.swap_lock s.cur with
          | none => none
          | some _ =>
            -- the swap lock is released right after the scan
            match bitmap_scan_and_flip s.swap_bitmap with
            | none => some (false, s)
            | some (slot, bm) =>
              let sector := slot * PAGE_SECTORS c
              let dev := swap_out_sectors c s.swap_device sector (s.kmem fi) (PAGE_SECTORS c)
              let s1 : State := { s with swap_bitmap := bm, swap_device := dev }
              some (true, setPage s1 r (fun q =>
                { q with sector := some sector, write_back := false, file := none,
                         file_offset := 0, file_bytes := 0 }))

/-! ## vm/page.c: eviction -/

/-- Remove page P from main memory.  P must have a locked frame.  The result of
`file_write_at`, a byte count, is stored into the `bool ok`. -/
def page_out (c : Config) (s : State) (r : PageRef) : Option (Bool × State) :=
  match getPage s r with
  | none => none
  | some p =>
    match p.frame with
    | none => none
    | some fi =>
      match s.frames[fi]? with
      | none => none
      | some f =>
        if lock_held_by_current_thread f.lock s.cur = false then none
        else
          let s1 := pagedir_clear_page s p.thread p.addr
          let dirty := pagedir_is_dirty s1 p.thread p.addr
          let routed : Option (Bool × State) :=
            match p.file with
            | none => swap_out c s1 r
            | some fl =>
              if dirty then
                if p.write_back then swap_out c s1 r
                else
                  let w := file_write_at (s1.fs fl) (s1.kmem fi) p.file_bytes p.file_offset
                  some (decide (w.1 ≠ 0),
                    { s1 with fs := fun x => if x = fl then w.2 else s1.fs x })
              else some (true, s1)
          match routed with
          | none => none
          | some (ok, s2) =>
            if ok then some (true, setPage s2 r (fun q => { q with frame := none }))
            else some (false, s2)

/-- Returns true if page P's data has been accessed recently; the accessed bit is
cleared when it was set.  P must have a frame locked into memory. -/
def page_accessed_recently (s : State) (r : PageRef) : Option (Bool × State) :=
  match getPage s r with
  | none => none
  | some p =>
    match p.frame with
    | none => none
    | some fi =>
      match s.frames[fi]? with
      | none => none
      | some f =>
        if lock_held_by_current_thread f.lock s.cur = false then none
        else if pagedir_is_accessed s p.thread p.addr then
          some (true, pagedir_set_accessed s p.thread p.addr false)
        else some (false, s)

/-! ## vm/frame.c -/

/-- The first loop of `try_frame_alloc_and_lock` ("Find a free frame"), with `n`
iterations left and loop variable `i`.  A frame whose lock cannot be taken is
skipped, a locked frame that holds a page is unlocked again, so the state only
changes when a free frame is found: it is bound to the page, the scan lock is
released and the frame is returned locked. -/
def find_free_frame (s : State) (r : PageRef) : Nat → Nat → Option (Option Nat × State)
  | 0, _ => some (none, s)
  | n + 1, i =>
    match s.frames[i]? with
    | none => none
    | some f =>
      match lock_try_acquire f.lock s.cur with
      | (false, _) => find_free_frame s r n (i + 1)
      | (true, l) =>
        match f.page with
        | none =>
          some (some i,
            { setFrame s i (fun g => { g with lock := l, page := some r }) with
              scan_lock := none })
        | some _ => find_free_frame s r n (i + 1)

/-- The second loop of `try_frame_alloc_and_lock` ("Find a frame to evict"), with
`n` iterations left. -/
def evict_frame (c : Config) (r : PageRef) : Nat → State → Option (Option Nat × State)
  | 0, s => some (none, { s with scan_lock := none })
  | n + 1, s =>
    match s.frames[s.hand]? with
    | none => none
    | some f =>
      let h := s.hand
      let s1 : State := { s with hand := if h + 1 ≥ s.frames.length then 0 else h + 1 }
      match lock_try_acquire f.lock s.cur with
      | (false, _) => evict_frame c r n s1
      | (true, l) =>
        let s2 := setFrame s1 h (fun g => { g with lock := l })
        match f.page with
        | none =>
          some (some h, { setFrame s2 h (fun g => { g with page := some r }) with
                          scan_lock := none })
        | some q =>
          match page_accessed_recently s2 q with
          | none => none
          | some (true, s3) => evict_frame c r n (setFrame s3 h (fun g => { g with lock := none }))
          | some (false, s3) =>
            match page_out c { s3 with scan_lock := none } q with
            | none => none
            | some (false, s4) => some (none, setFrame s4 h (fun g => { g with lock := none }))
            | some (true, s4) => some (some h, setFrame s4 h (fun g => { g with page := some r }))

/-- Tries to allocate and lock a frame for PAGE.  Returns the frame if successful. -/
def try_frame_alloc_and_lock (c : Config) (s : State) (r : PageRef) :
    Option (Option Nat × State) :=
  match lock_acquire s.scan_lock s.cur with
  | none => none
  | some l =>
    let s1 : State := { s with scan_lock := l }
    match find_free_frame s1 r s1.frames.length 0 with
    | none => none
    | some (some i, s2) => some (some i, s2)
    | some (none, s2) => evict_frame c r (s2.frames.length * 2) s2

/-- The retry loop of `frame_alloc_and_lock` with `n` tries left; `timer_msleep`
does not change the state of a sequential execution. -/
def frame_alloc_retry (c : Config) (r : PageRef) : Nat → State → Option (Option Nat × State)
  | 0, s => some (none, s)
  | n + 1, s =>
    match try_frame_alloc_and_lock c s r with
    | none => none
    | some (some i, s1) =>
      match s1.frames[i]? with
      | none => none
      | some f => if lock_held_by_current_thread f.lock s1.cur then some (some i, s1) else none
    | some (none, s1) => frame_alloc_retry c r n s1

/-- Tries really hard to allocate and lock a frame for PAGE: three attempts. -/
def frame_alloc_and_lock (c : Config) (s : State) (r : PageRef) :
    Option (Option Nat × State) :=
  frame_alloc_retry c r 3 s

/-- Locks P's frame into memory, if it has one.  Nothing runs between the read of
`p->frame` and the acquisition, so the re-check `f != p->frame` never fires. -/
def frame_lock (s : State) (r : PageRef) : Option State :=
  match getPage s r with
  | none => none
  | some p =>
    match p.frame with
    | none => some s
    | some fi =>
      match s.frames[fi]? with
      | none => none
      | some f =>
        match lock_acquire f.lock s.cur with
        | none => none
        | some l => some (setFrame s fi (fun g => { g with lock := l }))

/-- Releases frame F for use by another page.  F must be locked by the caller. -/
def frame_free (s : State) (fi : Nat) : Option State :=
  match s.frames[fi]? with
  | none => none
  | some f =>
    if lock_held_by_current_thread f.lock s.cur then
      some (setFrame s fi (fun g => { g with page := none, lock := none }))
    else none

/-- Unlocks frame F, allowing it to be evicted.  F must be locked by the caller. -/
def frame_unlock (s : State) (fi : Nat) : Option State :=
  match s.frames[fi]? with
  | none => none
  | some f =>
    if lock_held_by_current_thread f.lock s.cur then
      some (setFrame s fi (fun g => { g with lock := none }))
    else none

/-! ## vm/page.c: allocation, lookup, page-in, pinning -/

/-- Adds a mapping for user virtual address VADDR to the page hash table.  Fails
if VADDR is already mapped or if memory allocation fails (`malloc_ok = false`
stands for `malloc` returning a null pointer). -/
def page_allocate (c : Config) (s : State) (vaddr : Nat) (read_only : Bool)
    (malloc_ok : Bool) : Option (Option PageRef × State) :=
  if malloc_ok then
    let p : Page :=
      { addr := pg_round_down c vaddr, read_only := read_only, write_back := !read_only,
        frame := none, sector := none, file := none, file_offset := 0, file_bytes := 0,
        thread := s.cur }
    match s.pages s.cur with
    | none => none
    | some h =>
      match hash_find h p.addr with
      | some _ => some (none, s)
      | none =>
        some (some (s.cur, p.addr),
          { s with pages := fun t => if t = s.cur then some (p :: h) else s.pages t })
  else some (none, s)

/-- Returns the page containing the given virtual ADDRESS, or a null pointer if no
such page exists.  Allocates stack pages as necessary. -/
def page_for_addr (c : Config) (s : State) (address : Nat) (malloc_ok : Bool) :
    Option (Option PageRef × State) :=
  if address < c.PHYS_BASE then
    let a := pg_round_down c address
    match s.pages s.cur with
    | none => none
    | some h =>
      match hash_find h a with
      | some _ => some (some (s.cur, a), s)
      | none =>
        if a > ptr_sub c.PHYS_BASE STACK_MAX ∧ ptr_sub (s.user_esp s.cur) 32 < address then
          page_allocate c s a false malloc_ok
        else some (none, s)
  else some (none, s)

/-- Locks a frame for page P and copies the page's data into it.  Returns true if
successful, false on failure.  A `file_bytes` above the page size would make the
C code write outside the frame; the model keeps such writes inside the page. -/
def do_page_in (c : Config) (s : State) (r : PageRef) : Option (Bool × State) :=
  match frame_alloc_and_lock c s r with
  | none => none
  | some (none, s1) => some (false, setPage s1 r (fun q => { q with frame := none }))
  | some (some fi, s1) =>
    let s2 := setPage s1 r (fun q => { q with frame := some fi })
    match getPage s2 r with
    | none => none
    | some p =>
      match p.sector with
      | some _ => (swap_in c s2 r).map (fun s3 => (true, s3))
      | none =>
        match p.file with
        | some fl =>
          let rd := file_read_at (s2.fs fl) (s2.kmem fi) p.file_bytes p.file_offset
          let mem := memset_zero rd.2 rd.1 (c.PGSIZE - rd.1)
          some (true, { s2 with kmem := fun i => if i = fi then mem else s2.kmem i })
        | none =>
          let mem := memset_zero (s2.kmem fi) 0 c.PGSIZE
          some (true, { s2 with kmem := fun i => if i = fi then mem else s2.kmem i })

/-- Services a page fault at `fault_addr`.  `pt_ok = false` stands for
`pagedir_set_page` failing to allocate memory. -/
def page_in (c : Config) (s : State) (fault_addr : Nat) (malloc_ok pt_ok : Bool) :
    Option (Bool × State) :=
  match s.pages s.cur with
  | none => some (false, s)
  | some _ =>
    match page_for_addr c s fault_addr malloc_ok with
    | none => none
    | some (none, s1) => some (false, s1)
    | some (some r, s1) =>
      match frame_lock s1 r with
      | none => none
      | some s2 =>
        let paged : Option (Bool × State) :=
          match (getPage s2 r).bind (fun p => p.frame) with
          | none => do_page_in c s2 r
          | some _ => some (true, s2)
        match paged with
        | none => none
        | some (false, s3) => some (false, s3)
        | some (true, s3) =>
          match getPage s3 r with
          | none => none
          | some p =>
            match p.frame with
            | none => none
            | some fi =>
              match s3.frames[fi]? with
              | none => none
              | some f =>
                if lock_held_by_current_thread f.lock s3.cur = false then none
                else
                  let m := pagedir_set_page s3 s3.cur p.addr f.base (!p.read_only) pt_ok
                  (frame_unlock m.2 fi).map (fun s5 => (m.1, s5))

/-- Removes the page containing address VADDR from main memory and from the page
table. -/
def page_deallocate (c : Config) (s : State) (vaddr : Nat) (malloc_ok : Bool) : Option State :=
  match page_for_addr c s vaddr malloc_ok with
  | none => none
  | some (none, _) => none
  | some (some r, s1) =>
    match frame_lock s1 r with
    | none => none
    | some s2 =>
      match getPage s2 r with
      | none => none
      | some p =>
        let freed : Option State :=
          match p.frame with
          | none => some s2
          | some fi =>
            if p.file.isSome ∧ p.write_back = false then
              match page_out c s2 r with
              | none => none
              | some (_, s3) => frame_free s3 fi
            else frame_free s2 fi
        match freed with
        | none => none
        | some s4 =>
          some { s4 with pages := fun t =>
            if t = s4.cur then (s4.pages t).map (fun h => h.filter (fun q => q.addr != r.2))
            else s4.pages t }

/-- Tries to lock the page containing ADDR into physical memory.  If WILL_WRITE is
true, the page must be writeable.  Returns true if successful, false on failure. -/
def page_lock (c : Config) (s : State) (addr : Nat) (will_write : Bool)
    (malloc_ok pt_ok : Bool) : Option (Bool × State) :=
  match page_for_addr c s addr malloc_ok with
  | none => none
  | some (none, s1) => some (false, s1)
  | some (some r, s1) =>
    match getPage s1 r with
    | none => none
    | some p =>
      if p.read_only && will_write then some (false, s1)
      else
        match frame_lock s1 r with
        | none => none
        | some s2 =>
          match (getPage s2 r).bind (fun q => q.frame) with
          | some _ => some (true, s2)
          | none =>
            match do_page_in c s2 r with
            | none => none
            | some (false, s3) => some (false, s3)
            | some (true, s3) =>
              match getPage s3 r with
              | none => none
              | some q =>
                match q.frame with
                | none => none
                | some fi =>
                  match s3.frames[fi]? with
                  | none => none
                  | some f =>
                    some (pagedir_set_page s3 s3.cur q.addr f.base (!q.read_only) pt_ok)

/-- Unlocks a page locked with `page_lock`. -/
def page_unlock (c : Config) (s : State) (addr : Nat) (malloc_ok : Bool) : Option State :=
  match page_for_addr c s addr malloc_ok with
  | none => none
  | some (none, _) => none
  | some (some r, s1) =>
    match (getPage s1 r).bind (fun p => p.frame) with
    | none => none
    | some fi => frame_unlock s1 fi

/-! ## A concrete machine for evaluating the definitions -/

/-- The usual constants: 4 KiB pages, 512-byte sectors, user space below 3 GiB. -/
def exCfg : Config := { PGSIZE := 4096, BLOCK_SECTOR_SIZE := 512, PHYS_BASE := 0xC0000000 }

/-- An anonymous page of thread 1 at 0x8048000, resident in frame 0. -/
def exAnon : Page :=
  { addr := 0x8048000, read_only := false, write_back := true, frame := some 0, sector := none,
    file := none, file_offset := 0, file_bytes := 0, thread := 1 }

/-- A page of thread 1 at 0x8048000 backed by 100 bytes of file 7, resident in frame 0. -/
def exFilePage (write_back : Bool) : Page :=
  { addr := 0x8048000, read_only := false, write_back := write_back, frame := some 0,
    sector := none, file := some 7, file_offset := 0, file_bytes := 100, thread := 1 }

/-- A machine with one frame, locked by the running thread 1 when `locked` holds
and bound to the page at 0x8048000 when `bound` holds; thread 1 owns the table
`tbl`, the page at 0x8048000 has the given dirty bit; file 7 has 100 bytes. -/
def exState (tbl : List Page) (bitmap : List Bool) (dirty locked bound : Bool) : State :=
  { cur := 1
    pages := fun t => if t = 1 then some tbl else none
    pagedir := fun _ _ =>
      { present := true, kpage := 0xC0100000, writable := true, accessed := false, dirty := dirty }
    user_esp := fun _ => 0xBFFFF000
    frames := [{ base := 0xC0100000, lock := if locked then some 1 else none,
                 page := if bound then some (1, 0x8048000) else none }]
    kmem := fun _ o => o % 251
    hand := 0
    scan_lock := none
    swap_bitmap := bitmap
    swap_lock := none
    swap_device := fun _ _ => 0
    fs := fun x => if x = 7 then List.replicate 100 1 else [] }

/-- A read-only anonymous page of thread 1 at 0x8048000, not resident. -/
def exReadOnly : Page :=
  { addr := 0x8048000, read_only := true, write_back := false, frame := none, sector := none,
    file := none, file_offset := 0, file_bytes := 0, thread := 1 }

/-- A machine whose running thread 1 has an empty page table and the user stack
pointer `esp`; its single frame is free. -/
def exStackState (esp : Nat) : State :=
  { exState [] [] false false false with user_esp := fun _ => esp }

/-- A page of thread 1 at 0x8048000 backed by 100 bytes of file 7, not resident. -/
def exFileNonResident : Page :=
  { addr := 0x8048000, read_only := false, write_back := false, frame := none,
    sector := none, file := some 7, file_offset := 0, file_bytes := 100, thread := 1 }

/-! ## vm/page.c: process exit -/

/-- Destroys a page, which must be in the current process's page table: its frame,
if any, is locked and freed.  The descriptor itself is released by
`hash_destroy`, see `page_exit`. -/
def destroy_page (s : State) (r : PageRef) : Option State :=
  match frame_lock s r with
  | none => none
  | some s1 =>
    match getPage s1 r with
    | none => none
    | some p =>
      match p.frame with
      | none => some s1
      | some fi => frame_free s1 fi

/-- The traversal of `hash_destroy (h, destroy_page)` over the elements of the table. -/
def destroy_pages (s : State) : List Page → Option State
  | [] => some s
  | p :: ps =>
    match destroy_page s (s.cur, p.addr) with
    | none => none
    | some s1 => destroy_pages s1 ps

/-- Destroys the current process's page table; nothing happens when the process
has none.  Afterwards the table holds no descriptor. -/
def page_exit (s : State) : Option State :=
  match s.pages s.cur with
  | none => some s
  | some h =>
    match destroy_pages s h with
    | none => none
    | some s1 =>
      some { s1 with pages := fun t => if t = s1.cur then some [] else s1.pages t }

/-! ## userprog/syscall.c: memory-mapped files -/

/-- Pointer arithmetic `a + n` on a 32-bit pointer. -/
def ptr_add (a n : Nat) : Nat := (a + n) % 2 ^ 32

/-- The record `struct mapping`: mapping id, file, start of the memory mapping and
number of pages mapped.  A `struct file *` is modelled by the identity of the
file it reads and writes, so a reopened file is the file itself. -/
structure Mapping where
  handle : Int
  file : Nat
  base : Nat
  page_cnt : Nat
deriving DecidableEq, Repr

/-- The machine state together with the state of the system-call layer: the
members `mappings` and `next_handle` of every thread and the lock `fs_lock`. -/
structure SysState where
  vm : State
  mappings : Nat → List Mapping
  next_handle : Nat → Int
  fs_lock : Option Nat

/-- How a system call ends: it returns a value, or it calls `thread_exit ()`. -/
inductive Outcome where
  | returned : Int → Outcome
  | terminated : Outcome
deriving DecidableEq, Repr

/-- Modelled from the spec: the frame whose physical page has the kernel address
`kpage`, as the page directory names it. -/
def frame_of_kpage (s : State) (kpage : Nat) : Option Nat :=
  s.frames.findIdx? (fun f => f.base == kpage)

/-- Modelled from the spec: one byte of the running process's memory at the user
address `va`, read through the page directory.  There is no result when the
page is not present: the access faults, and the fault handler is not among the
sources. -/
def user_byte (c : Config) (s : State) (va : Nat) : Option Byte :=
  let e := s.pagedir s.cur (pg_round_down c va)
  if e.present then
    (frame_of_kpage s e.kpage).map (fun fi => s.kmem fi (va % c.PGSIZE))
  else none

/-- Modelled from the spec: the `n` bytes of user memory from `va` on, as a buffer
handed to the filesystem. -/
def user_buffer (c : Config) (s : State) (va n : Nat) : Option (Nat → Byte) :=
  if (List.range n).all (fun i => (user_byte c s (ptr_add va i)).isSome) then
    some (fun i => (user_byte c s (ptr_add va i)).getD 0)
  else none

/-- The first loop of `unmap`, with `n` iterations left and loop variable `i`:
every page whose dirty bit is set is written with
`file_write_at (m->file, m->base + PGSIZE * i, PGSIZE * m->page_cnt, PGSIZE * i)`
under `fs_lock`.  The filesystem takes no more bytes from the buffer than it
writes. -/
def unmap_write (c : Config) (m : Mapping) : Nat → Nat → SysState → Option SysState
  | 0, _, s => some s
  | n + 1, i, s =>
    if pagedir_is_dirty s.vm s.vm.cur (ptr_add m.base (c.PGSIZE * i)) then
      match lock_acquire s.fs_lock s.vm.cur with
      | none => none
      | some _ =>
        let contents := s.vm.fs m.file
        let size := c.PGSIZE * m.page_cnt
        let ofs := c.PGSIZE * i
        match user_buffer c s.vm (ptr_add m.base (c.PGSIZE * i))
            (min size (contents.length - ofs)) with
        | none => none
        | some buf =>
          let w := file_write_at contents buf size ofs
          unmap_write c m n (i + 1)
            { s with vm := { s.vm with fs := fun x => if x = m.file then w.2 else s.vm.fs x } }
    else unmap_write c m n (i + 1) s

/-- The second loop of `unmap`: `page_deallocate` for every page of the mapping. -/
def unmap_dealloc (c : Config) (m : Mapping) (malloc_ok : Nat → Bool) :
    Nat → Nat → State → Option State
  | 0, _, s => some s
  | n + 1, i, s =>
    match page_deallocate c s (ptr_add m.base (c.PGSIZE * i)) (malloc_ok i) with
    | none => none
    | some s1 => unmap_dealloc c m malloc_ok n (i + 1) s1

/-- Remove mapping M from the virtual address space, writing back any pages that
have changed. -/
def unmap (c : Config) (s : SysState) (m : Mapping) (malloc_ok : Nat → Bool) :
    Option SysState :=
  let s1 : SysState :=
    { s with mappings := fun t =>
        if t = s.vm.cur then (s.mappings t).erase m else s.mappings t }
  match unmap_write c m m.page_cnt 0 s1 with
  | none => none
  | some s2 =>
    match unmap_dealloc c m malloc_ok m.page_cnt 0 s2.vm with
    | none => none
    | some vm => some { s2 with vm := vm }

/-- The loop `while (length > 0)` of `sys_mmap` with `fuel` iterations allowed; the
result tells whether every `page_allocate` succeeded and gives the mapping
record with its page count.  `malloc_ok i` stands for the `malloc` of the
`i`-th `page_allocate`. -/
def mmap_loop (c : Config) (malloc_ok : Nat → Bool) :
    Nat → State → Mapping → Nat → Nat → Option (Bool × Mapping × State)
  | fuel, s, m, offset, length =>
    if length = 0 then some (true, m, s)
    else
      match fuel with
      | 0 => none
      | fuel + 1 =>
        match page_allocate c s (ptr_add m.base offset) false (malloc_ok m.page_cnt) with
        | none => none
        | some (none, s1) => some (false, m, s1)
        | some (some r, s1) =>
          let file_bytes := if length ≥ c.PGSIZE then c.PGSIZE else length
          let s2 := setPage s1 r (fun p =>
            { p with write_back := false, file := some m.file, file_offset := offset,
                     file_bytes := file_bytes })
          mmap_loop c malloc_ok fuel s2 { m with page_cnt := m.page_cnt + 1 }
            (offset + file_bytes) (length - file_bytes)

/-- Mmap system call.  `file` is the open file of the record that `lookup_fd`
returns (that function is not among the sources); `malloc_m` and `reopen_ok`
stand for `malloc` and `file_reopen` returning a non-null pointer.  The record
is the head of the list while the loop counts its pages. -/
def sys_mmap (c : Config) (s : SysState) (file : Nat) (addr : Nat)
    (malloc_m reopen_ok : Bool) (malloc_ok : Nat → Bool) : Option (Int × SysState) :=
  if malloc_m = false ∨ addr = 0 ∨ addr % c.PGSIZE ≠ 0 then some (-1, s)
  else
    let cur := s.vm.cur
    let handle := s.next_handle cur
    let s1 : SysState :=
      { s with next_handle := fun t => if t = cur then handle + 1 else s.next_handle t }
    match lock_acquire s1.fs_lock cur with
    | none => none
    | some _ =>
      if reopen_ok = false then some (-1, s1)
      else
        let m0 : Mapping := { handle := handle, file := file, base := addr, page_cnt := 0 }
        let length := (s1.vm.fs file).length
        match mmap_loop c malloc_ok length s1.vm m0 0 length with
        | none => none
        | some (false, m, vm) =>
          (unmap c
            { s1 with vm := vm, mappings := fun t =>
                if t = cur then m :: s1.mappings t else s1.mappings t }
            m malloc_ok).map (fun s3 => (-1, s3))
        | some (true, m, vm) =>
          some (handle,
            { s1 with vm := vm, mappings := fun t =>
                if t = cur then m :: s1.mappings t else s1.mappings t })

/-- Returns the mapping associated with the given handle, the first of the list;
`none` stands for the call of `thread_exit ()` when there is no such mapping. -/
def lookup_mapping (s : SysState) (handle : Int) : Option Mapping :=
  (s.mappings s.vm.cur).find? (fun m => m.handle == handle)

/-- Munmap system call. -/
def sys_munmap (c : Config) (s : SysState) (handle : Int) (malloc_ok : Nat → Bool) :
    Option (Outcome × SysState) :=
  match lookup_mapping s handle with
  | none => some (Outcome.terminated, s)
  | some m => (unmap c s m malloc_ok).map (fun s1 => (Outcome.returned 0, s1))


/-- The descriptor the spec prescribes for the `j`-th page-sized region of a file
mapping that still has `length` bytes to map from file offset `offset` on:
writeable, `write_back` false, the file, its offset, and `min (PGSIZE, remaining)`
bytes. -/
def mmap_descriptor (c : Config) (cur file base offset length j : Nat) : Page :=
  { addr := pg_round_down c (ptr_add base (offset + j * c.PGSIZE)), read_only := false,
    write_back := false, frame := none, sector := none, file := some file,
    file_offset := offset + j * c.PGSIZE, file_bytes := min c.PGSIZE (length - j * c.PGSIZE),
    thread := cur }

/-- The number of page-sized regions that cover `length` bytes: `ceil (length / PGSIZE)`. -/
def mmap_page_count (c : Config) (length : Nat) : Nat := (length + c.PGSIZE - 1) / c.PGSIZE

/-! ## States reached by sequences of operations -/

/-- The states reached from an empty swap bitmap and descriptors without a sector
by `swap_out` and `swap_in` calls that return, with other activity in between
that leaves the bitmap alone and gives no descriptor a sector it did not have. -/
inductive SwapReach (c : Config) : State → Prop where
  | boot (s : State) :
      (∀ b, b ∈ s.swap_bitmap → b = false) →
      (∀ r p, getPage s r = some p → p.sector = none) → SwapReach c s
  | swapped_out (s s1 : State) (r : PageRef) (ok : Bool) :
      SwapReach c s → swap_out c s r = some (ok, s1) → SwapReach c s1
  | swapped_in (s s1 : State) (r : PageRef) :
      SwapReach c s → swap_in c s r = some s1 → SwapReach c s1
  | elsewhere (s s1 : State) :
      SwapReach c s → s1.swap_bitmap = s.swap_bitmap →
      (∀ r q, getPage s1 r = some q → q.sector ≠ none →
        ∃ p, getPage s r = some p ∧ p.sector = q.sector) → SwapReach c s1

/-! ## More concrete machines -/

/-- A machine just after boot: one free frame, no swap device (an empty bitmap),
empty page tables for the threads 1 and 2, thread 1 running. -/
def exBoot : State :=
  { cur := 1
    pages := fun t => if t = 1 ∨ t = 2 then some [] else none
    pagedir := fun _ _ =>
      { present := false, kpage := 0, writable := false, accessed := false, dirty := false }
    user_esp := fun _ => 0xBFFFF000
    frames := [{ base := 0xC0100000, lock := none, page := none }]
    kmem := fun _ _ => 0
    hand := 0
    scan_lock := none
    swap_bitmap := []
    swap_lock := none
    swap_device := fun _ _ => 0
    fs := fun _ => [] }

/-- Thread 1 allocates a page at 0x8048000 and faults it in. -/
def exAfterFault1 : Option (Bool × State) :=
  (page_allocate exCfg exBoot 0x8048000 false true).bind fun x1 =>
  page_in exCfg x1.2 0x8048000 true true

/-- Then thread 2 allocates a page and faults on it: the only frame holds the page
of thread 1, which cannot be evicted because there is no swap. -/
def exAfterFault2 : Option (Bool × State) :=
  exAfterFault1.bind fun x2 =>
  (page_allocate exCfg { x2.2 with cur := 2 } 0x8048000 false true).bind fun x3 =>
  page_in exCfg x3.2 0x8048000 true true

/-- Then thread 1 pins its page with `page_lock (0x8048000, false)`. -/
def exPinAfterFailedEviction : Option (Bool × State) :=
  exAfterFault2.bind fun x4 =>
  page_lock exCfg { x4.2 with cur := 1 } 0x8048000 false true true



/-- Small constants for evaluation: pages of 4 bytes, sectors of 2 bytes. -/
def exSmallCfg : Config := { PGSIZE := 4, BLOCK_SECTOR_SIZE := 2, PHYS_BASE := 0xC0000000 }

/-- The descriptor of page `i` of a mapping of the 6-byte file 7 at 0x1000 (pages of
4 bytes), resident in frame `i`. -/
def exMapPage (i : Nat) : Page :=
  { addr := 0x1000 + 4 * i, read_only := false, write_back := false, frame := some i,
    sector := none, file := some 7, file_offset := 4 * i, file_bytes := if i = 0 then 4 else 2,
    thread := 1 }

/-- The mapping record of that mapping. -/
def exMapping : Mapping := { handle := 0, file := 7, base := 0x1000, page_cnt := 2 }

/-- Thread 1 has file 7 (six bytes of value 1) mapped at 0x1000 in two pages, both
resident and present; frame 0 holds bytes of value 2, frame 1 bytes of value 3;
page 0 has its dirty bit set when `dirty0` holds, page 1 is not dirty. -/
def exMapped (dirty0 : Bool) : SysState :=
  { vm :=
      { cur := 1
        pages := fun t => if t = 1 then some [exMapPage 1, exMapPage 0] else none
        pagedir := fun _ u =>
          if u = 0x1000 then
            { present := true, kpage := 0xC0100000, writable := true, accessed := true,
              dirty := dirty0 }
          else if u = 0x1004 then
            { present := true, kpage := 0xC0100004, writable := true, accessed := true,
              dirty := false }
          else
            { present := false, kpage := 0, writable := false, accessed := false,
              dirty := false }
        user_esp := fun _ => 0xBFFFF000
        frames := [{ base := 0xC0100000, lock := none, page := some (1, 0x1000) },
                   { base := 0xC0100004, lock := none, page := some (1, 0x1004) }]
        kmem := fun i _ => i + 2
        hand := 0
        scan_lock := none
        swap_bitmap := [false]
        swap_lock := none
        swap_device := fun _ _ => 0
        fs := fun x => if x = 7 then [1, 1, 1, 1, 1, 1] else [] }
    mappings := fun t => if t = 1 then [exMapping] else []
    next_handle := fun _ => 1
    fs_lock := none }

/-- Thread 1 before it maps file 7 (six bytes of value 1): its page table holds
the descriptors `tbl`, nothing is resident, it has no mapping and its next
mapping id is 1. -/
def exFresh (tbl : List Page) : SysState :=
  { vm :=
      { cur := 1
        pages := fun t => if t = 1 then some tbl else none
        pagedir := fun _ _ =>
          { present := false, kpage := 0, writable := false, accessed := false, dirty := false }
        user_esp := fun _ => 0xBFFFF000
        frames := [{ base := 0xC0100000, lock := none, page := none },
                   { base := 0xC0100004, lock := none, page := none }]
        kmem := fun _ _ => 0
        hand := 0
        scan_lock := none
        swap_bitmap := [false]
        swap_lock := none
        swap_device := fun _ _ => 0
        fs := fun x => if x = 7 then [1, 1, 1, 1, 1, 1] else [] }
    mappings := fun _ => []
    next_handle := fun _ => 1
    fs_lock := none }

/-- An anonymous page of thread 1 at 0x1004 (pages of 4 bytes), not resident. -/
def exOldPage : Page :=
  { addr := 0x1004, read_only := false, write_back := true, frame := none, sector := none,
    file := none, file_offset := 0, file_bytes := 0, thread := 1 }

/-! ## Predicates on states, for the invariants -/

/-- The frame that the descriptor `r` names, `p->frame`. -/
def page_frame (s : State) (r : PageRef) : Option Nat :=
  (getPage s r).bind (fun p => p.frame)

/-- The page that frame `fi` names, `f->page`. -/
def frame_page (s : State) (fi : Nat) : Option PageRef :=
  (s.frames[fi]?).bind (fun f => f.page)

/-- A descriptor with a swap sector has neither a frame nor a file. -/
def Exclusive (p : Page) : Prop :=
  p.sector ≠ none → p.frame = none ∧ p.file = none

/-- Every descriptor of the state is `Exclusive`. -/
def StoreInv (s : State) : Prop :=
  ∀ r p, getPage s r = some p → Exclusive p

/-- Pages and frames name each other: `p->frame == f` exactly when `f->page == p`. -/
def Bound (s : State) : Prop :=
  ∀ r fi, page_frame s r = some fi ↔ frame_page s fi = some r

/-- The binding of pages and frames in the middle of a page-in: frame `i` has been
given to the page `r0`, whose descriptor does not name it yet. -/
def BoundExcept (s : State) (r0 : PageRef) (i : Nat) : Prop :=
  frame_page s i = some r0 ∧ page_frame s r0 = none ∧
  ∀ r fi, page_frame s r = some fi ↔ (fi ≠ i ∧ frame_page s fi = some r)

/-- What an eviction does to a descriptor: the frame is gone, and either sector and
file are what they were or the file is gone (the page went to swap). -/
def Evicted (p p1 : Page) : Prop :=
  p1.frame = none ∧ ((p1.sector = p.sector ∧ p1.file = p.file) ∨ p1.file = none)

/-- The two states have the same running thread, descriptors and frame bindings. -/
def SameView (s s1 : State) : Prop :=
  s1.cur = s.cur ∧ (∀ r, getPage s1 r = getPage s r) ∧ ∀ j, frame_page s1 j = frame_page s j

/-- What an attempt to allocate a frame for page `r` does to descriptors and frame
bindings: without result nothing; with the result `i` that frame names `r`, and
either it was free or the page it held has been evicted. -/
def AllocEffect (s s1 : State) (r : PageRef) (res : Option Nat) : Prop :=
  (res = none ∧ SameView s s1) ∨
  (∃ i, res = some i ∧ s1.cur = s.cur ∧ frame_page s1 i = some r ∧
    (∀ j, j ≠ i → frame_page s1 j = frame_page s j) ∧
    ((frame_page s i = none ∧ ∀ r1, getPage s1 r1 = getPage s r1) ∨
     (∃ q p p1, frame_page s i = some q ∧ getPage s q = some p ∧ getPage s1 q = some p1 ∧
        Evicted p p1 ∧ ∀ r1, r1 ≠ q → getPage s1 r1 = getPage s r1)))

/-- The second state has the descriptors and frame bindings of the first and may
have new descriptors, which have neither a frame nor a sector. -/
def Grows (s s1 : State) : Prop :=
  s1.cur = s.cur ∧ (∀ j, frame_page s1 j = frame_page s j) ∧
  ∀ r, getPage s1 r = getPage s r ∨
    (getPage s r = none ∧ ∃ p, getPage s1 r = some p ∧ p.frame = none ∧ p.sector = none)

/-- Both invariants pass from the first state to the second. -/
def Preserves (s s1 : State) : Prop :=
  (StoreInv s → StoreInv s1) ∧ (Bound s → Bound s1)

/-- The states reached from free frames and empty page tables by calls of the
operations of vm/page.c that return, with other activity in between that leaves
the `frame` members of descriptors and the `page` members of frames alone. -/
inductive BindReach (c : Config) : State → Prop where
  | boot (s : State) :
      (∀ r, getPage s r = none) → (∀ fi, frame_page s fi = none) → BindReach c s
  | allocated (s s1 : State) (vaddr : Nat) (read_only malloc_ok : Bool)
      (res : Option PageRef) :
      BindReach c s → page_allocate c s vaddr read_only malloc_ok = some (res, s1) →
      BindReach c s1
  | paged_in (s s1 : State) (fault_addr : Nat) (malloc_ok pt_ok ok : Bool) :
      BindReach c s → page_in c s fault_addr malloc_ok pt_ok = some (ok, s1) →
      BindReach c s1
  | pinned (s s1 : State) (addr : Nat) (will_write malloc_ok pt_ok ok : Bool) :
      BindReach c s → page_lock c s addr will_write malloc_ok pt_ok = some (ok, s1) →
      BindReach c s1
  | unpinned (s s1 : State) (addr : Nat) (malloc_ok : Bool) :
      BindReach c s → page_unlock c s addr malloc_ok = some s1 → BindReach c s1
  | deallocated (s s1 : State) (vaddr : Nat) (malloc_ok : Bool) :
      BindReach c s → page_deallocate c s vaddr malloc_ok = some s1 → BindReach c s1
  | exited (s s1 : State) :
      BindReach c s → page_exit s = some s1 → BindReach c s1
  | elsewhere (s s1 : State) :
      BindReach c s → (∀ r, page_frame s1 r = page_frame s r) →
      (∀ fi, frame_page s1 fi = frame_page s fi) → BindReach c s1

/-- The states reached from descriptors without a swap sector by calls of
`page_in`, `page_lock`, `page_out`, `page_deallocate` and `frame_alloc_and_lock`
that return, with other activity in between that leaves every descriptor that
has a sector as it is and gives no other descriptor one. -/
inductive StoreReach (c : Config) : State → Prop where
  | boot (s : State) :
      (∀ r p, getPage s r = some p → p.sector = none) → StoreReach c s
  | paged_in (s s1 : State) (fault_addr : Nat) (malloc_ok pt_ok ok : Bool) :
      StoreReach c s → page_in c s fault_addr malloc_ok pt_ok = some (ok, s1) →
      StoreReach c s1
  | pinned (s s1 : State) (addr : Nat) (will_write malloc_ok pt_ok ok : Bool) :
      StoreReach c s → page_lock c s addr will_write malloc_ok pt_ok = some (ok, s1) →
      StoreReach c s1
  | paged_out (s s1 : State) (r : PageRef) (ok : Bool) :
      StoreReach c s → page_out c s r = some (ok, s1) → StoreReach c s1
  | deallocated (s s1 : State) (vaddr : Nat) (malloc_ok : Bool) :
      StoreReach c s → page_deallocate c s vaddr malloc_ok = some s1 → StoreReach c s1
  | frame_allocated (s s1 : State) (r : PageRef) (res : Option Nat) :
      StoreReach c s → frame_alloc_and_lock c s r = some (res, s1) → StoreReach c s1
  | elsewhere (s s1 : State) :
      StoreReach c s →
      (∀ r q, getPage s1 r = some q → q.sector ≠ none → getPage s r = some q) →
      StoreReach c s1

/-! ## vm/frame.c: the eviction loop observed -/

/-- The part "Evict this frame" of the second loop of `try_frame_alloc_and_lock`,
for the frame `v` that holds page `q`. -/
def evict_victim (c : Config) (r : PageRef) (v : Nat) (q : PageRef) (s : State) :
    Option (Option Nat × State) :=
  match page_out c s q with
  | none => none
  | some (false, s4) => some (none, setFrame s4 v (fun g => { g with lock := none }))
  | some (true, s4) => some (some v, setFrame s4 v (fun g => { g with page := some r }))

/-- The second loop of `try_frame_alloc_and_lock` ("Find a frame to evict") as in
`evict_frame`, with a record, for every call of `page_out`, of the holder of
`scan_lock` at the moment of the call. -/
def evict_frame_log (c : Config) (r : PageRef) :
    Nat → State → Option (Option Nat × State) × List (Option Nat)
  | 0, s => (some (none, { s with scan_lock := none }), [])
  | n + 1, s =>
    match s.frames[s.hand]? with
    | none => (none, [])
    | some f =>
      let h := s.hand
      let s1 : State := { s with hand := if h + 1 ≥ s.frames.length then 0 else h + 1 }
      match lock_try_acquire f.lock s.cur with
      | (false, _) => evict_frame_log c r n s1
      | (true, l) =>
        let s2 := setFrame s1 h (fun g => { g with lock := l })
        match f.page with
        | none =>
          (some (some h, { setFrame s2 h (fun g => { g with page := some r }) with
                           scan_lock := none }), [])
        | some q =>
          match page_accessed_recently s2 q with
          | none => (none, [])
          | some (true, s3) =>
            evict_frame_log c r n (setFrame s3 h (fun g => { g with lock := none }))
          | some (false, s3) =>
            let s3r : State := { s3 with scan_lock := none }
            (evict_victim c r h q s3r, [s3r.scan_lock])

/-- The function `try_frame_alloc_and_lock` with the record of `evict_frame_log`;
the first loop does not call `page_out`. -/
def try_frame_alloc_and_lock_log (c : Config) (s : State) (r : PageRef) :
    Option (Option Nat × State) × List (Option Nat) :=
  match lock_acquire s.scan_lock s.cur with
  | none => (none, [])
  | some l =>
    let s1 : State := { s with scan_lock := l }
    match find_free_frame s1 r s1.frames.length 0 with
    | none => (none, [])
    | some (some i, s2) => (some (some i, s2), [])
    | some (none, s2) => evict_frame_log c r (s2.frames.length * 2) s2

/-! ## The clock sweep as the specification describes it -/

/-- The accessed bit of the page that frame `j` holds. -/
def frame_accessed (s : State) (j : Nat) : Bool :=
  match frame_page s j with
  | none => false
  | some q => (s.pagedir q.1 q.2).accessed

/-- The page directory after the sweep has passed over the `k` frames that follow
the hand in cyclic order: the accessed bits of their pages are clear. -/
def clear_passed (s : State) (k : Nat) : Nat → Nat → PTE :=
  fun t u =>
    if (List.range k).any
        (fun i => frame_page s ((s.hand + i) % s.frames.length) == some (t, u)) then
      { s.pagedir t u with accessed := false }
    else s.pagedir t u

/-- The state in which the sweep, having passed over `k` frames, calls `page_out`
for its victim, the frame `(hand + k) mod frame_cnt`: the hand points behind the
victim, the victim is locked by the caller, the scan lock is free. -/
def clock_state (s : State) (k : Nat) : State :=
  { s with
    hand := ((s.hand + k) % s.frames.length + 1) % s.frames.length
    scan_lock := none
    pagedir := clear_passed s k
    frames := s.frames.modify (fun g => { g with lock := some s.cur })
      ((s.hand + k) % s.frames.length) }

/-- Every bit that is set in the first bitmap is set in the second. -/
def BitsKept (b b1 : List Bool) : Prop :=
  ∀ i : Nat, b[i]? = some true → b1[i]? = some true

/-! ## userprog/syscall.c: the list of open files -/

/-- The record `struct proc_file`, with the address of the record itself, which is
what `free` receives.  A `struct file *` is modelled by the identity of the
open file. -/
structure ProcFile where
  addr : Nat
  ptr : Nat
  fd : Int
deriving DecidableEq, Repr

/-- The loop of `close_file` over the elements from `e` on; `f` is the value of the
local variable `f` so far (`none` while it is uninitialised).  The result is
the elements left in the list, the files passed to `file_close` in order, and
the final value of `f`.  The iteration goes on behind a removed element, as
`list_remove` leaves the element's own `next` pointer in place. -/
def close_file_loop (fd : Int) :
    List ProcFile → Option ProcFile → List ProcFile × List Nat × Option ProcFile
  | [], f => ([], [], f)
  | x :: xs, _ =>
    let rest := close_file_loop fd xs (some x)
    if x.fd = fd then (rest.1, x.ptr :: rest.2.1, rest.2.2)
    else (x :: rest.1, rest.2.1, rest.2.2)

/-- The function `close_file (files, fd)`: the list afterwards, the files closed
and the address of the record passed to `free`.  With an empty list `free`
receives an uninitialised pointer and there is no defined result. -/
def close_file (files : List ProcFile) (fd : Int) :
    Option (List ProcFile × List Nat × Nat) :=
  let res := close_file_loop fd files none
  match res.2.2 with
  | none => none
  | some f => some (res.1, res.2.1, f.addr)

/-! ## Further concrete machines -/

/-- A page of thread 1 at 0x8048000, resident in frame 0, backed by file 7 from
offset 100 on, which is where that file of 100 bytes ends. -/
def exFilePastEnd : Page :=
  { addr := 0x8048000, read_only := false, write_back := false, frame := some 0,
    sector := none, file := some 7, file_offset := 100, file_bytes := 100, thread := 1 }

/-- After boot thread 1 allocates a page at 0x8048000 and pins it with
`page_lock (0x8048000, false)` while `pagedir_set_page` finds no memory. -/
def exPinNoPageTable : Option (Bool × State) :=
  (page_allocate exCfg exBoot 0x8048000 false true).bind fun x =>
  page_lock exCfg x.2 0x8048000 false true false

/-- The same with a page fault, `page_in (0x8048000)`, in place of the pin. -/
def exFaultNoPageTable : Option (Bool × State) :=
  (page_allocate exCfg exBoot 0x8048000 false true).bind fun x =>
  page_in exCfg x.2 0x8048000 true false

/-- An anonymous page of thread 1 at 0x8048000 that is swapped out to slot 0. -/
def exSwapped : Page :=
  { addr := 0x8048000, read_only := false, write_back := false, frame := none,
    sector := some 0, file := none, file_offset := 0, file_bytes := 0, thread := 1 }

/-- The anonymous page `i` of thread 1, at `0x8048000 + 4096 * i`, resident in
frame `i`. -/
def exClockPage (i : Nat) : Page :=
  { addr := 0x8048000 + 4096 * i, read_only := false, write_back := true, frame := some i,
    sector := none, file := none, file_offset := 0, file_bytes := 0, thread := 1 }

/-- Three frames hold the pages 0, 1 and 2 of thread 1 and nobody has locked them;
the hand is at frame 1; the accessed bits of the pages 0 and 1 are set, that of
page 2 is clear; swap has one free slot. -/
def exClock : State :=
  { cur := 1
    pages := fun t => if t = 1 then some [exClockPage 0, exClockPage 1, exClockPage 2] else none
    pagedir := fun _ u =>
      { present := true, kpage := 0xC0100000 + (u - 0x8048000), writable := true,
        accessed := decide (u ≠ 0x8048000 + 4096 * 2), dirty := false }
    user_esp := fun _ => 0xBFFFF000
    frames := [{ base := 0xC0100000, lock := none, page := some (1, 0x8048000) },
               { base := 0xC0101000, lock := none, page := some (1, 0x8048000 + 4096 * 1) },
               { base := 0xC0102000, lock := none, page := some (1, 0x8048000 + 4096 * 2) }]
    kmem := fun _ _ => 0
    hand := 1
    scan_lock := none
    swap_bitmap := [false]
    swap_lock := none
    swap_device := fun _ _ => 0
    fs := fun _ => [] }

/-- Two records of open files: descriptor 3 at address 0x100, descriptor 4 at 0x200. -/
def exFiles : List ProcFile :=
  [{ addr := 0x100, ptr := 30, fd := 3 }, { addr := 0x200, ptr := 40, fd := 4 }]

/-- The state of the second loop of `try_frame_alloc_and_lock` after it has passed
over `k` frames whose pages had been accessed: the scan lock is held, the hand has
moved `k` places and the accessed bits of the passed pages are clear. -/
def sweep_state (s : State) (k : Nat) : State :=
  { s with
    hand := (s.hand + k) % s.frames.length
    scan_lock := some s.cur
    pagedir := clear_passed s k }

/-- Every frame holds a page and no frame is locked: frame `j` names a page whose
descriptor names frame `j` and the thread that owns the page. -/
def Occupied (s : State) : Prop :=
  ∀ (j : Nat) (f : Frame), s.frames[j]? = some f →
    f.lock = none ∧
    ∃ q p, f.page = some q ∧ getPage s q = some p ∧ p.frame = some j ∧ p.thread = q.1

/-! ## Auxiliary facts about the table, the bitmap and the sector loops -/

theorem hash_find_addr {h : List Page} {a : Nat} {p : Page} (hf : hash_find h a = some p) :
    p.addr = a := by
  unfold hash_find at hf
  have h1 := List.find?_some hf
  simpa using h1

theorem hash_find_map (h : List Page) (a : Nat) (g : Page → Page)
    (hg : ∀ q, (g q).addr = q.addr) :
    hash_find (h.map g) a = (hash_find h a).map g := by
  unfold hash_find
  rw [List.find?_map]
  have h1 : ((fun q : Page => q.addr == a) ∘ g) = (fun q : Page => q.addr == a) := by
    funext q
    simp [hg]
  rw [h1]

theorem getPage_setPage_same (s : State) (r : PageRef) (f : Page → Page)
    (hf : ∀ q, (f q).addr = q.addr) :
    getPage (setPage s r f) r = (getPage s r).map f := by
  unfold getPage setPage
  simp only [if_true]
  cases hs : s.pages r.1 with
  | none => simp
  | some h =>
    simp only [Option.map_some', Option.some_bind]
    rw [hash_find_map h r.2 _ (by intro q; split <;> simp [hf])]
    cases hq : hash_find h r.2 with
    | none => simp
    | some q =>
      have ha := hash_find_addr hq
      simp [ha]

theorem getPage_setPage_other (s : State) (r r' : PageRef) (f : Page → Page)
    (hf : ∀ q, (f q).addr = q.addr) (hne : r' ≠ r) :
    getPage (setPage s r f) r' = getPage s r' := by
  unfold getPage setPage
  by_cases ht : r'.1 = r.1
  · simp only [ht, if_true]
    cases hs : s.pages r.1 with
    | none => simp
    | some h =>
      simp only [Option.map_some', Option.some_bind]
      rw [hash_find_map h r'.2 _ (by intro q; split <;> simp [hf])]
      cases hq : hash_find h r'.2 with
      | none => simp
      | some q =>
        have ha := hash_find_addr hq
        have hne2 : r'.2 ≠ r.2 := by
          intro h2
          exact hne (Prod.ext ht h2)
        simp [ha, hne2]
  · simp [ht]

theorem bitmap_scan_some {b : List Bool} {i : Nat} (h : bitmap_scan b = some i) :
    b[i]? = some false ∧ ∀ j, j < i → b[j]? = some true := by
  induction b generalizing i with
  | nil => simp [bitmap_scan] at h
  | cons x xs ih =>
    cases x with
    | false =>
      simp only [bitmap_scan, if_true, Option.some.injEq] at h
      subst h
      simp
    | true =>
      cases hs : bitmap_scan xs with
      | none => simp [bitmap_scan, hs] at h
      | some k =>
        simp [bitmap_scan, hs] at h
        subst h
        obtain ⟨h1, h2⟩ := ih hs
        refine ⟨by simpa using h1, ?_⟩
        intro j hj
        cases j with
        | zero => simp
        | succ j => simpa using h2 j (by omega)

theorem bitmap_scan_none {b : List Bool} : bitmap_scan b = none ↔ ∀ x ∈ b, x = true := by
  induction b with
  | nil => simp [bitmap_scan]
  | cons x xs ih =>
    cases x with
    | false => simp [bitmap_scan]
    | true => simp [bitmap_scan, ih]

theorem bitmap_scan_of_clear {b : List Bool} {i : Nat} (h : b[i]? = some false) :
    ∃ slot, bitmap_scan b = some slot := by
  cases hs : bitmap_scan b with
  | some k => exact ⟨k, rfl⟩
  | none =>
    have hall := bitmap_scan_none.mp hs
    have hm : false ∈ b := (List.mem_iff_getElem?.mpr ⟨i, h⟩)
    exact absurd (hall false hm) (by simp)

theorem swap_out_sectors_eq (c : Config) (dev : Nat → Nat → Byte) (sector : Nat)
    (mem : Nat → Byte) (n sec off : Nat) :
    swap_out_sectors c dev sector mem n sec off =
      if sector ≤ sec ∧ sec < sector + n ∧ off < c.BLOCK_SECTOR_SIZE then
        mem ((sec - sector) * c.BLOCK_SECTOR_SIZE + off)
      else dev sec off := by
  induction n with
  | zero =>
    rw [if_neg (by omega)]
    rfl
  | succ n ih =>
    simp only [swap_out_sectors, block_write]
    by_cases h1 : sec = sector + n ∧ off < c.BLOCK_SECTOR_SIZE
    · obtain ⟨h2, h3⟩ := h1
      subst h2
      simp [h3]
    · rw [if_neg h1, ih]
      by_cases h4 : sector ≤ sec ∧ sec < sector + n ∧ off < c.BLOCK_SECTOR_SIZE
      · rw [if_pos h4, if_pos ⟨h4.1, by omega, h4.2.2⟩]
      · rw [if_neg h4, if_neg]
        intro h5
        apply h4
        refine ⟨h5.1, ?_, h5.2.2⟩
        by_contra h6
        exact h1 ⟨by omega, h5.2.2⟩

theorem swap_in_sectors_eq (c : Config) (dev : Nat → Nat → Byte) (sector : Nat)
    (mem : Nat → Byte) (n o : Nat) :
    swap_in_sectors c dev sector mem n o =
      if o < n * c.BLOCK_SECTOR_SIZE then
        dev (sector + o / c.BLOCK_SECTOR_SIZE) (o % c.BLOCK_SECTOR_SIZE)
      else mem o := by
  induction n with
  | zero => simp [swap_in_sectors]
  | succ n ih =>
    simp only [swap_in_sectors, block_read, mem_store]
    by_cases h1 : n * c.BLOCK_SECTOR_SIZE ≤ o ∧ o < n * c.BLOCK_SECTOR_SIZE + c.BLOCK_SECTOR_SIZE
    · rw [if_pos h1, if_pos (by rw [Nat.succ_mul]; exact h1.2)]
      have hpos : 0 < c.BLOCK_SECTOR_SIZE := by omega
      have hd : o / c.BLOCK_SECTOR_SIZE = n := by
        apply Nat.div_eq_of_lt_le
        · exact h1.1
        · rw [Nat.succ_mul]; exact h1.2
      have hm : o % c.BLOCK_SECTOR_SIZE = o - n * c.BLOCK_SECTOR_SIZE := by
        have h2 := Nat.div_add_mod o c.BLOCK_SECTOR_SIZE
        rw [hd, Nat.mul_comm] at h2
        omega
      rw [hd, hm]
    · rw [if_neg h1, ih]
      by_cases h2 : o < n * c.BLOCK_SECTOR_SIZE
      · rw [if_pos h2, if_pos (by rw [Nat.succ_mul]; omega)]
      · rw [if_neg h2, if_neg (by rw [Nat.succ_mul]; omega)]

/-! ## Swap allocator -/

theorem swap_out_of_slot (c : Config) (s : State) (r : PageRef) (p : Page) (fi : Nat)
    (f : Frame) (slot : Nat)
    (hp : getPage s r = some p) (hfr : p.frame = some fi) (hf : s.frames[fi]? = some f)
    (hl : f.lock = some s.cur) (hsl : s.swap_lock = none)
    (hscan : bitmap_scan s.swap_bitmap = some slot) :
    swap_out c s r = some (true,
      setPage
        { s with
          swap_bitmap := s.swap_bitmap.set slot true
          swap_device :=
            swap_out_sectors c s.swap_device (slot * PAGE_SECTORS c) (s.kmem fi) (PAGE_SECTORS c) }
        r
        (fun q => { q with sector := some (slot * PAGE_SECTORS c), write_back := false,
                           file := none, file_offset := 0, file_bytes := 0 })) := by
  simp [swap_out, hp, hfr, hf, hl, hsl, lock_held_by_current_thread, lock_acquire,
    bitmap_scan_and_flip, hscan]

theorem swap_out_of_full (c : Config) (s : State) (r : PageRef) (p : Page) (fi : Nat)
    (f : Frame)
    (hp : getPage s r = some p) (hfr : p.frame = some fi) (hf : s.frames[fi]? = some f)
    (hl : f.lock = some s.cur) (hsl : s.swap_lock = none)
    (hscan : bitmap_scan s.swap_bitmap = none) :
    swap_out c s r = some (false, s) := by
  simp [swap_out, hp, hfr, hf, hl, hsl, lock_held_by_current_thread, lock_acquire,
    bitmap_scan_and_flip, hscan]

/-- C4: when the swap bitmap has a clear bit, `swap_out` of a page with a locked
frame returns true; the slot is the lowest-indexed clear bit, exactly that bit
becomes set, `sector` is `slot * PAGE_SECTORS`, the sectors of the slot hold the
bytes of the frame in order, no other sector changes, and the file fields and
`write_back` of the page are reset. -/
theorem swap_out_takes_first_free_slot (c : Config) (s : State) (r : PageRef) (p : Page)
    (fi : Nat) (f : Frame) (i : Nat)
    (hp : getPage s r = some p) (hfr : p.frame = some fi) (hf : s.frames[fi]? = some f)
    (hl : f.lock = some s.cur) (hsl : s.swap_lock = none)
    (hclear : s.swap_bitmap[i]? = some false) :
    ∃ slot s1 p1, swap_out c s r = some (true, s1) ∧
      s.swap_bitmap[slot]? = some false ∧ (∀ j, j < slot → s.swap_bitmap[j]? = some true) ∧
      s1.swap_bitmap.length = s.swap_bitmap.length ∧
      s1.swap_bitmap[slot]? = some true ∧
      (∀ j, j ≠ slot → s1.swap_bitmap[j]? = s.swap_bitmap[j]?) ∧
      getPage s1 r = some p1 ∧ p1.sector = some (slot * PAGE_SECTORS c) ∧
      (∀ k off, k < PAGE_SECTORS c → off < c.BLOCK_SECTOR_SIZE →
        s1.swap_device (slot * PAGE_SECTORS c + k) off
          = s.kmem fi (k * c.BLOCK_SECTOR_SIZE + off)) ∧
      (∀ sec off, ¬ (slot * PAGE_SECTORS c ≤ sec ∧ sec < (slot + 1) * PAGE_SECTORS c) →
        s1.swap_device sec off = s.swap_device sec off) ∧
      p1.file = none ∧ p1.file_offset = 0 ∧ p1.file_bytes = 0 ∧ p1.write_back = false := by
  obtain ⟨slot, hscan⟩ := bitmap_scan_of_clear hclear
  obtain ⟨hb1, hb2⟩ := bitmap_scan_some hscan
  have hlt : slot < s.swap_bitmap.length := by
    by_contra hge
    rw [List.getElem?_eq_none (by omega)] at hb1
    exact absurd hb1 (by simp)
  refine ⟨slot, _,
    { p with sector := some (slot * PAGE_SECTORS c), write_back := false, file := none,
             file_offset := 0, file_bytes := 0 },
    swap_out_of_slot c s r p fi f slot hp hfr hf hl hsl hscan, hb1, hb2, ?_,
    ?_, ?_, ?_, ?_, ?_, ?_, ?_, ?_, ?_, ?_⟩
  · simp [setPage]
  · simp [setPage, hlt]
  · intro j hj
    simp only [setPage]
    exact List.getElem?_set_ne (Ne.symm hj)
  · rw [getPage_setPage_same _ _ _ (by intro q; rfl)]
    have h1 : getPage { s with
          swap_bitmap := s.swap_bitmap.set slot true
          swap_device :=
            swap_out_sectors c s.swap_device (slot * PAGE_SECTORS c) (s.kmem fi) (PAGE_SECTORS c) }
        r = getPage s r := rfl
    rw [h1, hp]
    rfl
  · rfl
  · intro k off hk hoff
    simp only [setPage]
    rw [swap_out_sectors_eq, if_pos ⟨by omega, by omega, hoff⟩, Nat.add_sub_cancel_left]
  · intro sec off hsec
    simp only [setPage]
    rw [swap_out_sectors_eq, if_neg]
    intro h1
    apply hsec
    refine ⟨h1.1, ?_⟩
    rw [Nat.succ_mul]
    exact h1.2.1
  · rfl
  · rfl
  · rfl
  · rfl

/-- C5: when every bit of the swap bitmap is set (an empty bitmap included),
`swap_out` of a page with a locked frame returns false and changes nothing: the
bitmap, the device and every field of the page stay as they were. -/
theorem swap_out_full_changes_nothing (c : Config) (s : State) (r : PageRef) (p : Page)
    (fi : Nat) (f : Frame)
    (hp : getPage s r = some p) (hfr : p.frame = some fi) (hf : s.frames[fi]? = some f)
    (hl : f.lock = some s.cur) (hsl : s.swap_lock = none)
    (hfull : ∀ b ∈ s.swap_bitmap, b = true) :
    ∃ s1, swap_out c s r = some (false, s1) ∧ s1.swap_bitmap = s.swap_bitmap ∧
      s1.swap_device = s.swap_device ∧ getPage s1 r = some p ∧ s1 = s :=
  ⟨s, swap_out_of_full c s r p fi f hp hfr hf hl hsl (bitmap_scan_none.mpr hfull),
    rfl, rfl, hp, rfl⟩

theorem list_set_of_getElem? {α : Type} {l : List α} {i : Nat} {a : α} (h : l[i]? = some a) :
    l.set i a = l := by
  apply List.ext_getElem?
  intro j
  by_cases hj : i = j
  · subst hj
    have hlt : i < l.length := by
      by_contra hge
      rw [List.getElem?_eq_none (by omega)] at h
      exact absurd h (by simp)
    rw [List.getElem?_set_self hlt, h]
  · rw [List.getElem?_set_ne hj]

theorem swap_in_of_sector (c : Config) (s : State) (r : PageRef) (p : Page) (fi : Nat)
    (f : Frame) (sec : Nat)
    (hp : getPage s r = some p) (hfr : p.frame = some fi) (hf : s.frames[fi]? = some f)
    (hl : f.lock = some s.cur) (hsec : p.sector = some sec) :
    swap_in c s r = some
      (setPage
        { s with
          kmem := fun i =>
            if i = fi then swap_in_sectors c s.swap_device sec (s.kmem fi) (PAGE_SECTORS c)
            else s.kmem i
          swap_bitmap := bitmap_reset s.swap_bitmap (sec / PAGE_SECTORS c) }
        r (fun q => { q with sector := none })) := by
  simp [swap_in, hp, hfr, hf, hl, hsec, lock_held_by_current_thread]

/-- C3: for a page with a locked frame and a swap bitmap with a clear bit,
`swap_out` succeeds, and a following `swap_in` (into the same frame, or into any
other locked frame the page has been bound to meanwhile, the swap device, the
bitmap and the page's `sector` being untouched in between) leaves that frame
holding the `PGSIZE` bytes the original frame held before `swap_out`, leaves
`sector` equal to none, and restores the bitmap to its value before `swap_out`.
The sector size divides the page size. -/
theorem swap_out_swap_in_round_trip (c : Config) (s : State) (r : PageRef) (p : Page)
    (fi : Nat) (f : Frame) (i : Nat)
    (hpg : 0 < c.PGSIZE) (hdvd : c.BLOCK_SECTOR_SIZE ∣ c.PGSIZE)
    (hp : getPage s r = some p) (hfr : p.frame = some fi) (hf : s.frames[fi]? = some f)
    (hl : f.lock = some s.cur) (hsl : s.swap_lock = none)
    (hclear : s.swap_bitmap[i]? = some false) :
    ∃ s1 p1, swap_out c s r = some (true, s1) ∧ getPage s1 r = some p1 ∧
      ∀ (t : State) (q : Page) (fj : Nat) (g : Frame),
        t.swap_device = s1.swap_device → t.swap_bitmap = s1.swap_bitmap →
        getPage t r = some q → q.sector = p1.sector →
        q.frame = some fj → t.frames[fj]? = some g → g.lock = some t.cur →
        ∃ s2 p2, swap_in c t r = some s2 ∧
          (∀ off, off < c.PGSIZE → s2.kmem fj off = s.kmem fi off) ∧
          getPage s2 r = some p2 ∧ p2.sector = none ∧
          s2.swap_bitmap = s.swap_bitmap := by
  obtain ⟨slot, hscan⟩ := bitmap_scan_of_clear hclear
  obtain ⟨hb1, -⟩ := bitmap_scan_some hscan
  have hss : 0 < c.BLOCK_SECTOR_SIZE := Nat.pos_of_dvd_of_pos hdvd hpg
  have hmul : PAGE_SECTORS c * c.BLOCK_SECTOR_SIZE = c.PGSIZE := Nat.div_mul_cancel hdvd
  have hps : 0 < PAGE_SECTORS c := by
    rcases Nat.eq_zero_or_pos (PAGE_SECTORS c) with h0 | h0
    · rw [h0] at hmul
      omega
    · exact h0
  refine ⟨_,
    { p with sector := some (slot * PAGE_SECTORS c), write_back := false, file := none,
             file_offset := 0, file_bytes := 0 },
    swap_out_of_slot c s r p fi f slot hp hfr hf hl hsl hscan, ?_, ?_⟩
  · rw [getPage_setPage_same _ _ _ (by intro q; rfl)]
    have h1 : getPage { s with
          swap_bitmap := s.swap_bitmap.set slot true
          swap_device :=
            swap_out_sectors c s.swap_device (slot * PAGE_SECTORS c) (s.kmem fi) (PAGE_SECTORS c) }
        r = getPage s r := rfl
    rw [h1, hp]
    rfl
  · intro t q fj g hdev hbm hq hqs hqf hg hgl
    have hqs' : q.sector = some (slot * PAGE_SECTORS c) := hqs
    refine ⟨_, { q with sector := none },
      swap_in_of_sector c t r q fj g _ hq hqf hg hgl hqs', ?_, ?_, rfl, ?_⟩
    · intro off hoff
      simp only [setPage, if_true]
      rw [swap_in_sectors_eq, if_pos (by rw [hmul]; exact hoff), hdev]
      simp only [setPage]
      have hdiv : off / c.BLOCK_SECTOR_SIZE < PAGE_SECTORS c := by
        rw [Nat.div_lt_iff_lt_mul hss, hmul]
        exact hoff
      have hmod : off % c.BLOCK_SECTOR_SIZE < c.BLOCK_SECTOR_SIZE := Nat.mod_lt _ hss
      rw [swap_out_sectors_eq,
        if_pos ⟨Nat.le_add_right _ _, Nat.add_lt_add_left hdiv _, hmod⟩, Nat.add_sub_cancel_left]
      congr 1
      have h2 := Nat.div_add_mod off c.BLOCK_SECTOR_SIZE
      rw [Nat.mul_comm] at h2
      exact h2
    · rw [getPage_setPage_same _ _ _ (by intro q; rfl)]
      have h1 : getPage { t with
          kmem := fun i =>
            if i = fj then
              swap_in_sectors c t.swap_device (slot * PAGE_SECTORS c) (t.kmem fj) (PAGE_SECTORS c)
            else t.kmem i
          swap_bitmap := bitmap_reset t.swap_bitmap (slot * PAGE_SECTORS c / PAGE_SECTORS c) }
        r = getPage t r := rfl
      rw [h1, hq]
      rfl
    · simp only [setPage, hbm, bitmap_reset]
      rw [Nat.mul_div_cancel _ hps, List.set_set]
      exact list_set_of_getElem? hb1

theorem swap_out_takes_first_free_slot_witness :
    (getPage (exState [exAnon] [true, false, true] false true true) (1, 0x8048000) = some exAnon ∧
      (exState [exAnon] [true, false, true] false true true).swap_bitmap[1]? = some false) ∧
    ∃ slot s1 p1,
      swap_out exCfg (exState [exAnon] [true, false, true] false true true) (1, 0x8048000)
        = some (true, s1) ∧
      (exState [exAnon] [true, false, true] false true true).swap_bitmap[slot]? = some false ∧
      s1.swap_bitmap[slot]? = some true ∧
      getPage s1 (1, 0x8048000) = some p1 ∧ p1.sector = some (slot * PAGE_SECTORS exCfg) ∧
      p1.file = none :=
  ⟨⟨by decide, by decide⟩, by
    obtain ⟨slot, s1, p1, h1, h2, _, _, h3, _, h4, h5, _, _, h6, _⟩ :=
      swap_out_takes_first_free_slot exCfg (exState [exAnon] [true, false, true] false true true)
        (1, 0x8048000) exAnon 0 { base := 0xC0100000, lock := some 1, page := some (1, 0x8048000) }
        1 (by decide) rfl rfl rfl rfl (by decide)
    exact ⟨slot, s1, p1, h1, h2, h3, h4, h5, h6⟩⟩

theorem swap_out_full_changes_nothing_witness :
    (∀ b ∈ (exState [exAnon] [true, true] false true true).swap_bitmap, b = true) ∧
    ∃ s1, swap_out exCfg (exState [exAnon] [true, true] false true true) (1, 0x8048000)
        = some (false, s1) ∧
      s1.swap_bitmap = [true, true] ∧ getPage s1 (1, 0x8048000) = some exAnon :=
  ⟨by decide, by
    obtain ⟨s1, h1, h2, _, h3, _⟩ :=
      swap_out_full_changes_nothing exCfg (exState [exAnon] [true, true] false true true)
        (1, 0x8048000) exAnon 0 { base := 0xC0100000, lock := some 1, page := some (1, 0x8048000) }
        (by decide) rfl rfl rfl rfl (by decide)
    exact ⟨s1, h1, h2, h3⟩⟩

theorem swap_out_swap_in_round_trip_witness :
    (0 < exCfg.PGSIZE ∧ exCfg.BLOCK_SECTOR_SIZE ∣ exCfg.PGSIZE ∧
      (exState [exAnon] [true, false, true] false true true).swap_bitmap[1]? = some false) ∧
    ∃ s1 s2 p2,
      swap_out exCfg (exState [exAnon] [true, false, true] false true true) (1, 0x8048000)
        = some (true, s1) ∧
      swap_in exCfg s1 (1, 0x8048000) = some s2 ∧
      (∀ off, off < exCfg.PGSIZE → s2.kmem 0 off = off % 251) ∧
      getPage s2 (1, 0x8048000) = some p2 ∧ p2.sector = none ∧
      s2.swap_bitmap = [true, false, true] :=
  ⟨⟨by decide, by decide, by decide⟩, by
    obtain ⟨s1, p1, h1, h2, h3⟩ :=
      swap_out_swap_in_round_trip exCfg (exState [exAnon] [true, false, true] false true true)
        (1, 0x8048000) exAnon 0 { base := 0xC0100000, lock := some 1, page := some (1, 0x8048000) }
        1 (by decide) (by decide) (by decide) rfl rfl rfl rfl (by decide)
    have hs1 := h1
    rw [swap_out_of_slot exCfg (exState [exAnon] [true, false, true] false true true)
        (1, 0x8048000) exAnon 0 { base := 0xC0100000, lock := some 1, page := some (1, 0x8048000) }
        1 (by decide) rfl rfl rfl rfl (by decide)] at hs1
    have hs : s1 = _ := ((Prod.mk.injEq _ _ _ _).mp (Option.some.inj hs1)).2.symm
    have hfr : p1.frame = some 0 := by
      rw [hs] at h2
      have h4 : some _ = some p1 := h2
      rw [← Option.some.inj h4]
      decide
    obtain ⟨s2, p2, h5, h6, h7, h8, h9⟩ :=
      h3 s1 p1 0 { base := 0xC0100000, lock := some 1, page := some (1, 0x8048000) } rfl rfl h2 rfl
        hfr (by rw [hs]; rfl) (by rw [hs]; rfl)
    exact ⟨s1, s2, p2, h1, h5, h6, h7, h8, h9⟩⟩

/-! ## Eviction -/

theorem page_out_to_swap (c : Config) (s : State) (r : PageRef) (p : Page) (fi : Nat)
    (f : Frame)
    (hp : getPage s r = some p) (hfr : p.frame = some fi) (hf : s.frames[fi]? = some f)
    (hl : f.lock = some s.cur)
    (hroute : p.file = none ∨
      (p.file ≠ none ∧ (s.pagedir p.thread p.addr).dirty = true ∧ p.write_back = true)) :
    page_out c s r =
      match swap_out c (pagedir_clear_page s p.thread p.addr) r with
      | none => none
      | some (ok, s2) =>
        if ok then some (true, setPage s2 r (fun q => { q with frame := none }))
        else some (false, s2) := by
  unfold page_out
  simp only [hp, hfr, hf, hl, lock_held_by_current_thread, beq_self_eq_true]
  rcases hroute with h1 | ⟨h1, h2, h3⟩
  · simp [h1]
  · cases hfl : p.file with
    | none => exact absurd hfl h1
    | some fl => simp [pagedir_is_dirty, pagedir_clear_page, h2, h3]

theorem page_out_to_file (c : Config) (s : State) (r : PageRef) (p : Page) (fi : Nat)
    (f : Frame) (fl : Nat)
    (hp : getPage s r = some p) (hfr : p.frame = some fi) (hf : s.frames[fi]? = some f)
    (hl : f.lock = some s.cur)
    (hfile : p.file = some fl) (hd : (s.pagedir p.thread p.addr).dirty = true)
    (hwb : p.write_back = false) :
    page_out c s r =
      if (file_write_at (s.fs fl) (s.kmem fi) p.file_bytes p.file_offset).1 ≠ 0 then
        some (true, setPage
          { pagedir_clear_page s p.thread p.addr with
            fs := fun x =>
              if x = fl then (file_write_at (s.fs fl) (s.kmem fi) p.file_bytes p.file_offset).2
              else s.fs x }
          r (fun q => { q with frame := none }))
      else
        some (false,
          { pagedir_clear_page s p.thread p.addr with
            fs := fun x =>
              if x = fl then (file_write_at (s.fs fl) (s.kmem fi) p.file_bytes p.file_offset).2
              else s.fs x }) := by
  unfold page_out
  simp only [hp, hfr, hf, hl, lock_held_by_current_thread, beq_self_eq_true]
  simp only [pagedir_is_dirty, pagedir_clear_page, hfile, hd, hwb]
  by_cases hw : (file_write_at (s.fs fl) (s.kmem fi) p.file_bytes p.file_offset).1 = 0
  · simp [hw]
  · simp [hw]

theorem page_out_clean (c : Config) (s : State) (r : PageRef) (p : Page) (fi : Nat)
    (f : Frame) (fl : Nat)
    (hp : getPage s r = some p) (hfr : p.frame = some fi) (hf : s.frames[fi]? = some f)
    (hl : f.lock = some s.cur)
    (hfile : p.file = some fl) (hd : (s.pagedir p.thread p.addr).dirty = false) :
    page_out c s r =
      some (true, setPage (pagedir_clear_page s p.thread p.addr) r
        (fun q => { q with frame := none })) := by
  unfold page_out
  simp only [hp, hfr, hf, hl, lock_held_by_current_thread, beq_self_eq_true]
  simp [pagedir_is_dirty, pagedir_clear_page, hfile, hd]

/-- C1: for a resident page with a backing file whose frame lock the caller holds,
`page_out` routes as follows.  Dirty with `write_back` set: the outcome is that
of `swap_out` (the frame's bytes go to the sectors of the first free slot, the
result is true whenever a slot is free) and no file changes.  Dirty with
`write_back` clear: `file_bytes` bytes of the frame are written to the file at
`file_offset`, no other file changes and swap is not touched.  Not dirty:
nothing is written to swap or to any file and the result is true. -/
theorem page_out_routes_by_backing_store (c : Config) (s : State) (r : PageRef) (p : Page)
    (fi : Nat) (f : Frame) (fl : Nat)
    (hp : getPage s r = some p) (hfr : p.frame = some fi) (hf : s.frames[fi]? = some f)
    (hl : f.lock = some s.cur) (hsl : s.swap_lock = none) (hfile : p.file = some fl) :
    ((s.pagedir p.thread p.addr).dirty = true → p.write_back = true →
      ∃ ok s1 s2, swap_out c (pagedir_clear_page s p.thread p.addr) r = some (ok, s1) ∧
        page_out c s r = some (ok, s2) ∧
        s2.swap_bitmap = s1.swap_bitmap ∧ s2.swap_device = s1.swap_device ∧ s2.fs = s.fs ∧
        (∀ slot, bitmap_scan s.swap_bitmap = some slot →
          ok = true ∧ s2.swap_bitmap = s.swap_bitmap.set slot true ∧
          ∀ k off, k < PAGE_SECTORS c → off < c.BLOCK_SECTOR_SIZE →
            s2.swap_device (slot * PAGE_SECTORS c + k) off
              = s.kmem fi (k * c.BLOCK_SECTOR_SIZE + off))) ∧
    ((s.pagedir p.thread p.addr).dirty = true → p.write_back = false →
      ∃ s2, page_out c s r =
          some (decide ((file_write_at (s.fs fl) (s.kmem fi) p.file_bytes p.file_offset).1 ≠ 0),
            s2) ∧
        s2.fs fl = (file_write_at (s.fs fl) (s.kmem fi) p.file_bytes p.file_offset).2 ∧
        (∀ x, x ≠ fl → s2.fs x = s.fs x) ∧
        s2.swap_bitmap = s.swap_bitmap ∧ s2.swap_device = s.swap_device) ∧
    ((s.pagedir p.thread p.addr).dirty = false →
      ∃ s2, page_out c s r = some (true, s2) ∧ s2.fs = s.fs ∧
        s2.swap_bitmap = s.swap_bitmap ∧ s2.swap_device = s.swap_device) := by
  refine ⟨?_, ?_, ?_⟩
  · intro hd hwb
    have hpo := page_out_to_swap c s r p fi f hp hfr hf hl
      (Or.inr ⟨by rw [hfile]; simp, hd, hwb⟩)
    cases hscan : bitmap_scan s.swap_bitmap with
    | none =>
      have hso := swap_out_of_full c (pagedir_clear_page s p.thread p.addr) r p fi f
        hp hfr hf hl hsl hscan
      rw [hso] at hpo
      exact ⟨false, _, _, hso, hpo, rfl, rfl, rfl, by intro slot h; simp at h⟩
    | some slot =>
      have hso := swap_out_of_slot c (pagedir_clear_page s p.thread p.addr) r p fi f slot
        hp hfr hf hl hsl hscan
      rw [hso] at hpo
      refine ⟨true, _, _, hso, hpo, rfl, rfl, rfl, ?_⟩
      intro slot' hs'
      have hEq : slot' = slot := (Option.some.inj hs').symm
      subst hEq
      refine ⟨rfl, rfl, ?_⟩
      intro k off hk hoff
      show swap_out_sectors c s.swap_device (slot' * PAGE_SECTORS c) (s.kmem fi)
        (PAGE_SECTORS c) (slot' * PAGE_SECTORS c + k) off = _
      rw [swap_out_sectors_eq, if_pos ⟨by omega, by omega, hoff⟩, Nat.add_sub_cancel_left]
  · intro hd hwb
    have hpo := page_out_to_file c s r p fi f fl hp hfr hf hl hfile hd hwb
    by_cases hw : (file_write_at (s.fs fl) (s.kmem fi) p.file_bytes p.file_offset).1 = 0
    · rw [if_neg (by simpa using hw)] at hpo
      have hdec : decide ((file_write_at (s.fs fl) (s.kmem fi) p.file_bytes p.file_offset).1 ≠ 0)
          = false := by simp [hw]
      rw [hdec]
      refine ⟨_, hpo, ?_, ?_, rfl, rfl⟩
      · simp [pagedir_clear_page]
      · intro x hx
        simp [pagedir_clear_page, hx]
    · rw [if_pos hw] at hpo
      have hdec : decide ((file_write_at (s.fs fl) (s.kmem fi) p.file_bytes p.file_offset).1 ≠ 0)
          = true := by simp [hw]
      rw [hdec]
      refine ⟨_, hpo, ?_, ?_, rfl, rfl⟩
      · simp [setPage, pagedir_clear_page]
      · intro x hx
        simp [setPage, pagedir_clear_page, hx]
  · intro hd
    exact ⟨_, page_out_clean c s r p fi f fl hp hfr hf hl hfile hd, rfl, rfl, rfl⟩

theorem page_out_routes_by_backing_store_witness :
    (getPage (exState [exFilePage false] [false] true true true) (1, 0x8048000)
        = some (exFilePage false) ∧
      ((exState [exFilePage false] [false] true true true).pagedir 1 0x8048000).dirty = true) ∧
    ∃ s2, page_out exCfg (exState [exFilePage false] [false] true true true) (1, 0x8048000)
        = some (true, s2) ∧
      s2.fs 7 = (file_write_at (List.replicate 100 1) (fun o => o % 251) 100 0).2 ∧
      s2.swap_bitmap = [false] :=
  ⟨⟨by decide, by decide⟩, by
    obtain ⟨s2, h1, h2, _, h3, _⟩ :=
      (page_out_routes_by_backing_store exCfg (exState [exFilePage false] [false] true true true)
        (1, 0x8048000) (exFilePage false) 0
        { base := 0xC0100000, lock := some 1, page := some (1, 0x8048000) } 7
        (by decide) rfl rfl rfl rfl rfl).2.1 rfl rfl
    exact ⟨s2, h1, h2, h3⟩⟩

theorem getPage_congr {s t : State} (h : t.pages = s.pages) (r : PageRef) :
    getPage t r = getPage s r := by
  unfold getPage
  rw [h]

/-- C2: for a resident page whose frame lock the caller holds, `page_out` returns.
If it returns true the page's `frame` is none afterwards, and a page without a
backing file has been written to swap whatever its dirty bit: its `sector` is
set and the sectors of that slot hold the bytes of the frame.  If it returns
false the page's `frame` is unchanged.  In both cases the mapping of the page's
address is no longer present. -/
theorem page_out_result (c : Config) (s : State) (r : PageRef) (p : Page)
    (fi : Nat) (f : Frame)
    (hp : getPage s r = some p) (hfr : p.frame = some fi) (hf : s.frames[fi]? = some f)
    (hl : f.lock = some s.cur) (hsl : s.swap_lock = none) :
    ∃ ok s2 p2, page_out c s r = some (ok, s2) ∧ getPage s2 r = some p2 ∧
      (ok = true → p2.frame = none ∧
        (p.file = none → ∃ slot, bitmap_scan s.swap_bitmap = some slot ∧
          p2.sector = some (slot * PAGE_SECTORS c) ∧
          ∀ k off, k < PAGE_SECTORS c → off < c.BLOCK_SECTOR_SIZE →
            s2.swap_device (slot * PAGE_SECTORS c + k) off
              = s.kmem fi (k * c.BLOCK_SECTOR_SIZE + off))) ∧
      (ok = false → p2.frame = p.frame) ∧
      (s2.pagedir p.thread p.addr).present = false := by
  have hswap : (p.file = none ∨
      (p.file ≠ none ∧ (s.pagedir p.thread p.addr).dirty = true ∧ p.write_back = true)) →
      ∃ ok s2 p2, page_out c s r = some (ok, s2) ∧ getPage s2 r = some p2 ∧
      (ok = true → p2.frame = none ∧
        (p.file = none → ∃ slot, bitmap_scan s.swap_bitmap = some slot ∧
          p2.sector = some (slot * PAGE_SECTORS c) ∧
          ∀ k off, k < PAGE_SECTORS c → off < c.BLOCK_SECTOR_SIZE →
            s2.swap_device (slot * PAGE_SECTORS c + k) off
              = s.kmem fi (k * c.BLOCK_SECTOR_SIZE + off))) ∧
      (ok = false → p2.frame = p.frame) ∧
      (s2.pagedir p.thread p.addr).present = false := by
    intro hroute
    have hpo := page_out_to_swap c s r p fi f hp hfr hf hl hroute
    cases hscan : bitmap_scan s.swap_bitmap with
    | none =>
      rw [swap_out_of_full c (pagedir_clear_page s p.thread p.addr) r p fi f
        hp hfr hf hl hsl hscan] at hpo
      refine ⟨false, _, p, hpo, hp, by intro h; simp at h, fun _ => rfl, ?_⟩
      simp [pagedir_clear_page]
    | some slot =>
      rw [swap_out_of_slot c (pagedir_clear_page s p.thread p.addr) r p fi f slot
        hp hfr hf hl hsl hscan] at hpo
      refine ⟨true,  _,
        { p with sector := some (slot * PAGE_SECTORS c), write_back := false, file := none,
                 file_offset := 0, file_bytes := 0, frame := none },
        hpo, ?_, ?_, by intro h; simp at h, ?_⟩
      · rw [getPage_setPage_same _ _ _ (by intro q; rfl),
          getPage_setPage_same _ _ _ (by intro q; rfl)]
        have h1 : getPage { pagedir_clear_page s p.thread p.addr with
            swap_bitmap := (pagedir_clear_page s p.thread p.addr).swap_bitmap.set slot true
            swap_device :=
              swap_out_sectors c (pagedir_clear_page s p.thread p.addr).swap_device
                (slot * PAGE_SECTORS c) ((pagedir_clear_page s p.thread p.addr).kmem fi)
                (PAGE_SECTORS c) }
          r = getPage s r := rfl
        rw [h1, hp]
        rfl
      · intro _
        refine ⟨rfl, fun _ => ⟨slot, rfl, rfl, ?_⟩⟩
        intro k off hk hoff
        show swap_out_sectors c s.swap_device (slot * PAGE_SECTORS c) (s.kmem fi)
          (PAGE_SECTORS c) (slot * PAGE_SECTORS c + k) off = _
        rw [swap_out_sectors_eq, if_pos ⟨by omega, by omega, hoff⟩, Nat.add_sub_cancel_left]
      · simp [setPage, pagedir_clear_page]
  rcases Option.eq_none_or_eq_some p.file with hfile | ⟨fl, hfile⟩
  · exact hswap (Or.inl hfile)
  · cases hd : (s.pagedir p.thread p.addr).dirty with
    | false =>
      refine ⟨true, _, { p with frame := none },
        page_out_clean c s r p fi f fl hp hfr hf hl hfile hd, ?_, ?_, by intro h; simp at h, ?_⟩
      · rw [getPage_setPage_same _ _ _ (by intro q; rfl)]
        have h1 : getPage (pagedir_clear_page s p.thread p.addr) r = getPage s r := rfl
        rw [h1, hp]
        rfl
      · intro _
        exact ⟨rfl, fun h => by rw [hfile] at h; simp at h⟩
      · simp [setPage, pagedir_clear_page]
    | true =>
      cases hwb : p.write_back with
      | true => exact hswap (Or.inr ⟨by rw [hfile]; simp, hd, hwb⟩)
      | false =>
        have hpo := page_out_to_file c s r p fi f fl hp hfr hf hl hfile hd hwb
        by_cases hw : (file_write_at (s.fs fl) (s.kmem fi) p.file_bytes p.file_offset).1 = 0
        · rw [if_neg (by simpa using hw)] at hpo
          refine ⟨false, _, p, hpo, hp, by intro h; simp at h, fun _ => rfl, ?_⟩
          simp [pagedir_clear_page]
        · rw [if_pos hw] at hpo
          refine ⟨true, _, { p with frame := none }, hpo, ?_, ?_, by intro h; simp at h, ?_⟩
          · rw [getPage_setPage_same _ _ _ (by intro q; rfl)]
            have h1 : getPage { pagedir_clear_page s p.thread p.addr with
                fs := fun x =>
                  if x = fl then
                    (file_write_at (s.fs fl) (s.kmem fi) p.file_bytes p.file_offset).2
                  else s.fs x } r = getPage s r := rfl
            rw [h1, hp]
            rfl
          · intro _
            exact ⟨rfl, fun h => by rw [hfile] at h; simp at h⟩
          · simp [setPage, pagedir_clear_page]

theorem page_out_result_witness :
    (getPage (exState [exAnon] [true, false] false true true) (1, 0x8048000) = some exAnon ∧
      exAnon.frame = some 0) ∧
    ∃ ok s2 p2, page_out exCfg (exState [exAnon] [true, false] false true true) (1, 0x8048000)
        = some (ok, s2) ∧
      getPage s2 (1, 0x8048000) = some p2 ∧
      (ok = true → p2.frame = none) ∧ (ok = false → p2.frame = some 0) ∧
      (s2.pagedir 1 0x8048000).present = false :=
  ⟨⟨by decide, rfl⟩, by
    obtain ⟨ok, s2, p2, h1, h2, h3, h4, h5⟩ :=
      page_out_result exCfg (exState [exAnon] [true, false] false true true)
        (1, 0x8048000) exAnon 0
        { base := 0xC0100000, lock := some 1, page := some (1, 0x8048000) }
        (by decide) rfl rfl rfl rfl
    exact ⟨ok, s2, p2, h1, h2, fun h => (h3 h).1, h4, h5⟩⟩

/-! ## Allocation, lookup and pinning -/

/-- C9 (as stated, refuted): in a table with no descriptor at the rounded address
`page_allocate` still returns none when `malloc` returns a null pointer. -/
theorem page_allocate_none_when_malloc_fails :
    (exState [] [] false false false).pages (exState [] [] false false false).cur = some [] ∧
    hash_find [] (pg_round_down exCfg 0x8048123) = none ∧
    ¬ ∃ r s1, page_allocate exCfg (exState [] [] false false false) 0x8048123 false false
        = some (some r, s1) := by
  refine ⟨rfl, rfl, ?_⟩
  rintro ⟨r, s1, h⟩
  simp [page_allocate] at h

/-- C9 (amended): in a process that has a page table, if the table has no
descriptor at `round_down(vaddr)` and memory for the descriptor is available,
`page_allocate` returns a new descriptor with that address, the given
`read_only`, no frame, no sector, no file, `file_offset` 0 and `file_bytes` 0,
and the table gains exactly that entry (every other table and all other state
is unchanged); if a descriptor exists there already, or no memory is available,
it returns none and nothing changes. -/
theorem page_allocate_result (c : Config) (s : State) (vaddr : Nat) (read_only : Bool)
    (malloc_ok : Bool) (h : List Page) (hpt : s.pages s.cur = some h) :
    (hash_find h (pg_round_down c vaddr) = none → malloc_ok = true →
      ∃ s1 p, page_allocate c s vaddr read_only malloc_ok
          = some (some (s.cur, pg_round_down c vaddr), s1) ∧
        p = { addr := pg_round_down c vaddr, read_only := read_only, write_back := !read_only,
              frame := none, sector := none, file := none, file_offset := 0, file_bytes := 0,
              thread := s.cur } ∧
        getPage s1 (s.cur, pg_round_down c vaddr) = some p ∧
        s1.pages s.cur = some (p :: h) ∧
        (∀ a, a ≠ pg_round_down c vaddr → getPage s1 (s.cur, a) = getPage s (s.cur, a)) ∧
        (∀ t, t ≠ s.cur → s1.pages t = s.pages t) ∧
        s1.frames = s.frames ∧ s1.swap_bitmap = s.swap_bitmap ∧ s1.pagedir = s.pagedir) ∧
    ((∃ q, hash_find h (pg_round_down c vaddr) = some q) ∨ malloc_ok = false →
      page_allocate c s vaddr read_only malloc_ok = some (none, s)) := by
  constructor
  · intro hnone hm
    have key : page_allocate c s vaddr read_only malloc_ok
          = some (some (s.cur, pg_round_down c vaddr),
              { s with pages := fun t =>
                  if t = s.cur then
                    some ({ addr := pg_round_down c vaddr, read_only := read_only,
                            write_back := !read_only, frame := none, sector := none,
                            file := none, file_offset := 0, file_bytes := 0,
                            thread := s.cur } :: h)
                  else s.pages t }) := by
      simp only [page_allocate, hm, hpt, hnone, if_true]
    refine ⟨_, _, key, rfl, ?_, ?_, ?_, ?_, rfl, rfl, rfl⟩
    · simp [getPage, hash_find]
    · simp
    · intro a ha
      simp only [getPage, hpt, if_true, Option.some_bind]
      simp [hash_find, List.find?_cons, Ne.symm ha]
    · intro t ht
      simp [ht]
  · rintro (⟨q, hq⟩ | hm)
    · cases malloc_ok <;> simp [page_allocate, hpt, hq]
    · simp [page_allocate, hm]

theorem page_allocate_result_witness :
    ((exState [exAnon] [] false false false).pages (exState [exAnon] [] false false false).cur
        = some [exAnon] ∧
      hash_find [exAnon] (pg_round_down exCfg 0x8049123) = none ∧
      hash_find [exAnon] (pg_round_down exCfg 0x8048123) = some exAnon) ∧
    (∃ s1, page_allocate exCfg (exState [exAnon] [] false false false) 0x8049123 true true
        = some (some (1, 0x8049000), s1) ∧
      getPage s1 (1, 0x8049000) = some
        { addr := 0x8049000, read_only := true, write_back := false, frame := none,
          sector := none, file := none, file_offset := 0, file_bytes := 0, thread := 1 }) ∧
    page_allocate exCfg (exState [exAnon] [] false false false) 0x8048123 true true
      = some (none, exState [exAnon] [] false false false) :=
  ⟨⟨rfl, by decide, by decide⟩, by
    obtain ⟨s1, p, h1, h2, h3, _⟩ :=
      (page_allocate_result exCfg (exState [exAnon] [] false false false) 0x8049123 true true
        [exAnon] rfl).1 (by decide) rfl
    rw [h2] at h3
    exact ⟨s1, h1, h3⟩,
   (page_allocate_result exCfg (exState [exAnon] [] false false false) 0x8048123 true true
        [exAnon] rfl).2 (Or.inl ⟨exAnon, by decide⟩)⟩

theorem page_for_addr_none_state (c : Config) (s s1 : State) (addr : Nat) (malloc_ok : Bool)
    (h : page_for_addr c s addr malloc_ok = some (none, s1)) : s1 = s := by
  unfold page_for_addr at h
  split at h
  · cases hpt : s.pages s.cur with
    | none => simp [hpt] at h
    | some tbl =>
      simp only [hpt] at h
      cases hfind : hash_find tbl (pg_round_down c addr) with
      | some q => simp [hfind] at h
      | none =>
        simp only [hfind] at h
        split at h
        · unfold page_allocate at h
          cases malloc_ok with
          | false => simpa using h.symm
          | true =>
            simp only [if_true, hpt] at h
            split at h
            · simpa using h.symm
            · simp at h
        · simpa using h.symm
  · simpa using h.symm

/-- C10: `page_lock` with `will_write` set on an address whose page descriptor is
read-only returns false and changes nothing (no frame lock is taken, no frame
is allocated, the descriptor is as before); and `page_lock` returns false,
changing nothing, for every address that `page_for_addr` resolves to no
descriptor. -/
theorem page_lock_refuses (c : Config) (s : State) (addr : Nat) (malloc_ok pt_ok : Bool) :
    (∀ h p, s.pages s.cur = some h → hash_find h (pg_round_down c addr) = some p →
      p.read_only = true → page_lock c s addr true malloc_ok pt_ok = some (false, s)) ∧
    (∀ will_write s1, page_for_addr c s addr malloc_ok = some (none, s1) →
      page_lock c s addr will_write malloc_ok pt_ok = some (false, s)) := by
  constructor
  · intro h p hpt hfind hro
    by_cases ha : addr < c.PHYS_BASE
    · have hpf : page_for_addr c s addr malloc_ok
          = some (some (s.cur, pg_round_down c addr), s) := by
        simp [page_for_addr, ha, hpt, hfind]
      have hg : getPage s (s.cur, pg_round_down c addr) = some p := by
        simp [getPage, hpt, hfind]
      simp [page_lock, hpf, hg, hro]
    · have hpf : page_for_addr c s addr malloc_ok = some (none, s) := by
        simp [page_for_addr, ha]
      simp [page_lock, hpf]
  · intro w s1 hpf
    have hs := page_for_addr_none_state c s s1 addr malloc_ok hpf
    subst hs
    simp [page_lock, hpf]

theorem page_lock_refuses_witness :
    (hash_find [exReadOnly] (pg_round_down exCfg 0x8048010) = some exReadOnly ∧
      exReadOnly.read_only = true ∧
      page_for_addr exCfg (exState [exReadOnly] [] false false false) 0x1000 true
        = some (none, exState [exReadOnly] [] false false false)) ∧
    page_lock exCfg (exState [exReadOnly] [] false false false) 0x8048010 true true true
      = some (false, exState [exReadOnly] [] false false false) ∧
    page_lock exCfg (exState [exReadOnly] [] false false false) 0x1000 false true true
      = some (false, exState [exReadOnly] [] false false false) :=
  ⟨⟨by decide, rfl, rfl⟩,
   (page_lock_refuses exCfg (exState [exReadOnly] [] false false false) 0x8048010 true true).1
      [exReadOnly] exReadOnly rfl (by decide) rfl,
   (page_lock_refuses exCfg (exState [exReadOnly] [] false false false) 0x1000 true true).2
      false (exState [exReadOnly] [] false false false) rfl⟩

theorem page_for_addr_at_esp_minus_32 (c : Config) (s : State) (malloc_ok : Bool)
    (h : List Page) (hpt : s.pages s.cur = some h)
    (hnone : hash_find h (pg_round_down c (ptr_sub (s.user_esp s.cur) 32)) = none) :
    page_for_addr c s (ptr_sub (s.user_esp s.cur) 32) malloc_ok = some (none, s) := by
  unfold page_for_addr
  split
  · simp [hpt, hnone]
  · rfl

/-- C7 (code defect): with the user stack pointer S = 0xBFFFF000 and nothing
mapped, the fault address S - 32 = 0xBFFFEFE0 lies in the stack region, yet
`page_for_addr` returns no descriptor and leaves the table empty: the test
`user_esp - 32 < address` is strict.  One byte higher the stack does grow. -/
theorem page_for_addr_rejects_esp_minus_32 :
    ptr_sub ((exStackState 0xBFFFF000).user_esp 1) 32 = 0xBFFFEFE0 ∧
    exCfg.PHYS_BASE - STACK_MAX < 0xBFFFEFE0 ∧ 0xBFFFEFE0 < exCfg.PHYS_BASE ∧
    page_for_addr exCfg (exStackState 0xBFFFF000) 0xBFFFEFE0 true
      = some (none, exStackState 0xBFFFF000) ∧
    ∃ s1, page_for_addr exCfg (exStackState 0xBFFFF000) 0xBFFFEFE1 true
      = some (some (1, 0xBFFFE000), s1) :=
  ⟨by decide, by decide, by decide, rfl, _, rfl⟩

theorem page_for_addr_below_second_page (c : Config) (s : State) (addr : Nat)
    (malloc_ok : Bool) (h : List Page) (hpt : s.pages s.cur = some h)
    (hnone : hash_find h (pg_round_down c addr) = none)
    (hlow : pg_round_down c addr ≤ ptr_sub c.PHYS_BASE STACK_MAX) :
    page_for_addr c s addr malloc_ok = some (none, s) := by
  unfold page_for_addr
  split
  · simp only [hpt, hnone]
    rw [if_neg (by omega)]
  · rfl

/-- C8 (code defect): the address 0xBFF00001 lies strictly above the stack floor
`PHYS_BASE - 1 MiB = 0xBFF00000`, is unmapped and within 32 bytes of the user
stack pointer 0xBFF00010, yet `page_for_addr` returns no descriptor: the code
compares the rounded-down page address, not the address, with the floor.  In
the next page the stack does grow. -/
theorem page_for_addr_rejects_lowest_stack_page :
    exCfg.PHYS_BASE - STACK_MAX < 0xBFF00001 ∧ 0xBFF00001 < exCfg.PHYS_BASE ∧
    ptr_sub ((exStackState 0xBFF00010).user_esp 1) 32 < 0xBFF00001 ∧
    page_for_addr exCfg (exStackState 0xBFF00010) 0xBFF00001 true
      = some (none, exStackState 0xBFF00010) ∧
    ∃ s1, page_for_addr exCfg (exStackState 0xBFF01010) 0xBFF01001 true
      = some (some (1, 0xBFF01000), s1) :=
  ⟨by decide, by decide, by decide, rfl, _, rfl⟩

/-! ## Frame allocation leaves other descriptors alone -/

theorem swap_out_keeps (c : Config) (s s1 : State) (q : PageRef) (ok : Bool)
    (h : swap_out c s q = some (ok, s1)) :
    s1.cur = s.cur ∧ s1.frames = s.frames ∧ ∀ r, r ≠ q → getPage s1 r = getPage s r := by
  unfold swap_out at h
  cases hq : getPage s q with
  | none => simp [hq] at h
  | some p =>
    simp only [hq] at h
    cases hfr : p.frame with
    | none => simp [hfr] at h
    | some fi =>
      simp only [hfr] at h
      cases hf : s.frames[fi]? with
      | none => simp [hf] at h
      | some f =>
        simp only [hf] at h
        split at h
        · simp at h
        · cases hla : lock_acquire s.swap_lock s.cur with
          | none => simp [hla] at h
          | some l =>
            simp only [hla] at h
            cases hbs : bitmap_scan_and_flip s.swap_bitmap with
            | none =>
              simp only [hbs, Option.some.injEq, Prod.mk.injEq] at h
              obtain ⟨-, rfl⟩ := h
              exact ⟨rfl, rfl, fun _ _ => rfl⟩
            | some x =>
              obtain ⟨slot, bm⟩ := x
              simp only [hbs, Option.some.injEq, Prod.mk.injEq] at h
              obtain ⟨-, rfl⟩ := h
              refine ⟨rfl, rfl, ?_⟩
              intro r hr
              rw [getPage_setPage_other _ _ _ _ (by intro x; rfl) hr]
              rfl

theorem page_out_keeps (c : Config) (s s1 : State) (q : PageRef) (ok : Bool)
    (h : page_out c s q = some (ok, s1)) :
    (∃ p fi, getPage s q = some p ∧ p.frame = some fi) ∧
    s1.cur = s.cur ∧ s1.frames = s.frames ∧ ∀ r, r ≠ q → getPage s1 r = getPage s r := by
  unfold page_out at h
  cases hq : getPage s q with
  | none => simp [hq] at h
  | some p =>
    simp only [hq] at h
    cases hfr : p.frame with
    | none => simp [hfr] at h
    | some fi =>
      refine ⟨⟨p, fi, rfl, hfr⟩, ?_⟩
      simp only [hfr] at h
      cases hf : s.frames[fi]? with
      | none => simp [hf] at h
      | some f =>
        simp only [hf] at h
        split at h
        · simp at h
        · split at h
          · simp at h
          · rename_i ok2 s2 hrouted
            have hk : s2.cur = s.cur ∧ s2.frames = s.frames ∧
                ∀ r, r ≠ q → getPage s2 r = getPage s r := by
              split at hrouted
              · exact swap_out_keeps c (pagedir_clear_page s p.thread p.addr) _ q _ hrouted
              · split at hrouted
                · split at hrouted
                  · exact swap_out_keeps c (pagedir_clear_page s p.thread p.addr) _ q _ hrouted
                  · simp only [Option.some.injEq, Prod.mk.injEq] at hrouted
                    obtain ⟨-, rfl⟩ := hrouted
                    exact ⟨rfl, rfl, fun _ _ => rfl⟩
                · simp only [Option.some.injEq, Prod.mk.injEq] at hrouted
                  obtain ⟨-, rfl⟩ := hrouted
                  exact ⟨rfl, rfl, fun _ _ => rfl⟩
            split at h
            · simp only [Option.some.injEq, Prod.mk.injEq] at h
              obtain ⟨-, rfl⟩ := h
              refine ⟨hk.1, hk.2.1, ?_⟩
              intro r hr
              rw [getPage_setPage_other _ _ _ _ (by intro x; rfl) hr]
              exact hk.2.2 r hr
            · simp only [Option.some.injEq, Prod.mk.injEq] at h
              obtain ⟨-, rfl⟩ := h
              exact hk

theorem page_accessed_recently_keeps (s s1 : State) (q : PageRef) (b : Bool)
    (h : page_accessed_recently s q = some (b, s1)) :
    (∃ p fi, getPage s q = some p ∧ p.frame = some fi) ∧
    s1.cur = s.cur ∧ s1.frames = s.frames ∧ s1.pages = s.pages := by
  unfold page_accessed_recently at h
  cases hq : getPage s q with
  | none => simp [hq] at h
  | some p =>
    simp only [hq] at h
    cases hfr : p.frame with
    | none => simp [hfr] at h
    | some fi =>
      refine ⟨⟨p, fi, rfl, hfr⟩, ?_⟩
      simp only [hfr] at h
      cases hf : s.frames[fi]? with
      | none => simp [hf] at h
      | some f =>
        simp only [hf] at h
        split at h
        · simp at h
        · split at h
          · simp only [Option.some.injEq, Prod.mk.injEq] at h
            obtain ⟨-, rfl⟩ := h
            exact ⟨rfl, rfl, rfl⟩
          · simp only [Option.some.injEq, Prod.mk.injEq] at h
            obtain ⟨-, rfl⟩ := h
            exact ⟨rfl, rfl, rfl⟩

theorem evict_frame_keeps (c : Config) (r : PageRef) (p : Page) (hnr : p.frame = none) :
    ∀ (n : Nat) (s s1 : State) (res : Option Nat), getPage s r = some p →
      evict_frame c r n s = some (res, s1) → getPage s1 r = some p ∧ s1.cur = s.cur := by
  intro n
  induction n with
  | zero =>
    intro s s1 res hp h
    simp only [evict_frame, Option.some.injEq, Prod.mk.injEq] at h
    obtain ⟨-, rfl⟩ := h
    exact ⟨hp, rfl⟩
  | succ n ih =>
    intro s s1 res hp h
    unfold evict_frame at h
    cases hfr : s.frames[s.hand]? with
    | none => simp [hfr] at h
    | some f =>
      simp only [hfr] at h
      cases hlk : f.lock with
      | some t =>
        simp only [hlk, lock_try_acquire] at h
        obtain ⟨h1, h2⟩ := ih _ _ _ (by exact hp) h
        exact ⟨h1, h2⟩
      | none =>
        simp only [hlk, lock_try_acquire] at h
        cases hpg : f.page with
        | none =>
          simp only [hpg, Option.some.injEq, Prod.mk.injEq] at h
          obtain ⟨-, rfl⟩ := h
          exact ⟨hp, rfl⟩
        | some q =>
          simp only [hpg] at h
          cases hpa : page_accessed_recently
              (setFrame { s with hand := if s.hand + 1 ≥ s.frames.length then 0 else s.hand + 1 }
                s.hand (fun g => { g with lock := some s.cur })) q with
          | none => simp [hpa] at h
          | some x =>
            obtain ⟨b, s3⟩ := x
            obtain ⟨-, hc3, -, hp3⟩ := page_accessed_recently_keeps _ _ _ _ hpa
            have hp3r : getPage s3 r = some p := by
              rw [getPage_congr hp3]
              exact hp
            cases b with
            | true =>
              simp only [hpa] at h
              obtain ⟨h1, h2⟩ := ih _ _ _ (by exact hp3r) h
              exact ⟨h1, by rw [h2]; exact hc3⟩
            | false =>
              simp only [hpa] at h
              cases hpo : page_out c { s3 with scan_lock := none } q with
              | none => simp [hpo] at h
              | some y =>
                obtain ⟨ok, s4⟩ := y
                obtain ⟨⟨pq, fq, hq1, hq2⟩, hc4, -, hk4⟩ := page_out_keeps c _ _ _ _ hpo
                have hne : r ≠ q := by
                  intro hrq
                  subst hrq
                  have h5 : getPage { s3 with scan_lock := none } r = some p := hp3r
                  rw [h5] at hq1
                  have h6 : p = pq := Option.some.inj hq1
                  rw [← h6, hnr] at hq2
                  exact absurd hq2 (by simp)
                have hp4 : getPage s4 r = some p := by
                  rw [hk4 r hne]
                  exact hp3r
                have hc4' : s4.cur = s.cur := by
                  rw [hc4]
                  exact hc3
                cases ok with
                | true =>
                  simp only [hpo, Option.some.injEq, Prod.mk.injEq] at h
                  obtain ⟨-, rfl⟩ := h
                  exact ⟨hp4, hc4'⟩
                | false =>
                  simp only [hpo, Option.some.injEq, Prod.mk.injEq] at h
                  obtain ⟨-, rfl⟩ := h
                  exact ⟨hp4, hc4'⟩

theorem find_free_frame_keeps (s : State) (r : PageRef) :
    ∀ (n i : Nat) (s1 : State) (res : Option Nat),
      find_free_frame s r n i = some (res, s1) → s1.pages = s.pages ∧ s1.cur = s.cur := by
  intro n
  induction n with
  | zero =>
    intro i s1 res h
    simp only [find_free_frame, Option.some.injEq, Prod.mk.injEq] at h
    obtain ⟨-, rfl⟩ := h
    exact ⟨rfl, rfl⟩
  | succ n ih =>
    intro i s1 res h
    unfold find_free_frame at h
    cases hfr : s.frames[i]? with
    | none => simp [hfr] at h
    | some f =>
      simp only [hfr] at h
      cases hlk : f.lock with
      | some t =>
        simp only [hlk, lock_try_acquire] at h
        obtain ⟨h1, h2⟩ := ih _ _ _ h
        exact ⟨h1, h2⟩
      | none =>
        simp only [hlk, lock_try_acquire] at h
        cases hpg : f.page with
        | none =>
          simp only [hpg, Option.some.injEq, Prod.mk.injEq] at h
          obtain ⟨-, rfl⟩ := h
          exact ⟨rfl, rfl⟩
        | some q =>
          simp only [hpg] at h
          obtain ⟨h1, h2⟩ := ih _ _ _ h
          exact ⟨h1, h2⟩

theorem try_frame_alloc_and_lock_keeps (c : Config) (r : PageRef) (p : Page)
    (hnr : p.frame = none) (s s1 : State) (res : Option Nat) (hp : getPage s r = some p)
    (h : try_frame_alloc_and_lock c s r = some (res, s1)) :
    getPage s1 r = some p ∧ s1.cur = s.cur := by
  unfold try_frame_alloc_and_lock at h
  cases hla : lock_acquire s.scan_lock s.cur with
  | none => simp [hla] at h
  | some l =>
    simp only [hla] at h
    cases hff : find_free_frame { s with scan_lock := l } r s.frames.length 0 with
    | none => simp [hff] at h
    | some x =>
      obtain ⟨res2, s2⟩ := x
      obtain ⟨hp2, hc2⟩ := find_free_frame_keeps _ _ _ _ _ _ hff
      have hp2r : getPage s2 r = some p := by
        rw [getPage_congr hp2]
        exact hp
      cases res2 with
      | some i =>
        simp only [hff, Option.some.injEq, Prod.mk.injEq] at h
        obtain ⟨-, rfl⟩ := h
        exact ⟨hp2r, hc2⟩
      | none =>
        simp only [hff] at h
        obtain ⟨h1, h2⟩ := evict_frame_keeps c r p hnr _ _ _ _ hp2r h
        exact ⟨h1, by rw [h2]; exact hc2⟩

theorem frame_alloc_retry_keeps (c : Config) (r : PageRef) (p : Page) (hnr : p.frame = none) :
    ∀ (n : Nat) (s s1 : State) (res : Option Nat), getPage s r = some p →
      frame_alloc_retry c r n s = some (res, s1) →
      getPage s1 r = some p ∧ s1.cur = s.cur ∧
      ∀ fi, res = some fi → ∃ f, s1.frames[fi]? = some f ∧ f.lock = some s1.cur := by
  intro n
  induction n with
  | zero =>
    intro s s1 res hp h
    simp only [frame_alloc_retry, Option.some.injEq, Prod.mk.injEq] at h
    obtain ⟨rfl, rfl⟩ := h
    exact ⟨hp, rfl, fun fi hfi => by simp at hfi⟩
  | succ n ih =>
    intro s s1 res hp h
    unfold frame_alloc_retry at h
    cases htry : try_frame_alloc_and_lock c s r with
    | none => simp [htry] at h
    | some x =>
      obtain ⟨res2, s2⟩ := x
      obtain ⟨hp2, hc2⟩ := try_frame_alloc_and_lock_keeps c r p hnr _ _ _ hp htry
      cases res2 with
      | none =>
        simp only [htry] at h
        obtain ⟨h1, h2, h3⟩ := ih _ _ _ hp2 h
        exact ⟨h1, by rw [h2]; exact hc2, h3⟩
      | some i =>
        simp only [htry] at h
        cases hfr : s2.frames[i]? with
        | none => simp [hfr] at h
        | some f =>
          simp only [hfr] at h
          split at h
          · rename_i hheld
            simp only [Option.some.injEq, Prod.mk.injEq] at h
            obtain ⟨rfl, rfl⟩ := h
            refine ⟨hp2, hc2, ?_⟩
            intro fi hfi
            have hfi' : i = fi := Option.some.inj hfi
            subst hfi'
            refine ⟨f, hfr, ?_⟩
            simpa [lock_held_by_current_thread] using hheld
          · simp at h

/-! ## Page-in -/

theorem do_page_in_fill (c : Config) (s s1 : State) (r : PageRef) (p : Page) (fi : Nat)
    (hpg : 0 < c.PGSIZE) (hdvd : c.BLOCK_SECTOR_SIZE ∣ c.PGSIZE)
    (hp : getPage s r = some p) (hnr : p.frame = none)
    (hfa : frame_alloc_and_lock c s r = some (some fi, s1)) :
    ∃ s2 p2 f, do_page_in c s r = some (true, s2) ∧
      getPage s2 r = some p2 ∧ p2.frame = some fi ∧ p2.addr = p.addr ∧
      p2.read_only = p.read_only ∧
      s2.frames[fi]? = some f ∧ f.lock = some s2.cur ∧ s2.cur = s.cur ∧
      (∀ sec, p.sector = some sec → ∀ off, off < c.PGSIZE →
        s2.kmem fi off
          = s1.swap_device (sec + off / c.BLOCK_SECTOR_SIZE) (off % c.BLOCK_SECTOR_SIZE)) ∧
      (p.sector = none → ∀ fl, p.file = some fl →
        (∀ i b, i < p.file_bytes → (s1.fs fl)[p.file_offset + i]? = some b →
          s2.kmem fi i = b) ∧
        (∀ i, p.file_bytes ≤ i → i < c.PGSIZE → s2.kmem fi i = 0)) ∧
      (p.sector = none → p.file = none → ∀ i, i < c.PGSIZE → s2.kmem fi i = 0) := by
  obtain ⟨hp1, hc1, hlk⟩ := frame_alloc_retry_keeps c r p hnr 3 s s1 (some fi) hp hfa
  obtain ⟨f, hf1, hl1⟩ := hlk fi rfl
  have hg2 : getPage (setPage s1 r (fun q => { q with frame := some fi })) r
      = some { p with frame := some fi } := by
    rw [getPage_setPage_same _ _ _ (by intro q; rfl), hp1]
    rfl
  have hss : 0 < c.BLOCK_SECTOR_SIZE := Nat.pos_of_dvd_of_pos hdvd hpg
  have hmul : PAGE_SECTORS c * c.BLOCK_SECTOR_SIZE = c.PGSIZE := Nat.div_mul_cancel hdvd
  rcases Option.eq_none_or_eq_some p.sector with hsec | ⟨sec, hsec⟩
  · rcases Option.eq_none_or_eq_some p.file with hfile | ⟨fl, hfile⟩
    · -- zero-fill
      apply Exists.intro
      refine ⟨{ p with frame := some fi }, f, ?eq, ?_, rfl, rfl, rfl, ?_, ?_, ?_, ?_, ?_, ?_⟩
      case eq =>
        simp only [do_page_in, hfa, hg2, hsec, hfile]
        rfl
      · exact hg2
      · exact hf1
      · exact hl1
      · exact hc1
      · intro sec h
        rw [hsec] at h
        exact absurd h (by simp)
      · intro _ fl h
        rw [hfile] at h
        exact absurd h (by simp)
      · intro _ _ i hi
        simp [memset_zero, mem_store, hi]
    · -- file
      apply Exists.intro
      refine ⟨{ p with frame := some fi }, f, ?eq, ?_, rfl, rfl, rfl, ?_, ?_, ?_, ?_, ?_, ?_⟩
      case eq =>
        simp only [do_page_in, hfa, hg2, hsec, hfile]
        rfl
      · exact hg2
      · exact hf1
      · exact hl1
      · exact hc1
      · intro sec h
        rw [hsec] at h
        exact absurd h (by simp)
      · intro _ fl2 h
        rw [hfile] at h
        have hEq : fl = fl2 := Option.some.inj h
        subst hEq
        constructor
        · intro i b hi hb
          have hlt : p.file_offset + i < (s1.fs fl).length := by
            by_contra hge
            rw [List.getElem?_eq_none (by omega)] at hb
            exact absurd hb (by simp)
          have hn : i < min p.file_bytes ((s1.fs fl).length - p.file_offset) := by
            rw [Nat.lt_min]
            exact ⟨hi, by omega⟩
          have hgd : (s1.fs fl).getD (p.file_offset + i) 0 = b := by
            rw [List.getD_eq_getElem?_getD, hb]
            rfl
          simp only [setPage, file_read_at, memset_zero, mem_store, if_true]
          rw [if_neg (by omega), if_pos ⟨Nat.zero_le _, by omega⟩]
          exact hgd
        · intro i hi1 hi2
          have hn : min p.file_bytes ((s1.fs fl).length - p.file_offset) ≤ i :=
            Nat.le_trans (Nat.min_le_left _ _) hi1
          simp only [setPage, file_read_at, memset_zero, mem_store, if_true]
          rw [if_pos ⟨hn, by omega⟩]
      · intro _ h
        rw [hfile] at h
        exact absurd h (by simp)
  · -- swap
    have hsi := swap_in_of_sector c (setPage s1 r (fun q => { q with frame := some fi })) r
      { p with frame := some fi } fi f sec hg2 rfl hf1 hl1 hsec
    apply Exists.intro
    refine ⟨{ p with frame := some fi, sector := none }, f, ?eq, ?_, rfl, rfl, rfl,
      ?_, ?_, ?_, ?_, ?_, ?_⟩
    case eq =>
      simp only [do_page_in, hfa, hg2, hsec, hsi, Option.map_some']
      rfl
    · rw [getPage_setPage_same _ _ _ (by intro q; rfl)]
      have h1 : getPage { setPage s1 r (fun q => { q with frame := some fi }) with
          kmem := fun i =>
            if i = fi then
              swap_in_sectors c (setPage s1 r (fun q => { q with frame := some fi })).swap_device
                sec ((setPage s1 r (fun q => { q with frame := some fi })).kmem fi)
                (PAGE_SECTORS c)
            else (setPage s1 r (fun q => { q with frame := some fi })).kmem i
          swap_bitmap :=
            bitmap_reset (setPage s1 r (fun q => { q with frame := some fi })).swap_bitmap
              (sec / PAGE_SECTORS c) } r
          = getPage (setPage s1 r (fun q => { q with frame := some fi })) r := rfl
      rw [h1, hg2]
      rfl
    · exact hf1
    · exact hl1
    · exact hc1
    · intro sec2 h off hoff
      rw [hsec] at h
      have hEq : sec = sec2 := Option.some.inj h
      subst hEq
      simp only [setPage, if_true]
      rw [swap_in_sectors_eq, if_pos (by rw [hmul]; exact hoff)]
    · intro h
      rw [hsec] at h
      exact absurd h (by simp)
    · intro h
      rw [hsec] at h
      exact absurd h (by simp)

/-- C6: for a non-resident page found at `round_down(addr)` for which
`frame_alloc_and_lock` obtains frame `fi`, `do_page_in` succeeds and fills the
frame from the first matching backing store: with a `sector`, every byte of the
page is the byte of the page's swap slot on the device; otherwise with a `file`,
the first `file_bytes` bytes are the file's bytes from `file_offset` on and the
bytes from `file_bytes` up to the page size are zero; otherwise all `PGSIZE`
bytes are zero.  `page_in` then returns the result of `pagedir_set_page`, called
with writeable = not `read_only`: when it succeeds the mapping of the page's
address is present, points to the frame and is writeable iff `read_only` is
false.  (`file_bytes` is at most the page size, the sector size divides it.) -/
theorem page_in_fills_frame_and_maps (c : Config) (s s1 : State) (addr : Nat)
    (malloc_ok pt_ok : Bool) (h : List Page) (p : Page) (fi : Nat)
    (hpg : 0 < c.PGSIZE) (hdvd : c.BLOCK_SECTOR_SIZE ∣ c.PGSIZE)
    (hpt : s.pages s.cur = some h) (hfind : hash_find h (pg_round_down c addr) = some p)
    (haddr : addr < c.PHYS_BASE) (hnr : p.frame = none) (_hfb : p.file_bytes ≤ c.PGSIZE)
    (hfa : frame_alloc_and_lock c s (s.cur, pg_round_down c addr) = some (some fi, s1)) :
    ∃ s2 f, do_page_in c s (s.cur, pg_round_down c addr) = some (true, s2) ∧
      s2.frames[fi]? = some f ∧
      (∀ sec, p.sector = some sec → ∀ off, off < c.PGSIZE →
        s2.kmem fi off
          = s1.swap_device (sec + off / c.BLOCK_SECTOR_SIZE) (off % c.BLOCK_SECTOR_SIZE)) ∧
      (p.sector = none → ∀ fl, p.file = some fl →
        (∀ i b, i < p.file_bytes → (s1.fs fl)[p.file_offset + i]? = some b →
          s2.kmem fi i = b) ∧
        (∀ i, p.file_bytes ≤ i → i < c.PGSIZE → s2.kmem fi i = 0)) ∧
      (p.sector = none → p.file = none → ∀ i, i < c.PGSIZE → s2.kmem fi i = 0) ∧
      ∃ s3, page_in c s addr malloc_ok pt_ok = some (pt_ok, s3) ∧ s3.kmem = s2.kmem ∧
        (pt_ok = true → s3.pagedir s.cur p.addr =
          { present := true, kpage := f.base, writable := !p.read_only, accessed := false,
            dirty := false }) ∧
        (pt_ok = false → s3.pagedir = s2.pagedir) := by
  have hp : getPage s (s.cur, pg_round_down c addr) = some p := by
    simp [getPage, hpt, hfind]
  obtain ⟨s2, p2, f, hdo, hp2, hfr2, had2, hro2, hf2, hl2, hc2, hA, hB, hC⟩ :=
    do_page_in_fill c s s1 (s.cur, pg_round_down c addr) p fi hpg hdvd hp hnr hfa
  refine ⟨s2, f, hdo, hf2, hA, hB, hC, ?_⟩
  have hpf : page_for_addr c s addr malloc_ok
      = some (some (s.cur, pg_round_down c addr), s) := by
    simp [page_for_addr, haddr, hpt, hfind]
  have hfl : frame_lock s (s.cur, pg_round_down c addr) = some s := by
    simp [frame_lock, hp, hnr]
  have hheld : lock_held_by_current_thread f.lock s2.cur = true := by
    simp [lock_held_by_current_thread, hl2]
  cases pt_ok with
  | true =>
    refine ⟨setFrame (pagedir_set_page s2 s2.cur p2.addr f.base (!p2.read_only) true).2 fi
      (fun g => { g with lock := none }), ?_, rfl, ?_, ?_⟩
    · simp only [page_in, hpt, hpf, hfl, hp, hnr, Option.some_bind, hdo, hp2, hfr2, hf2, hheld]
      simp [frame_unlock, pagedir_set_page, hf2, hheld]
    · intro _
      simp [setFrame, pagedir_set_page, hc2, had2, hro2]
    · intro hfalse
      exact absurd hfalse (by simp)
  | false =>
    refine ⟨setFrame s2 fi (fun g => { g with lock := none }), ?_, rfl, ?_, ?_⟩
    · simp only [page_in, hpt, hpf, hfl, hp, hnr, Option.some_bind, hdo, hp2, hfr2, hf2, hheld]
      simp [frame_unlock, pagedir_set_page, hf2, hheld]
    · intro hfalse
      exact absurd hfalse (by simp)
    · intro _
      rfl

theorem page_in_fills_frame_and_maps_witness :
    (hash_find [exFileNonResident] (pg_round_down exCfg 0x8048010) = some exFileNonResident ∧
      exFileNonResident.frame = none ∧
      frame_alloc_and_lock exCfg (exState [exFileNonResident] [] false false false)
          (1, 0x8048000)
        = some (some 0,
            { setFrame (exState [exFileNonResident] [] false false false) 0
                (fun g => { g with lock := some 1, page := some (1, 0x8048000) }) with
              scan_lock := none })) ∧
    ∃ s2 s3, do_page_in exCfg (exState [exFileNonResident] [] false false false) (1, 0x8048000)
        = some (true, s2) ∧
      s2.kmem 0 5 = 1 ∧ (∀ i, 100 ≤ i → i < 4096 → s2.kmem 0 i = 0) ∧
      page_in exCfg (exState [exFileNonResident] [] false false false) 0x8048010 true true
        = some (true, s3) ∧
      s3.pagedir 1 0x8048000 =
        { present := true, kpage := 0xC0100000, writable := true, accessed := false,
          dirty := false } :=
  ⟨⟨by decide, rfl, rfl⟩, by
    obtain ⟨s2, f, h1, h2, _, h3, _, s3, h4, _, h5, _⟩ :=
      page_in_fills_frame_and_maps exCfg (exState [exFileNonResident] [] false false false)
        { setFrame (exState [exFileNonResident] [] false false false) 0
            (fun g => { g with lock := some 1, page := some (1, 0x8048000) }) with
          scan_lock := none }
        0x8048010 true true [exFileNonResident] exFileNonResident 0
        (by decide) (by decide) rfl (by decide) (by decide) rfl (by decide) rfl
    obtain ⟨h6, h7⟩ := h3 rfl 7 rfl
    have hbase : f.base = 0xC0100000 := by
      have hs2 : s2 = _ := ((Prod.mk.injEq _ _ _ _).mp (Option.some.inj h1.symm)).2
      rw [hs2] at h2
      have h8 : some _ = some f := h2
      rw [← Option.some.inj h8]
      rfl
    have h9 := h5 rfl
    rw [hbase] at h9
    exact ⟨s2, s3, h1, h6 5 1 (by decide) (by decide), h7, h4, h9⟩⟩

/-! ## The write-back flag on eviction -/

/-- C17 (as stated, refuted): a resident dirty page backed by file 7 whose
`write_back` flag is true is evicted to swap, not to its file: the file is
untouched and the free swap slot is taken. -/
theorem page_out_write_back_true_goes_to_swap :
    (exFilePage true).write_back = true ∧
    ((exState [exFilePage true] [false] true true true).pagedir 1 0x8048000).dirty = true ∧
    ∃ s2, page_out exCfg (exState [exFilePage true] [false] true true true) (1, 0x8048000)
        = some (true, s2) ∧
      s2.fs 7 = List.replicate 100 1 ∧ s2.swap_bitmap = [true] ∧
      (getPage s2 (1, 0x8048000)).map (fun p => p.sector) = some (some 0) :=
  ⟨rfl, rfl, _, rfl, rfl, rfl, by decide⟩

/-- C17 (amended): for every resident dirty page with a backing file whose frame
lock the caller holds, `page_out` routes the dirty content to swap when the
descriptor's `write_back` flag is true (no file changes; with a free slot the
result is true and the slot's sectors hold the frame) and to the backing file
when `write_back` is false (`file_bytes` bytes at `file_offset`; swap is not
touched). -/
theorem page_out_write_back_flag (c : Config) (s : State) (r : PageRef) (p : Page)
    (fi : Nat) (f : Frame) (fl : Nat)
    (hp : getPage s r = some p) (hfr : p.frame = some fi) (hf : s.frames[fi]? = some f)
    (hl : f.lock = some s.cur) (hsl : s.swap_lock = none) (hfile : p.file = some fl)
    (hd : (s.pagedir p.thread p.addr).dirty = true) :
    (p.write_back = true →
      ∃ ok s2, page_out c s r = some (ok, s2) ∧ s2.fs = s.fs ∧
        (bitmap_scan s.swap_bitmap = none → ok = false ∧ s2.swap_bitmap = s.swap_bitmap ∧
          s2.swap_device = s.swap_device) ∧
        (∀ slot, bitmap_scan s.swap_bitmap = some slot →
          ok = true ∧ s2.swap_bitmap = s.swap_bitmap.set slot true ∧
          ∀ k off, k < PAGE_SECTORS c → off < c.BLOCK_SECTOR_SIZE →
            s2.swap_device (slot * PAGE_SECTORS c + k) off
              = s.kmem fi (k * c.BLOCK_SECTOR_SIZE + off))) ∧
    (p.write_back = false →
      ∃ ok s2, page_out c s r = some (ok, s2) ∧
        s2.swap_bitmap = s.swap_bitmap ∧ s2.swap_device = s.swap_device ∧
        s2.fs fl = (file_write_at (s.fs fl) (s.kmem fi) p.file_bytes p.file_offset).2 ∧
        (∀ x, x ≠ fl → s2.fs x = s.fs x)) := by
  constructor
  · intro hwb
    have hpo := page_out_to_swap c s r p fi f hp hfr hf hl
      (Or.inr ⟨by rw [hfile]; simp, hd, hwb⟩)
    cases hscan : bitmap_scan s.swap_bitmap with
    | none =>
      rw [swap_out_of_full c (pagedir_clear_page s p.thread p.addr) r p fi f
        hp hfr hf hl hsl hscan] at hpo
      exact ⟨false, _, hpo, rfl, fun _ => ⟨rfl, rfl, rfl⟩, by intro slot h; simp at h⟩
    | some slot =>
      rw [swap_out_of_slot c (pagedir_clear_page s p.thread p.addr) r p fi f slot
        hp hfr hf hl hsl hscan] at hpo
      refine ⟨true, _, hpo, rfl, by intro h; simp at h, ?_⟩
      intro slot' hs'
      have hEq : slot' = slot := (Option.some.inj hs').symm
      subst hEq
      refine ⟨rfl, rfl, ?_⟩
      intro k off hk hoff
      show swap_out_sectors c s.swap_device (slot' * PAGE_SECTORS c) (s.kmem fi)
        (PAGE_SECTORS c) (slot' * PAGE_SECTORS c + k) off = _
      rw [swap_out_sectors_eq, if_pos ⟨by omega, by omega, hoff⟩, Nat.add_sub_cancel_left]
  · intro hwb
    have hpo := page_out_to_file c s r p fi f fl hp hfr hf hl hfile hd hwb
    by_cases hw : (file_write_at (s.fs fl) (s.kmem fi) p.file_bytes p.file_offset).1 = 0
    · rw [if_neg (by simpa using hw)] at hpo
      refine ⟨false, _, hpo, rfl, rfl, ?_, ?_⟩
      · simp [pagedir_clear_page]
      · intro x hx
        simp [pagedir_clear_page, hx]
    · rw [if_pos hw] at hpo
      refine ⟨true, _, hpo, rfl, rfl, ?_, ?_⟩
      · simp [setPage, pagedir_clear_page]
      · intro x hx
        simp [setPage, pagedir_clear_page, hx]

theorem page_out_write_back_flag_witness :
    (getPage (exState [exFilePage true] [false] true true true) (1, 0x8048000)
        = some (exFilePage true) ∧
      ((exState [exFilePage true] [false] true true true).pagedir 1 0x8048000).dirty = true) ∧
    ∃ ok s2, page_out exCfg (exState [exFilePage true] [false] true true true) (1, 0x8048000)
        = some (ok, s2) ∧ s2.fs = (exState [exFilePage true] [false] true true true).fs ∧
      ok = true ∧ s2.swap_bitmap = [true] :=
  ⟨⟨by decide, by decide⟩, by
    obtain ⟨ok, s2, h1, h2, _, h3⟩ :=
      (page_out_write_back_flag exCfg (exState [exFilePage true] [false] true true true)
        (1, 0x8048000) (exFilePage true) 0
        { base := 0xC0100000, lock := some 1, page := some (1, 0x8048000) } 7
        (by decide) rfl rfl rfl rfl rfl rfl).1 rfl
    obtain ⟨h4, h5, _⟩ := h3 0 (by decide)
    exact ⟨ok, s2, h1, h2, h4, h5⟩⟩

/-- C11 (code defect): thread 1 maps and faults in a page; an eviction attempt by
thread 2 clears the mapping and then fails for lack of swap, leaving the page
resident; `page_lock` by thread 1 then returns true with the page resident and
its frame locked by the caller, but the mapping of the page is not installed:
for a resident page `page_lock` never calls `pagedir_set_page`. -/
theorem page_lock_resident_leaves_page_unmapped :
    exAfterFault1.map (fun x => (x.1, (x.2.pagedir 1 0x8048000).present)) = some (true, true) ∧
    exAfterFault2.map (fun x => (x.1, (x.2.pagedir 1 0x8048000).present))
      = some (false, false) ∧
    exPinAfterFailedEviction.map (fun x =>
        (x.1, (getPage x.2 (1, 0x8048000)).bind (fun p => p.frame),
          (x.2.frames[0]?).map (fun f => (f.lock, f.page)),
          (x.2.pagedir 1 0x8048000).present))
      = some (true, some 0, some (some 1, some (1, 0x8048000)), false) := by
  refine ⟨?_, ?_, ?_⟩ <;> rfl

/-! ## Ownership of swap slots -/

theorem swap_out_elim (c : Config) (s s1 : State) (q : PageRef)
    (h : swap_out c s q = some (true, s1)) :
    ∃ p fi slot, getPage s q = some p ∧ p.frame = some fi ∧
      bitmap_scan s.swap_bitmap = some slot ∧
      s1 = setPage
        { s with
          swap_bitmap := s.swap_bitmap.set slot true
          swap_device :=
            swap_out_sectors c s.swap_device (slot * PAGE_SECTORS c) (s.kmem fi) (PAGE_SECTORS c) }
        q
        (fun x => { x with sector := some (slot * PAGE_SECTORS c), write_back := false,
                           file := none, file_offset := 0, file_bytes := 0 }) := by
  unfold swap_out at h
  cases hq : getPage s q with
  | none => simp [hq] at h
  | some p =>
    simp only [hq] at h
    cases hfr : p.frame with
    | none => simp [hfr] at h
    | some fi =>
      simp only [hfr] at h
      cases hf : s.frames[fi]? with
      | none => simp [hf] at h
      | some f =>
        simp only [hf] at h
        split at h
        · simp at h
        · cases hla : lock_acquire s.swap_lock s.cur with
          | none => simp [hla] at h
          | some l =>
            simp only [hla] at h
            cases hbs : bitmap_scan s.swap_bitmap with
            | none => simp [bitmap_scan_and_flip, hbs] at h
            | some slot =>
              simp only [bitmap_scan_and_flip, hbs, Option.some.injEq, Prod.mk.injEq,
                true_and] at h
              exact ⟨p, fi, slot, rfl, hfr, rfl, h.symm⟩

theorem swap_out_false_state (c : Config) (s s1 : State) (q : PageRef)
    (h : swap_out c s q = some (false, s1)) : s1 = s := by
  unfold swap_out at h
  cases hq : getPage s q with
  | none => simp [hq] at h
  | some p =>
    simp only [hq] at h
    cases hfr : p.frame with
    | none => simp [hfr] at h
    | some fi =>
      simp only [hfr] at h
      cases hf : s.frames[fi]? with
      | none => simp [hf] at h
      | some f =>
        simp only [hf] at h
        split at h
        · simp at h
        · cases hla : lock_acquire s.swap_lock s.cur with
          | none => simp [hla] at h
          | some l =>
            simp only [hla] at h
            cases hbs : bitmap_scan s.swap_bitmap with
            | none =>
              simp only [bitmap_scan_and_flip, hbs, Option.some.injEq, Prod.mk.injEq,
                true_and] at h
              exact h.symm
            | some slot => simp [bitmap_scan_and_flip, hbs] at h

theorem swap_in_elim (c : Config) (s s1 : State) (q : PageRef)
    (h : swap_in c s q = some s1) :
    ∃ p fi sec, getPage s q = some p ∧ p.frame = some fi ∧ p.sector = some sec ∧
      s1 = setPage
        { s with
          kmem := fun i =>
            if i = fi then swap_in_sectors c s.swap_device sec (s.kmem fi) (PAGE_SECTORS c)
            else s.kmem i
          swap_bitmap := bitmap_reset s.swap_bitmap (sec / PAGE_SECTORS c) }
        q (fun x => { x with sector := none }) := by
  unfold swap_in at h
  cases hq : getPage s q with
  | none => simp [hq] at h
  | some p =>
    simp only [hq] at h
    cases hfr : p.frame with
    | none => simp [hfr] at h
    | some fi =>
      simp only [hfr] at h
      cases hf : s.frames[fi]? with
      | none => simp [hf] at h
      | some f =>
        simp only [hf] at h
        split at h
        · simp at h
        · cases hsec : p.sector with
          | none => simp [hsec] at h
          | some sec =>
            simp only [hsec, Option.some.injEq] at h
            exact ⟨p, fi, sec, rfl, hfr, hsec, h.symm⟩

/-- C18: in every state reached from an empty swap bitmap and descriptors without
sector by `swap_out` and `swap_in` calls (a page has at least one sector), every
descriptor with a sector has a sector that is a multiple of `PAGE_SECTORS` whose
slot bit is set, and two distinct descriptors with a sector name different
slots, so that their sector ranges on the device are disjoint. -/
theorem swap_slots_singly_owned (c : Config) (s : State) (hps : 0 < PAGE_SECTORS c)
    (hreach : SwapReach c s) :
    (∀ r p sec, getPage s r = some p → p.sector = some sec →
      ∃ slot, sec = slot * PAGE_SECTORS c ∧ s.swap_bitmap[slot]? = some true) ∧
    (∀ r1 r2 p1 p2 sec1 sec2, r1 ≠ r2 → getPage s r1 = some p1 → getPage s r2 = some p2 →
      p1.sector = some sec1 → p2.sector = some sec2 →
      sec1 / PAGE_SECTORS c ≠ sec2 / PAGE_SECTORS c ∧
      ∀ k1 k2, k1 < PAGE_SECTORS c → k2 < PAGE_SECTORS c → sec1 + k1 ≠ sec2 + k2) := by
  -- the second part follows from the first and from the slots being different
  have key : (∀ r p sec, getPage s r = some p → p.sector = some sec →
      ∃ slot, sec = slot * PAGE_SECTORS c ∧ s.swap_bitmap[slot]? = some true) ∧
    (∀ r1 r2 p1 p2 sec, r1 ≠ r2 → getPage s r1 = some p1 → getPage s r2 = some p2 →
      p1.sector = some sec → p2.sector ≠ some sec) := by
    induction hreach with
    | boot s hb hp =>
      constructor
      · intro r p sec h1 h2
        rw [hp r p h1] at h2
        exact absurd h2 (by simp)
      · intro r1 r2 p1 p2 sec _ h1 _ h3
        rw [hp r1 p1 h1] at h3
        exact absurd h3 (by simp)
    | swapped_out s s1 q ok _ hout ih =>
      obtain ⟨ih1, ih2⟩ := ih
      cases ok with
      | false =>
        rw [swap_out_false_state c s s1 q hout]
        exact ⟨ih1, ih2⟩
      | true =>
        obtain ⟨p, fi, slot, hq, -, hscan, hs1⟩ := swap_out_elim c s s1 q hout
        obtain ⟨hb1, -⟩ := bitmap_scan_some hscan
        have hlt : slot < s.swap_bitmap.length := by
          by_contra hge
          rw [List.getElem?_eq_none (by omega)] at hb1
          exact absurd hb1 (by simp)
        have hself : getPage s1 q = some
            { p with sector := some (slot * PAGE_SECTORS c), write_back := false, file := none,
                     file_offset := 0, file_bytes := 0 } := by
          rw [hs1, getPage_setPage_same _ _ _ (by intro x; rfl)]
          have h1 : getPage { s with
              swap_bitmap := s.swap_bitmap.set slot true
              swap_device :=
                swap_out_sectors c s.swap_device (slot * PAGE_SECTORS c) (s.kmem fi)
                  (PAGE_SECTORS c) } q = getPage s q := rfl
          rw [h1, hq]
          rfl
        have hother : ∀ r, r ≠ q → getPage s1 r = getPage s r := by
          intro r hr
          rw [hs1, getPage_setPage_other _ _ _ _ (by intro x; rfl) hr]
          rfl
        have hbm : s1.swap_bitmap = s.swap_bitmap.set slot true := by
          rw [hs1]
          rfl
        have hfresh : ∀ r p' , r ≠ q → getPage s r = some p' →
            p'.sector ≠ some (slot * PAGE_SECTORS c) := by
          intro r p' _ hp' hsec
          obtain ⟨slot', h1, h2⟩ := ih1 r p' _ hp' hsec
          have h3 : slot = slot' := Nat.eq_of_mul_eq_mul_right hps h1
          rw [← h3, hb1] at h2
          exact absurd h2 (by simp)
        constructor
        · intro r p' sec hp' hsec
          by_cases hr : r = q
          · subst hr
            rw [hself] at hp'
            have h1 := Option.some.inj hp'
            rw [← h1] at hsec
            have h2 : slot * PAGE_SECTORS c = sec := Option.some.inj hsec
            refine ⟨slot, h2.symm, ?_⟩
            rw [hbm, List.getElem?_set_self hlt]
          · rw [hother r hr] at hp'
            obtain ⟨slot', h1, h2⟩ := ih1 r p' sec hp' hsec
            refine ⟨slot', h1, ?_⟩
            have hne : slot ≠ slot' := by
              intro h3
              rw [← h3, hb1] at h2
              exact absurd h2 (by simp)
            rw [hbm, List.getElem?_set_ne hne]
            exact h2
        · intro r1 r2 p1 p2 sec hne hp1 hp2 hsec1 hsec2
          by_cases hr1 : r1 = q
          · subst hr1
            rw [hself] at hp1
            have h1 := Option.some.inj hp1
            rw [← h1] at hsec1
            have h2 : slot * PAGE_SECTORS c = sec := Option.some.inj hsec1
            rw [hother r2 (Ne.symm hne)] at hp2
            rw [← h2] at hsec2
            exact hfresh r2 p2 (Ne.symm hne) hp2 hsec2
          · rw [hother r1 hr1] at hp1
            by_cases hr2 : r2 = q
            · subst hr2
              rw [hself] at hp2
              have h1 := Option.some.inj hp2
              rw [← h1] at hsec2
              have h2 : slot * PAGE_SECTORS c = sec := Option.some.inj hsec2
              rw [← h2] at hsec1
              exact hfresh r1 p1 hr1 hp1 hsec1
            · rw [hother r2 hr2] at hp2
              exact ih2 r1 r2 p1 p2 sec hne hp1 hp2 hsec1 hsec2
    | swapped_in s s1 q _ hin ih =>
      obtain ⟨ih1, ih2⟩ := ih
      obtain ⟨p, fi, sec, hq, -, hsec, hs1⟩ := swap_in_elim c s s1 q hin
      have hself : getPage s1 q = some { p with sector := none } := by
        rw [hs1, getPage_setPage_same _ _ _ (by intro x; rfl)]
        have h1 : getPage { s with
            kmem := fun i =>
              if i = fi then swap_in_sectors c s.swap_device sec (s.kmem fi) (PAGE_SECTORS c)
              else s.kmem i
            swap_bitmap := bitmap_reset s.swap_bitmap (sec / PAGE_SECTORS c) } q
            = getPage s q := rfl
        rw [h1, hq]
        rfl
      have hother : ∀ r, r ≠ q → getPage s1 r = getPage s r := by
        intro r hr
        rw [hs1, getPage_setPage_other _ _ _ _ (by intro x; rfl) hr]
        rfl
      have hbm : s1.swap_bitmap = s.swap_bitmap.set (sec / PAGE_SECTORS c) false := by
        rw [hs1]
        rfl
      constructor
      · intro r p' sec' hp' hsec'
        by_cases hr : r = q
        · subst hr
          rw [hself] at hp'
          have h1 := Option.some.inj hp'
          rw [← h1] at hsec'
          exact absurd hsec' (by simp)
        · rw [hother r hr] at hp'
          obtain ⟨slot', h1, h2⟩ := ih1 r p' sec' hp' hsec'
          refine ⟨slot', h1, ?_⟩
          have hne : sec / PAGE_SECTORS c ≠ slot' := by
            intro h3
            obtain ⟨slot, h4, -⟩ := ih1 q p sec hq hsec
            rw [h4, Nat.mul_div_cancel _ hps] at h3
            rw [h3, ← h1] at h4
            rw [h4] at hsec
            exact ih2 q r p p' sec' (Ne.symm hr) hq hp' hsec hsec'
          rw [hbm, List.getElem?_set_ne hne]
          exact h2
      · intro r1 r2 p1 p2 sec' hne hp1 hp2 hsec1 hsec2
        by_cases hr1 : r1 = q
        · subst hr1
          rw [hself] at hp1
          have h1 := Option.some.inj hp1
          rw [← h1] at hsec1
          exact absurd hsec1 (by simp)
        · rw [hother r1 hr1] at hp1
          by_cases hr2 : r2 = q
          · subst hr2
            rw [hself] at hp2
            have h1 := Option.some.inj hp2
            rw [← h1] at hsec2
            exact absurd hsec2 (by simp)
          · rw [hother r2 hr2] at hp2
            exact ih2 r1 r2 p1 p2 sec' hne hp1 hp2 hsec1 hsec2
    | elsewhere s s1 _ hbm hpages ih =>
      obtain ⟨ih1, ih2⟩ := ih
      constructor
      · intro r p' sec hp' hsec
        obtain ⟨p, h1, h2⟩ := hpages r p' hp' (by rw [hsec]; simp)
        rw [hbm]
        exact ih1 r p sec h1 (by rw [h2]; exact hsec)
      · intro r1 r2 p1 p2 sec hne hp1 hp2 hsec1 hsec2
        obtain ⟨q1, h1, h2⟩ := hpages r1 p1 hp1 (by rw [hsec1]; simp)
        obtain ⟨q2, h3, h4⟩ := hpages r2 p2 hp2 (by rw [hsec2]; simp)
        exact ih2 r1 r2 q1 q2 sec hne h1 h3 (by rw [h2]; exact hsec1)
          (by rw [h4]; exact hsec2)
  obtain ⟨k1, k2⟩ := key
  refine ⟨k1, ?_⟩
  intro r1 r2 p1 p2 sec1 sec2 hne hp1 hp2 hsec1 hsec2
  obtain ⟨slot1, h1, -⟩ := k1 r1 p1 sec1 hp1 hsec1
  obtain ⟨slot2, h2, -⟩ := k1 r2 p2 sec2 hp2 hsec2
  have hsl : slot1 ≠ slot2 := by
    intro h3
    have h4 : sec1 = sec2 := by rw [h1, h2, h3]
    rw [← h4] at hsec2
    exact k2 r1 r2 p1 p2 sec1 hne hp1 hp2 hsec1 hsec2
  constructor
  · rw [h1, h2, Nat.mul_div_cancel _ hps, Nat.mul_div_cancel _ hps]
    exact hsl
  · intro a b ha hb hEq
    rw [h1, h2] at hEq
    rcases Nat.lt_or_gt_of_ne hsl with h5 | h5
    · have h6 : (slot1 + 1) * PAGE_SECTORS c ≤ slot2 * PAGE_SECTORS c :=
        Nat.mul_le_mul_right _ h5
      rw [Nat.succ_mul] at h6
      omega
    · have h6 : (slot2 + 1) * PAGE_SECTORS c ≤ slot1 * PAGE_SECTORS c :=
        Nat.mul_le_mul_right _ h5
      rw [Nat.succ_mul] at h6
      omega

theorem swap_slots_singly_owned_witness :
    0 < PAGE_SECTORS exCfg ∧
    ∃ s1, swap_out exCfg (exState [exAnon] [false, false] false true true) (1, 0x8048000)
        = some (true, s1) ∧ SwapReach exCfg s1 ∧
      ∀ r p sec, getPage s1 r = some p → p.sector = some sec →
        ∃ slot, sec = slot * PAGE_SECTORS exCfg ∧ s1.swap_bitmap[slot]? = some true := by
  have hboot : SwapReach exCfg (exState [exAnon] [false, false] false true true) := by
    apply SwapReach.boot
    · decide
    · intro r p h
      simp only [getPage, exState] at h
      by_cases h1 : r.1 = 1
      · simp only [h1, if_true, Option.some_bind, hash_find, List.find?_cons] at h
        split at h
        · rw [← Option.some.inj h]
          rfl
        · simp at h
      · simp [h1] at h
  have hout := swap_out_of_slot exCfg (exState [exAnon] [false, false] false true true)
    (1, 0x8048000) exAnon 0 { base := 0xC0100000, lock := some 1, page := some (1, 0x8048000) }
    0 (by decide) rfl rfl rfl rfl (by decide)
  have hreach := SwapReach.swapped_out _ _ _ _ hboot hout
  exact ⟨by decide, _, hout, hreach,
    (swap_slots_singly_owned exCfg _ (by decide) hreach).1⟩

/-- C14 (code defect): file 7 (six bytes) is mapped in two pages of four bytes;
page 0 is dirty (its `file_bytes` is 4, its `file_offset` 0), page 1 is not.
`unmap` writes page 0 with the length `PGSIZE * page_cnt` = 8 instead of 4, so
the write runs on into the extent of page 1: the bytes 4 and 5 of the file are
overwritten with the memory of the clean page 1. -/
theorem unmap_writes_past_the_page :
    (exMapPage 0).file_bytes = 4 ∧ (exMapPage 0).file_offset = 0 ∧
    ((exMapped true).vm.pagedir 1 0x1000).dirty = true ∧
    ((exMapped true).vm.pagedir 1 0x1004).dirty = false ∧
    (exMapped true).vm.fs 7 = [1, 1, 1, 1, 1, 1] ∧
    (unmap_write exSmallCfg exMapping 2 0 (exMapped true)).map (fun s => s.vm.fs 7)
      = some [2, 2, 2, 2, 3, 3] ∧
    (unmap exSmallCfg (exMapped true) exMapping (fun _ => true)).map (fun s => s.vm.fs 7)
      = some [2, 2, 2, 2, 3, 3] := by
  refine ⟨rfl, rfl, rfl, rfl, rfl, ?_, ?_⟩ <;> decide

/-! ## Memory-mapped files: installing a mapping -/

theorem hash_find_none_iff {h : List Page} {a : Nat} :
    hash_find h a = none ↔ ∀ q, q ∈ h → q.addr ≠ a := by
  unfold hash_find
  rw [List.find?_eq_none]
  constructor
  · intro h1 q hq
    simpa using h1 q hq
  · intro h1 q hq
    simpa using h1 q hq

theorem map_update_of_absent {h : List Page} {a : Nat} (f : Page → Page)
    (hnone : hash_find h a = none) :
    h.map (fun q => if q.addr == a then f q else q) = h := by
  have h1 := hash_find_none_iff.mp hnone
  conv_rhs => rw [← List.map_id h]
  apply List.map_congr_left
  intro q hq
  simp [h1 q hq]

theorem state_pages_eta (s : State) (h : List Page) (hpt : s.pages s.cur = some h) :
    { s with pages := fun t => if t = s.cur then some h else s.pages t } = s := by
  cases s with
  | mk cur pages pagedir user_esp frames kmem hand scan_lock swap_bitmap swap_lock
      swap_device fs =>
    simp only [State.mk.injEq, and_true, true_and]
    funext t
    by_cases ht : t = cur
    · simp only [ht, if_true]
      exact hpt.symm
    · simp [ht]

theorem mmap_loop_installs (c : Config) (malloc_ok : Nat → Bool) :
    ∀ (n fuel : Nat) (s : State) (m : Mapping) (offset length : Nat) (h : List Page),
      length ≤ n * c.PGSIZE → (n = 0 ∨ (n - 1) * c.PGSIZE < length) → length ≤ fuel →
      s.pages s.cur = some h →
      (∀ j, j < n → malloc_ok (m.page_cnt + j) = true ∧
        hash_find h (pg_round_down c (ptr_add m.base (offset + j * c.PGSIZE))) = none) →
      (∀ j1 j2, j1 < n → j2 < n → j1 ≠ j2 →
        pg_round_down c (ptr_add m.base (offset + j1 * c.PGSIZE))
          ≠ pg_round_down c (ptr_add m.base (offset + j2 * c.PGSIZE))) →
      mmap_loop c malloc_ok fuel s m offset length =
        some (true, { m with page_cnt := m.page_cnt + n },
          { s with pages := fun t =>
              if t = s.cur then
                some (((List.range n).map
                  (mmap_descriptor c s.cur m.file m.base offset length)).reverse ++ h)
              else s.pages t }) := by
  intro n
  induction n with
  | zero =>
    intro fuel s m offset length h hle _ _ hpt _ _
    have hl : length = 0 := by omega
    subst hl
    unfold mmap_loop
    simp only [if_true, List.range_zero, List.map_nil, List.reverse_nil, List.nil_append,
      Nat.add_zero]
    rw [state_pages_eta s h hpt]
  | succ n ih =>
    intro fuel s m offset length h hle hgt hfuel hpt hfree hdist
    have hgt' : n * c.PGSIZE < length := by
      rcases hgt with h0 | h0
      · omega
      · simpa using h0
    have hlpos : 0 < length := by omega
    obtain ⟨fuel', rfl⟩ : ∃ f', fuel = f' + 1 := ⟨fuel - 1, by omega⟩
    obtain ⟨hm0, hf0⟩ := hfree 0 (by omega)
    simp only [Nat.zero_mul, Nat.add_zero] at hm0 hf0
    rw [Nat.succ_mul] at hle
    -- the first iteration
    have hrd : pg_round_down c (pg_round_down c (ptr_add m.base offset))
        = pg_round_down c (ptr_add m.base offset) := by
      unfold pg_round_down
      have h1 : (ptr_add m.base offset - ptr_add m.base offset % c.PGSIZE) % c.PGSIZE = 0 := by
        have h2 := Nat.div_add_mod (ptr_add m.base offset) c.PGSIZE
        have h3 : ptr_add m.base offset - ptr_add m.base offset % c.PGSIZE
            = c.PGSIZE * (ptr_add m.base offset / c.PGSIZE) := by omega
        rw [h3]
        exact Nat.mul_mod_right _ _
      rw [h1]
      rfl
    set fb := (if length ≥ c.PGSIZE then c.PGSIZE else length) with hfb
    have hfbmin : fb = min c.PGSIZE length := by
      rw [hfb]
      split <;> omega
    set p0 : Page := mmap_descriptor c s.cur m.file m.base offset length 0 with hp0
    have hp0addr : p0.addr = pg_round_down c (ptr_add m.base offset) := by
      simp [hp0, mmap_descriptor]
    set s2 : State := { s with pages := fun t => if t = s.cur then some (p0 :: h) else s.pages t }
      with hs2
    have hstep : mmap_loop c malloc_ok (fuel' + 1) s m offset length
        = mmap_loop c malloc_ok fuel' s2 { m with page_cnt := m.page_cnt + 1 }
            (offset + fb) (length - fb) := by
      rw [mmap_loop]
      rw [if_neg (by omega)]
      simp only [page_allocate, hm0, if_true, hpt, hrd, hf0]
      congr 1
      rw [hs2]
      simp only [setPage, State.mk.injEq, and_true, true_and]
      funext t
      by_cases ht : t = s.cur
      · simp only [ht, if_true, Option.map_some', List.map_cons, beq_self_eq_true,
          Option.some.injEq, List.cons.injEq]
        refine ⟨?_, map_update_of_absent _ hf0⟩
        simp only [hp0, mmap_descriptor, Nat.zero_mul, Nat.add_zero, Nat.sub_zero]
        rw [← hfbmin]
      · simp [ht]
    rw [hstep]
    have hlen' : length - fb ≤ n * c.PGSIZE := by omega
    have hrec := ih fuel' s2 { m with page_cnt := m.page_cnt + 1 } (offset + fb) (length - fb)
      (p0 :: h) hlen'
      (by
        rcases Nat.eq_zero_or_pos n with hn | hn
        · exact Or.inl hn
        · right
          have h1 : (n - 1) * c.PGSIZE + c.PGSIZE = n * c.PGSIZE := by
            rw [← Nat.succ_mul]
            congr 1
            omega
          have h2 : c.PGSIZE ≤ n * c.PGSIZE := Nat.le_mul_of_pos_left _ hn
          omega)
      (by omega)
      (by simp [hs2])
      (by
        intro j hj
        have hn : 0 < n := by omega
        have h2 : c.PGSIZE ≤ n * c.PGSIZE := Nat.le_mul_of_pos_left _ hn
        have hfbP : fb = c.PGSIZE := by omega
        obtain ⟨h3, h4⟩ := hfree (j + 1) (by omega)
        have h5 : offset + fb + j * c.PGSIZE = offset + (j + 1) * c.PGSIZE := by
          rw [hfbP, Nat.succ_mul]
          omega
        refine ⟨by simpa [Nat.add_assoc, Nat.add_comm 1 j] using h3, ?_⟩
        show hash_find (p0 :: h) _ = none
        rw [h5]
        unfold hash_find
        rw [List.find?_cons]
        have h6 : (p0.addr == pg_round_down c (ptr_add m.base (offset + (j + 1) * c.PGSIZE)))
            = false := by
          rw [hp0addr]
          have h7 := hdist 0 (j + 1) (by omega) (by omega) (by omega)
          simp only [Nat.zero_mul, Nat.add_zero] at h7
          simpa using h7
        rw [h6]
        exact h4)
      (by
        intro j1 j2 hj1 hj2 hne
        have hn : 0 < n := by omega
        have h2 : c.PGSIZE ≤ n * c.PGSIZE := Nat.le_mul_of_pos_left _ hn
        have hfbP : fb = c.PGSIZE := by omega
        have h5 : ∀ j, offset + fb + j * c.PGSIZE = offset + (j + 1) * c.PGSIZE := by
          intro j
          rw [hfbP, Nat.succ_mul]
          omega
        rw [h5, h5]
        exact hdist (j1 + 1) (j2 + 1) (by omega) (by omega) (by omega))
    rw [hrec]
    -- the two descriptions of the result agree
    have hdesc : ∀ j, j < n →
        mmap_descriptor c s2.cur m.file m.base (offset + fb) (length - fb) j
          = mmap_descriptor c s.cur m.file m.base offset length (j + 1) := by
      intro j hj
      have hn : 0 < n := by omega
      have h2 : c.PGSIZE ≤ n * c.PGSIZE := Nat.le_mul_of_pos_left _ hn
      have hfbP : fb = c.PGSIZE := by omega
      have h5 : offset + fb + j * c.PGSIZE = offset + (j + 1) * c.PGSIZE := by
        rw [hfbP, Nat.succ_mul]
        omega
      have h6 : length - fb - j * c.PGSIZE = length - (j + 1) * c.PGSIZE := by
        rw [hfbP, Nat.succ_mul]
        omega
      simp only [mmap_descriptor, h5, h6, hs2]
    have hlist : (List.map (mmap_descriptor c s2.cur m.file m.base (offset + fb) (length - fb))
          (List.range n)).reverse ++ p0 :: h
        = (List.map (mmap_descriptor c s.cur m.file m.base offset length)
          (List.range (n + 1))).reverse ++ h := by
      rw [List.range_succ_eq_map, List.map_cons, List.reverse_cons, List.append_assoc,
        List.map_map]
      congr 2
      apply List.map_congr_left
      intro j hj
      exact hdesc j (List.mem_range.mp hj)
    simp only [Option.some.injEq, Prod.mk.injEq, true_and]
    refine ⟨by simp [Nat.add_assoc, Nat.add_comm 1 n], ?_⟩
    simp only [hs2, State.mk.injEq, and_true, true_and]
    funext t
    by_cases ht : t = s.cur
    · simp only [ht, if_true]
      rw [← hlist]
    · simp [ht]

theorem ceil_div_bounds (L P : Nat) (hP : 0 < P) :
    L ≤ (L + P - 1) / P * P ∧ ((L + P - 1) / P = 0 ∨ ((L + P - 1) / P - 1) * P < L) := by
  have h1 : (L + P - 1) / P * P ≤ L + P - 1 := Nat.div_mul_le_self _ _
  have h2 : L + P - 1 < ((L + P - 1) / P + 1) * P := by
    rw [Nat.mul_comm]
    exact Nat.lt_mul_div_succ _ hP
  rw [Nat.succ_mul] at h2
  refine ⟨by omega, ?_⟩
  rcases Nat.eq_zero_or_pos ((L + P - 1) / P) with h0 | h0
  · exact Or.inl h0
  · right
    have h3 : ((L + P - 1) / P - 1) * P + P = (L + P - 1) / P * P := by
      rw [← Nat.succ_mul]
      congr 1
      omega
    have h4 : 0 < L := by
      by_contra h5
      have h6 : L = 0 := by omega
      rw [h6] at h0
      have h7 : (0 + P - 1) / P = 0 := Nat.div_eq_of_lt (by omega)
      omega
    omega

theorem lt_ceil_div_iff (L P i : Nat) (hP : 0 < P) : i < (L + P - 1) / P ↔ i * P < L := by
  have h1 : i < (L + P - 1) / P ↔ (i + 1) * P ≤ L + P - 1 := by
    rw [← Nat.le_div_iff_mul_le hP]
    exact Iff.rfl
  rw [h1, Nat.succ_mul]
  omega

theorem round_down_of_aligned (c : Config) (a : Nat) (h : a % c.PGSIZE = 0) :
    pg_round_down c a = a := by
  unfold pg_round_down
  rw [h]
  rfl

theorem mmap_target (c : Config) (addr L i : Nat) (hal : addr % c.PGSIZE = 0)
    (hfit : addr + L ≤ 2 ^ 32) (hi : i * c.PGSIZE < L) :
    pg_round_down c (ptr_add addr (i * c.PGSIZE)) = addr + i * c.PGSIZE := by
  have h1 : ptr_add addr (i * c.PGSIZE) = addr + i * c.PGSIZE := by
    unfold ptr_add
    exact Nat.mod_eq_of_lt (by omega)
  rw [h1]
  apply round_down_of_aligned
  rw [Nat.add_mul_mod_self_right]
  exact hal

theorem hash_find_rev_map (f : Nat → Page) (h : List Page) :
    ∀ (n i : Nat), i < n →
      (∀ j1 j2, j1 < n → j2 < n → j1 ≠ j2 → (f j1).addr ≠ (f j2).addr) →
      hash_find (((List.range n).map f).reverse ++ h) (f i).addr = some (f i) := by
  intro n
  induction n with
  | zero => intro i hi; omega
  | succ n ih =>
    intro i hi hinj
    rw [List.range_succ, List.map_append, List.reverse_append]
    simp only [List.map_cons, List.map_nil, List.reverse_cons, List.reverse_nil,
      List.nil_append, List.cons_append]
    unfold hash_find
    rw [List.find?_cons]
    by_cases hin : i = n
    · subst hin
      simp
    · have h1 : ((f n).addr == (f i).addr) = false := by
        simpa using hinj n i (by omega) (by omega) (Ne.symm hin)
      rw [h1]
      exact ih i (by omega) (fun j1 j2 h1 h2 h3 => hinj j1 j2 (by omega) (by omega) h3)

theorem sum_file_bytes (P : Nat) :
    ∀ (n L : Nat), L ≤ n * P → (n = 0 ∨ (n - 1) * P < L) →
      ((List.range n).map (fun i => min P (L - i * P))).sum = L := by
  intro n
  induction n with
  | zero =>
    intro L h1 _
    simp at h1
    simp [h1]
  | succ n ih =>
    intro L h1 h2
    rw [List.range_succ_eq_map, List.map_cons, List.map_map, List.sum_cons]
    rw [Nat.succ_mul] at h1
    have h2' : n * P < L := by
      rcases h2 with h0 | h0
      · omega
      · simpa using h0
    rcases Nat.eq_zero_or_pos n with hn | hn
    · subst hn
      simp at h1 h2'
      simp
      omega
    · have hP : P ≤ n * P := Nat.le_mul_of_pos_left _ hn
      have hrec := ih (L - P) (by omega)
        (by
          right
          have h3 : (n - 1) * P + P = n * P := by
            rw [← Nat.succ_mul]
            congr 1
            omega
          omega)
      have hfun : ((fun i => min P (L - i * P)) ∘ Nat.succ)
          = (fun i => min P (L - P - i * P)) := by
        funext i
        simp only [Function.comp, Nat.succ_mul]
        congr 1
        omega
      rw [hfun, hrec]
      simp only [Nat.zero_mul, Nat.sub_zero]
      omega

/-- C12: for a non-null page-aligned `addr`, a file of length `L` whose target pages
are all unmapped (and fit below the end of the address space), with memory
available and the file reopened, `sys_mmap` succeeds and returns the new
handle; it installs exactly `ceil (L / PGSIZE)` descriptors, the `i`-th at
`addr + i * PGSIZE` with `read_only` false, `write_back` false, the file,
`file_offset = i * PGSIZE` and `file_bytes = min (PGSIZE, L - i * PGSIZE)`; the
`file_bytes` sum to `L`, and the mapping record, pushed on the list, has
`page_cnt` equal to the number of descriptors. -/
theorem sys_mmap_installs (c : Config) (s : SysState) (file addr : Nat)
    (malloc_ok : Nat → Bool) (h : List Page)
    (hpg : 0 < c.PGSIZE) (hnz : addr ≠ 0) (hal : addr % c.PGSIZE = 0)
    (hfit : addr + (s.vm.fs file).length ≤ 2 ^ 32)
    (hlock : s.fs_lock = none)
    (hpt : s.vm.pages s.vm.cur = some h)
    (hfree : ∀ i, i * c.PGSIZE < (s.vm.fs file).length →
      hash_find h (addr + i * c.PGSIZE) = none)
    (hmem : ∀ i, i * c.PGSIZE < (s.vm.fs file).length → malloc_ok i = true) :
    ∃ s1, sys_mmap c s file addr true true malloc_ok = some (s.next_handle s.vm.cur, s1) ∧
      s1.vm.pages s.vm.cur = some
        (((List.range (mmap_page_count c (s.vm.fs file).length)).map (fun i =>
            ({ addr := addr + i * c.PGSIZE, read_only := false, write_back := false,
               frame := none, sector := none, file := some file,
               file_offset := i * c.PGSIZE,
               file_bytes := min c.PGSIZE ((s.vm.fs file).length - i * c.PGSIZE),
               thread := s.vm.cur } : Page))).reverse ++ h) ∧
      (∀ i, i < mmap_page_count c (s.vm.fs file).length →
        getPage s1.vm (s.vm.cur, addr + i * c.PGSIZE) = some
          { addr := addr + i * c.PGSIZE, read_only := false, write_back := false,
            frame := none, sector := none, file := some file,
            file_offset := i * c.PGSIZE,
            file_bytes := min c.PGSIZE ((s.vm.fs file).length - i * c.PGSIZE),
            thread := s.vm.cur }) ∧
      ((List.range (mmap_page_count c (s.vm.fs file).length)).map
        (fun i => min c.PGSIZE ((s.vm.fs file).length - i * c.PGSIZE))).sum
        = (s.vm.fs file).length ∧
      s1.mappings s.vm.cur =
        { handle := s.next_handle s.vm.cur, file := file, base := addr,
          page_cnt := mmap_page_count c (s.vm.fs file).length } :: s.mappings s.vm.cur ∧
      s1.next_handle s.vm.cur = s.next_handle s.vm.cur + 1 := by
  obtain ⟨hb1, hb2⟩ := ceil_div_bounds (s.vm.fs file).length c.PGSIZE hpg
  have hlt : ∀ i, i < mmap_page_count c (s.vm.fs file).length →
      i * c.PGSIZE < (s.vm.fs file).length :=
    fun i hi => (lt_ceil_div_iff _ _ i hpg).mp hi
  have htarget : ∀ i, i < mmap_page_count c (s.vm.fs file).length →
      pg_round_down c (ptr_add addr (i * c.PGSIZE)) = addr + i * c.PGSIZE :=
    fun i hi => mmap_target c addr _ i hal hfit (hlt i hi)
  have hdesc : ∀ i, i < mmap_page_count c (s.vm.fs file).length →
      mmap_descriptor c s.vm.cur file addr 0 (s.vm.fs file).length i =
        { addr := addr + i * c.PGSIZE, read_only := false, write_back := false,
          frame := none, sector := none, file := some file,
          file_offset := i * c.PGSIZE,
          file_bytes := min c.PGSIZE ((s.vm.fs file).length - i * c.PGSIZE),
          thread := s.vm.cur } := by
    intro i hi
    simp only [mmap_descriptor, Nat.zero_add, htarget i hi]
  have hinj : ∀ j1 j2, j1 ≠ j2 → addr + j1 * c.PGSIZE ≠ addr + j2 * c.PGSIZE := by
    intro j1 j2 hne heq
    have h1 : j1 * c.PGSIZE = j2 * c.PGSIZE := by omega
    exact hne (Nat.eq_of_mul_eq_mul_right hpg h1)
  have hloop := mmap_loop_installs c malloc_ok (mmap_page_count c (s.vm.fs file).length)
    (s.vm.fs file).length s.vm
    { handle := s.next_handle s.vm.cur, file := file, base := addr, page_cnt := 0 }
    0 (s.vm.fs file).length h hb1 hb2 (Nat.le_refl _) hpt
    (by
      intro j hj
      refine ⟨by simpa using hmem j (hlt j hj), ?_⟩
      show hash_find h (pg_round_down c (ptr_add addr (0 + j * c.PGSIZE))) = none
      rw [Nat.zero_add, htarget j hj]
      exact hfree j (hlt j hj))
    (by
      intro j1 j2 hj1 hj2 hne
      show pg_round_down c (ptr_add addr (0 + j1 * c.PGSIZE))
        ≠ pg_round_down c (ptr_add addr (0 + j2 * c.PGSIZE))
      rw [Nat.zero_add, Nat.zero_add, htarget j1 hj1, htarget j2 hj2]
      exact hinj j1 j2 hne)
  have hlist : (List.range (mmap_page_count c (s.vm.fs file).length)).map
        (mmap_descriptor c s.vm.cur file addr 0 (s.vm.fs file).length)
      = (List.range (mmap_page_count c (s.vm.fs file).length)).map (fun i =>
          ({ addr := addr + i * c.PGSIZE, read_only := false, write_back := false,
             frame := none, sector := none, file := some file,
             file_offset := i * c.PGSIZE,
             file_bytes := min c.PGSIZE ((s.vm.fs file).length - i * c.PGSIZE),
             thread := s.vm.cur } : Page)) := by
    apply List.map_congr_left
    intro i hi
    exact hdesc i (List.mem_range.mp hi)
  have hcall : sys_mmap c s file addr true true malloc_ok = some (s.next_handle s.vm.cur,
      { s with
        next_handle := fun t =>
          if t = s.vm.cur then s.next_handle s.vm.cur + 1 else s.next_handle t
        vm :=
          { s.vm with
            pages := fun t =>
              if t = s.vm.cur then
                some (((List.range (mmap_page_count c (s.vm.fs file).length)).map
                  (mmap_descriptor c s.vm.cur file addr 0 (s.vm.fs file).length)).reverse ++ h)
              else s.vm.pages t }
        mappings := fun t =>
          if t = s.vm.cur then
            { handle := s.next_handle s.vm.cur, file := file, base := addr,
              page_cnt := mmap_page_count c (s.vm.fs file).length } :: s.mappings t
          else s.mappings t }) := by
    unfold sys_mmap
    rw [if_neg (by simp [hnz, hal])]
    simp only [hlock, lock_acquire, Bool.true_eq_false, if_false]
    rw [hloop]
    simp
  refine ⟨_, hcall, ?_, ?_, ?_, ?_, ?_⟩
  · simp only [if_true]
    rw [hlist]
  · intro i hi
    simp only [getPage, if_true, Option.some_bind]
    rw [hlist]
    exact hash_find_rev_map (fun i =>
        ({ addr := addr + i * c.PGSIZE, read_only := false, write_back := false,
           frame := none, sector := none, file := some file,
           file_offset := i * c.PGSIZE,
           file_bytes := min c.PGSIZE ((s.vm.fs file).length - i * c.PGSIZE),
           thread := s.vm.cur } : Page)) h _ i hi
      (fun j1 j2 _ _ hne => hinj j1 j2 hne)
  · exact sum_file_bytes c.PGSIZE _ _ hb1 hb2
  · simp
  · simp

theorem sys_mmap_installs_witness :
    0 < exSmallCfg.PGSIZE ∧ mmap_page_count exSmallCfg ((exFresh []).vm.fs 7).length = 2 ∧
    ∃ s1, sys_mmap exSmallCfg (exFresh []) 7 0x1000 true true (fun _ => true) = some (1, s1) ∧
      getPage s1.vm (1, 0x1004) = some
        { addr := 0x1004, read_only := false, write_back := false, frame := none,
          sector := none, file := some 7, file_offset := 4, file_bytes := 2, thread := 1 } ∧
      s1.mappings 1 = [{ handle := 1, file := 7, base := 0x1000, page_cnt := 2 }] := by
  obtain ⟨s1, h1, -, h3, -, h5, -⟩ :=
    sys_mmap_installs exSmallCfg (exFresh []) 7 0x1000 (fun _ => true) [] (by decide)
      (by decide) (by decide) (by decide) rfl rfl (fun _ _ => rfl) (fun _ _ => rfl)
  exact ⟨by decide, by decide, s1, h1, h3 1 (by decide), h5⟩

/-! ## Deallocating the pages of a mapping -/

theorem file_write_at_length (contents : List Byte) (buf : Nat → Byte) (size ofs : Nat) :
    (file_write_at contents buf size ofs).2.length = contents.length := by
  simp [file_write_at]

theorem filter_map_update (h : List Page) (a : Nat) (f : Page → Page)
    (hf : ∀ q, (f q).addr = q.addr) :
    (h.map (fun q => if q.addr == a then f q else q)).filter (fun q => q.addr != a)
      = h.filter (fun q => q.addr != a) := by
  induction h with
  | nil => rfl
  | cons x xs ih =>
    simp only [List.map_cons, List.filter_cons]
    by_cases hx : x.addr = a
    · have h1 : ((f x).addr != a) = false := by simp [hf, hx]
      have h2 : (x.addr != a) = false := by simp [hx]
      have h3 : (x.addr == a) = true := by simp [hx]
      simp only [h3, if_true, h1, h2, Bool.false_eq_true, if_false]
      exact ih
    · have h1 : (x.addr == a) = false := by simpa using hx
      simp only [h1, Bool.false_eq_true, if_false]
      have h2 : (x.addr != a) = true := by simpa using hx
      simp only [h2, if_true]
      rw [ih]

/-- What `page_out` does to a resident page with a backing file and `write_back`
clear, whose frame lock the caller holds. -/
theorem page_out_file_backed (c : Config) (s : State) (r : PageRef) (p : Page) (fi : Nat)
    (f : Frame) (fl : Nat)
    (hp : getPage s r = some p) (hfr : p.frame = some fi) (hf : s.frames[fi]? = some f)
    (hl : f.lock = some s.cur) (hfile : p.file = some fl) (hwb : p.write_back = false) :
    ∃ ok s3, page_out c s r = some (ok, s3) ∧ s3.cur = s.cur ∧ s3.frames = s.frames ∧
      (s3.pages = s.pages ∨ s3.pages = (setPage s r (fun q => { q with frame := none })).pages) ∧
      (∀ t u, (s3.pagedir t u).dirty = (s.pagedir t u).dirty) ∧
      s3.swap_bitmap = s.swap_bitmap ∧ s3.swap_device = s.swap_device ∧
      ((s.pagedir p.thread p.addr).dirty = false → s3.fs = s.fs) ∧
      (∀ x, (s3.fs x).length = (s.fs x).length) := by
  have hdirty : ∀ t u, ((pagedir_clear_page s p.thread p.addr).pagedir t u).dirty
      = (s.pagedir t u).dirty := by
    intro t u
    simp only [pagedir_clear_page]
    split
    · rename_i h1
      rw [h1.1, h1.2]
    · rfl
  cases hd : (s.pagedir p.thread p.addr).dirty with
  | false =>
    exact ⟨true, _, page_out_clean c s r p fi f fl hp hfr hf hl hfile hd, rfl, rfl,
      Or.inr rfl, hdirty, rfl, rfl, fun _ => rfl, fun _ => rfl⟩
  | true =>
    have hpo := page_out_to_file c s r p fi f fl hp hfr hf hl hfile hd hwb
    have hlen : ∀ x, ((fun x => if x = fl then
        (file_write_at (s.fs fl) (s.kmem fi) p.file_bytes p.file_offset).2 else s.fs x) x).length
        = (s.fs x).length := by
      intro x
      by_cases hx : x = fl
      · simp only [hx, if_true]
        exact file_write_at_length _ _ _ _
      · simp [hx]
    by_cases hw : (file_write_at (s.fs fl) (s.kmem fi) p.file_bytes p.file_offset).1 = 0
    · rw [if_neg (by simpa using hw)] at hpo
      exact ⟨false, _, hpo, rfl, rfl, Or.inl rfl, hdirty, rfl, rfl,
        fun h => absurd h (by simp), hlen⟩
    · rw [if_pos hw] at hpo
      exact ⟨true, _, hpo, rfl, rfl, Or.inr rfl, hdirty, rfl, rfl,
        fun h => absurd h (by simp), hlen⟩

theorem frame_unlocked_after_modify (frames : List Frame) (fi : Nat) (g : Frame → Frame)
    (hg : ∀ f, (g f).lock = none) (j : Nat) (f : Frame)
    (hj : frames[j]? = some f) (hl : f.lock = none) :
    ∃ f', (frames.modify g fi)[j]? = some f' ∧ f'.lock = none := by
  by_cases hji : fi = j
  · subst hji
    rw [List.getElem?_modify_eq, hj]
    exact ⟨g f, rfl, hg f⟩
  · rw [List.getElem?_modify_ne _ _ hji]
    exact ⟨f, hj, hl⟩

/-- The effect of `page_deallocate` on a page-aligned user address that has a
descriptor whose frame, if any, nobody has locked. -/
theorem page_deallocate_spec (c : Config) (s : State) (a : Nat) (malloc_ok : Bool)
    (h : List Page) (p : Page)
    (ha : a < c.PHYS_BASE) (hrd : pg_round_down c a = a)
    (hpt : s.pages s.cur = some h) (hfind : hash_find h a = some p)
    (hfr : ∀ fi, p.frame = some fi → ∃ f, s.frames[fi]? = some f ∧ f.lock = none) :
    ∃ s1, page_deallocate c s a malloc_ok = some s1 ∧ s1.cur = s.cur ∧
      s1.pages = (fun t =>
        if t = s.cur then some (h.filter (fun q => q.addr != a)) else s.pages t) ∧
      (∀ (j : Nat) (f : Frame), s.frames[j]? = some f → f.lock = none →
        ∃ f', s1.frames[j]? = some f' ∧ f'.lock = none) ∧
      (∀ t u, (s1.pagedir t u).dirty = (s.pagedir t u).dirty) ∧
      s1.swap_bitmap = s.swap_bitmap ∧ s1.swap_device = s.swap_device ∧
      ((s.pagedir p.thread p.addr).dirty = false → s1.fs = s.fs) ∧
      (∀ x, (s1.fs x).length = (s.fs x).length) ∧
      (p.frame = none → s1.frames = s.frames ∧ s1.fs = s.fs ∧ s1.pagedir = s.pagedir) := by
  have hpf : page_for_addr c s a malloc_ok = some (some (s.cur, a), s) := by
    simp [page_for_addr, ha, hrd, hpt, hfind]
  have hg : getPage s (s.cur, a) = some p := by
    simp [getPage, hpt, hfind]
  have hpages0 : (fun t => if t = s.cur then
        (s.pages t).map (fun l => l.filter (fun q => q.addr != a)) else s.pages t)
      = (fun t => if t = s.cur then some (h.filter (fun q => q.addr != a)) else s.pages t) := by
    funext t
    by_cases ht : t = s.cur
    · simp [ht, hpt]
    · simp [ht]
  rcases Option.eq_none_or_eq_some p.frame with hnr | ⟨fi, hres⟩
  · -- not resident
    have hfl : frame_lock s (s.cur, a) = some s := by
      simp [frame_lock, hg, hnr]
    refine ⟨{ s with
        pages := fun t =>
          if t = s.cur then (s.pages t).map (fun l => l.filter (fun q => q.addr != a))
          else s.pages t }, ?_, rfl, hpages0, ?_, fun _ _ => rfl, rfl, rfl, fun _ => rfl,
      fun _ => rfl, fun _ => ⟨rfl, rfl, rfl⟩⟩
    · simp only [page_deallocate, hpf, hfl, hg, hnr]
    · intro j f hj hl
      exact ⟨f, hj, hl⟩
  · obtain ⟨f, hf, hl⟩ := hfr fi hres
    have hfl : frame_lock s (s.cur, a)
        = some (setFrame s fi (fun g => { g with lock := some s.cur })) := by
      simp [frame_lock, hg, hres, hf, hl, lock_acquire]
    have hg2 : getPage (setFrame s fi (fun g => { g with lock := some s.cur })) (s.cur, a)
        = some p := hg
    have hf2 : (setFrame s fi (fun g => { g with lock := some s.cur })).frames[fi]?
        = some { f with lock := some s.cur } := by
      simp only [setFrame]
      rw [List.getElem?_modify_eq, hf]
      rfl
    have hnone : p.frame = none → False := by
      intro h1
      rw [hres] at h1
      exact absurd h1 (by simp)
    by_cases hcond : p.file.isSome ∧ p.write_back = false
    · obtain ⟨hfs, hwb⟩ := hcond
      obtain ⟨fl, hfile⟩ := Option.isSome_iff_exists.mp hfs
      obtain ⟨ok, s3, hpo, hc3, hfr3, hpg3, hd3, hb3, hdev3, hfs3, hlen3⟩ :=
        page_out_file_backed c (setFrame s fi (fun g => { g with lock := some s.cur }))
          (s.cur, a) p fi { f with lock := some s.cur } fl hg2 hres hf2 rfl hfile hwb
      have hf3 : s3.frames[fi]? = some { f with lock := some s.cur } := by
        rw [hfr3]
        exact hf2
      have hff : frame_free s3 fi
          = some (setFrame s3 fi (fun g => { g with page := none, lock := none })) := by
        have h1 : s.cur = s3.cur := hc3.symm
        simp [frame_free, hf3, lock_held_by_current_thread, h1]
      refine ⟨{ (setFrame s3 fi (fun g => { g with page := none, lock := none })) with
          pages := fun t =>
            if t = s3.cur then (s3.pages t).map (fun l => l.filter (fun q => q.addr != a))
            else s3.pages t }, ?_, hc3, ?_, ?_, hd3, hb3, hdev3, hfs3, hlen3,
        fun h1 => (hnone h1).elim⟩
      · simp only [page_deallocate, hpf, hfl, hg2, hres, hfile, hwb, Option.isSome_some,
          and_self, if_true, hpo, hff]
        rfl
      · show (fun t => if t = s3.cur then
            (s3.pages t).map (fun l => l.filter (fun q => q.addr != a)) else s3.pages t) = _
        have hc3' : s3.cur = s.cur := hc3
        rw [hc3']
        rcases hpg3 with h1 | h1
        · rw [h1]
          exact hpages0
        · rw [h1]
          funext t
          by_cases ht : t = s.cur
          · simp only [ht, if_true, setPage, setFrame, hpt, Option.map_some']
            rw [filter_map_update _ _ _ (by intro q; rfl)]
          · simp [ht, setPage, setFrame]
      · intro j f0 hj hl0
        show ∃ f', (List.modify _ fi s3.frames)[j]? = some f' ∧ f'.lock = none
        rw [hfr3]
        simp only [setFrame]
        by_cases hji : fi = j
        · subst hji
          rw [List.getElem?_modify_eq, List.getElem?_modify_eq, hj]
          exact ⟨_, rfl, rfl⟩
        · rw [List.getElem?_modify_ne _ _ hji, List.getElem?_modify_ne _ _ hji]
          exact ⟨f0, hj, hl0⟩
    · have hff : frame_free (setFrame s fi (fun g => { g with lock := some s.cur })) fi
          = some (setFrame (setFrame s fi (fun g => { g with lock := some s.cur })) fi
              (fun g => { g with page := none, lock := none })) := by
        unfold frame_free
        rw [hf2]
        simp [lock_held_by_current_thread, setFrame]
      refine ⟨{ (setFrame (setFrame s fi (fun g => { g with lock := some s.cur })) fi
            (fun g => { g with page := none, lock := none })) with
          pages := fun t =>
            if t = s.cur then (s.pages t).map (fun l => l.filter (fun q => q.addr != a))
            else s.pages t }, ?_, rfl, hpages0, ?_, fun _ _ => rfl, rfl, rfl, fun _ => rfl,
        fun _ => rfl, fun h1 => (hnone h1).elim⟩
      · simp only [page_deallocate, hpf, hfl, hg2, hres, hff]
        rw [if_neg hcond]
        rfl
      · intro j f0 hj hl0
        show ∃ f', (List.modify _ fi (List.modify _ fi s.frames))[j]? = some f' ∧ f'.lock = none
        by_cases hji : fi = j
        · subst hji
          rw [List.getElem?_modify_eq, List.getElem?_modify_eq, hj]
          exact ⟨_, rfl, rfl⟩
        · rw [List.getElem?_modify_ne _ _ hji, List.getElem?_modify_ne _ _ hji]
          exact ⟨f0, hj, hl0⟩

/-! ## The two loops of `unmap` -/

theorem hash_find_filter_keep (h : List Page) (P : Page → Bool) (a : Nat)
    (hP : ∀ q, q.addr = a → P q = true) :
    hash_find (h.filter P) a = hash_find h a := by
  unfold hash_find
  induction h with
  | nil => rfl
  | cons x xs ih =>
    by_cases hx : x.addr = a
    · have h1 : P x = true := hP x hx
      simp [List.filter_cons, h1, List.find?_cons, hx]
    · have h2 : (x.addr == a) = false := by simpa using hx
      cases hpx : P x with
      | true =>
        simp only [List.filter_cons, hpx, if_true, List.find?_cons, h2]
        exact ih
      | false =>
        simp only [List.filter_cons, hpx, Bool.false_eq_true, if_false, List.find?_cons, h2]
        exact ih

theorem hash_find_filter_drop (h : List Page) (P : Page → Bool) (a : Nat)
    (hP : ∀ q, q.addr = a → P q = false) :
    hash_find (h.filter P) a = none := by
  rw [hash_find_none_iff]
  intro q hq hqa
  rw [List.mem_filter] at hq
  rw [hP q hqa] at hq
  exact absurd hq.2 (by simp)

/-- The address of page `k` of a mapping that lies below `PHYS_BASE`. -/
theorem mapping_page_addr (c : Config) (base N k : Nat)
    (hfit : base + c.PGSIZE * N ≤ c.PHYS_BASE) (hpb : c.PHYS_BASE ≤ 2 ^ 32)
    (hpg : 0 < c.PGSIZE) (hk : k < N) :
    ptr_add base (c.PGSIZE * k) = base + c.PGSIZE * k ∧ base + c.PGSIZE * k < c.PHYS_BASE := by
  have h1 : c.PGSIZE * (k + 1) ≤ c.PGSIZE * N := Nat.mul_le_mul_left _ hk
  rw [Nat.mul_succ] at h1
  have h2 : base + c.PGSIZE * k < c.PHYS_BASE := by omega
  refine ⟨?_, h2⟩
  unfold ptr_add
  exact Nat.mod_eq_of_lt (by omega)

theorem unmap_write_clean (c : Config) (m : Mapping) :
    ∀ (n i : Nat) (s : SysState),
      (∀ k, i ≤ k → k < i + n →
        (s.vm.pagedir s.vm.cur (ptr_add m.base (c.PGSIZE * k))).dirty = false) →
      unmap_write c m n i s = some s := by
  intro n
  induction n with
  | zero => intro i s _; rfl
  | succ n ih =>
    intro i s h
    have h0 := h i (Nat.le_refl _) (by omega)
    simp only [unmap_write, pagedir_is_dirty, h0, Bool.false_eq_true, if_false]
    exact ih (i + 1) s (fun k hk1 hk2 => h k (by omega) (by omega))

/-- The first loop of `unmap` returns when for every dirty page the filesystem lock
is free and the memory handed to the write can be read; it changes file contents only, and no
file's length. -/
theorem unmap_write_returns (c : Config) (m : Mapping) :
    ∀ (n i : Nat) (s : SysState),
      (∀ k, i ≤ k → k < i + n →
        (s.vm.pagedir s.vm.cur (ptr_add m.base (c.PGSIZE * k))).dirty = true →
        s.fs_lock = none ∧
        (user_buffer c s.vm (ptr_add m.base (c.PGSIZE * k))
          (min (c.PGSIZE * m.page_cnt) ((s.vm.fs m.file).length - c.PGSIZE * k))).isSome) →
      ∃ fs1, unmap_write c m n i s = some { s with vm := { s.vm with fs := fs1 } } ∧
        ∀ x, (fs1 x).length = (s.vm.fs x).length := by
  intro n
  induction n with
  | zero =>
    intro i s _
    exact ⟨s.vm.fs, rfl, fun _ => rfl⟩
  | succ n ih =>
    intro i s h
    cases hd : (s.vm.pagedir s.vm.cur (ptr_add m.base (c.PGSIZE * i))).dirty with
    | false =>
      simp only [unmap_write, pagedir_is_dirty, hd, Bool.false_eq_true, if_false]
      exact ih (i + 1) s (fun k hk1 hk2 => h k (by omega) (by omega))
    | true =>
      obtain ⟨hl, hsome⟩ := h i (Nat.le_refl _) (by omega) hd
      obtain ⟨buf, hbuf⟩ := Option.isSome_iff_exists.mp hsome
      have hla : lock_acquire s.fs_lock s.vm.cur = some (some s.vm.cur) := by
        rw [hl]
        rfl
      simp only [unmap_write, pagedir_is_dirty, hd, if_true, hla, hbuf]
      have hlen : ∀ x, ((fun x => if x = m.file then
          (file_write_at (s.vm.fs m.file) buf (c.PGSIZE * m.page_cnt) (c.PGSIZE * i)).2
          else s.vm.fs x) x).length = (s.vm.fs x).length := by
        intro x
        by_cases hx : x = m.file
        · simp only [hx, if_true]
          exact file_write_at_length _ _ _ _
        · simp [hx]
      have key : ∀ fsn : Nat → List Byte, (∀ x, (fsn x).length = (s.vm.fs x).length) →
          ∃ fs1, unmap_write c m n (i + 1) { s with vm := { s.vm with fs := fsn } }
              = some { s with vm := { s.vm with fs := fs1 } } ∧
            ∀ x, (fs1 x).length = (s.vm.fs x).length := by
        intro fsn hfsn
        obtain ⟨fs1, h1, h2⟩ := ih (i + 1) { s with vm := { s.vm with fs := fsn } }
          (fun k hk1 hk2 hdk => by
            have h3 := h k (by omega) (by omega) hdk
            have h4 := hfsn m.file
            simp only [] at h4 ⊢
            rw [h4]
            exact h3)
        refine ⟨fs1, h1, ?_⟩
        intro x
        rw [h2 x]
        exact hfsn x
      exact key _ hlen

/-- The second loop of `unmap` over the pages `i .. i + n - 1` of a mapping that
lies below `PHYS_BASE`, each with a descriptor whose frame, if any, nobody has
locked: it returns, and the table loses exactly the descriptors at those
addresses. -/
theorem unmap_dealloc_spec (c : Config) (m : Mapping) (malloc_ok : Nat → Bool) (N : Nat)
    (hpg : 0 < c.PGSIZE) (hal : m.base % c.PGSIZE = 0)
    (hfit : m.base + c.PGSIZE * N ≤ c.PHYS_BASE) (hpb : c.PHYS_BASE ≤ 2 ^ 32) :
    ∀ (n i : Nat) (s : State) (h : List Page), i + n ≤ N → s.pages s.cur = some h →
      (∀ k, i ≤ k → k < i + n → ∃ p, hash_find h (m.base + c.PGSIZE * k) = some p ∧
        ∀ fi, p.frame = some fi → ∃ f, s.frames[fi]? = some f ∧ f.lock = none) →
      ∃ s1, unmap_dealloc c m malloc_ok n i s = some s1 ∧ s1.cur = s.cur ∧
        s1.pages = (fun t =>
          if t = s.cur then
            some (h.filter (fun q =>
              (List.range' i n).all (fun k => q.addr != m.base + c.PGSIZE * k)))
          else s.pages t) ∧
        (∀ (j : Nat) (f : Frame), s.frames[j]? = some f → f.lock = none →
          ∃ f', s1.frames[j]? = some f' ∧ f'.lock = none) ∧
        (∀ t u, (s1.pagedir t u).dirty = (s.pagedir t u).dirty) ∧
        s1.swap_bitmap = s.swap_bitmap ∧ s1.swap_device = s.swap_device ∧
        ((∀ k p, i ≤ k → k < i + n → hash_find h (m.base + c.PGSIZE * k) = some p →
            (s.pagedir p.thread p.addr).dirty = false) → s1.fs = s.fs) ∧
        (∀ x, (s1.fs x).length = (s.fs x).length) ∧
        ((∀ k p, i ≤ k → k < i + n → hash_find h (m.base + c.PGSIZE * k) = some p →
            p.frame = none) →
          s1.frames = s.frames ∧ s1.fs = s.fs ∧ s1.pagedir = s.pagedir) := by
  intro n
  induction n with
  | zero =>
    intro i s h _ hpt _
    refine ⟨s, rfl, rfl, ?_, fun j f hj hl => ⟨f, hj, hl⟩, fun _ _ => rfl, rfl, rfl,
      fun _ => rfl, fun _ => rfl, fun _ => ⟨rfl, rfl, rfl⟩⟩
    funext t
    by_cases ht : t = s.cur
    · simp [ht, hpt]
    · simp [ht]
  | succ n ih =>
    intro i s h hin hpt hpages
    obtain ⟨hadd, hlt⟩ := mapping_page_addr c m.base N i hfit hpb hpg (by omega)
    obtain ⟨p, hfind, hfr⟩ := hpages i (Nat.le_refl _) (by omega)
    have hrd : pg_round_down c (m.base + c.PGSIZE * i) = m.base + c.PGSIZE * i := by
      apply round_down_of_aligned
      rw [Nat.add_mul_mod_self_left]
      exact hal
    obtain ⟨s1, hd1, hc1, hp1, hf1, hdirty1, hb1, hdev1, hfs1, hlen1, hnr1⟩ :=
      page_deallocate_spec c s (m.base + c.PGSIZE * i) (malloc_ok i) h p hlt hrd hpt hfind hfr
    have hne : ∀ k, i + 1 ≤ k → m.base + c.PGSIZE * k ≠ m.base + c.PGSIZE * i := by
      intro k hk heq
      have h1 : c.PGSIZE * k = c.PGSIZE * i := by omega
      have h2 := Nat.eq_of_mul_eq_mul_left hpg h1
      omega
    have hfind1 : ∀ k, i + 1 ≤ k →
        hash_find (h.filter (fun q => q.addr != m.base + c.PGSIZE * i))
          (m.base + c.PGSIZE * k) = hash_find h (m.base + c.PGSIZE * k) := by
      intro k hk
      apply hash_find_filter_keep
      intro q hq
      rw [hq]
      simpa using hne k hk
    have hpt1 : s1.pages s1.cur
        = some (h.filter (fun q => q.addr != m.base + c.PGSIZE * i)) := by
      rw [hp1, hc1]
      simp
    obtain ⟨s2, hd2, hc2, hp2, hf2, hdirty2, hb2, hdev2, hfs2, hlen2, hnr2⟩ :=
      ih (i + 1) s1 _ (by omega) hpt1 (fun k hk1 hk2 => by
        obtain ⟨q, hq1, hq2⟩ := hpages k (by omega) (by omega)
        refine ⟨q, by rw [hfind1 k hk1]; exact hq1, ?_⟩
        intro fi hfi
        obtain ⟨f, hf, hl⟩ := hq2 fi hfi
        exact hf1 fi f hf hl)
    refine ⟨s2, ?_, by rw [hc2, hc1], ?_, ?_, ?_, by rw [hb2, hb1], by rw [hdev2, hdev1],
      ?_, ?_, ?_⟩
    · simp only [unmap_dealloc, hadd, hd1]
      exact hd2
    · rw [hp2, hp1, hc1]
      funext t
      by_cases ht : t = s.cur
      · simp only [ht, if_true, List.filter_filter, List.range'_succ, List.all_cons]
        congr 1
        apply List.filter_congr
        intro q _
        rw [Bool.and_comm]
      · simp [ht]
    · intro j f hj hl
      obtain ⟨f1, hj1, hl1⟩ := hf1 j f hj hl
      exact hf2 j f1 hj1 hl1
    · intro t u
      rw [hdirty2, hdirty1]
    · intro hclean
      rw [hfs2 (fun k q hk1 hk2 hq => by
        rw [hdirty1]
        exact hclean k q (by omega) (by omega) (by rw [← hfind1 k hk1]; exact hq))]
      exact hfs1 (hclean i p (Nat.le_refl _) (by omega) hfind)
    · intro x
      rw [hlen2, hlen1]
    · intro hnr
      obtain ⟨a1, a2, a3⟩ := hnr1 (hnr i p (Nat.le_refl _) (by omega) hfind)
      obtain ⟨b1, b2, b3⟩ := hnr2 (fun k q hk1 hk2 hq =>
        hnr k q (by omega) (by omega) (by rw [← hfind1 k hk1]; exact hq))
      exact ⟨by rw [b1, a1], by rw [b2, a2], by rw [b3, a3]⟩

/-! ## A failing `sys_mmap` takes back what it installed -/

theorem pg_round_down_idem (c : Config) (a : Nat) :
    pg_round_down c (pg_round_down c a) = pg_round_down c a := by
  unfold pg_round_down
  have h1 : (a - a % c.PGSIZE) % c.PGSIZE = 0 := by
    have h2 := Nat.div_add_mod a c.PGSIZE
    have h3 : a - a % c.PGSIZE = c.PGSIZE * (a / c.PGSIZE) := by omega
    rw [h3]
    exact Nat.mul_mod_right _ _
  rw [h1]
  rfl

/-- One iteration of the loop of `sys_mmap` whose `page_allocate` succeeds. -/
theorem mmap_loop_step (c : Config) (malloc_ok : Nat → Bool) (fuel : Nat) (s : State)
    (m : Mapping) (offset length : Nat) (h : List Page)
    (hlpos : 0 < length) (hpt : s.pages s.cur = some h)
    (hm0 : malloc_ok m.page_cnt = true)
    (hf0 : hash_find h (pg_round_down c (ptr_add m.base offset)) = none) :
    mmap_loop c malloc_ok (fuel + 1) s m offset length
      = mmap_loop c malloc_ok fuel
          { s with
            pages := fun t =>
              if t = s.cur then
                some (mmap_descriptor c s.cur m.file m.base offset length 0 :: h)
              else s.pages t }
          { m with page_cnt := m.page_cnt + 1 }
          (offset + min c.PGSIZE length) (length - min c.PGSIZE length) := by
  have hfbmin : (if length ≥ c.PGSIZE then c.PGSIZE else length) = min c.PGSIZE length := by
    split <;> omega
  rw [mmap_loop]
  rw [if_neg (by omega)]
  simp only [page_allocate, hm0, if_true, hpt, pg_round_down_idem, hf0, hfbmin]
  congr 1
  simp only [setPage, State.mk.injEq, and_true, true_and]
  funext t
  by_cases ht : t = s.cur
  · simp only [ht, if_true, Option.map_some', List.map_cons, beq_self_eq_true,
      Option.some.injEq, List.cons.injEq]
    refine ⟨?_, map_update_of_absent _ hf0⟩
    simp only [mmap_descriptor, Nat.zero_mul, Nat.add_zero, Nat.sub_zero]
  · simp [ht]

/-- The loop of `sys_mmap` when the first `n` allocations succeed and the next one
fails, for lack of memory or because the address has a descriptor. -/
theorem mmap_loop_fails (c : Config) (malloc_ok : Nat → Bool) :
    ∀ (n fuel : Nat) (s : State) (m : Mapping) (offset length : Nat) (h : List Page),
      n * c.PGSIZE < length → length ≤ fuel → s.pages s.cur = some h →
      (∀ j, j < n → malloc_ok (m.page_cnt + j) = true ∧
        hash_find h (pg_round_down c (ptr_add m.base (offset + j * c.PGSIZE))) = none) →
      (malloc_ok (m.page_cnt + n) = false ∨
        ∃ q, hash_find h (pg_round_down c (ptr_add m.base (offset + n * c.PGSIZE))) = some q) →
      (∀ j1 j2, j1 < n + 1 → j2 < n + 1 → j1 ≠ j2 →
        pg_round_down c (ptr_add m.base (offset + j1 * c.PGSIZE))
          ≠ pg_round_down c (ptr_add m.base (offset + j2 * c.PGSIZE))) →
      mmap_loop c malloc_ok fuel s m offset length =
        some (false, { m with page_cnt := m.page_cnt + n },
          { s with
            pages := fun t =>
              if t = s.cur then
                some (((List.range n).map
                  (mmap_descriptor c s.cur m.file m.base offset length)).reverse ++ h)
              else s.pages t }) := by
  intro n
  induction n with
  | zero =>
    intro fuel s m offset length h hlt hfuel hpt _ hfail _
    obtain ⟨fuel', rfl⟩ : ∃ f', fuel = f' + 1 := ⟨fuel - 1, by omega⟩
    simp only [Nat.zero_mul, Nat.add_zero] at hfail
    simp only [List.range_zero, List.map_nil, List.reverse_nil, List.nil_append,
      Nat.add_zero]
    rw [state_pages_eta s h hpt]
    rw [mmap_loop, if_neg (by omega)]
    cases hm : malloc_ok m.page_cnt with
    | false => simp [page_allocate]
    | true =>
      rcases hfail with h1 | ⟨q, hq⟩
      · rw [hm] at h1
        exact absurd h1 (by simp)
      · simp [page_allocate, hpt, pg_round_down_idem, hq]
  | succ n ih =>
    intro fuel s m offset length h hlt hfuel hpt hfree hfail hdist
    rw [Nat.succ_mul] at hlt
    have hlpos : 0 < length := by omega
    obtain ⟨fuel', rfl⟩ : ∃ f', fuel = f' + 1 := ⟨fuel - 1, by omega⟩
    obtain ⟨hm0, hf0⟩ := hfree 0 (by omega)
    simp only [Nat.zero_mul, Nat.add_zero] at hm0 hf0
    have hP : 0 < c.PGSIZE := by
      rcases Nat.eq_zero_or_pos c.PGSIZE with h0 | h0
      · have h1 := hdist 0 1 (by omega) (by omega) (by omega)
        rw [h0] at h1
        exact absurd rfl h1
      · exact h0
    have hmin : min c.PGSIZE length = c.PGSIZE := by omega
    rw [mmap_loop_step c malloc_ok fuel' s m offset length h hlpos hpt hm0 hf0, hmin]
    have h5 : ∀ j, offset + c.PGSIZE + j * c.PGSIZE = offset + (j + 1) * c.PGSIZE := by
      intro j
      rw [Nat.succ_mul]
      omega
    have hcons : ∀ j, j < n + 1 →
        hash_find (mmap_descriptor c s.cur m.file m.base offset length 0 :: h)
          (pg_round_down c (ptr_add m.base (offset + (j + 1) * c.PGSIZE)))
        = hash_find h (pg_round_down c (ptr_add m.base (offset + (j + 1) * c.PGSIZE))) := by
      intro j hj
      unfold hash_find
      rw [List.find?_cons]
      have h6 : ((mmap_descriptor c s.cur m.file m.base offset length 0).addr
          == pg_round_down c (ptr_add m.base (offset + (j + 1) * c.PGSIZE))) = false := by
        have h7 := hdist 0 (j + 1) (by omega) (by omega) (by omega)
        simp only [Nat.zero_mul, Nat.add_zero] at h7
        simpa [mmap_descriptor] using h7
      rw [h6]
    have hrec := ih fuel'
      { s with
        pages := fun t =>
          if t = s.cur then
            some (mmap_descriptor c s.cur m.file m.base offset length 0 :: h)
          else s.pages t }
      { m with page_cnt := m.page_cnt + 1 } (offset + c.PGSIZE) (length - c.PGSIZE)
      (mmap_descriptor c s.cur m.file m.base offset length 0 :: h)
      (by omega) (by omega) (by simp)
      (by
        intro j hj
        obtain ⟨h3, h4⟩ := hfree (j + 1) (by omega)
        refine ⟨by simpa [Nat.add_assoc, Nat.add_comm 1 j] using h3, ?_⟩
        rw [h5, hcons j (by omega)]
        exact h4)
      (by
        rcases hfail with h1 | ⟨q, hq⟩
        · left
          simpa [Nat.add_assoc, Nat.add_comm 1 n] using h1
        · right
          refine ⟨q, ?_⟩
          rw [h5, hcons n (by omega)]
          exact hq)
      (by
        intro j1 j2 hj1 hj2 hne
        rw [h5, h5]
        exact hdist (j1 + 1) (j2 + 1) (by omega) (by omega) (by omega))
    rw [hrec]
    have hdesc : ∀ j,
        mmap_descriptor c s.cur m.file m.base (offset + c.PGSIZE) (length - c.PGSIZE) j
          = mmap_descriptor c s.cur m.file m.base offset length (j + 1) := by
      intro j
      have h6 : length - c.PGSIZE - j * c.PGSIZE = length - (j + 1) * c.PGSIZE := by
        rw [Nat.succ_mul]
        omega
      simp only [mmap_descriptor, h5, h6]
    have hlist : (List.map
          (mmap_descriptor c s.cur m.file m.base (offset + c.PGSIZE) (length - c.PGSIZE))
          (List.range n)).reverse ++ mmap_descriptor c s.cur m.file m.base offset length 0 :: h
        = (List.map (mmap_descriptor c s.cur m.file m.base offset length)
          (List.range (n + 1))).reverse ++ h := by
      rw [List.range_succ_eq_map, List.map_cons, List.reverse_cons, List.append_assoc,
        List.map_map]
      congr 2
      apply List.map_congr_left
      intro j _
      exact hdesc j
    simp only [Option.some.injEq, Prod.mk.injEq, true_and]
    refine ⟨by simp [Nat.add_assoc, Nat.add_comm 1 n], ?_⟩
    simp only [State.mk.injEq, and_true, true_and]
    funext t
    by_cases ht : t = s.cur
    · simp only [ht, if_true]
      rw [← hlist]
    · simp [ht]

/-- What `unmap` does to a mapping that lies below `PHYS_BASE`, every page of which
has a descriptor in the running process's table whose frame, if any, nobody has
locked, when for every dirty page the filesystem lock is free and the memory
handed to the write can be read: it returns, the record leaves the list, the table loses exactly
the descriptors of the mapping, swap is not touched, and without a dirty page
no file changes. -/
theorem unmap_spec (c : Config) (s : SysState) (m : Mapping) (malloc_ok : Nat → Bool)
    (h : List Page)
    (hpg : 0 < c.PGSIZE) (hal : m.base % c.PGSIZE = 0)
    (hfit : m.base + c.PGSIZE * m.page_cnt ≤ c.PHYS_BASE) (hpb : c.PHYS_BASE ≤ 2 ^ 32)
    (hpt : s.vm.pages s.vm.cur = some h)
    (hpages : ∀ k, k < m.page_cnt → ∃ p, hash_find h (m.base + c.PGSIZE * k) = some p ∧
      ∀ fi, p.frame = some fi → ∃ f, s.vm.frames[fi]? = some f ∧ f.lock = none)
    (hread : ∀ k, k < m.page_cnt →
      (s.vm.pagedir s.vm.cur (m.base + c.PGSIZE * k)).dirty = true →
      s.fs_lock = none ∧
      (user_buffer c s.vm (m.base + c.PGSIZE * k)
        (min (c.PGSIZE * m.page_cnt) ((s.vm.fs m.file).length - c.PGSIZE * k))).isSome) :
    ∃ s1, unmap c s m malloc_ok = some s1 ∧ s1.vm.cur = s.vm.cur ∧
      s1.mappings = (fun t =>
        if t = s.vm.cur then (s.mappings t).erase m else s.mappings t) ∧
      s1.vm.pages = (fun t =>
        if t = s.vm.cur then
          some (h.filter (fun q =>
            (List.range' 0 m.page_cnt).all (fun k => q.addr != m.base + c.PGSIZE * k)))
        else s.vm.pages t) ∧
      s1.vm.swap_bitmap = s.vm.swap_bitmap ∧ s1.vm.swap_device = s.vm.swap_device ∧
      ((∀ k, k < m.page_cnt →
          (s.vm.pagedir s.vm.cur (m.base + c.PGSIZE * k)).dirty = false) →
        (∀ k p, k < m.page_cnt → hash_find h (m.base + c.PGSIZE * k) = some p →
          p.thread = s.vm.cur) →
        s1.vm.fs = s.vm.fs) := by
  have hadd : ∀ k, k < m.page_cnt →
      ptr_add m.base (c.PGSIZE * k) = m.base + c.PGSIZE * k :=
    fun k hk => (mapping_page_addr c m.base m.page_cnt k hfit hpb hpg hk).1
  obtain ⟨fs1, hw, hlen⟩ := unmap_write_returns c m m.page_cnt 0
    { s with
      mappings := fun t => if t = s.vm.cur then (s.mappings t).erase m else s.mappings t }
    (fun k _ hk hd => by
      rw [hadd k (by omega)] at hd ⊢
      exact hread k (by omega) hd)
  obtain ⟨vm1, hd1, hc1, hp1, -, -, hb1, hdev1, hfs1, -, -⟩ :=
    unmap_dealloc_spec c m malloc_ok m.page_cnt hpg hal hfit hpb m.page_cnt 0
      { s.vm with fs := fs1 } h (by omega) hpt
      (fun k _ hk => hpages k (by omega))
  refine ⟨{ vm := vm1, mappings := fun t =>
              if t = s.vm.cur then (s.mappings t).erase m else s.mappings t,
            next_handle := s.next_handle, fs_lock := s.fs_lock },
    ?_, hc1, rfl, hp1, hb1, hdev1, ?_⟩
  · simp only [unmap, hw, hd1]
  · intro hclean hthread
    have hfs : fs1 = s.vm.fs := by
      have h1 := unmap_write_clean c m m.page_cnt 0
        { s with
          mappings := fun t => if t = s.vm.cur then (s.mappings t).erase m else s.mappings t }
        (fun k _ hk => by
          rw [hadd k (by omega)]
          exact hclean k (by omega))
      rw [hw] at h1
      have h2 := congrArg (fun x => x.vm.fs) (Option.some.inj h1)
      exact h2
    show vm1.fs = s.vm.fs
    rw [hfs1 (fun k p _ hk hp => by
      have h3 := hash_find_addr hp
      have h4 := hthread k p (by omega) hp
      show (s.vm.pagedir p.thread p.addr).dirty = false
      rw [h3, h4]
      exact hclean k (by omega))]
    exact hfs

/-- C15: for every mapping of the running process (below `PHYS_BASE`, each page
with a descriptor of that process whose frame, if any, nobody has locked) none
of whose pages has its dirty bit set, resident or not, `unmap` returns and has
written neither to a file nor to swap: all file contents, the swap device and
the swap bitmap are what they were. -/
theorem unmap_clean_mapping_writes_nothing (c : Config) (s : SysState) (m : Mapping)
    (malloc_ok : Nat → Bool) (h : List Page)
    (hpg : 0 < c.PGSIZE) (hal : m.base % c.PGSIZE = 0)
    (hfit : m.base + c.PGSIZE * m.page_cnt ≤ c.PHYS_BASE) (hpb : c.PHYS_BASE ≤ 2 ^ 32)
    (hpt : s.vm.pages s.vm.cur = some h)
    (hpages : ∀ k, k < m.page_cnt → ∃ p, hash_find h (m.base + c.PGSIZE * k) = some p ∧
      p.thread = s.vm.cur ∧
      ∀ fi, p.frame = some fi → ∃ f, s.vm.frames[fi]? = some f ∧ f.lock = none)
    (hclean : ∀ k, k < m.page_cnt →
      (s.vm.pagedir s.vm.cur (m.base + c.PGSIZE * k)).dirty = false) :
    ∃ s1, unmap c s m malloc_ok = some s1 ∧ s1.vm.fs = s.vm.fs ∧
      s1.vm.swap_device = s.vm.swap_device ∧ s1.vm.swap_bitmap = s.vm.swap_bitmap := by
  obtain ⟨s1, h1, -, -, -, hb, hdev, hfs⟩ :=
    unmap_spec c s m malloc_ok h hpg hal hfit hpb hpt
      (fun k hk => by
        obtain ⟨p, hp, -, hfr⟩ := hpages k hk
        exact ⟨p, hp, hfr⟩)
      (fun k hk hd => by
        rw [hclean k hk] at hd
        exact absurd hd (by simp))
  refine ⟨s1, h1, hfs hclean ?_, hdev, hb⟩
  intro k p hk hp
  obtain ⟨q, hq, hth, -⟩ := hpages k hk
  rw [hq] at hp
  rw [← Option.some.inj hp]
  exact hth

theorem unmap_clean_mapping_writes_nothing_witness :
    (∀ k, k < exMapping.page_cnt →
      ((exMapped false).vm.pagedir 1 (exMapping.base + exSmallCfg.PGSIZE * k)).dirty = false) ∧
    ∃ s1, unmap exSmallCfg (exMapped false) exMapping (fun _ => true) = some s1 ∧
      s1.vm.fs = (exMapped false).vm.fs ∧
      s1.vm.swap_device = (exMapped false).vm.swap_device ∧
      s1.vm.swap_bitmap = (exMapped false).vm.swap_bitmap := by
  have hclean : ∀ k, k < exMapping.page_cnt →
      ((exMapped false).vm.pagedir 1 (exMapping.base + exSmallCfg.PGSIZE * k)).dirty
        = false := by
    intro k hk
    have hk2 : k < 2 := hk
    interval_cases k <;> rfl
  refine ⟨hclean, ?_⟩
  exact unmap_clean_mapping_writes_nothing exSmallCfg (exMapped false) exMapping
    (fun _ => true) [exMapPage 1, exMapPage 0] (by decide) (by decide) (by decide)
    (by decide) rfl
    (by
      intro k hk
      have hk2 : k < 2 := hk
      interval_cases k
      · exact ⟨exMapPage 0, rfl, rfl, fun fi hfi =>
          ⟨{ base := 0xC0100000, lock := none, page := some (1, 0x1000) }, by
            rw [← Option.some.inj hfi]
            rfl, rfl⟩⟩
      · exact ⟨exMapPage 1, rfl, rfl, fun fi hfi =>
          ⟨{ base := 0xC0100004, lock := none, page := some (1, 0x1004) }, by
            rw [← Option.some.inj hfi]
            rfl, rfl⟩⟩)
    hclean

theorem mapping_filter_false (q : Page) (A : Nat → Nat) (n k0 : Nat) (hk : k0 < n)
    (hq : q.addr = A k0) : (List.range' 0 n).all (fun k => q.addr != A k) = false := by
  rw [Bool.eq_false_iff]
  intro h
  rw [List.all_eq_true] at h
  have h1 := h k0 (by rw [List.mem_range'_1]; omega)
  simp [hq] at h1

theorem mapping_filter_true (q : Page) (A : Nat → Nat) (n : Nat)
    (hq : ∀ k, k < n → q.addr ≠ A k) :
    (List.range' 0 n).all (fun k => q.addr != A k) = true := by
  rw [List.all_eq_true]
  intro k hk
  rw [List.mem_range'_1] at hk
  simpa using hq k (by omega)

/-- C16: `sys_munmap` returns a value, and then the value 0, only when the handle
names a mapping in the running process's list.  When it names none the process
is terminated and nothing has been modified.  When it names the mapping `m`
(below `PHYS_BASE`, every page with a descriptor whose frame, if any, nobody
has locked, and for the dirty pages the filesystem lock free and the written
memory readable) the call returns 0, the record has left the list, no
descriptor remains at any of the `page_cnt` pages, and the other descriptors of
the process and the tables of the other processes are untouched. -/
theorem sys_munmap_result (c : Config) (s : SysState) (handle : Int)
    (malloc_ok : Nat → Bool) :
    ((∀ m, m ∈ s.mappings s.vm.cur → m.handle ≠ handle) →
      sys_munmap c s handle malloc_ok = some (Outcome.terminated, s)) ∧
    (∀ v s1, sys_munmap c s handle malloc_ok = some (Outcome.returned v, s1) →
      v = 0 ∧ ∃ m, m ∈ s.mappings s.vm.cur ∧ m.handle = handle) ∧
    (∀ m h, lookup_mapping s handle = some m →
      0 < c.PGSIZE → m.base % c.PGSIZE = 0 →
      m.base + c.PGSIZE * m.page_cnt ≤ c.PHYS_BASE → c.PHYS_BASE ≤ 2 ^ 32 →
      s.vm.pages s.vm.cur = some h →
      (∀ k, k < m.page_cnt → ∃ p, hash_find h (m.base + c.PGSIZE * k) = some p ∧
        ∀ fi, p.frame = some fi → ∃ f, s.vm.frames[fi]? = some f ∧ f.lock = none) →
      (∀ k, k < m.page_cnt →
        (s.vm.pagedir s.vm.cur (m.base + c.PGSIZE * k)).dirty = true →
        s.fs_lock = none ∧
        (user_buffer c s.vm (m.base + c.PGSIZE * k)
          (min (c.PGSIZE * m.page_cnt) ((s.vm.fs m.file).length - c.PGSIZE * k))).isSome) →
      m ∈ s.mappings s.vm.cur ∧ m.handle = handle ∧
      ∃ s1, sys_munmap c s handle malloc_ok = some (Outcome.returned 0, s1) ∧
        s1.mappings = (fun t =>
          if t = s.vm.cur then (s.mappings t).erase m else s.mappings t) ∧
        (∀ k, k < m.page_cnt → getPage s1.vm (s.vm.cur, m.base + c.PGSIZE * k) = none) ∧
        (∀ a, (∀ k, k < m.page_cnt → a ≠ m.base + c.PGSIZE * k) →
          getPage s1.vm (s.vm.cur, a) = getPage s.vm (s.vm.cur, a)) ∧
        (∀ t, t ≠ s.vm.cur → s1.vm.pages t = s.vm.pages t)) := by
  refine ⟨?_, ?_, ?_⟩
  · intro hno
    have h1 : lookup_mapping s handle = none := by
      unfold lookup_mapping
      rw [List.find?_eq_none]
      intro m hm
      simpa using hno m hm
    simp only [sys_munmap, h1]
  · intro v s1 hret
    unfold sys_munmap at hret
    cases hl : lookup_mapping s handle with
    | none =>
      rw [hl] at hret
      simp at hret
    | some m =>
      rw [hl] at hret
      simp only [Option.map_eq_some', Prod.mk.injEq, Outcome.returned.injEq] at hret
      obtain ⟨_, _, hv, _⟩ := hret
      refine ⟨hv.symm, m, ?_, ?_⟩
      · exact List.mem_of_find?_eq_some hl
      · have h2 := List.find?_some hl
        simpa using h2
  · intro m h hl hpg hal hfit hpb hpt hpages hread
    obtain ⟨s1, h1, hc, hm, hp, -, -, -⟩ :=
      unmap_spec c s m malloc_ok h hpg hal hfit hpb hpt hpages hread
    refine ⟨List.mem_of_find?_eq_some hl, ?_, s1, ?_, hm, ?_, ?_, ?_⟩
    · have h2 := List.find?_some hl
      simpa using h2
    · simp only [sys_munmap, hl, h1, Option.map_some']
    · intro k hk
      simp only [getPage, hp, if_true, Option.some_bind]
      apply hash_find_filter_drop
      intro q hq
      exact mapping_filter_false q (fun k => m.base + c.PGSIZE * k) m.page_cnt k hk hq
    · intro a ha
      simp only [getPage, hp, if_true, Option.some_bind, hpt]
      apply hash_find_filter_keep
      intro q hq
      apply mapping_filter_true q (fun k => m.base + c.PGSIZE * k)
      intro k hk
      rw [hq]
      exact ha k hk
    · intro t ht
      rw [hp]
      simp [ht]

theorem sys_munmap_result_witness :
    sys_munmap exSmallCfg (exMapped true) 5 (fun _ => true)
      = some (Outcome.terminated, exMapped true) ∧
    lookup_mapping (exMapped true) 0 = some exMapping ∧
    ((exMapped true).vm.pagedir 1 0x1000).dirty = true ∧
    ∃ s1, sys_munmap exSmallCfg (exMapped true) 0 (fun _ => true)
        = some (Outcome.returned 0, s1) ∧
      s1.mappings 1 = [] ∧ getPage s1.vm (1, 0x1000) = none ∧
      getPage s1.vm (1, 0x1004) = none := by
  obtain ⟨h1, -, -⟩ := sys_munmap_result exSmallCfg (exMapped true) 5 (fun _ => true)
  obtain ⟨-, -, h6⟩ := sys_munmap_result exSmallCfg (exMapped true) 0 (fun _ => true)
  obtain ⟨-, -, s1, h7, h8, h9, -⟩ := h6 exMapping [exMapPage 1, exMapPage 0] rfl
    (by decide) (by decide) (by decide) (by decide) rfl
    (by
      intro k hk
      have hk2 : k < 2 := hk
      interval_cases k
      · exact ⟨exMapPage 0, rfl, fun fi hfi =>
          ⟨{ base := 0xC0100000, lock := none, page := some (1, 0x1000) }, by
            rw [← Option.some.inj hfi]
            rfl, rfl⟩⟩
      · exact ⟨exMapPage 1, rfl, fun fi hfi =>
          ⟨{ base := 0xC0100004, lock := none, page := some (1, 0x1004) }, by
            rw [← Option.some.inj hfi]
            rfl, rfl⟩⟩)
    (by
      intro k hk hd
      have hk2 : k < 2 := hk
      interval_cases k
      · exact ⟨rfl, by decide⟩
      · exact absurd hd (by decide))
  refine ⟨h1 (by decide), rfl, rfl, s1, h7, ?_, h9 0 (by decide), h9 1 (by decide)⟩
  rw [h8]
  rfl

/-- C13: `sys_mmap` returns -1 and leaves the whole state alone when `addr` is null
or not page-aligned.  When the first `n` target pages are free and their
descriptors are allocated, and the allocation for page `n` fails because the
address already has a descriptor (or for lack of memory), the call returns -1
after taking back what it installed: the page tables and the lists of mappings
are exactly what they were before the call, so the colliding descriptor is
kept and no record of the attempt remains.  The mapping lies below `PHYS_BASE`
and none of the pages installed has a dirty bit left in the page directory. -/
theorem sys_mmap_unwinds (c : Config) (s : SysState) (file addr : Nat)
    (malloc_m reopen_ok : Bool) (malloc_ok : Nat → Bool) :
    ((addr = 0 ∨ addr % c.PGSIZE ≠ 0) →
      sys_mmap c s file addr malloc_m reopen_ok malloc_ok = some (-1, s)) ∧
    (∀ (h : List Page) (n : Nat), malloc_m = true → reopen_ok = true →
      0 < c.PGSIZE → addr ≠ 0 → addr % c.PGSIZE = 0 →
      addr + (s.vm.fs file).length ≤ c.PHYS_BASE → c.PHYS_BASE ≤ 2 ^ 32 →
      s.fs_lock = none → s.vm.pages s.vm.cur = some h →
      n * c.PGSIZE < (s.vm.fs file).length →
      (∀ j, j < n → malloc_ok j = true ∧ hash_find h (addr + j * c.PGSIZE) = none) →
      (malloc_ok n = false ∨ ∃ q, hash_find h (addr + n * c.PGSIZE) = some q) →
      (∀ j, j < n → (s.vm.pagedir s.vm.cur (addr + j * c.PGSIZE)).dirty = false) →
      ∃ s1, sys_mmap c s file addr malloc_m reopen_ok malloc_ok = some (-1, s1) ∧
        s1.vm.pages = s.vm.pages ∧ s1.mappings = s.mappings ∧
        hash_find h (addr + n * c.PGSIZE)
          = (s1.vm.pages s.vm.cur).bind (fun h1 => hash_find h1 (addr + n * c.PGSIZE))) := by
  constructor
  · intro hbad
    unfold sys_mmap
    rw [if_pos (Or.inr hbad)]
  · intro h n hm hre hpg hnz hal hfit hpb hlock hpt hn hfree hfail hclean
    subst hm
    subst hre
    have hlt : ∀ j, j ≤ n → j * c.PGSIZE < (s.vm.fs file).length := by
      intro j hj
      have h1 : j * c.PGSIZE ≤ n * c.PGSIZE := Nat.mul_le_mul_right _ hj
      omega
    have htarget : ∀ j, j ≤ n →
        pg_round_down c (ptr_add addr (j * c.PGSIZE)) = addr + j * c.PGSIZE :=
      fun j hj => mmap_target c addr _ j hal (by omega) (hlt j hj)
    have hinj : ∀ j1 j2 : Nat, j1 ≠ j2 → addr + j1 * c.PGSIZE ≠ addr + j2 * c.PGSIZE := by
      intro j1 j2 hne heq
      have h1 : j1 * c.PGSIZE = j2 * c.PGSIZE := by omega
      exact hne (Nat.eq_of_mul_eq_mul_right hpg h1)
    -- the loop
    have hloop := mmap_loop_fails c malloc_ok n (s.vm.fs file).length s.vm
      { handle := s.next_handle s.vm.cur, file := file, base := addr, page_cnt := 0 }
      0 (s.vm.fs file).length h hn (Nat.le_refl _) hpt
      (by
        intro j hj
        obtain ⟨h1, h2⟩ := hfree j hj
        simp only [Nat.zero_add]
        rw [htarget j (by omega)]
        exact ⟨h1, h2⟩)
      (by
        simp only [Nat.zero_add]
        rw [htarget n (Nat.le_refl _)]
        exact hfail)
      (by
        intro j1 j2 hj1 hj2 hne
        simp only [Nat.zero_add]
        rw [htarget j1 (by omega), htarget j2 (by omega)]
        exact hinj j1 j2 hne)
    simp only [Nat.zero_add] at hloop
    -- the descriptors installed
    have hdaddr : ∀ j, j < n →
        (mmap_descriptor c s.vm.cur file addr 0 (s.vm.fs file).length j).addr
          = addr + j * c.PGSIZE := by
      intro j hj
      simp only [mmap_descriptor, Nat.zero_add]
      exact htarget j (by omega)
    have hfound : ∀ j, j < n →
        hash_find (((List.range n).map
            (mmap_descriptor c s.vm.cur file addr 0 (s.vm.fs file).length)).reverse ++ h)
          (addr + j * c.PGSIZE)
        = some (mmap_descriptor c s.vm.cur file addr 0 (s.vm.fs file).length j) := by
      intro j hj
      rw [← hdaddr j hj]
      apply hash_find_rev_map _ h n j hj
      intro j1 j2 hj1 hj2 hne
      rw [hdaddr j1 hj1, hdaddr j2 hj2]
      exact hinj j1 j2 hne
    have hcomm : ∀ j, addr + c.PGSIZE * j = addr + j * c.PGSIZE := by
      intro j
      rw [Nat.mul_comm]
    have hfit2 : addr + c.PGSIZE * n ≤ c.PHYS_BASE := by
      have h1 := hlt n (Nat.le_refl _)
      rw [hcomm]
      omega
    -- the unwinding
    obtain ⟨s1, hun, -, hmaps, hpages, -, -, -⟩ := unmap_spec c
      { vm :=
          { s.vm with
            pages := fun t =>
              if t = s.vm.cur then
                some (((List.range n).map
                  (mmap_descriptor c s.vm.cur file addr 0 (s.vm.fs file).length)).reverse ++ h)
              else s.vm.pages t }
        mappings := fun t =>
          if t = s.vm.cur then
            { handle := s.next_handle s.vm.cur, file := file, base := addr, page_cnt := n }
              :: s.mappings t
          else s.mappings t
        next_handle := fun t =>
          if t = s.vm.cur then s.next_handle s.vm.cur + 1 else s.next_handle t
        fs_lock := s.fs_lock }
      { handle := s.next_handle s.vm.cur, file := file, base := addr, page_cnt := n }
      malloc_ok
      (((List.range n).map
        (mmap_descriptor c s.vm.cur file addr 0 (s.vm.fs file).length)).reverse ++ h)
      hpg hal hfit2 hpb (by simp)
      (by
        intro k hk
        refine ⟨_, by rw [hcomm]; exact hfound k hk, ?_⟩
        intro fi hfi
        simp [mmap_descriptor] at hfi)
      (by
        intro k hk hd
        have h1 := hclean k hk
        rw [← hcomm] at h1
        rw [h1] at hd
        exact absurd hd (by simp))
    dsimp only at hmaps hpages
    have htable : (((List.range n).map
          (mmap_descriptor c s.vm.cur file addr 0 (s.vm.fs file).length)).reverse ++ h).filter
          (fun q => (List.range' 0 n).all (fun k => q.addr != addr + c.PGSIZE * k)) = h := by
      rw [List.filter_append]
      have h1 : (((List.range n).map
          (mmap_descriptor c s.vm.cur file addr 0 (s.vm.fs file).length)).reverse).filter
          (fun q => (List.range' 0 n).all (fun k => q.addr != addr + c.PGSIZE * k)) = [] := by
        rw [List.filter_eq_nil_iff]
        intro q hq
        rw [List.mem_reverse, List.mem_map] at hq
        obtain ⟨j, hj, rfl⟩ := hq
        rw [List.mem_range] at hj
        rw [mapping_filter_false _ (fun k => addr + c.PGSIZE * k) n j hj
          (by rw [hdaddr j hj]; exact (hcomm j).symm)]
        simp
      have h2 : h.filter
          (fun q => (List.range' 0 n).all (fun k => q.addr != addr + c.PGSIZE * k)) = h := by
        rw [List.filter_eq_self]
        intro q hq
        apply mapping_filter_true q (fun k => addr + c.PGSIZE * k)
        intro k hk
        show q.addr ≠ addr + c.PGSIZE * k
        rw [hcomm]
        exact hash_find_none_iff.mp (hfree k hk).2 q hq
      rw [h1, h2]
      rfl
    refine ⟨s1, ?_, ?_, ?_, ?_⟩
    · unfold sys_mmap
      rw [if_neg (by
        intro h1
        rcases h1 with h1 | h1 | h1
        · exact absurd h1 (by simp)
        · exact hnz h1
        · exact h1 hal)]
      have hla : lock_acquire s.fs_lock s.vm.cur = some (some s.vm.cur) := by
        rw [hlock]
        rfl
      simp only [hla, hloop, Bool.true_eq_false, if_false]
      rw [hun]
      rfl
    · rw [hpages]
      funext t
      by_cases ht : t = s.vm.cur
      · simp only [ht, if_true]
        rw [htable]
        exact hpt.symm
      · simp [ht]
    · rw [hmaps]
      funext t
      by_cases ht : t = s.vm.cur
      · simp [ht]
      · simp [ht]
    · rw [hpages]
      simp only [if_true, Option.some_bind]
      rw [htable]

theorem sys_mmap_unwinds_witness :
    sys_mmap exSmallCfg (exFresh [exOldPage]) 7 0x1002 true true (fun _ => true)
      = some (-1, exFresh [exOldPage]) ∧
    hash_find [exOldPage] 0x1000 = none ∧ hash_find [exOldPage] 0x1004 = some exOldPage ∧
    ∃ s1, sys_mmap exSmallCfg (exFresh [exOldPage]) 7 0x1000 true true (fun _ => true)
        = some (-1, s1) ∧
      s1.vm.pages 1 = some [exOldPage] ∧ s1.mappings 1 = [] := by
  obtain ⟨h1, -⟩ := sys_mmap_unwinds exSmallCfg (exFresh [exOldPage]) 7 0x1002 true true
    (fun _ => true)
  obtain ⟨-, h2⟩ := sys_mmap_unwinds exSmallCfg (exFresh [exOldPage]) 7 0x1000 true true
    (fun _ => true)
  obtain ⟨s1, h3, h4, h5, -⟩ := h2 [exOldPage] 1 rfl rfl (by decide) (by decide) (by decide)
    (by decide) (by decide) rfl rfl (by decide)
    (by
      intro j hj
      have hj1 : j = 0 := by omega
      subst hj1
      exact ⟨rfl, rfl⟩)
    (Or.inr ⟨exOldPage, rfl⟩)
    (fun _ _ => rfl)
  refine ⟨h1 (Or.inr (by decide)), rfl, rfl, s1, h3, ?_, ?_⟩
  · rw [h4]
    rfl
  · rw [h5]
    rfl

/-! ## What eviction and frame allocation do to descriptors and frame bindings -/

theorem frame_page_congr {s t : State} (h : t.frames = s.frames) (j : Nat) :
    frame_page t j = frame_page s j := by
  unfold frame_page
  rw [h]

theorem frame_page_modify_keep (s t : State) (i : Nat) (g : Frame → Frame)
    (h : t.frames = s.frames.modify g i) (hg : ∀ f, (g f).page = f.page) (j : Nat) :
    frame_page t j = frame_page s j := by
  unfold frame_page
  rw [h]
  by_cases hji : i = j
  · subst hji
    rw [List.getElem?_modify_eq]
    cases s.frames[i]? with
    | none => rfl
    | some f => exact hg f
  · rw [List.getElem?_modify_ne _ _ hji]

theorem frame_page_modify_ne (s t : State) (i : Nat) (g : Frame → Frame)
    (h : t.frames = s.frames.modify g i) (j : Nat) (hji : j ≠ i) :
    frame_page t j = frame_page s j := by
  unfold frame_page
  rw [h, List.getElem?_modify_ne _ _ (Ne.symm hji)]

theorem frame_page_modify_eq (s t : State) (i : Nat) (g : Frame → Frame) (f : Frame)
    (h : t.frames = s.frames.modify g i) (hf : s.frames[i]? = some f) :
    frame_page t i = (g f).page := by
  unfold frame_page
  rw [h, List.getElem?_modify_eq, hf]
  rfl

theorem sameView_refl (s : State) : SameView s s := ⟨rfl, fun _ => rfl, fun _ => rfl⟩

theorem sameView_trans {s s1 s2 : State} (h1 : SameView s s1) (h2 : SameView s1 s2) :
    SameView s s2 :=
  ⟨by rw [h2.1, h1.1], fun r => by rw [h2.2.1, h1.2.1], fun j => by rw [h2.2.2, h1.2.2]⟩

theorem sameView_of_eq {s s1 : State} (hc : s1.cur = s.cur) (hp : s1.pages = s.pages)
    (hf : s1.frames = s.frames) : SameView s s1 :=
  ⟨hc, fun r => getPage_congr hp r, fun j => frame_page_congr hf j⟩

theorem allocEffect_of_view {s s0 s1 : State} {r : PageRef} {res : Option Nat}
    (hv : SameView s s0) (h : AllocEffect s0 s1 r res) : AllocEffect s s1 r res := by
  obtain ⟨hc, hp, hf⟩ := hv
  rcases h with ⟨h1, h2⟩ | ⟨i, h1, h2, h3, h4, h5⟩
  · exact Or.inl ⟨h1, sameView_trans ⟨hc, hp, hf⟩ h2⟩
  · refine Or.inr ⟨i, h1, by rw [h2, hc], h3, fun j hj => by rw [h4 j hj, hf], ?_⟩
    rcases h5 with ⟨h6, h7⟩ | ⟨q, p, p1, h6, h7, h8, h9, h10⟩
    · exact Or.inl ⟨by rw [← hf]; exact h6, fun r1 => by rw [h7, hp]⟩
    · exact Or.inr ⟨q, p, p1, by rw [← hf]; exact h6, by rw [← hp]; exact h7, h8, h9,
        fun r1 hr1 => by rw [h10 r1 hr1, hp]⟩

theorem allocEffect_view_of {s s1 s2 : State} {r : PageRef} {res : Option Nat}
    (h : AllocEffect s s1 r res) (hv : SameView s1 s2) : AllocEffect s s2 r res := by
  obtain ⟨hc, hp, hf⟩ := hv
  rcases h with ⟨h1, h2⟩ | ⟨i, h1, h2, h3, h4, h5⟩
  · exact Or.inl ⟨h1, sameView_trans h2 ⟨hc, hp, hf⟩⟩
  · refine Or.inr ⟨i, h1, by rw [hc, h2], by rw [hf]; exact h3,
      fun j hj => by rw [hf, h4 j hj], ?_⟩
    rcases h5 with ⟨h6, h7⟩ | ⟨q, p, p1, h6, h7, h8, h9, h10⟩
    · exact Or.inl ⟨h6, fun r1 => by rw [hp, h7]⟩
    · exact Or.inr ⟨q, p, p1, h6, h7, by rw [hp]; exact h8, h9,
        fun r1 hr1 => by rw [hp, h10 r1 hr1]⟩

/-- What `page_out` does to the descriptors: only the evicted page changes, and
only when the result is true. -/
theorem page_out_effect (c : Config) (s s1 : State) (q : PageRef) (ok : Bool)
    (h : page_out c s q = some (ok, s1)) :
    s1.cur = s.cur ∧ s1.frames = s.frames ∧ (∀ r, r ≠ q → getPage s1 r = getPage s r) ∧
    (ok = false → getPage s1 q = getPage s q) ∧
    (ok = true → ∃ p p1, getPage s q = some p ∧ getPage s1 q = some p1 ∧ Evicted p p1) := by
  obtain ⟨-, hc, hf, hother⟩ := page_out_keeps c s s1 q ok h
  refine ⟨hc, hf, hother, ?_⟩
  unfold page_out at h
  cases hq : getPage s q with
  | none => simp [hq] at h
  | some p =>
    simp only [hq] at h
    cases hfr : p.frame with
    | none => simp [hfr] at h
    | some fi =>
      simp only [hfr] at h
      cases hfm : s.frames[fi]? with
      | none => simp [hfm] at h
      | some f =>
        simp only [hfm] at h
        split at h
        · simp at h
        · split at h
          · simp at h
          · rename_i ok2 s2 hrouted
            have hk : (ok2 = false → getPage s2 q = some p) ∧
                (ok2 = true → ∃ p2, getPage s2 q = some p2 ∧
                  ((p2.sector = p.sector ∧ p2.file = p.file) ∨ p2.file = none)) := by
              have hswap : ∀ ok3 s3,
                  swap_out c (pagedir_clear_page s p.thread p.addr) q = some (ok3, s3) →
                  (ok3 = false → getPage s3 q = some p) ∧
                  (ok3 = true → ∃ p2, getPage s3 q = some p2 ∧
                    ((p2.sector = p.sector ∧ p2.file = p.file) ∨ p2.file = none)) := by
                intro ok3 s3 hso
                cases ok3 with
                | false =>
                  have h1 := swap_out_false_state c _ _ _ hso
                  refine ⟨fun _ => ?_, fun h2 => absurd h2 (by simp)⟩
                  rw [h1]
                  exact hq
                | true =>
                  obtain ⟨p0, fi0, slot, h1, -, -, h4⟩ := swap_out_elim c _ _ _ hso
                  refine ⟨fun h2 => absurd h2 (by simp), fun _ => ?_⟩
                  have h5 : getPage (pagedir_clear_page s p.thread p.addr) q = some p := hq
                  rw [h4, getPage_setPage_same _ _ _ (by intro x; rfl)]
                  have h6 : getPage
                      { pagedir_clear_page s p.thread p.addr with
                        swap_bitmap := (pagedir_clear_page s p.thread p.addr).swap_bitmap.set
                          slot true
                        swap_device := swap_out_sectors c
                          (pagedir_clear_page s p.thread p.addr).swap_device
                          (slot * PAGE_SECTORS c)
                          ((pagedir_clear_page s p.thread p.addr).kmem fi0) (PAGE_SECTORS c) }
                      q = some p := hq
                  rw [h6]
                  exact ⟨_, rfl, Or.inr rfl⟩
              split at hrouted
              · exact hswap _ _ hrouted
              · split at hrouted
                · split at hrouted
                  · exact hswap _ _ hrouted
                  · simp only [Option.some.injEq, Prod.mk.injEq] at hrouted
                    obtain ⟨-, rfl⟩ := hrouted
                    exact ⟨fun _ => hq, fun _ => ⟨p, hq, Or.inl ⟨rfl, rfl⟩⟩⟩
                · simp only [Option.some.injEq, Prod.mk.injEq] at hrouted
                  obtain ⟨-, rfl⟩ := hrouted
                  exact ⟨fun _ => hq, fun _ => ⟨p, hq, Or.inl ⟨rfl, rfl⟩⟩⟩
            split at h
            · rename_i hok2
              simp only [Option.some.injEq, Prod.mk.injEq] at h
              obtain ⟨rfl, rfl⟩ := h
              refine ⟨fun h2 => absurd h2 (by simp), fun _ => ?_⟩
              obtain ⟨p2, hp2, hp3⟩ := hk.2 hok2
              refine ⟨p, { p2 with frame := none }, rfl, ?_, rfl, hp3⟩
              rw [getPage_setPage_same _ _ _ (by intro x; rfl), hp2]
              rfl
            · rename_i hok2
              simp only [Option.some.injEq, Prod.mk.injEq] at h
              obtain ⟨rfl, rfl⟩ := h
              refine ⟨fun _ => ?_, fun h2 => absurd h2 (by simp)⟩
              exact hk.1 (by simpa using hok2)

theorem find_free_frame_effect (s : State) (r : PageRef) :
    ∀ (n i : Nat) (s1 : State) (res : Option Nat),
      find_free_frame s r n i = some (res, s1) → AllocEffect s s1 r res := by
  intro n
  induction n with
  | zero =>
    intro i s1 res h
    simp only [find_free_frame, Option.some.injEq, Prod.mk.injEq] at h
    obtain ⟨rfl, rfl⟩ := h
    exact Or.inl ⟨rfl, sameView_refl s⟩
  | succ n ih =>
    intro i s1 res h
    unfold find_free_frame at h
    cases hfr : s.frames[i]? with
    | none => simp [hfr] at h
    | some f =>
      simp only [hfr] at h
      cases hlk : f.lock with
      | some t =>
        simp only [hlk, lock_try_acquire] at h
        exact ih _ _ _ h
      | none =>
        simp only [hlk, lock_try_acquire] at h
        cases hpg : f.page with
        | some q =>
          simp only [hpg] at h
          exact ih _ _ _ h
        | none =>
          simp only [hpg, Option.some.injEq, Prod.mk.injEq] at h
          obtain ⟨rfl, rfl⟩ := h
          refine Or.inr ⟨i, rfl, rfl, ?_, ?_, Or.inl ⟨?_, fun _ => rfl⟩⟩
          · exact frame_page_modify_eq s _ i
              (fun g => { g with lock := some s.cur, page := some r }) f rfl hfr
          · intro j hj
            exact frame_page_modify_ne s _ i
              (fun g => { g with lock := some s.cur, page := some r }) rfl j hj
          · simp [frame_page, hfr, hpg]

theorem evict_frame_effect (c : Config) (r : PageRef) :
    ∀ (n : Nat) (s s1 : State) (res : Option Nat),
      evict_frame c r n s = some (res, s1) → AllocEffect s s1 r res := by
  intro n
  induction n with
  | zero =>
    intro s s1 res h
    simp only [evict_frame, Option.some.injEq, Prod.mk.injEq] at h
    obtain ⟨rfl, rfl⟩ := h
    exact Or.inl ⟨rfl, sameView_of_eq rfl rfl rfl⟩
  | succ n ih =>
    intro s s1 res h
    unfold evict_frame at h
    cases hfr : s.frames[s.hand]? with
    | none => simp [hfr] at h
    | some f =>
      simp only [hfr] at h
      cases hlk : f.lock with
      | some t =>
        simp only [hlk, lock_try_acquire] at h
        have h2 := ih _ _ _ h
        exact allocEffect_of_view (sameView_of_eq rfl rfl rfl) h2
      | none =>
        simp only [hlk, lock_try_acquire] at h
        cases hpg : f.page with
        | none =>
          simp only [hpg, Option.some.injEq, Prod.mk.injEq] at h
          obtain ⟨rfl, rfl⟩ := h
          refine Or.inr ⟨s.hand, rfl, rfl, ?_, ?_, Or.inl ⟨?_, fun _ => rfl⟩⟩
          · unfold frame_page
            simp only [setFrame]
            rw [List.getElem?_modify_eq, List.getElem?_modify_eq, hfr]
            rfl
          · intro j hj
            unfold frame_page
            simp only [setFrame]
            rw [List.getElem?_modify_ne _ _ (Ne.symm hj),
              List.getElem?_modify_ne _ _ (Ne.symm hj)]
          · simp [frame_page, hfr, hpg]
        | some q =>
          simp only [hpg] at h
          have hv2 : SameView s
              (setFrame { s with hand := if s.hand + 1 ≥ s.frames.length then 0 else s.hand + 1 }
                s.hand (fun g => { g with lock := some s.cur })) :=
            ⟨rfl, fun _ => rfl, fun j =>
              frame_page_modify_keep s _ s.hand (fun g => { g with lock := some s.cur }) rfl
                (fun _ => rfl) j⟩
          cases hpa : page_accessed_recently
              (setFrame { s with hand := if s.hand + 1 ≥ s.frames.length then 0 else s.hand + 1 }
                s.hand (fun g => { g with lock := some s.cur })) q with
          | none => simp [hpa] at h
          | some x =>
            obtain ⟨b, s3⟩ := x
            obtain ⟨-, hc3, hf3, hp3⟩ := page_accessed_recently_keeps _ _ _ _ hpa
            have hv3 : SameView s s3 := sameView_trans hv2 (sameView_of_eq hc3 hp3 hf3)
            cases b with
            | true =>
              simp only [hpa] at h
              have h2 := ih _ _ _ h
              refine allocEffect_of_view (sameView_trans hv3 ?_) h2
              exact ⟨rfl, fun _ => rfl, fun j =>
                frame_page_modify_keep s3 _ s.hand (fun g => { g with lock := none }) rfl
                  (fun _ => rfl) j⟩
            | false =>
              simp only [hpa] at h
              cases hpo : page_out c { s3 with scan_lock := none } q with
              | none => simp [hpo] at h
              | some y =>
                obtain ⟨ok, s4⟩ := y
                obtain ⟨hc4, hf4, hother, hfalse, htrue⟩ := page_out_effect c _ _ _ _ hpo
                have hfq : frame_page s s.hand = some q := by
                  simp [frame_page, hfr, hpg]
                have hf4s : ∀ j, frame_page s4 j = frame_page s j := by
                  intro j
                  rw [frame_page_congr hf4 j]
                  exact hv3.2.2 j
                have hlen : ∃ f4, s4.frames[s.hand]? = some f4 ∧ f4.page = some q := by
                  have h1 := hf4s s.hand
                  rw [hfq] at h1
                  unfold frame_page at h1
                  cases h2 : s4.frames[s.hand]? with
                  | none => simp [h2] at h1
                  | some f4 =>
                    rw [h2] at h1
                    exact ⟨f4, rfl, h1⟩
                cases ok with
                | false =>
                  simp only [hpo, Option.some.injEq, Prod.mk.injEq] at h
                  obtain ⟨rfl, rfl⟩ := h
                  refine Or.inl ⟨rfl, ?_, ?_, ?_⟩
                  · show s4.cur = s.cur
                    rw [hc4]
                    exact hv3.1
                  · intro r1
                    show getPage s4 r1 = getPage s r1
                    by_cases hr1 : r1 = q
                    · rw [hr1, hfalse rfl]
                      exact hv3.2.1 q
                    · rw [hother r1 hr1]
                      exact hv3.2.1 r1
                  · intro j
                    rw [frame_page_modify_keep s4 _ s.hand (fun g => { g with lock := none }) rfl
                      (fun _ => rfl) j]
                    exact hf4s j
                | true =>
                  simp only [hpo, Option.some.injEq, Prod.mk.injEq] at h
                  obtain ⟨rfl, rfl⟩ := h
                  obtain ⟨f4, hf4h, -⟩ := hlen
                  obtain ⟨p, p1, hp, hp1, hev⟩ := htrue rfl
                  refine Or.inr ⟨s.hand, rfl, ?_, ?_, ?_, Or.inr ⟨q, p, p1, hfq, ?_, hp1, hev, ?_⟩⟩
                  · show s4.cur = s.cur
                    rw [hc4]
                    exact hv3.1
                  · rw [frame_page_modify_eq s4 _ s.hand (fun g => { g with page := some r }) f4
                      rfl hf4h]
                  · intro j hj
                    rw [frame_page_modify_ne s4 _ s.hand (fun g => { g with page := some r })
                      rfl j hj]
                    exact hf4s j
                  · rw [← hv3.2.1 q]
                    exact hp
                  · intro r1 hr1
                    show getPage s4 r1 = getPage s r1
                    rw [hother r1 hr1]
                    exact hv3.2.1 r1

theorem try_frame_alloc_and_lock_effect (c : Config) (s s1 : State) (r : PageRef)
    (res : Option Nat) (h : try_frame_alloc_and_lock c s r = some (res, s1)) :
    AllocEffect s s1 r res := by
  unfold try_frame_alloc_and_lock at h
  cases hla : lock_acquire s.scan_lock s.cur with
  | none => simp [hla] at h
  | some l =>
    simp only [hla] at h
    cases hff : find_free_frame { s with scan_lock := l } r s.frames.length 0 with
    | none => simp [hff] at h
    | some x =>
      obtain ⟨res2, s2⟩ := x
      have h1 := find_free_frame_effect _ r _ _ _ _ hff
      have hv : SameView s { s with scan_lock := l } := sameView_of_eq rfl rfl rfl
      cases res2 with
      | some i =>
        simp only [hff, Option.some.injEq, Prod.mk.injEq] at h
        obtain ⟨rfl, rfl⟩ := h
        exact allocEffect_of_view hv h1
      | none =>
        simp only [hff] at h
        rcases h1 with ⟨-, h2⟩ | ⟨i, h2, -⟩
        · have h3 := evict_frame_effect c r _ _ _ _ h
          exact allocEffect_of_view (sameView_trans hv h2) h3
        · exact absurd h2 (by simp)

theorem frame_alloc_retry_effect (c : Config) (r : PageRef) :
    ∀ (n : Nat) (s s1 : State) (res : Option Nat),
      frame_alloc_retry c r n s = some (res, s1) → AllocEffect s s1 r res := by
  intro n
  induction n with
  | zero =>
    intro s s1 res h
    simp only [frame_alloc_retry, Option.some.injEq, Prod.mk.injEq] at h
    obtain ⟨rfl, rfl⟩ := h
    exact Or.inl ⟨rfl, sameView_refl s⟩
  | succ n ih =>
    intro s s1 res h
    unfold frame_alloc_retry at h
    cases htry : try_frame_alloc_and_lock c s r with
    | none => simp [htry] at h
    | some x =>
      obtain ⟨res2, s2⟩ := x
      have h1 := try_frame_alloc_and_lock_effect c s s2 r res2 htry
      cases res2 with
      | some i =>
        simp only [htry] at h
        cases hfi : s2.frames[i]? with
        | none => simp [hfi] at h
        | some f =>
          simp only [hfi] at h
          split at h
          · simp only [Option.some.injEq, Prod.mk.injEq] at h
            obtain ⟨rfl, rfl⟩ := h
            exact h1
          · simp at h
      | none =>
        simp only [htry] at h
        rcases h1 with ⟨-, h2⟩ | ⟨i, h2, -⟩
        · have h3 := ih _ _ _ h
          exact allocEffect_of_view h2 h3
        · exact absurd h2 (by simp)

theorem frame_alloc_and_lock_effect (c : Config) (s s1 : State) (r : PageRef)
    (res : Option Nat) (h : frame_alloc_and_lock c s r = some (res, s1)) :
    AllocEffect s s1 r res :=
  frame_alloc_retry_effect c r 3 s s1 res h

/-! ## The invariants across frame allocation, lookup and page-in -/

theorem storeInv_of_view {s s1 : State} (hv : SameView s s1) (h : StoreInv s) :
    StoreInv s1 := by
  intro r p hp
  rw [hv.2.1] at hp
  exact h r p hp

theorem bound_of_view {s s1 : State} (hv : SameView s s1) (h : Bound s) : Bound s1 := by
  intro r fi
  unfold page_frame
  rw [hv.2.1, hv.2.2]
  exact h r fi

theorem page_frame_of_view {s s1 : State} (hv : SameView s s1) (r : PageRef) :
    page_frame s1 r = page_frame s r := by
  unfold page_frame
  rw [hv.2.1]

theorem exclusive_of_evicted {p p1 : Page} (he : Evicted p p1) (h : Exclusive p) :
    Exclusive p1 := by
  intro hs
  obtain ⟨h1, h2 | h2⟩ := he
  · rw [h2.1] at hs
    exact ⟨h1, by rw [h2.2]; exact (h hs).2⟩
  · exact ⟨h1, h2⟩

theorem storeInv_of_page_out (c : Config) (s s1 : State) (q : PageRef) (ok : Bool)
    (h : page_out c s q = some (ok, s1)) (hi : StoreInv s) : StoreInv s1 := by
  obtain ⟨-, -, hother, hfalse, htrue⟩ := page_out_effect c s s1 q ok h
  intro r p hp
  by_cases hr : r = q
  · subst hr
    cases ok with
    | false =>
      rw [hfalse rfl] at hp
      exact hi r p hp
    | true =>
      obtain ⟨p0, p1, h0, h1, hev⟩ := htrue rfl
      rw [h1] at hp
      rw [← Option.some.inj hp]
      exact exclusive_of_evicted hev (hi r p0 h0)
  · rw [hother r hr] at hp
    exact hi r p hp

theorem storeInv_of_alloc {s s1 : State} {r : PageRef} {res : Option Nat}
    (h : AllocEffect s s1 r res) (hi : StoreInv s) : StoreInv s1 := by
  rcases h with ⟨-, hv⟩ | ⟨i, -, -, -, -, h5⟩
  · exact storeInv_of_view hv hi
  · rcases h5 with ⟨-, h7⟩ | ⟨q, p, p1, -, h7, h8, h9, h10⟩
    · intro r1 p1 hp1
      rw [h7] at hp1
      exact hi r1 p1 hp1
    · intro r1 p2 hp2
      by_cases hr : r1 = q
      · subst hr
        rw [h8] at hp2
        rw [← Option.some.inj hp2]
        exact exclusive_of_evicted h9 (hi r1 p h7)
      · rw [h10 r1 hr] at hp2
        exact hi r1 p2 hp2

theorem bound_of_alloc {s s1 : State} {r : PageRef} {res : Option Nat}
    (h : AllocEffect s s1 r res) (hb : Bound s) (hnr : page_frame s r = none) :
    (res = none → Bound s1) ∧ (∀ i, res = some i → BoundExcept s1 r i) := by
  rcases h with ⟨h1, hv⟩ | ⟨i, h1, -, h3, h4, h5⟩
  · refine ⟨fun _ => bound_of_view hv hb, fun i hi => ?_⟩
    rw [h1] at hi
    exact absurd hi (by simp)
  · refine ⟨fun hn => ?_, fun i0 hi0 => ?_⟩
    · rw [h1] at hn
      exact absurd hn (by simp)
    · rw [h1] at hi0
      have hii : i = i0 := Option.some.inj hi0
      subst hii
      rcases h5 with ⟨h6, h7⟩ | ⟨q, p, p1, h6, h7, h8, h9, h10⟩
      · have hpf : ∀ r1, page_frame s1 r1 = page_frame s r1 := by
          intro r1
          unfold page_frame
          rw [h7]
        refine ⟨h3, by rw [hpf]; exact hnr, ?_⟩
        intro r1 fi
        rw [hpf, hb r1 fi]
        constructor
        · intro h11
          have hne : fi ≠ i := by
            intro heq
            rw [heq, h6] at h11
            exact absurd h11 (by simp)
          exact ⟨hne, by rw [h4 fi hne]; exact h11⟩
        · intro h11
          rw [← h4 fi h11.1]
          exact h11.2
      · have hqi : page_frame s q = some i := (hb q i).mpr h6
        have hrq : r ≠ q := by
          intro heq
          rw [heq, hqi] at hnr
          exact absurd hnr (by simp)
        have hpf : ∀ r1, r1 ≠ q → page_frame s1 r1 = page_frame s r1 := by
          intro r1 hr1
          unfold page_frame
          rw [h10 r1 hr1]
        have hpq : page_frame s1 q = none := by
          unfold page_frame
          rw [h8]
          exact h9.1
        refine ⟨h3, by rw [hpf r hrq]; exact hnr, ?_⟩
        intro r1 fi
        by_cases hr1 : r1 = q
        · subst hr1
          rw [hpq]
          constructor
          · intro h11
            exact absurd h11 (by simp)
          · intro h11
            rw [h4 fi h11.1] at h11
            have h12 := (hb r1 fi).mpr h11.2
            rw [hqi] at h12
            exact absurd (Option.some.inj h12).symm h11.1
        · rw [hpf r1 hr1, hb r1 fi]
          constructor
          · intro h11
            have hne : fi ≠ i := by
              intro heq
              rw [heq, h6] at h11
              exact hr1 (Option.some.inj h11).symm
            exact ⟨hne, by rw [h4 fi hne]; exact h11⟩
          · intro h11
            rw [← h4 fi h11.1]
            exact h11.2

/-- What `do_page_in` does after the frame allocation. -/
theorem do_page_in_effect (c : Config) (s s1 : State) (r : PageRef) (ok : Bool)
    (h : do_page_in c s r = some (ok, s1)) :
    ∃ res s0, AllocEffect s s0 r res ∧ s1.cur = s0.cur ∧
      (∀ j, frame_page s1 j = frame_page s0 j) ∧
      (∀ r1, r1 ≠ r → getPage s1 r1 = getPage s0 r1) ∧
      ((res = none ∧ ok = false ∧
          getPage s1 r = (getPage s0 r).map (fun q => { q with frame := none })) ∨
       (∃ fi p0 p1, res = some fi ∧ ok = true ∧ getPage s0 r = some p0 ∧
          getPage s1 r = some p1 ∧ p1.frame = some fi ∧ p1.sector = none ∧
          p1.file = p0.file)) := by
  unfold do_page_in at h
  cases hfa : frame_alloc_and_lock c s r with
  | none => simp [hfa] at h
  | some x =>
    obtain ⟨res, s0⟩ := x
    have halloc := frame_alloc_and_lock_effect c s s0 r res hfa
    refine ⟨res, s0, halloc, ?_⟩
    cases res with
    | none =>
      simp only [hfa, Option.some.injEq, Prod.mk.injEq] at h
      obtain ⟨rfl, rfl⟩ := h
      refine ⟨rfl, fun _ => rfl, ?_, Or.inl ⟨rfl, rfl, ?_⟩⟩
      · intro r1 hr1
        exact getPage_setPage_other _ _ _ _ (by intro x; rfl) hr1
      · exact getPage_setPage_same _ _ _ (by intro x; rfl)
    | some fi =>
      simp only [hfa] at h
      have hsame : getPage (setPage s0 r (fun q => { q with frame := some fi })) r
          = (getPage s0 r).map (fun q => { q with frame := some fi }) :=
        getPage_setPage_same _ _ _ (by intro x; rfl)
      have hoth : ∀ r1, r1 ≠ r →
          getPage (setPage s0 r (fun q => { q with frame := some fi })) r1 = getPage s0 r1 :=
        fun r1 hr1 => getPage_setPage_other _ _ _ _ (by intro x; rfl) hr1
      cases hp0 : getPage s0 r with
      | none =>
        rw [hp0] at hsame
        simp [hsame] at h
      | some p0 =>
        rw [hp0] at hsame
        simp only [Option.map_some'] at hsame
        simp only [hsame] at h
        cases hsec : p0.sector with
        | some sec =>
          simp only [hsec, Option.map_eq_some', Prod.mk.injEq] at h
          obtain ⟨s3, hsi, rfl, rfl⟩ := h
          obtain ⟨p, fi2, sec2, h1, -, -, h4⟩ := swap_in_elim c _ _ _ hsi
          rw [hsame] at h1
          have h5 : ∀ r1, getPage s3 r1 = getPage
              (setPage (setPage s0 r (fun q => { q with frame := some fi })) r
                (fun x => { x with sector := none })) r1 := by
            intro r1
            rw [h4]
            rfl
          refine ⟨?_, ?_, ?_, Or.inr ⟨fi, p0, { p with sector := none }, rfl, rfl, rfl, ?_,
            ?_, rfl, ?_⟩⟩
          · rw [h4]
            rfl
          · intro j
            rw [h4]
            rfl
          · intro r1 hr1
            rw [h5, getPage_setPage_other _ _ _ _ (by intro x; rfl) hr1]
            exact hoth r1 hr1
          · rw [h5, getPage_setPage_same _ _ _ (by intro x; rfl), hsame]
            rw [← Option.some.inj h1]
            rfl
          · rw [← Option.some.inj h1]
          · rw [← Option.some.inj h1]
        | none =>
          simp only [hsec] at h
          have hfin : ∀ (mem : Nat → Byte), s1 =
              { setPage s0 r (fun q => { q with frame := some fi }) with
                kmem := fun i =>
                  if i = fi then mem
                  else (setPage s0 r (fun q => { q with frame := some fi })).kmem i } →
              s1.cur = s0.cur ∧ (∀ j, frame_page s1 j = frame_page s0 j) ∧
              (∀ r1, r1 ≠ r → getPage s1 r1 = getPage s0 r1) ∧
              getPage s1 r = some { p0 with frame := some fi } := by
            intro mem hs1
            rw [hs1]
            exact ⟨rfl, fun _ => rfl, hoth, hsame⟩
          cases hfile : p0.file with
          | some fl =>
            simp only [hfile, Option.some.injEq, Prod.mk.injEq] at h
            obtain ⟨rfl, hs1⟩ := h
            obtain ⟨a1, a2, a3, a4⟩ := hfin _ hs1.symm
            exact ⟨a1, a2, a3, Or.inr ⟨fi, p0, _, rfl, rfl, rfl, a4, rfl, hsec, rfl⟩⟩
          | none =>
            simp only [hfile, Option.some.injEq, Prod.mk.injEq] at h
            obtain ⟨rfl, hs1⟩ := h
            obtain ⟨a1, a2, a3, a4⟩ := hfin _ hs1.symm
            exact ⟨a1, a2, a3, Or.inr ⟨fi, p0, _, rfl, rfl, rfl, a4, rfl, hsec, rfl⟩⟩

theorem preserves_refl (s : State) : Preserves s s := ⟨id, id⟩

theorem preserves_trans {s s1 s2 : State} (h1 : Preserves s s1) (h2 : Preserves s1 s2) :
    Preserves s s2 :=
  ⟨fun h => h2.1 (h1.1 h), fun h => h2.2 (h1.2 h)⟩

theorem preserves_of_view {s s1 : State} (hv : SameView s s1) : Preserves s s1 :=
  ⟨storeInv_of_view hv, bound_of_view hv⟩

theorem preserves_of_grows {s s1 : State} (hg : Grows s s1) : Preserves s s1 := by
  obtain ⟨-, hf, hp⟩ := hg
  constructor
  · intro hi r p hr
    rcases hp r with h1 | ⟨-, q, h2, -, h4⟩
    · rw [h1] at hr
      exact hi r p hr
    · rw [h2] at hr
      rw [← Option.some.inj hr]
      intro hs
      exact absurd h4 hs
  · intro hb r fi
    rw [hf]
    rcases hp r with h1 | ⟨h1, q, h2, h3, -⟩
    · unfold page_frame
      rw [h1]
      exact hb r fi
    · have h5 : page_frame s1 r = none := by
        unfold page_frame
        rw [h2]
        exact h3
      have h6 : page_frame s r = none := by
        unfold page_frame
        rw [h1]
        rfl
      rw [h5, ← hb r fi, h6]

theorem grows_of_view {s s1 : State} (hv : SameView s s1) : Grows s s1 :=
  ⟨hv.1, hv.2.2, fun r => Or.inl (hv.2.1 r)⟩

theorem page_allocate_grows (c : Config) (s s1 : State) (vaddr : Nat)
    (read_only malloc_ok : Bool) (res : Option PageRef)
    (h : page_allocate c s vaddr read_only malloc_ok = some (res, s1)) : Grows s s1 := by
  unfold page_allocate at h
  cases malloc_ok with
  | false =>
    simp only [Bool.false_eq_true, if_false, Option.some.injEq, Prod.mk.injEq] at h
    obtain ⟨-, rfl⟩ := h
    exact grows_of_view (sameView_refl s)
  | true =>
    simp only [if_true] at h
    cases hpt : s.pages s.cur with
    | none => simp [hpt] at h
    | some tbl =>
      simp only [hpt] at h
      cases hfind : hash_find tbl (pg_round_down c vaddr) with
      | some q =>
        simp only [hfind, Option.some.injEq, Prod.mk.injEq] at h
        obtain ⟨-, rfl⟩ := h
        exact grows_of_view (sameView_refl s)
      | none =>
        simp only [hfind, Option.some.injEq, Prod.mk.injEq] at h
        obtain ⟨-, rfl⟩ := h
        refine ⟨rfl, fun _ => rfl, ?_⟩
        intro r
        by_cases ht : r.1 = s.cur
        · by_cases ha : pg_round_down c vaddr = r.2
          · right
            constructor
            · simp only [getPage, ht, hpt, Option.some_bind]
              rw [← ha]
              exact hfind
            · refine ⟨{ addr := pg_round_down c vaddr, read_only := read_only,
                        write_back := !read_only, frame := none, sector := none, file := none,
                        file_offset := 0, file_bytes := 0, thread := s.cur }, ?_, rfl, rfl⟩
              simp only [getPage, ht, if_true, Option.some_bind, hash_find, List.find?_cons]
              simp [ha]
          · left
            simp only [getPage, ht, if_true, Option.some_bind, hpt, hash_find, List.find?_cons]
            have h1 : (pg_round_down c vaddr == r.2) = false := by simpa using ha
            rw [h1]
        · left
          simp only [getPage, ht, if_false]

theorem page_for_addr_grows (c : Config) (s s1 : State) (address : Nat) (malloc_ok : Bool)
    (res : Option PageRef) (h : page_for_addr c s address malloc_ok = some (res, s1)) :
    Grows s s1 := by
  unfold page_for_addr at h
  split at h
  · cases hpt : s.pages s.cur with
    | none => simp [hpt] at h
    | some tbl =>
      simp only [hpt] at h
      cases hfind : hash_find tbl (pg_round_down c address) with
      | some q =>
        simp only [hfind, Option.some.injEq, Prod.mk.injEq] at h
        obtain ⟨-, rfl⟩ := h
        exact grows_of_view (sameView_refl s)
      | none =>
        simp only [hfind] at h
        split at h
        · exact page_allocate_grows c s s1 _ _ _ _ h
        · simp only [Option.some.injEq, Prod.mk.injEq] at h
          obtain ⟨-, rfl⟩ := h
          exact grows_of_view (sameView_refl s)
  · simp only [Option.some.injEq, Prod.mk.injEq] at h
    obtain ⟨-, rfl⟩ := h
    exact grows_of_view (sameView_refl s)

theorem frame_lock_view (s s1 : State) (r : PageRef) (h : frame_lock s r = some s1) :
    SameView s s1 := by
  unfold frame_lock at h
  cases hp : getPage s r with
  | none => simp [hp] at h
  | some p =>
    simp only [hp] at h
    cases hfr : p.frame with
    | none =>
      simp only [hfr, Option.some.injEq] at h
      rw [← h]
      exact sameView_refl s
    | some fi =>
      simp only [hfr] at h
      cases hf : s.frames[fi]? with
      | none => simp [hf] at h
      | some f =>
        simp only [hf] at h
        cases hl : lock_acquire f.lock s.cur with
        | none => simp [hl] at h
        | some l =>
          simp only [hl, Option.some.injEq] at h
          rw [← h]
          exact ⟨rfl, fun _ => rfl, fun j =>
            frame_page_modify_keep s _ fi (fun g => { g with lock := l }) rfl (fun _ => rfl) j⟩

theorem frame_unlock_view (s s1 : State) (fi : Nat) (h : frame_unlock s fi = some s1) :
    SameView s s1 := by
  unfold frame_unlock at h
  cases hf : s.frames[fi]? with
  | none => simp [hf] at h
  | some f =>
    simp only [hf] at h
    split at h
    · simp only [Option.some.injEq] at h
      rw [← h]
      exact ⟨rfl, fun _ => rfl, fun j =>
        frame_page_modify_keep s _ fi (fun g => { g with lock := none }) rfl (fun _ => rfl) j⟩
    · simp at h

theorem pagedir_set_page_view (s : State) (t upage kpage : Nat) (writable ok : Bool) :
    SameView s (pagedir_set_page s t upage kpage writable ok).2 := by
  unfold pagedir_set_page
  cases ok with
  | false => exact sameView_refl s
  | true => exact ⟨rfl, fun _ => rfl, fun _ => rfl⟩

/-- Both invariants pass through `do_page_in` for a page that is not resident. -/
theorem do_page_in_preserves (c : Config) (s s1 : State) (r : PageRef) (ok : Bool)
    (h : do_page_in c s r = some (ok, s1)) (hnr : page_frame s r = none) :
    Preserves s s1 := by
  obtain ⟨res, s0, halloc, -, hfp, hoth, hcase⟩ := do_page_in_effect c s s1 r ok h
  constructor
  · intro hi
    have hi0 := storeInv_of_alloc halloc hi
    intro r1 p1 hp1
    by_cases hr : r1 = r
    · subst hr
      rcases hcase with ⟨-, -, h3⟩ | ⟨fi, p0, p2, -, -, -, h4, -, h6, -⟩
      · rw [h3] at hp1
        cases hq : getPage s0 r1 with
        | none =>
          rw [hq] at hp1
          simp at hp1
        | some q =>
          rw [hq] at hp1
          simp only [Option.map_some', Option.some.injEq] at hp1
          rw [← hp1]
          intro hs
          exact ⟨rfl, (hi0 r1 q hq hs).2⟩
      · rw [h4] at hp1
        rw [← Option.some.inj hp1]
        intro hs
        exact absurd h6 hs
    · rw [hoth r1 hr] at hp1
      exact hi0 r1 p1 hp1
  · intro hb
    obtain ⟨hb1, hb2⟩ := bound_of_alloc halloc hb hnr
    have hpf : ∀ r1, r1 ≠ r → page_frame s1 r1 = page_frame s0 r1 := by
      intro r1 hr1
      unfold page_frame
      rw [hoth r1 hr1]
    rcases hcase with ⟨h1, -, h3⟩ | ⟨fi, p0, p2, h1, -, -, h4, h5, -, -⟩
    · have hb0 := hb1 h1
      have hv : SameView s s0 := by
        rcases halloc with ⟨-, hv⟩ | ⟨i, h2, -⟩
        · exact hv
        · rw [h1] at h2
          exact absurd h2 (by simp)
      have hr0 : page_frame s0 r = none := by
        rw [page_frame_of_view hv]
        exact hnr
      have hr1 : page_frame s1 r = none := by
        unfold page_frame
        rw [h3]
        cases getPage s0 r with
        | none => rfl
        | some q => rfl
      intro r1 fi
      rw [hfp]
      by_cases hr : r1 = r
      · subst hr
        rw [hr1, ← hb0 r1 fi, hr0]
      · rw [hpf r1 hr]
        exact hb0 r1 fi
    · obtain ⟨hx1, hx2, hx3⟩ := hb2 fi h1
      have hr1 : page_frame s1 r = some fi := by
        unfold page_frame
        rw [h4]
        exact h5
      intro r1 j
      rw [hfp]
      by_cases hr : r1 = r
      · subst hr
        rw [hr1]
        constructor
        · intro h6
          rw [← Option.some.inj h6]
          exact hx1
        · intro h6
          by_cases hj : j = fi
          · rw [hj]
          · have h7 := (hx3 r1 j).mpr ⟨hj, h6⟩
            rw [hx2] at h7
            exact absurd h7 (by simp)
      · rw [hpf r1 hr, hx3 r1 j]
        constructor
        · intro h6
          exact h6.2
        · intro h6
          refine ⟨?_, h6⟩
          intro hj
          rw [hj, hx1] at h6
          exact hr (Option.some.inj h6).symm

/-- Both invariants pass through `page_in`. -/
theorem page_in_preserves (c : Config) (s s1 : State) (fault_addr : Nat)
    (malloc_ok pt_ok ok : Bool) (h : page_in c s fault_addr malloc_ok pt_ok = some (ok, s1)) :
    Preserves s s1 := by
  unfold page_in at h
  cases hpt : s.pages s.cur with
  | none =>
    simp only [hpt, Option.some.injEq, Prod.mk.injEq] at h
    rw [← h.2]
    exact preserves_refl s
  | some tbl =>
    simp only [hpt] at h
    cases hpf : page_for_addr c s fault_addr malloc_ok with
    | none => simp [hpf] at h
    | some x =>
      obtain ⟨res, sa⟩ := x
      have hg := preserves_of_grows (page_for_addr_grows c s sa _ _ _ hpf)
      cases res with
      | none =>
        simp only [hpf, Option.some.injEq, Prod.mk.injEq] at h
        rw [← h.2]
        exact hg
      | some r =>
        simp only [hpf] at h
        cases hfl : frame_lock sa r with
        | none => simp [hfl] at h
        | some sb =>
          simp only [hfl] at h
          have hvb := preserves_of_view (frame_lock_view sa sb r hfl)
          have hpaged : ∀ b sc,
              (match (getPage sb r).bind (fun p => p.frame) with
                | none => do_page_in c sb r
                | some _ => some (true, sb)) = some (b, sc) → Preserves sb sc := by
            intro b sc hm
            cases hres : (getPage sb r).bind (fun p => p.frame) with
            | none =>
              rw [hres] at hm
              exact do_page_in_preserves c sb sc r b hm hres
            | some fi =>
              rw [hres] at hm
              simp only [Option.some.injEq, Prod.mk.injEq] at hm
              rw [← hm.2]
              exact preserves_refl sb
          split at h
          · simp at h
          · rename_i sc hm
            simp only [Option.some.injEq, Prod.mk.injEq] at h
            rw [← h.2]
            exact preserves_trans hg (preserves_trans hvb (hpaged _ _ hm))
          · rename_i sc hm
            have hc := preserves_trans hg (preserves_trans hvb (hpaged _ _ hm))
            cases hp : getPage sc r with
            | none => simp [hp] at h
            | some p =>
              simp only [hp] at h
              cases hfr : p.frame with
              | none => simp [hfr] at h
              | some fi =>
                simp only [hfr] at h
                cases hf : sc.frames[fi]? with
                | none => simp [hf] at h
                | some f =>
                  simp only [hf] at h
                  split at h
                  · simp at h
                  · simp only [Option.map_eq_some', Prod.mk.injEq] at h
                    obtain ⟨s5, hun, -, rfl⟩ := h
                    have h5 := frame_unlock_view _ _ _ hun
                    exact preserves_trans hc (preserves_of_view
                      (sameView_trans (pagedir_set_page_view _ _ _ _ _ _) h5))

/-- Both invariants pass through `page_lock`. -/
theorem page_lock_preserves (c : Config) (s s1 : State) (addr : Nat)
    (will_write malloc_ok pt_ok ok : Bool)
    (h : page_lock c s addr will_write malloc_ok pt_ok = some (ok, s1)) :
    Preserves s s1 := by
  unfold page_lock at h
  cases hpf : page_for_addr c s addr malloc_ok with
  | none => simp [hpf] at h
  | some x =>
    obtain ⟨res, sa⟩ := x
    have hg := preserves_of_grows (page_for_addr_grows c s sa _ _ _ hpf)
    cases res with
    | none =>
      simp only [hpf, Option.some.injEq, Prod.mk.injEq] at h
      rw [← h.2]
      exact hg
    | some r =>
      simp only [hpf] at h
      cases hp : getPage sa r with
      | none => simp [hp] at h
      | some p =>
        simp only [hp] at h
        split at h
        · simp only [Option.some.injEq, Prod.mk.injEq] at h
          rw [← h.2]
          exact hg
        · cases hfl : frame_lock sa r with
          | none => simp [hfl] at h
          | some sb =>
            simp only [hfl] at h
            have hvb := preserves_trans hg (preserves_of_view (frame_lock_view sa sb r hfl))
            cases hres : (getPage sb r).bind (fun q => q.frame) with
            | some fi =>
              simp only [hres, Option.some.injEq, Prod.mk.injEq] at h
              rw [← h.2]
              exact hvb
            | none =>
              simp only [hres] at h
              cases hdo : do_page_in c sb r with
              | none => simp [hdo] at h
              | some y =>
                obtain ⟨b, sc⟩ := y
                have hc := preserves_trans hvb (do_page_in_preserves c sb sc r b hdo hres)
                cases b with
                | false =>
                  simp only [hdo, Option.some.injEq, Prod.mk.injEq] at h
                  rw [← h.2]
                  exact hc
                | true =>
                  simp only [hdo] at h
                  cases hq : getPage sc r with
                  | none => simp [hq] at h
                  | some q =>
                    simp only [hq] at h
                    cases hfr : q.frame with
                    | none => simp [hfr] at h
                    | some fi =>
                      simp only [hfr] at h
                      cases hf : sc.frames[fi]? with
                      | none => simp [hf] at h
                      | some f =>
                        simp only [hf, Option.some.injEq] at h
                        have h5 := pagedir_set_page_view sc sc.cur q.addr f.base
                          (!q.read_only) pt_ok
                        rw [h] at h5
                        exact preserves_trans hc (preserves_of_view h5)

/-- Both invariants pass through `page_unlock`. -/
theorem page_unlock_preserves (c : Config) (s s1 : State) (addr : Nat) (malloc_ok : Bool)
    (h : page_unlock c s addr malloc_ok = some s1) : Preserves s s1 := by
  unfold page_unlock at h
  cases hpf : page_for_addr c s addr malloc_ok with
  | none => simp [hpf] at h
  | some x =>
    obtain ⟨res, sa⟩ := x
    have hg := preserves_of_grows (page_for_addr_grows c s sa _ _ _ hpf)
    cases res with
    | none => simp [hpf] at h
    | some r =>
      simp only [hpf] at h
      cases hres : (getPage sa r).bind (fun p => p.frame) with
      | none => simp [hres] at h
      | some fi =>
        simp only [hres] at h
        exact preserves_trans hg (preserves_of_view (frame_unlock_view _ _ _ h))

/-! ## The invariants across deallocation and process exit -/

theorem page_for_addr_thread (c : Config) (s s1 : State) (address : Nat) (malloc_ok : Bool)
    (r : PageRef) (h : page_for_addr c s address malloc_ok = some (some r, s1)) :
    r.1 = s.cur := by
  unfold page_for_addr at h
  split at h
  · cases hpt : s.pages s.cur with
    | none => simp [hpt] at h
    | some tbl =>
      simp only [hpt] at h
      cases hfind : hash_find tbl (pg_round_down c address) with
      | some q =>
        simp only [hfind, Option.some.injEq, Prod.mk.injEq] at h
        rw [← h.1]
      | none =>
        simp only [hfind] at h
        split at h
        · unfold page_allocate at h
          split at h
          · simp only [hpt] at h
            split at h
            · simp at h
            · simp only [Option.some.injEq, Prod.mk.injEq] at h
              rw [← h.1]
          · simp at h
        · simp at h
  · simp at h

theorem frame_free_effect (s s1 : State) (fi : Nat) (h : frame_free s fi = some s1) :
    s1.cur = s.cur ∧ s1.pages = s.pages ∧ frame_page s1 fi = none ∧
    ∀ j, j ≠ fi → frame_page s1 j = frame_page s j := by
  unfold frame_free at h
  cases hf : s.frames[fi]? with
  | none => simp [hf] at h
  | some f =>
    simp only [hf] at h
    split at h
    · simp only [Option.some.injEq] at h
      rw [← h]
      refine ⟨rfl, rfl, ?_, ?_⟩
      · exact frame_page_modify_eq s _ fi (fun g => { g with page := none, lock := none }) f
          rfl hf
      · intro j hj
        exact frame_page_modify_ne s _ fi (fun g => { g with page := none, lock := none })
          rfl j hj
    · simp at h

theorem getPage_remove_same (s : State) (t a : Nat) :
    getPage
      { s with
        pages := fun t1 =>
          if t1 = t then (s.pages t1).map (fun h => h.filter (fun q => q.addr != a))
          else s.pages t1 }
      (t, a) = none := by
  simp only [getPage, if_true]
  cases s.pages t with
  | none => rfl
  | some h =>
    simp only [Option.map_some', Option.some_bind]
    apply hash_find_filter_drop
    intro q hq
    simp [hq]

theorem getPage_remove_other (s : State) (t a : Nat) (r : PageRef) (hr : r ≠ (t, a)) :
    getPage
      { s with
        pages := fun t1 =>
          if t1 = t then (s.pages t1).map (fun h => h.filter (fun q => q.addr != a))
          else s.pages t1 }
      r = getPage s r := by
  by_cases ht : r.1 = t
  · simp only [getPage, ht, if_true]
    cases s.pages t with
    | none => rfl
    | some h =>
      simp only [Option.map_some', Option.some_bind]
      apply hash_find_filter_keep
      intro q hq
      have hne : r.2 ≠ a := by
        intro h1
        apply hr
        rw [← ht, ← h1]
      rw [hq]
      simpa using hne
  · simp only [getPage, ht, if_false]

/-- The binding survives when a page gives up its frame and the frame its page. -/
theorem bound_of_release {s s1 : State} (r : PageRef) (fi : Nat) (hb : Bound s)
    (hfi : page_frame s r = some fi) (h1 : page_frame s1 r = none)
    (h2 : ∀ r1, r1 ≠ r → page_frame s1 r1 = page_frame s r1)
    (h3 : frame_page s1 fi = none) (h4 : ∀ j, j ≠ fi → frame_page s1 j = frame_page s j) :
    Bound s1 := by
  have hfr : frame_page s fi = some r := (hb r fi).mp hfi
  intro r1 j
  by_cases hr : r1 = r
  · subst hr
    rw [h1]
    constructor
    · intro h5
      exact absurd h5 (by simp)
    · intro h5
      by_cases hj : j = fi
      · rw [hj, h3] at h5
        exact absurd h5 (by simp)
      · rw [h4 j hj] at h5
        have h6 := (hb r1 j).mpr h5
        rw [hfi] at h6
        exact absurd (Option.some.inj h6).symm hj
  · rw [h2 r1 hr]
    by_cases hj : j = fi
    · rw [hj, h3]
      constructor
      · intro h5
        have h6 := (hb r1 fi).mp h5
        rw [hfr] at h6
        exact absurd (Option.some.inj h6).symm hr
      · intro h5
        exact absurd h5 (by simp)
    · rw [h4 j hj]
      exact hb r1 j

/-- Both invariants pass through `page_deallocate`. -/
theorem page_deallocate_preserves (c : Config) (s s1 : State) (vaddr : Nat)
    (malloc_ok : Bool) (h : page_deallocate c s vaddr malloc_ok = some s1) :
    Preserves s s1 := by
  unfold page_deallocate at h
  cases hpf : page_for_addr c s vaddr malloc_ok with
  | none => simp [hpf] at h
  | some x =>
    obtain ⟨res, sa⟩ := x
    have hgrow := page_for_addr_grows c s sa _ _ _ hpf
    have hg := preserves_of_grows hgrow
    cases res with
    | none => simp [hpf] at h
    | some r =>
      have hr1 : r.1 = s.cur := page_for_addr_thread c s sa _ _ r hpf
      simp only [hpf] at h
      cases hfl : frame_lock sa r with
      | none => simp [hfl] at h
      | some sb =>
        simp only [hfl] at h
        have hvb := frame_lock_view sa sb r hfl
        have hpb := preserves_trans hg (preserves_of_view hvb)
        have hcb : sb.cur = s.cur := by
          rw [hvb.1, hgrow.1]
        cases hp : getPage sb r with
        | none => simp [hp] at h
        | some p =>
          simp only [hp] at h
          -- the state in which the frame has been given up
          have hkey : ∀ s4, s4.cur = sb.cur →
              (∀ r1, r1 ≠ r → getPage s4 r1 = getPage sb r1) →
              (StoreInv sb → ∀ q, getPage s4 r = some q → Exclusive q) →
              ((p.frame = none ∧ ∀ j, frame_page s4 j = frame_page sb j) ∨
                (∃ fi, p.frame = some fi ∧ frame_page s4 fi = none ∧
                  ∀ j, j ≠ fi → frame_page s4 j = frame_page sb j)) →
              Preserves sb
                { s4 with
                  pages := fun t =>
                    if t = s4.cur then
                      (s4.pages t).map (fun h => h.filter (fun q => q.addr != r.2))
                    else s4.pages t } := by
            intro s4 hc4 hoth hrr hfrm
            have hrr2 : r = (s4.cur, r.2) := by
              rw [hc4, hcb, ← hr1]
            have hgone : getPage
                { s4 with
                  pages := fun t =>
                    if t = s4.cur then
                      (s4.pages t).map (fun h => h.filter (fun q => q.addr != r.2))
                    else s4.pages t } r = none := by
              conv_lhs => rw [hrr2]
              exact getPage_remove_same s4 s4.cur r.2
            have hkeep : ∀ r1, r1 ≠ r → getPage
                { s4 with
                  pages := fun t =>
                    if t = s4.cur then
                      (s4.pages t).map (fun h => h.filter (fun q => q.addr != r.2))
                    else s4.pages t } r1 = getPage sb r1 := by
              intro r1 hr
              rw [getPage_remove_other s4 s4.cur r.2 r1 (by rw [← hrr2]; exact hr)]
              exact hoth r1 hr
            constructor
            · intro hi r1 q hq
              by_cases hr : r1 = r
              · rw [hr, hgone] at hq
                exact absurd hq (by simp)
              · rw [hkeep r1 hr] at hq
                exact hi r1 q hq
            · intro hb
              have hpf1 : page_frame
                  { s4 with
                    pages := fun t =>
                      if t = s4.cur then
                        (s4.pages t).map (fun h => h.filter (fun q => q.addr != r.2))
                      else s4.pages t } r = none := by
                unfold page_frame
                rw [hgone]
                rfl
              have hpf2 : ∀ r1, r1 ≠ r → page_frame
                  { s4 with
                    pages := fun t =>
                      if t = s4.cur then
                        (s4.pages t).map (fun h => h.filter (fun q => q.addr != r.2))
                      else s4.pages t } r1 = page_frame sb r1 := by
                intro r1 hr
                unfold page_frame
                rw [hkeep r1 hr]
              have hpfr : page_frame sb r = p.frame := by
                unfold page_frame
                rw [hp]
                rfl
              rcases hfrm with ⟨h5, h6⟩ | ⟨fi, h5, h6, h7⟩
              · intro r1 j
                show _ ↔ frame_page s4 j = some r1
                rw [h6 j]
                by_cases hr : r1 = r
                · rw [hr, hpf1, ← hb r j, hpfr, h5]
                · rw [hpf2 r1 hr]
                  exact hb r1 j
              · exact bound_of_release r fi hb (by rw [hpfr]; exact h5) hpf1 hpf2 h6 h7
          cases hfr : p.frame with
          | none =>
            simp only [hfr, Option.some.injEq] at h
            rw [← h]
            exact preserves_trans hpb (hkey sb rfl (fun _ _ => rfl)
              (fun hi q hq => hi r q hq) (Or.inl ⟨hfr, fun _ => rfl⟩))
          | some fi =>
            simp only [hfr] at h
            by_cases hcond : p.file.isSome = true ∧ p.write_back = false
            · rw [if_pos hcond] at h
              cases hpo : page_out c sb r with
              | none => simp [hpo] at h
              | some y =>
                obtain ⟨ok, sc⟩ := y
                simp only [hpo] at h
                obtain ⟨hcc, hfc, hother, -, -⟩ := page_out_effect c sb sc r ok hpo
                cases hff : frame_free sc fi with
                | none => simp [hff] at h
                | some s4 =>
                  simp only [hff, Option.some.injEq] at h
                  obtain ⟨e1, e2, e3, e4⟩ := frame_free_effect sc s4 fi hff
                  rw [← h]
                  refine preserves_trans hpb (hkey s4 (by rw [e1, hcc]) ?_ ?_
                    (Or.inr ⟨fi, hfr, e3, ?_⟩))
                  · intro r1 hr
                    rw [getPage_congr e2]
                    exact hother r1 hr
                  · intro hi q hq
                    rw [getPage_congr e2] at hq
                    exact storeInv_of_page_out c sb sc r ok hpo hi r q hq
                  · intro j hj
                    rw [e4 j hj]
                    exact frame_page_congr hfc j
            · rw [if_neg hcond] at h
              cases hff : frame_free sb fi with
              | none => simp [hff] at h
              | some s4 =>
                simp only [hff, Option.some.injEq] at h
                obtain ⟨e1, e2, e3, e4⟩ := frame_free_effect sb s4 fi hff
                rw [← h]
                refine preserves_trans hpb (hkey s4 e1 ?_ ?_ (Or.inr ⟨fi, hfr, e3, e4⟩))
                · intro r1 _
                  exact getPage_congr e2 r1
                · intro hi q hq
                  rw [getPage_congr e2] at hq
                  exact hi r q hq

theorem destroy_page_effect (s s1 : State) (r : PageRef)
    (h : destroy_page s r = some s1) :
    s1.cur = s.cur ∧ s1.pages = s.pages ∧
    ((page_frame s r = none ∧ ∀ j, frame_page s1 j = frame_page s j) ∨
     (∃ fi, page_frame s r = some fi ∧ frame_page s1 fi = none ∧
        ∀ j, j ≠ fi → frame_page s1 j = frame_page s j)) := by
  unfold destroy_page at h
  cases hfl : frame_lock s r with
  | none => simp [hfl] at h
  | some sa =>
    simp only [hfl] at h
    obtain ⟨hc, hp, hf⟩ := frame_lock_view s sa r hfl
    have hpages : sa.pages = s.pages := by
      unfold frame_lock at hfl
      cases hp0 : getPage s r with
      | none => simp [hp0] at hfl
      | some p0 =>
        simp only [hp0] at hfl
        cases hfr0 : p0.frame with
        | none =>
          simp only [hfr0, Option.some.injEq] at hfl
          rw [← hfl]
        | some fi =>
          simp only [hfr0] at hfl
          cases hf0 : s.frames[fi]? with
          | none => simp [hf0] at hfl
          | some f =>
            simp only [hf0] at hfl
            cases hl : lock_acquire f.lock s.cur with
            | none => simp [hl] at hfl
            | some l =>
              simp only [hl, Option.some.injEq] at hfl
              rw [← hfl]
              rfl
    cases hq : getPage sa r with
    | none => simp [hq] at h
    | some p =>
      simp only [hq] at h
      have hpfr : page_frame s r = p.frame := by
        unfold page_frame
        rw [← hp r, hq]
        rfl
      cases hfr : p.frame with
      | none =>
        simp only [hfr, Option.some.injEq] at h
        rw [← h]
        exact ⟨hc, hpages, Or.inl ⟨by rw [hpfr, hfr], hf⟩⟩
      | some fi =>
        simp only [hfr] at h
        obtain ⟨e1, e2, e3, e4⟩ := frame_free_effect sa s1 fi h
        exact ⟨by rw [e1, hc], by rw [e2, hpages],
          Or.inr ⟨fi, by rw [hpfr, hfr], e3, fun j hj => by rw [e4 j hj, hf]⟩⟩

theorem destroy_pages_effect :
    ∀ (l : List Page) (s s1 : State), destroy_pages s l = some s1 →
      s1.cur = s.cur ∧ s1.pages = s.pages ∧
      (∀ j, frame_page s1 j = frame_page s j ∨
        (frame_page s1 j = none ∧ ∃ p, p ∈ l ∧ page_frame s (s.cur, p.addr) = some j)) ∧
      (∀ p fi, p ∈ l → page_frame s (s.cur, p.addr) = some fi → frame_page s1 fi = none) := by
  intro l
  induction l with
  | nil =>
    intro s s1 h
    simp only [destroy_pages, Option.some.injEq] at h
    rw [← h]
    exact ⟨rfl, rfl, fun _ => Or.inl rfl, fun p fi hp => absurd hp (by simp)⟩
  | cons p ps ih =>
    intro s s1 h
    unfold destroy_pages at h
    cases hd : destroy_page s (s.cur, p.addr) with
    | none => simp [hd] at h
    | some sa =>
      simp only [hd] at h
      obtain ⟨hc, hp, hcase⟩ := destroy_page_effect s sa _ hd
      obtain ⟨ic, ip, ia, ib⟩ := ih sa s1 h
      have hpf : ∀ r, page_frame sa r = page_frame s r := by
        intro r
        unfold page_frame
        rw [getPage_congr hp]
      have hfirst : ∀ fi, page_frame s (s.cur, p.addr) = some fi → frame_page sa fi = none := by
        intro fi hfi
        rcases hcase with ⟨h1, -⟩ | ⟨fi0, h1, h2, -⟩
        · rw [h1] at hfi
          exact absurd hfi (by simp)
        · rw [h1] at hfi
          rw [← Option.some.inj hfi]
          exact h2
      have hsa : ∀ j, frame_page sa j = frame_page s j ∨
          (frame_page sa j = none ∧ page_frame s (s.cur, p.addr) = some j) := by
        intro j
        rcases hcase with ⟨-, h2⟩ | ⟨fi0, h1, h2, h3⟩
        · exact Or.inl (h2 j)
        · by_cases hj : j = fi0
          · rw [hj]
            exact Or.inr ⟨h2, h1⟩
          · exact Or.inl (h3 j hj)
      refine ⟨by rw [ic, hc], by rw [ip, hp], ?_, ?_⟩
      · intro j
        rcases ia j with h1 | ⟨h1, q, hq, h2⟩
        · rcases hsa j with h3 | ⟨h3, h4⟩
          · exact Or.inl (by rw [h1, h3])
          · exact Or.inr ⟨by rw [h1, h3], p, List.mem_cons_self _ _, h4⟩
        · refine Or.inr ⟨h1, q, List.mem_cons_of_mem _ hq, ?_⟩
          rw [hc, hpf] at h2
          exact h2
      · intro q fi hq hfi
        rcases List.mem_cons.mp hq with h1 | h1
        · rw [h1] at hfi
          have h2 := hfirst fi hfi
          rcases ia fi with h3 | ⟨h3, -⟩
          · rw [h3, h2]
          · exact h3
        · exact ib q fi h1 (by rw [hc, hpf]; exact hfi)

/-- Both invariants pass through `page_exit`. -/
theorem page_exit_preserves (s s1 : State) (h : page_exit s = some s1) : Preserves s s1 := by
  unfold page_exit at h
  cases hpt : s.pages s.cur with
  | none =>
    simp only [hpt, Option.some.injEq] at h
    rw [← h]
    exact preserves_refl s
  | some tbl =>
    simp only [hpt] at h
    cases hd : destroy_pages s tbl with
    | none => simp [hd] at h
    | some sl =>
      simp only [hd, Option.some.injEq] at h
      obtain ⟨hc, hp, ha, hb⟩ := destroy_pages_effect tbl s sl hd
      have hcur : ∀ a, getPage s1 (s.cur, a) = none := by
        intro a
        rw [← h]
        simp [getPage, hc, hash_find]
      have hoth : ∀ r, r.1 ≠ s.cur → getPage s1 r = getPage s r := by
        intro r hr
        rw [← h]
        simp only [getPage, hc, hr, if_false, hp]
      have hfp : ∀ j, frame_page s1 j = frame_page sl j := by
        intro j
        rw [← h]
        rfl
      constructor
      · intro hi r q hq
        by_cases hr : r.1 = s.cur
        · have h1 := hcur r.2
          rw [← hr] at h1
          rw [h1] at hq
          exact absurd hq (by simp)
        · rw [hoth r hr] at hq
          exact hi r q hq
      · intro hbd r j
        rw [hfp]
        by_cases hr : r.1 = s.cur
        · have h1 : page_frame s1 r = none := by
            unfold page_frame
            have h2 := hcur r.2
            rw [← hr] at h2
            rw [h2]
            rfl
          rw [h1]
          constructor
          · intro h2
            exact absurd h2 (by simp)
          · intro h2
            exfalso
            rcases ha j with h3 | ⟨h3, -⟩
            · rw [h3] at h2
              have h4 := (hbd r j).mpr h2
              unfold page_frame at h4
              cases hq : getPage s r with
              | none =>
                rw [hq] at h4
                simp at h4
              | some q =>
                rw [hq] at h4
                have hq2 : hash_find tbl r.2 = some q := by
                  simp only [getPage, hr, hpt, Option.some_bind] at hq
                  exact hq
                have hmem : q ∈ tbl := List.mem_of_find?_eq_some hq2
                have haddr : q.addr = r.2 := hash_find_addr hq2
                have h5 : page_frame s (s.cur, q.addr) = some j := by
                  unfold page_frame
                  rw [haddr, ← hr, hq]
                  exact h4
                have h6 := hb q j hmem h5
                rw [h3, h2] at h6
                exact absurd h6 (by simp)
            · rw [h3] at h2
              exact absurd h2 (by simp)
        · have h1 : page_frame s1 r = page_frame s r := by
            unfold page_frame
            rw [hoth r hr]
          rw [h1, hbd r j]
          rcases ha j with h3 | ⟨h3, q, -, h4⟩
          · rw [h3]
          · have h5 := (hbd _ j).mp h4
            rw [h3, h5]
            constructor
            · intro h6
              have h7 := congrArg Prod.fst (Option.some.inj h6)
              exact absurd h7.symm hr
            · intro h6
              exact absurd h6 (by simp)

theorem bound_of_reach (c : Config) (s : State) (h : BindReach c s) : Bound s := by
  induction h with
  | boot s hp hf =>
    intro r fi
    unfold page_frame
    rw [hp r, hf fi]
    simp
  | allocated s s1 vaddr read_only malloc_ok res _ hstep ih =>
    exact (preserves_of_grows (page_allocate_grows c s s1 _ _ _ _ hstep)).2 ih
  | paged_in s s1 fault_addr malloc_ok pt_ok ok _ hstep ih =>
    exact (page_in_preserves c s s1 _ _ _ _ hstep).2 ih
  | pinned s s1 addr will_write malloc_ok pt_ok ok _ hstep ih =>
    exact (page_lock_preserves c s s1 _ _ _ _ _ hstep).2 ih
  | unpinned s s1 addr malloc_ok _ hstep ih =>
    exact (page_unlock_preserves c s s1 _ _ hstep).2 ih
  | deallocated s s1 vaddr malloc_ok _ hstep ih =>
    exact (page_deallocate_preserves c s s1 _ _ hstep).2 ih
  | exited s s1 _ hstep ih =>
    exact (page_exit_preserves s s1 hstep).2 ih
  | elsewhere s s1 _ hp hf ih =>
    intro r fi
    rw [hp, hf]
    exact ih r fi

/-- C19: in every state reached from free frames and empty page tables by calls of
`page_allocate`, `page_in`, `page_lock`, `page_unlock`, `page_deallocate` and
`page_exit` that return (with the evictions they trigger, successful or
failed), every descriptor `p` with `p.frame = f` has `f.page = p`, and every
frame `f` with `f.page = p`, whether its lock is free or not, has
`p.frame = f`. -/
theorem frame_page_binding_consistent (c : Config) (s : State) (h : BindReach c s) :
    (∀ r p fi, getPage s r = some p → p.frame = some fi →
      ∃ f, s.frames[fi]? = some f ∧ f.page = some r) ∧
    (∀ fi f r, s.frames[fi]? = some f → f.page = some r →
      ∃ p, getPage s r = some p ∧ p.frame = some fi) := by
  have hb := bound_of_reach c s h
  constructor
  · intro r p fi hp hfr
    have h1 : page_frame s r = some fi := by
      unfold page_frame
      rw [hp]
      exact hfr
    have h2 := (hb r fi).mp h1
    unfold frame_page at h2
    cases hf : s.frames[fi]? with
    | none =>
      rw [hf] at h2
      simp at h2
    | some f =>
      rw [hf] at h2
      exact ⟨f, rfl, h2⟩
  · intro fi f r hf hpg
    have h1 : frame_page s fi = some r := by
      unfold frame_page
      rw [hf]
      exact hpg
    have h2 := (hb r fi).mpr h1
    unfold page_frame at h2
    cases hp : getPage s r with
    | none =>
      rw [hp] at h2
      simp at h2
    | some p =>
      rw [hp] at h2
      exact ⟨p, rfl, h2⟩

theorem frame_page_binding_consistent_witness :
    ∃ s1 s2, page_allocate exCfg exBoot 0x8048000 false true = some (some (1, 0x8048000), s1) ∧
      page_in exCfg s1 0x8048000 true true = some (true, s2) ∧ BindReach exCfg s2 ∧
      (∃ p, getPage s2 (1, 0x8048000) = some p ∧ p.frame = some 0) ∧
      ∃ f, s2.frames[0]? = some f ∧ f.page = some (1, 0x8048000) := by
  have hboot : BindReach exCfg exBoot := by
    apply BindReach.boot
    · intro r
      simp only [getPage, exBoot]
      by_cases h1 : r.1 = 1 ∨ r.1 = 2
      · simp [h1, hash_find]
      · simp [h1]
    · intro fi
      simp only [frame_page, exBoot]
      cases fi with
      | zero => rfl
      | succ n => rfl
  have hrun : ∃ s1, page_allocate exCfg exBoot 0x8048000 false true
        = some (some (1, 0x8048000), s1) ∧
      ∃ s2, page_in exCfg s1 0x8048000 true true = some (true, s2) ∧
        (getPage s2 (1, 0x8048000)).bind (fun p => p.frame) = some 0 :=
    ⟨_, rfl, _, rfl, rfl⟩
  obtain ⟨s1, h1, s2, h3, h4⟩ := hrun
  have hreach : BindReach exCfg s2 :=
    BindReach.paged_in _ _ _ _ _ _ (BindReach.allocated _ _ _ _ _ _ hboot h1) h3
  have hp : ∃ p, getPage s2 (1, 0x8048000) = some p ∧ p.frame = some 0 := by
    cases hq : getPage s2 (1, 0x8048000) with
    | none =>
      rw [hq] at h4
      simp at h4
    | some p =>
      rw [hq] at h4
      exact ⟨p, rfl, h4⟩
  obtain ⟨p, hp1, hp2⟩ := hp
  exact ⟨s1, s2, h1, h3, hreach, ⟨p, hp1, hp2⟩,
    (frame_page_binding_consistent exCfg s2 hreach).1 (1, 0x8048000) p 0 hp1 hp2⟩

theorem storeInv_of_reach (c : Config) (s : State) (h : StoreReach c s) : StoreInv s := by
  induction h with
  | boot s hp =>
    intro r p hr hs
    exact absurd (hp r p hr) hs
  | paged_in s s1 fault_addr malloc_ok pt_ok ok _ hstep ih =>
    exact (page_in_preserves c s s1 _ _ _ _ hstep).1 ih
  | pinned s s1 addr will_write malloc_ok pt_ok ok _ hstep ih =>
    exact (page_lock_preserves c s s1 _ _ _ _ _ hstep).1 ih
  | paged_out s s1 r ok _ hstep ih =>
    exact storeInv_of_page_out c s s1 r ok hstep ih
  | deallocated s s1 vaddr malloc_ok _ hstep ih =>
    exact (page_deallocate_preserves c s s1 _ _ hstep).1 ih
  | frame_allocated s s1 r res _ hstep ih =>
    exact storeInv_of_alloc (frame_alloc_and_lock_effect c s s1 r res hstep) ih
  | elsewhere s s1 _ hp ih =>
    intro r q hq hs
    exact ih r q (hp r q hq hs) hs

/-- C20: in every state reached from descriptors without a swap sector by calls of
`page_in`, `page_lock`, `page_out`, `page_deallocate` and `frame_alloc_and_lock`
that return, no descriptor has both a frame and a sector, every descriptor with
a sector has no file, and exactly one of the four backing-store states is
current: resident (a frame), in swap (a sector), in file (a file, no frame, no
sector), zero-fill (none of the three). -/
theorem backing_store_states_exclusive (c : Config) (s : State) (h : StoreReach c s) :
    ∀ r p, getPage s r = some p →
      ¬ (p.frame ≠ none ∧ p.sector ≠ none) ∧ (p.sector ≠ none → p.file = none) ∧
      ((p.frame ≠ none ∧ p.sector = none) ∨
       (p.frame = none ∧ p.sector ≠ none ∧ p.file = none) ∨
       (p.frame = none ∧ p.sector = none ∧ p.file ≠ none) ∨
       (p.frame = none ∧ p.sector = none ∧ p.file = none)) ∧
      ¬ (p.frame ≠ none ∧ (p.file ≠ none ∧ p.frame = none ∧ p.sector = none)) ∧
      ¬ (p.sector ≠ none ∧ (p.file ≠ none ∧ p.frame = none ∧ p.sector = none)) ∧
      ¬ (p.frame ≠ none ∧ (p.frame = none ∧ p.sector = none ∧ p.file = none)) ∧
      ¬ (p.sector ≠ none ∧ (p.frame = none ∧ p.sector = none ∧ p.file = none)) ∧
      ¬ ((p.file ≠ none ∧ p.frame = none ∧ p.sector = none) ∧
          (p.frame = none ∧ p.sector = none ∧ p.file = none)) := by
  intro r p hp
  have hex : Exclusive p := storeInv_of_reach c s h r p hp
  unfold Exclusive at hex
  refine ⟨?_, ?_, ?_, ?_, ?_, ?_, ?_, ?_⟩
  · intro h1
    exact h1.1 (hex h1.2).1
  · intro h1
    exact (hex h1).2
  · by_cases hs : p.sector = none
    · by_cases hf : p.frame = none
      · by_cases hfl : p.file = none
        · exact Or.inr (Or.inr (Or.inr ⟨hf, hs, hfl⟩))
        · exact Or.inr (Or.inr (Or.inl ⟨hf, hs, hfl⟩))
      · exact Or.inl ⟨hf, hs⟩
    · exact Or.inr (Or.inl ⟨(hex hs).1, hs, (hex hs).2⟩)
  · intro h1
    exact h1.1 h1.2.2.1
  · intro h1
    exact h1.1 h1.2.2.2
  · intro h1
    exact h1.1 h1.2.1
  · intro h1
    exact h1.1 h1.2.2.1
  · intro h1
    exact h1.1.1 h1.2.2.2

theorem backing_store_states_exclusive_witness :
    ∃ s1, page_out exCfg (exState [exAnon] [false, false] false true true) (1, 0x8048000)
        = some (true, s1) ∧ StoreReach exCfg s1 ∧
      ∃ p, getPage s1 (1, 0x8048000) = some p ∧ p.sector = some 0 ∧ p.frame = none ∧
        p.file = none := by
  have hboot : StoreReach exCfg (exState [exAnon] [false, false] false true true) := by
    apply StoreReach.boot
    intro r p h
    simp only [getPage, exState] at h
    by_cases h1 : r.1 = 1
    · simp only [h1, if_true, Option.some_bind, hash_find, List.find?_cons] at h
      split at h
      · rw [← Option.some.inj h]
        rfl
      · simp at h
    · simp [h1] at h
  have hrun : ∃ s1, page_out exCfg (exState [exAnon] [false, false] false true true)
        (1, 0x8048000) = some (true, s1) ∧
      (getPage s1 (1, 0x8048000)).bind (fun p => p.sector) = some 0 := ⟨_, rfl, by decide⟩
  obtain ⟨s1, h1, h2⟩ := hrun
  have hreach := StoreReach.paged_out _ _ _ _ hboot h1
  cases hq : getPage s1 (1, 0x8048000) with
  | none =>
    rw [hq] at h2
    simp at h2
  | some p =>
    rw [hq] at h2
    have hsec : p.sector = some 0 := h2
    obtain ⟨h3, h4, -⟩ := backing_store_states_exclusive exCfg s1 hreach (1, 0x8048000) p hq
    have hs : p.sector ≠ none := by
      rw [hsec]
      simp
    refine ⟨s1, h1, hreach, p, hq, hsec, ?_, h4 hs⟩
    by_cases hf : p.frame = none
    · exact hf
    · exact absurd ⟨hf, hs⟩ h3

/-- C24 (as stated, refuted): a resident dirty page backed by file 7 with
`write_back` clear, whose write starts where the file ends, so that the
filesystem reports 0 bytes written: `page_out` returns false and the page keeps
its frame. -/
theorem page_out_fails_when_nothing_written :
    exFilePastEnd.write_back = false ∧
    ((exState [exFilePastEnd] [false] true true true).pagedir 1 0x8048000).dirty = true ∧
    (file_write_at ((exState [exFilePastEnd] [false] true true true).fs 7)
      ((exState [exFilePastEnd] [false] true true true).kmem 0) 100 100).1 = 0 ∧
    ∃ s2, page_out exCfg (exState [exFilePastEnd] [false] true true true) (1, 0x8048000)
        = some (false, s2) ∧
      (getPage s2 (1, 0x8048000)).map (fun p => p.frame) = some (some 0) :=
  ⟨rfl, rfl, by decide, _, rfl, by decide⟩

/-- C24 (amended): for every dirty resident page with a backing file and
`write_back` clear, whose frame lock the caller holds, `page_out` returns true
and clears `p.frame` when the file write reports at least one byte written,
however few, and returns false and leaves the descriptor as it is when the
write reports zero bytes. -/
theorem page_out_file_write_result (c : Config) (s : State) (r : PageRef) (p : Page)
    (fi : Nat) (f : Frame) (fl : Nat)
    (hp : getPage s r = some p) (hfr : p.frame = some fi) (hf : s.frames[fi]? = some f)
    (hl : f.lock = some s.cur) (hfile : p.file = some fl)
    (hd : (s.pagedir p.thread p.addr).dirty = true) (hwb : p.write_back = false) :
    ((file_write_at (s.fs fl) (s.kmem fi) p.file_bytes p.file_offset).1 ≠ 0 →
      ∃ s2, page_out c s r = some (true, s2) ∧
        getPage s2 r = some { p with frame := none }) ∧
    ((file_write_at (s.fs fl) (s.kmem fi) p.file_bytes p.file_offset).1 = 0 →
      ∃ s2, page_out c s r = some (false, s2) ∧ getPage s2 r = some p) := by
  have h := page_out_to_file c s r p fi f fl hp hfr hf hl hfile hd hwb
  constructor
  · intro hn
    rw [if_pos hn] at h
    refine ⟨_, h, ?_⟩
    rw [getPage_setPage_same _ _ _ (by intro x; rfl)]
    have h1 : getPage
        { pagedir_clear_page s p.thread p.addr with
          fs := fun x =>
            if x = fl then (file_write_at (s.fs fl) (s.kmem fi) p.file_bytes p.file_offset).2
            else s.fs x } r = some p := hp
    rw [h1]
    rfl
  · intro hn
    rw [if_neg (by simp [hn])] at h
    exact ⟨_, h, hp⟩

theorem page_out_file_write_result_witness :
    (file_write_at ((exState [exFilePage false] [false] true true true).fs 7)
      ((exState [exFilePage false] [false] true true true).kmem 0) 100 0).1 = 100 ∧
    ∃ s2, page_out exCfg (exState [exFilePage false] [false] true true true) (1, 0x8048000)
        = some (true, s2) ∧
      getPage s2 (1, 0x8048000) = some { exFilePage false with frame := none } := by
  have h := (page_out_file_write_result exCfg (exState [exFilePage false] [false] true true true)
    (1, 0x8048000) (exFilePage false) 0
    { base := 0xC0100000, lock := some 1, page := some (1, 0x8048000) } 7
    rfl rfl rfl rfl rfl rfl rfl).1 (by decide)
  exact ⟨by decide, h⟩

/-- C27 (code defect): after boot thread 1 allocates a page and pins it while
`pagedir_set_page` finds no memory.  `page_lock` returns false, yet the page is
resident in frame 0 and the lock of frame 0 is held by thread 1: the failed pin
leaves the frame pinned.  `page_in` on the same state also returns false and
has released the frame lock. -/
theorem page_lock_false_keeps_frame_locked :
    exPinNoPageTable.map (fun x =>
        (x.1, (getPage x.2 (1, 0x8048000)).bind (fun p => p.frame),
          (x.2.frames[0]?).map (fun f => (f.lock, f.page))))
      = some (false, some 0, some (some 1, some (1, 0x8048000))) ∧
    (exBoot.frames[0]?).map (fun f => f.lock) = some none ∧
    exFaultNoPageTable.map (fun x =>
        (x.1, (getPage x.2 (1, 0x8048000)).bind (fun p => p.frame),
          (x.2.frames[0]?).map (fun f => (f.lock, f.page))))
      = some (false, some 0, some (none, some (1, 0x8048000))) := by
  refine ⟨?_, ?_, ?_⟩ <;> rfl

theorem close_file_loop_eq (fd : Int) :
    ∀ (xs : List ProcFile) (f : Option ProcFile),
      close_file_loop fd xs f =
        (xs.filter (fun x => decide (x.fd ≠ fd)),
          (xs.filter (fun x => decide (x.fd = fd))).map (fun x => x.ptr),
          (xs.getLast?).orElse (fun _ => f)) := by
  intro xs
  induction xs with
  | nil =>
    intro f
    cases f <;> rfl
  | cons x xs ih =>
    intro f
    rw [close_file_loop, ih (some x)]
    have hlast : (xs.getLast?).orElse (fun _ => some x)
        = ((x :: xs).getLast?).orElse (fun _ => f) := by
      cases xs with
      | nil => rfl
      | cons y ys =>
        rw [List.getLast?_cons_cons]
        cases h : (y :: ys).getLast? with
        | none => simp at h
        | some l => rfl
    by_cases hx : x.fd = fd
    · simp [hx, hlast]
    · simp [hx, hlast]

/-- C26 (code defect): `close_file` passes to `free` the record the loop visited
last, which is the last record of the list, not the one it unlinked: for every
non-empty list the result is the list without the records of the descriptor,
their files closed, and the last record of the list freed.  Closing descriptor
3 of the list of the records for 3 and 4 unlinks the record of 3 and frees the
record of 4, which stays in the list; closing a descriptor that no record has
frees the last record, which stays in the list; with an empty list `free`
receives an uninitialised pointer. -/
theorem close_file_frees_the_last_record :
    (∀ (files : List ProcFile) (fd : Int),
      close_file files fd = (files.getLast?).map (fun l =>
        (files.filter (fun x => decide (x.fd ≠ fd)),
          (files.filter (fun x => decide (x.fd = fd))).map (fun x => x.ptr), l.addr))) ∧
    close_file exFiles 3 = some ([{ addr := 0x200, ptr := 40, fd := 4 }], [30], 0x200) ∧
    close_file exFiles 9 = some (exFiles, [], 0x200) ∧
    close_file [] 3 = none ∧
    close_file exFiles 4 = some ([{ addr := 0x100, ptr := 30, fd := 3 }], [40], 0x200) := by
  refine ⟨?_, ?_, ?_, ?_, ?_⟩
  · intro files fd
    unfold close_file
    rw [close_file_loop_eq]
    cases files.getLast? with
    | none => rfl
    | some l => rfl
  · decide
  · decide
  · decide
  · decide

/-! ## The first loop of `try_frame_alloc_and_lock` -/

/-- The first loop stops at the first frame that is unlocked and free. -/
theorem find_free_frame_first (s : State) (r : PageRef) (i : Nat) (f : Frame)
    (hf : s.frames[i]? = some f) (hl : f.lock = none) (hp : f.page = none)
    (hfirst : ∀ j g, j < i → s.frames[j]? = some g → g.lock ≠ none ∨ g.page ≠ none) :
    ∀ (n k : Nat), k ≤ i → i < k + n →
      find_free_frame s r n k = some (some i,
        { setFrame s i (fun g => { g with lock := some s.cur, page := some r }) with
          scan_lock := none }) := by
  intro n
  induction n with
  | zero =>
    intro k h1 h2
    omega
  | succ n ih =>
    intro k h1 h2
    unfold find_free_frame
    by_cases hk : k = i
    · subst hk
      simp only [hf, hl, lock_try_acquire, hp]
    · have hki : k < i := by omega
      have hlen : i < s.frames.length := by
        rcases List.getElem?_eq_some_iff.mp hf with ⟨h3, -⟩
        exact h3
      have hk2 : k < s.frames.length := by omega
      have hg : s.frames[k]? = some (s.frames[k]) := List.getElem?_eq_getElem hk2
      rw [hg]
      simp only []
      have hrec := ih (k + 1) (by omega) (by omega)
      cases hlk : (s.frames[k]).lock with
      | some t =>
        simp only [lock_try_acquire]
        exact hrec
      | none =>
        simp only [lock_try_acquire]
        cases hpg : (s.frames[k]).page with
        | none =>
          rcases hfirst k _ hki hg with h4 | h4
          · exact absurd hlk h4
          · exact absurd hpg h4
        | some q =>
          simp only []
          exact hrec

/-- C22: when the scan lock is free and frame `i` is the lowest-indexed frame that
is both unlocked and free, `try_frame_alloc_and_lock` returns frame `i`, bound
to the requesting page and locked by the caller; nothing else of the state
changes: the clock hand, the page directory with its accessed bits, every
descriptor, files and swap (no page is evicted) and every other frame are what
they were, and the scan lock is free again. -/
theorem try_frame_alloc_and_lock_takes_first_free (c : Config) (s : State) (r : PageRef)
    (i : Nat) (f : Frame) (hscan : s.scan_lock = none)
    (hf : s.frames[i]? = some f) (hl : f.lock = none) (hp : f.page = none)
    (hfirst : ∀ j g, j < i → s.frames[j]? = some g → g.lock ≠ none ∨ g.page ≠ none) :
    try_frame_alloc_and_lock c s r
      = some (some i, setFrame s i (fun g => { g with lock := some s.cur, page := some r })) ∧
    (setFrame s i (fun g => { g with lock := some s.cur, page := some r })).frames[i]?
      = some { base := f.base, lock := some s.cur, page := some r } ∧
    (∀ j, j ≠ i →
      (setFrame s i (fun g => { g with lock := some s.cur, page := some r })).frames[j]?
        = s.frames[j]?) ∧
    (setFrame s i (fun g => { g with lock := some s.cur, page := some r })).hand = s.hand ∧
    (setFrame s i (fun g => { g with lock := some s.cur, page := some r })).pagedir
      = s.pagedir ∧
    (setFrame s i (fun g => { g with lock := some s.cur, page := some r })).pages = s.pages ∧
    (setFrame s i (fun g => { g with lock := some s.cur, page := some r })).fs = s.fs ∧
    (setFrame s i (fun g => { g with lock := some s.cur, page := some r })).swap_bitmap
      = s.swap_bitmap ∧
    (setFrame s i (fun g => { g with lock := some s.cur, page := some r })).swap_device
      = s.swap_device ∧
    (setFrame s i (fun g => { g with lock := some s.cur, page := some r })).scan_lock
      = none := by
  have hlen : i < s.frames.length := by
    rcases List.getElem?_eq_some_iff.mp hf with ⟨h3, -⟩
    exact h3
  refine ⟨?_, ?_, ?_, rfl, rfl, rfl, rfl, rfl, rfl, hscan⟩
  · unfold try_frame_alloc_and_lock
    have hla : lock_acquire s.scan_lock s.cur = some (some s.cur) := by
      rw [hscan]
      rfl
    rw [hla]
    simp only []
    have h1 := find_free_frame_first { s with scan_lock := some s.cur } r i f hf hl hp hfirst
      s.frames.length 0 (Nat.zero_le _) (by omega)
    rw [h1]
    simp only [setFrame]
    rw [← hscan]
  · simp only [setFrame]
    rw [List.getElem?_modify_eq, hf]
    rfl
  · intro j hj
    simp only [setFrame]
    rw [List.getElem?_modify_ne _ _ (Ne.symm hj)]

theorem try_frame_alloc_and_lock_takes_first_free_witness :
    try_frame_alloc_and_lock exCfg (exFresh []).vm (1, 0x8048000)
      = some (some 0, setFrame (exFresh []).vm 0
          (fun g => { g with lock := some 1, page := some (1, 0x8048000) })) :=
  (try_frame_alloc_and_lock_takes_first_free exCfg (exFresh []).vm (1, 0x8048000) 0
    { base := 0xC0100000, lock := none, page := none } rfl rfl rfl rfl
    (fun j _ hj _ => absurd hj (Nat.not_lt_zero j))).1

/-! ## `page_deallocate` in full -/

/-- The state `page_out` leaves for a resident page with a backing file and
`write_back` clear: the mapping is cleared, the file may have been written,
and on success the descriptor has lost its frame. -/
theorem page_out_file_backed_state (c : Config) (s : State) (r : PageRef) (p : Page)
    (fi : Nat) (f : Frame) (fl : Nat)
    (hp : getPage s r = some p) (hfr : p.frame = some fi) (hf : s.frames[fi]? = some f)
    (hl : f.lock = some s.cur) (hfile : p.file = some fl) (hwb : p.write_back = false) :
    ∃ (ok : Bool) (fs1 : Nat → List Byte),
      page_out c s r = some (ok,
        if ok then
          setPage { pagedir_clear_page s p.thread p.addr with fs := fs1 } r
            (fun q => { q with frame := none })
        else { pagedir_clear_page s p.thread p.addr with fs := fs1 }) := by
  cases hd : (s.pagedir p.thread p.addr).dirty with
  | false =>
    exact ⟨true, s.fs, page_out_clean c s r p fi f fl hp hfr hf hl hfile hd⟩
  | true =>
    have hpo := page_out_to_file c s r p fi f fl hp hfr hf hl hfile hd hwb
    by_cases hw : (file_write_at (s.fs fl) (s.kmem fi) p.file_bytes p.file_offset).1 = 0
    · rw [if_neg (by simpa using hw)] at hpo
      exact ⟨false, _, hpo⟩
    · rw [if_pos hw] at hpo
      exact ⟨true, _, hpo⟩

/-- C25: for every user address `vaddr` with a descriptor `p` in the running
process's table (whose frame, if any, nobody has locked) `page_deallocate`
returns; afterwards the table has no descriptor at `round_down (vaddr)` and
every other descriptor of every process is what it was; if `p` was resident in
frame `f` then `f.page` is none and the lock of `f` is free, and every other
frame is what it was.  When `p` is resident with a backing file and
`write_back` clear, page directory, files and swap are those that `page_out`
for `p` leaves (the mapping of `p` is cleared); otherwise they are untouched,
`page_out` has not run. -/
theorem page_deallocate_removes (c : Config) (s : State) (vaddr : Nat) (malloc_ok : Bool)
    (h : List Page) (p : Page)
    (ha : vaddr < c.PHYS_BASE) (hpt : s.pages s.cur = some h)
    (hfind : hash_find h (pg_round_down c vaddr) = some p)
    (hfr : ∀ fi, p.frame = some fi → ∃ f, s.frames[fi]? = some f ∧ f.lock = none) :
    ∃ s1, page_deallocate c s vaddr malloc_ok = some s1 ∧
      getPage s1 (s.cur, pg_round_down c vaddr) = none ∧
      (∀ r, r ≠ (s.cur, pg_round_down c vaddr) → getPage s1 r = getPage s r) ∧
      (∀ fi f, p.frame = some fi → s.frames[fi]? = some f →
        s1.frames[fi]? = some { base := f.base, lock := none, page := none }) ∧
      (∀ j, p.frame ≠ some j → s1.frames[j]? = s.frames[j]?) ∧
      ((p.frame ≠ none ∧ p.file ≠ none ∧ p.write_back = false) →
        ∃ fi ok s3, p.frame = some fi ∧
          page_out c (setFrame s fi (fun g => { g with lock := some s.cur }))
            (s.cur, pg_round_down c vaddr) = some (ok, s3) ∧
          s1.pagedir = s3.pagedir ∧ s1.fs = s3.fs ∧ s1.swap_bitmap = s3.swap_bitmap ∧
          s1.swap_device = s3.swap_device ∧ s1.kmem = s3.kmem ∧
          (s1.pagedir p.thread p.addr).present = false) ∧
      (¬ (p.frame ≠ none ∧ p.file ≠ none ∧ p.write_back = false) →
        s1.pagedir = s.pagedir ∧ s1.fs = s.fs ∧ s1.swap_bitmap = s.swap_bitmap ∧
        s1.swap_device = s.swap_device ∧ s1.kmem = s.kmem) := by
  have hpf : page_for_addr c s vaddr malloc_ok
      = some (some (s.cur, pg_round_down c vaddr), s) := by
    simp [page_for_addr, ha, hpt, hfind]
  have hg : getPage s (s.cur, pg_round_down c vaddr) = some p := by
    simp [getPage, hpt, hfind]
  rcases Option.eq_none_or_eq_some p.frame with hnr | ⟨fi, hres⟩
  · -- not resident
    have hfl : frame_lock s (s.cur, pg_round_down c vaddr) = some s := by
      simp [frame_lock, hg, hnr]
    refine ⟨{ s with
        pages := fun t =>
          if t = s.cur then
            (s.pages t).map (fun l => l.filter (fun q => q.addr != pg_round_down c vaddr))
          else s.pages t }, ?_, ?_, ?_, ?_, fun _ _ => rfl, ?_, fun _ => ⟨rfl, rfl, rfl, rfl, rfl⟩⟩
    · simp only [page_deallocate, hpf, hfl, hg, hnr]
    · exact getPage_remove_same s s.cur _
    · intro r hr
      exact getPage_remove_other s s.cur _ r hr
    · intro fi f hfi
      rw [hnr] at hfi
      exact absurd hfi (by simp)
    · intro hcond
      exact absurd hnr hcond.1
  · obtain ⟨f, hf, hl⟩ := hfr fi hres
    have hfl : frame_lock s (s.cur, pg_round_down c vaddr)
        = some (setFrame s fi (fun g => { g with lock := some s.cur })) := by
      simp [frame_lock, hg, hres, hf, hl, lock_acquire]
    have hg2 : getPage (setFrame s fi (fun g => { g with lock := some s.cur }))
        (s.cur, pg_round_down c vaddr) = some p := hg
    have hf2 : (setFrame s fi (fun g => { g with lock := some s.cur })).frames[fi]?
        = some { f with lock := some s.cur } := by
      simp only [setFrame]
      rw [List.getElem?_modify_eq, hf]
      rfl
    -- the frames after `frame_free`
    have hframes_fi : ∀ g0, s.frames[fi]? = some g0 →
        (List.modify (fun g => { g with page := none, lock := none }) fi
          (List.modify (fun g => { g with lock := some s.cur }) fi s.frames))[fi]?
          = some { base := g0.base, lock := none, page := none } := by
      intro g0 hg0
      rw [List.getElem?_modify_eq, List.getElem?_modify_eq, hg0]
      rfl
    have hframes_ne : ∀ j, p.frame ≠ some j →
        (List.modify (fun g => { g with page := none, lock := none }) fi
          (List.modify (fun g => { g with lock := some s.cur }) fi s.frames))[j]?
          = s.frames[j]? := by
      intro j hj
      have hji : fi ≠ j := by
        intro heq
        apply hj
        rw [hres, heq]
      rw [List.getElem?_modify_ne _ _ hji, List.getElem?_modify_ne _ _ hji]
    by_cases hcond : p.file.isSome = true ∧ p.write_back = false
    · obtain ⟨hfs, hwb⟩ := hcond
      obtain ⟨fl, hfile⟩ := Option.isSome_iff_exists.mp hfs
      obtain ⟨ok, fs1, hpo⟩ :=
        page_out_file_backed_state c (setFrame s fi (fun g => { g with lock := some s.cur }))
          (s.cur, pg_round_down c vaddr) p fi { f with lock := some s.cur } fl hg2 hres hf2 rfl
          hfile hwb
      obtain ⟨s3, hs3⟩ : ∃ s3 : State, s3 =
          (if ok then
            setPage
              { pagedir_clear_page (setFrame s fi (fun g => { g with lock := some s.cur }))
                  p.thread p.addr with fs := fs1 }
              (s.cur, pg_round_down c vaddr) (fun q => { q with frame := none })
          else
            { pagedir_clear_page (setFrame s fi (fun g => { g with lock := some s.cur }))
                p.thread p.addr with fs := fs1 }) := ⟨_, rfl⟩
      rw [← hs3] at hpo
      have hc3 : s3.cur = s.cur := by
        rw [hs3]
        cases ok <;> rfl
      have hf3 : s3.frames = List.modify (fun g => { g with lock := some s.cur }) fi s.frames := by
        rw [hs3]
        cases ok <;> rfl
      have hpres : (s3.pagedir p.thread p.addr).present = false := by
        rw [hs3]
        cases ok <;> simp [setPage, setFrame, pagedir_clear_page]
      have hoth3 : ∀ r, r ≠ (s.cur, pg_round_down c vaddr) → getPage s3 r = getPage s r := by
        intro r hr
        rw [hs3]
        cases ok with
        | true => exact getPage_setPage_other _ _ _ _ (by intro x; rfl) hr
        | false => rfl
      have hff : frame_free s3 fi
          = some (setFrame s3 fi (fun g => { g with page := none, lock := none })) := by
        unfold frame_free
        rw [hf3, List.getElem?_modify_eq, hf]
        simp [lock_held_by_current_thread, hc3]
      refine ⟨{ (setFrame s3 fi (fun g => { g with page := none, lock := none })) with
          pages := fun t =>
            if t = s3.cur then
              (s3.pages t).map (fun l => l.filter (fun q => q.addr != pg_round_down c vaddr))
            else s3.pages t }, ?_, ?_, ?_, ?_, ?_, ?_, ?_⟩
      · simp only [page_deallocate, hpf, hfl, hg2, hres, hfile, hwb, Option.isSome_some,
          and_self, if_true, hpo, hff]
        rfl
      · rw [hc3]
        exact getPage_remove_same
          (setFrame s3 fi (fun g => { g with page := none, lock := none })) s.cur _
      · intro r hr
        rw [hc3]
        exact (getPage_remove_other
          (setFrame s3 fi (fun g => { g with page := none, lock := none })) s.cur _ r hr).trans
          (hoth3 r hr)
      · intro fi0 f0 hfi0 hf0
        rw [hres] at hfi0
        have hf0' : s.frames[fi]? = some f0 := by
          rw [Option.some.inj hfi0]
          exact hf0
        rw [← Option.some.inj hfi0]
        show (List.modify _ fi s3.frames)[fi]? = _
        rw [hf3]
        exact hframes_fi f0 hf0'
      · intro j hj
        show (List.modify _ fi s3.frames)[j]? = _
        rw [hf3]
        exact hframes_ne j hj
      · intro _
        exact ⟨fi, ok, s3, hres, hpo, rfl, rfl, rfl, rfl, rfl, hpres⟩
      · intro hn
        exact absurd ⟨by rw [hres]; simp, by rw [hfile]; simp, hwb⟩ hn
    · have hff : frame_free (setFrame s fi (fun g => { g with lock := some s.cur })) fi
          = some (setFrame (setFrame s fi (fun g => { g with lock := some s.cur })) fi
              (fun g => { g with page := none, lock := none })) := by
        unfold frame_free
        rw [hf2]
        simp [lock_held_by_current_thread, setFrame]
      refine ⟨{ (setFrame (setFrame s fi (fun g => { g with lock := some s.cur })) fi
            (fun g => { g with page := none, lock := none })) with
          pages := fun t =>
            if t = s.cur then
              (s.pages t).map (fun l => l.filter (fun q => q.addr != pg_round_down c vaddr))
            else s.pages t }, ?_, ?_, ?_, ?_, ?_, ?_, ?_⟩
      · simp only [page_deallocate, hpf, hfl, hg2, hres, hff]
        rw [if_neg hcond]
        rfl
      · exact getPage_remove_same
          (setFrame (setFrame s fi (fun g => { g with lock := some s.cur })) fi
            (fun g => { g with page := none, lock := none })) s.cur _
      · intro r hr
        exact getPage_remove_other
          (setFrame (setFrame s fi (fun g => { g with lock := some s.cur })) fi
            (fun g => { g with page := none, lock := none })) s.cur _ r hr
      · intro fi0 f0 hfi0 hf0
        rw [hres] at hfi0
        have hf0' : s.frames[fi]? = some f0 := by
          rw [Option.some.inj hfi0]
          exact hf0
        rw [← Option.some.inj hfi0]
        exact hframes_fi f0 hf0'
      · exact hframes_ne
      · intro hc
        exfalso
        apply hcond
        refine ⟨?_, hc.2.2⟩
        cases hfile : p.file with
        | none => exact absurd hfile hc.2.1
        | some fl => rfl
      · intro _
        exact ⟨rfl, rfl, rfl, rfl, rfl⟩

theorem page_deallocate_removes_witness :
    pg_round_down exSmallCfg 0x1001 = 0x1000 ∧
    ∃ s1, page_deallocate exSmallCfg (exMapped true).vm 0x1001 true = some s1 ∧
      getPage s1 (1, 0x1000) = none ∧
      getPage s1 (1, 0x1004) = some (exMapPage 1) ∧
      s1.frames[0]? = some { base := 0xC0100000, lock := none, page := none } ∧
      s1.frames[1]? = some { base := 0xC0100004, lock := none, page := some (1, 0x1004) } ∧
      (s1.pagedir 1 0x1000).present = false := by
  obtain ⟨s1, h1, h2, h3, h4, h5, h6, -⟩ :=
    page_deallocate_removes exSmallCfg (exMapped true).vm 0x1001 true
      [exMapPage 1, exMapPage 0] (exMapPage 0) (by decide) rfl rfl
      (fun fi hfi =>
        ⟨{ base := 0xC0100000, lock := none, page := some (1, 0x1000) }, by
          rw [← Option.some.inj hfi]
          rfl, rfl⟩)
  obtain ⟨fi, ok, s3, -, -, -, -, -, -, -, h7⟩ := h6 ⟨by decide, by decide, rfl⟩
  refine ⟨rfl, s1, h1, h2, ?_, h4 0 _ rfl rfl, ?_, h7⟩
  · rw [h3 (1, 0x1004) (by decide)]
    rfl
  · rw [h5 1 (by decide)]
    rfl

/-! ## Who writes the swap bitmap -/

theorem bitsKept_refl (b : List Bool) : BitsKept b b := fun _ h => h

theorem bitsKept_trans {b b1 b2 : List Bool} (h1 : BitsKept b b1) (h2 : BitsKept b1 b2) :
    BitsKept b b2 := fun i h => h2 i (h1 i h)

theorem bitsKept_of_eq {b b1 : List Bool} (h : b1 = b) : BitsKept b b1 := by
  rw [h]
  exact bitsKept_refl b

theorem bitsKept_set_true (b : List Bool) (k : Nat) : BitsKept b (b.set k true) := by
  intro i h
  rw [List.getElem?_set]
  by_cases hk : k = i
  · subst hk
    have hlt : k < b.length := by
      rcases List.getElem?_eq_some_iff.mp h with ⟨h3, -⟩
      exact h3
    simp [hlt]
  · simp [hk, h]

theorem swap_out_bits (c : Config) (s s1 : State) (r : PageRef) (ok : Bool)
    (h : swap_out c s r = some (ok, s1)) : BitsKept s.swap_bitmap s1.swap_bitmap := by
  cases ok with
  | false =>
    rw [swap_out_false_state c s s1 r h]
    exact bitsKept_refl _
  | true =>
    obtain ⟨p, fi, slot, -, -, -, h4⟩ := swap_out_elim c s s1 r h
    rw [h4]
    exact bitsKept_set_true s.swap_bitmap slot

/-- The only access of `page_out` to the swap bitmap is that of `swap_out`, and
there is none for a page with a backing file and `write_back` clear. -/
theorem page_out_bits (c : Config) (s s1 : State) (q : PageRef) (ok : Bool)
    (h : page_out c s q = some (ok, s1)) :
    BitsKept s.swap_bitmap s1.swap_bitmap ∧
    (∀ p, getPage s q = some p → p.file ≠ none → p.write_back = false →
      s1.swap_bitmap = s.swap_bitmap) := by
  unfold page_out at h
  cases hq : getPage s q with
  | none => simp [hq] at h
  | some p =>
    simp only [hq] at h
    cases hfr : p.frame with
    | none => simp [hfr] at h
    | some fi =>
      simp only [hfr] at h
      cases hfm : s.frames[fi]? with
      | none => simp [hfm] at h
      | some f =>
        simp only [hfm] at h
        split at h
        · simp at h
        · split at h
          · simp at h
          · rename_i ok2 s2 hrouted
            have hk : BitsKept s.swap_bitmap s2.swap_bitmap ∧
                (p.file ≠ none → p.write_back = false → s2.swap_bitmap = s.swap_bitmap) := by
              split at hrouted
              · rename_i hfile
                exact ⟨swap_out_bits c (pagedir_clear_page s p.thread p.addr) _ q _ hrouted,
                  fun h1 _ => absurd hfile h1⟩
              · split at hrouted
                · split at hrouted
                  · rename_i hwb
                    exact ⟨swap_out_bits c (pagedir_clear_page s p.thread p.addr) _ q _ hrouted,
                      fun _ h2 => by
                        rw [h2] at hwb
                        exact absurd hwb (by simp)⟩
                  · simp only [Option.some.injEq, Prod.mk.injEq] at hrouted
                    obtain ⟨-, rfl⟩ := hrouted
                    exact ⟨bitsKept_refl _, fun _ _ => rfl⟩
                · simp only [Option.some.injEq, Prod.mk.injEq] at hrouted
                  obtain ⟨-, rfl⟩ := hrouted
                  exact ⟨bitsKept_refl _, fun _ _ => rfl⟩
            have hfin : s1.swap_bitmap = s2.swap_bitmap := by
              split at h
              · simp only [Option.some.injEq, Prod.mk.injEq] at h
                rw [← h.2]
                rfl
              · simp only [Option.some.injEq, Prod.mk.injEq] at h
                rw [← h.2]
            rw [hfin]
            refine ⟨hk.1, ?_⟩
            intro p0 hp0 h1 h2
            rw [← Option.some.inj hp0] at h1 h2
            exact hk.2 h1 h2

theorem page_accessed_recently_bitmap (s s1 : State) (q : PageRef) (b : Bool)
    (h : page_accessed_recently s q = some (b, s1)) : s1.swap_bitmap = s.swap_bitmap := by
  unfold page_accessed_recently at h
  cases hq : getPage s q with
  | none => simp [hq] at h
  | some p =>
    simp only [hq] at h
    cases hfr : p.frame with
    | none => simp [hfr] at h
    | some fi =>
      simp only [hfr] at h
      cases hfm : s.frames[fi]? with
      | none => simp [hfm] at h
      | some f =>
        simp only [hfm] at h
        split at h
        · simp at h
        · split at h
          · simp only [Option.some.injEq, Prod.mk.injEq] at h
            rw [← h.2]
            rfl
          · simp only [Option.some.injEq, Prod.mk.injEq] at h
            rw [← h.2]

theorem find_free_frame_bitmap (s : State) (r : PageRef) :
    ∀ (n i : Nat) (s1 : State) (res : Option Nat),
      find_free_frame s r n i = some (res, s1) → s1.swap_bitmap = s.swap_bitmap := by
  intro n
  induction n with
  | zero =>
    intro i s1 res h
    simp only [find_free_frame, Option.some.injEq, Prod.mk.injEq] at h
    rw [← h.2]
  | succ n ih =>
    intro i s1 res h
    unfold find_free_frame at h
    cases hfr : s.frames[i]? with
    | none => simp [hfr] at h
    | some f =>
      simp only [hfr] at h
      cases hlk : f.lock with
      | some t =>
        simp only [hlk, lock_try_acquire] at h
        exact ih _ _ _ h
      | none =>
        simp only [hlk, lock_try_acquire] at h
        cases hpg : f.page with
        | some q =>
          simp only [hpg] at h
          exact ih _ _ _ h
        | none =>
          simp only [hpg, Option.some.injEq, Prod.mk.injEq] at h
          rw [← h.2]
          rfl

theorem evict_frame_bits (c : Config) (r : PageRef) :
    ∀ (n : Nat) (s s1 : State) (res : Option Nat),
      evict_frame c r n s = some (res, s1) → BitsKept s.swap_bitmap s1.swap_bitmap := by
  intro n
  induction n with
  | zero =>
    intro s s1 res h
    simp only [evict_frame, Option.some.injEq, Prod.mk.injEq] at h
    rw [← h.2]
    exact bitsKept_refl _
  | succ n ih =>
    intro s s1 res h
    unfold evict_frame at h
    cases hfr : s.frames[s.hand]? with
    | none => simp [hfr] at h
    | some f =>
      simp only [hfr] at h
      cases hlk : f.lock with
      | some t =>
        simp only [hlk, lock_try_acquire] at h
        have h2 := ih _ _ _ h
        exact h2
      | none =>
        simp only [hlk, lock_try_acquire] at h
        cases hpg : f.page with
        | none =>
          simp only [hpg, Option.some.injEq, Prod.mk.injEq] at h
          rw [← h.2]
          exact bitsKept_refl _
        | some q =>
          simp only [hpg] at h
          cases hpa : page_accessed_recently
              (setFrame { s with hand := if s.hand + 1 ≥ s.frames.length then 0 else s.hand + 1 }
                s.hand (fun g => { g with lock := some s.cur })) q with
          | none => simp [hpa] at h
          | some x =>
            obtain ⟨b, s3⟩ := x
            have hb3 : s3.swap_bitmap = s.swap_bitmap := by
              have h5 := page_accessed_recently_bitmap _ _ _ _ hpa
              exact h5
            cases b with
            | true =>
              simp only [hpa] at h
              have h2 := ih _ _ _ h
              intro i hi
              exact h2 i (by rw [← hb3] at hi; exact hi)
            | false =>
              simp only [hpa] at h
              cases hpo : page_out c { s3 with scan_lock := none } q with
              | none => simp [hpo] at h
              | some y =>
                obtain ⟨ok, s4⟩ := y
                have hb4 := (page_out_bits c _ _ _ _ hpo).1
                have hfin : s1.swap_bitmap = s4.swap_bitmap := by
                  cases ok with
                  | true =>
                    simp only [hpo, Option.some.injEq, Prod.mk.injEq] at h
                    rw [← h.2]
                    rfl
                  | false =>
                    simp only [hpo, Option.some.injEq, Prod.mk.injEq] at h
                    rw [← h.2]
                    rfl
                rw [hfin]
                intro i hi
                exact hb4 i (by rw [← hb3] at hi; exact hi)

theorem try_frame_alloc_and_lock_bits (c : Config) (s s1 : State) (r : PageRef)
    (res : Option Nat) (h : try_frame_alloc_and_lock c s r = some (res, s1)) :
    BitsKept s.swap_bitmap s1.swap_bitmap := by
  unfold try_frame_alloc_and_lock at h
  cases hla : lock_acquire s.scan_lock s.cur with
  | none => simp [hla] at h
  | some l =>
    simp only [hla] at h
    cases hff : find_free_frame { s with scan_lock := l } r s.frames.length 0 with
    | none => simp [hff] at h
    | some x =>
      obtain ⟨res2, s2⟩ := x
      have h1 : s2.swap_bitmap = s.swap_bitmap := by
        have h5 := find_free_frame_bitmap _ r _ _ _ _ hff
        exact h5
      cases res2 with
      | some i =>
        simp only [hff, Option.some.injEq, Prod.mk.injEq] at h
        rw [← h.2]
        exact bitsKept_of_eq h1
      | none =>
        simp only [hff] at h
        have h3 := evict_frame_bits c r _ _ _ _ h
        rw [h1] at h3
        exact h3

theorem frame_alloc_retry_bits (c : Config) (r : PageRef) :
    ∀ (n : Nat) (s s1 : State) (res : Option Nat),
      frame_alloc_retry c r n s = some (res, s1) → BitsKept s.swap_bitmap s1.swap_bitmap := by
  intro n
  induction n with
  | zero =>
    intro s s1 res h
    simp only [frame_alloc_retry, Option.some.injEq, Prod.mk.injEq] at h
    rw [← h.2]
    exact bitsKept_refl _
  | succ n ih =>
    intro s s1 res h
    unfold frame_alloc_retry at h
    cases htry : try_frame_alloc_and_lock c s r with
    | none => simp [htry] at h
    | some x =>
      obtain ⟨res2, s2⟩ := x
      have h1 := try_frame_alloc_and_lock_bits c s s2 r res2 htry
      cases res2 with
      | some i =>
        simp only [htry] at h
        cases hfi : s2.frames[i]? with
        | none => simp [hfi] at h
        | some f =>
          simp only [hfi] at h
          split at h
          · simp only [Option.some.injEq, Prod.mk.injEq] at h
            rw [← h.2]
            exact h1
          · simp at h
      | none =>
        simp only [htry] at h
        have h3 := ih _ _ _ h
        exact bitsKept_trans h1 h3

theorem page_allocate_bitmap (c : Config) (s s1 : State) (vaddr : Nat)
    (read_only malloc_ok : Bool) (res : Option PageRef)
    (h : page_allocate c s vaddr read_only malloc_ok = some (res, s1)) :
    s1.swap_bitmap = s.swap_bitmap := by
  unfold page_allocate at h
  split at h
  · cases hpt : s.pages s.cur with
    | none => simp [hpt] at h
    | some tbl =>
      simp only [hpt] at h
      split at h
      · simp only [Option.some.injEq, Prod.mk.injEq] at h
        rw [← h.2]
      · simp only [Option.some.injEq, Prod.mk.injEq] at h
        rw [← h.2]
  · simp only [Option.some.injEq, Prod.mk.injEq] at h
    rw [← h.2]

theorem page_for_addr_bitmap (c : Config) (s s1 : State) (address : Nat) (malloc_ok : Bool)
    (res : Option PageRef) (h : page_for_addr c s address malloc_ok = some (res, s1)) :
    s1.swap_bitmap = s.swap_bitmap := by
  unfold page_for_addr at h
  split at h
  · cases hpt : s.pages s.cur with
    | none => simp [hpt] at h
    | some tbl =>
      simp only [hpt] at h
      split at h
      · simp only [Option.some.injEq, Prod.mk.injEq] at h
        rw [← h.2]
      · split at h
        · exact page_allocate_bitmap c s s1 _ _ _ _ h
        · simp only [Option.some.injEq, Prod.mk.injEq] at h
          rw [← h.2]
  · simp only [Option.some.injEq, Prod.mk.injEq] at h
    rw [← h.2]

theorem frame_lock_bitmap (s s1 : State) (r : PageRef) (h : frame_lock s r = some s1) :
    s1.swap_bitmap = s.swap_bitmap := by
  unfold frame_lock at h
  cases hp : getPage s r with
  | none => simp [hp] at h
  | some p =>
    simp only [hp] at h
    cases hfr : p.frame with
    | none =>
      simp only [hfr, Option.some.injEq] at h
      rw [← h]
    | some fi =>
      simp only [hfr] at h
      cases hf : s.frames[fi]? with
      | none => simp [hf] at h
      | some f =>
        simp only [hf] at h
        cases hl : lock_acquire f.lock s.cur with
        | none => simp [hl] at h
        | some l =>
          simp only [hl, Option.some.injEq] at h
          rw [← h]
          rfl

theorem frame_free_bitmap (s s1 : State) (fi : Nat) (h : frame_free s fi = some s1) :
    s1.swap_bitmap = s.swap_bitmap := by
  unfold frame_free at h
  cases hf : s.frames[fi]? with
  | none => simp [hf] at h
  | some f =>
    simp only [hf] at h
    split at h
    · simp only [Option.some.injEq] at h
      rw [← h]
      rfl
    · simp at h

theorem frame_unlock_bitmap (s s1 : State) (fi : Nat) (h : frame_unlock s fi = some s1) :
    s1.swap_bitmap = s.swap_bitmap := by
  unfold frame_unlock at h
  cases hf : s.frames[fi]? with
  | none => simp [hf] at h
  | some f =>
    simp only [hf] at h
    split at h
    · simp only [Option.some.injEq] at h
      rw [← h]
      rfl
    · simp at h

theorem frame_lock_getPage (s s1 : State) (r : PageRef) (h : frame_lock s r = some s1)
    (r1 : PageRef) : getPage s1 r1 = getPage s r1 :=
  (frame_lock_view s s1 r h).2.1 r1

/-- `page_deallocate` leaves the swap bitmap alone: it calls `page_out` only for a
page with a backing file and `write_back` clear, which does not go to swap. -/
theorem page_deallocate_bitmap (c : Config) (s s1 : State) (vaddr : Nat) (malloc_ok : Bool)
    (h : page_deallocate c s vaddr malloc_ok = some s1) :
    s1.swap_bitmap = s.swap_bitmap := by
  unfold page_deallocate at h
  cases hpf : page_for_addr c s vaddr malloc_ok with
  | none => simp [hpf] at h
  | some x =>
    obtain ⟨res, sa⟩ := x
    have ha := page_for_addr_bitmap c s sa _ _ _ hpf
    cases res with
    | none => simp [hpf] at h
    | some r =>
      simp only [hpf] at h
      cases hfl : frame_lock sa r with
      | none => simp [hfl] at h
      | some sb =>
        simp only [hfl] at h
        have hb : sb.swap_bitmap = s.swap_bitmap := by
          rw [frame_lock_bitmap sa sb r hfl, ha]
        cases hp : getPage sb r with
        | none => simp [hp] at h
        | some p =>
          simp only [hp] at h
          cases hfr : p.frame with
          | none =>
            simp only [hfr, Option.some.injEq] at h
            rw [← h]
            exact hb
          | some fi =>
            simp only [hfr] at h
            by_cases hcond : p.file.isSome = true ∧ p.write_back = false
            · rw [if_pos hcond] at h
              cases hpo : page_out c sb r with
              | none => simp [hpo] at h
              | some y =>
                obtain ⟨ok, sc⟩ := y
                simp only [hpo] at h
                have hc : sc.swap_bitmap = sb.swap_bitmap := by
                  apply (page_out_bits c sb sc r ok hpo).2 p hp _ hcond.2
                  intro hn
                  rw [hn] at hcond
                  exact absurd hcond.1 (by simp)
                cases hff : frame_free sc fi with
                | none => simp [hff] at h
                | some s4 =>
                  simp only [hff, Option.some.injEq] at h
                  rw [← h]
                  show s4.swap_bitmap = s.swap_bitmap
                  rw [frame_free_bitmap sc s4 fi hff, hc, hb]
            · rw [if_neg hcond] at h
              cases hff : frame_free sb fi with
              | none => simp [hff] at h
              | some s4 =>
                simp only [hff, Option.some.injEq] at h
                rw [← h]
                show s4.swap_bitmap = s.swap_bitmap
                rw [frame_free_bitmap sb s4 fi hff, hb]

theorem destroy_pages_bitmap :
    ∀ (l : List Page) (s s1 : State), destroy_pages s l = some s1 →
      s1.swap_bitmap = s.swap_bitmap := by
  intro l
  induction l with
  | nil =>
    intro s s1 h
    simp only [destroy_pages, Option.some.injEq] at h
    rw [← h]
  | cons p ps ih =>
    intro s s1 h
    unfold destroy_pages at h
    cases hd : destroy_page s (s.cur, p.addr) with
    | none => simp [hd] at h
    | some sa =>
      simp only [hd] at h
      have h1 : sa.swap_bitmap = s.swap_bitmap := by
        unfold destroy_page at hd
        cases hfl : frame_lock s (s.cur, p.addr) with
        | none => simp [hfl] at hd
        | some sl =>
          simp only [hfl] at hd
          have h2 := frame_lock_bitmap _ _ _ hfl
          cases hq : getPage sl (s.cur, p.addr) with
          | none => simp [hq] at hd
          | some q =>
            simp only [hq] at hd
            cases hfr : q.frame with
            | none =>
              simp only [hfr, Option.some.injEq] at hd
              rw [← hd]
              exact h2
            | some fi =>
              simp only [hfr] at hd
              rw [frame_free_bitmap sl sa fi hd, h2]
      rw [ih sa s1 h, h1]

/-- `page_exit` leaves the swap bitmap alone. -/
theorem page_exit_bitmap (s s1 : State) (h : page_exit s = some s1) :
    s1.swap_bitmap = s.swap_bitmap := by
  unfold page_exit at h
  cases hpt : s.pages s.cur with
  | none =>
    simp only [hpt, Option.some.injEq] at h
    rw [← h]
  | some tbl =>
    simp only [hpt] at h
    cases hd : destroy_pages s tbl with
    | none => simp [hd] at h
    | some sl =>
      simp only [hd, Option.some.injEq] at h
      rw [← h]
      exact destroy_pages_bitmap tbl s sl hd

/-- In `do_page_in` for a page that is not resident, the only bit of the swap
bitmap that can go from set to clear is that of the slot the page is read
from by `swap_in`. -/
theorem do_page_in_bits (c : Config) (s s1 : State) (r : PageRef) (ok : Bool) (p : Page)
    (hp : getPage s r = some p) (hnr : p.frame = none)
    (h : do_page_in c s r = some (ok, s1)) :
    ∀ i : Nat, s.swap_bitmap[i]? = some true →
      s1.swap_bitmap[i]? = some true ∨
      ∃ sec, p.sector = some sec ∧ i = sec / PAGE_SECTORS c := by
  unfold do_page_in at h
  cases hfa : frame_alloc_and_lock c s r with
  | none => simp [hfa] at h
  | some x =>
    obtain ⟨res, s0⟩ := x
    have hb0 : BitsKept s.swap_bitmap s0.swap_bitmap := frame_alloc_retry_bits c r 3 s s0 res hfa
    obtain ⟨hp0, -, -⟩ := frame_alloc_retry_keeps c r p hnr 3 s s0 res hp hfa
    cases res with
    | none =>
      simp only [hfa, Option.some.injEq, Prod.mk.injEq] at h
      rw [← h.2]
      intro i hi
      exact Or.inl (hb0 i hi)
    | some fi =>
      simp only [hfa] at h
      have hsame : getPage (setPage s0 r (fun q => { q with frame := some fi })) r
          = some { p with frame := some fi } := by
        rw [getPage_setPage_same _ _ _ (by intro x; rfl), hp0]
        rfl
      simp only [hsame] at h
      cases hsec : p.sector with
      | some sec =>
        simp only [hsec, Option.map_eq_some', Prod.mk.injEq] at h
        obtain ⟨s3, hsi, -, rfl⟩ := h
        obtain ⟨p2, fi2, sec2, h1, -, h3, h4⟩ := swap_in_elim c _ _ _ hsi
        rw [hsame] at h1
        have hsec2 : sec2 = sec := by
          rw [← Option.some.inj h1] at h3
          have h5 : p.sector = some sec2 := h3
          rw [hsec] at h5
          exact (Option.some.inj h5).symm
        intro i hi
        by_cases hidx : i = sec / PAGE_SECTORS c
        · exact Or.inr ⟨sec, rfl, hidx⟩
        · left
          rw [h4]
          show (bitmap_reset s0.swap_bitmap (sec2 / PAGE_SECTORS c))[i]? = some true
          unfold bitmap_reset
          rw [hsec2, List.getElem?_set_ne (Ne.symm hidx)]
          exact hb0 i hi
      | none =>
        simp only [hsec] at h
        cases hfile : p.file with
        | some fl =>
          simp only [hfile, Option.some.injEq, Prod.mk.injEq] at h
          rw [← h.2]
          intro i hi
          exact Or.inl (hb0 i hi)
        | none =>
          simp only [hfile, Option.some.injEq, Prod.mk.injEq] at h
          rw [← h.2]
          intro i hi
          exact Or.inl (hb0 i hi)

theorem page_for_addr_ref (c : Config) (s s1 : State) (address : Nat) (malloc_ok : Bool)
    (r : PageRef) (h : page_for_addr c s address malloc_ok = some (some r, s1)) :
    r = (s.cur, pg_round_down c address) := by
  unfold page_for_addr at h
  split at h
  · cases hpt : s.pages s.cur with
    | none => simp [hpt] at h
    | some tbl =>
      simp only [hpt] at h
      cases hfind : hash_find tbl (pg_round_down c address) with
      | some q =>
        simp only [hfind, Option.some.injEq, Prod.mk.injEq] at h
        exact h.1.symm
      | none =>
        simp only [hfind] at h
        split at h
        · unfold page_allocate at h
          split at h
          · simp only [hpt] at h
            split at h
            · simp at h
            · simp only [Option.some.injEq, Prod.mk.injEq] at h
              rw [← h.1, pg_round_down_idem]
          · simp at h
        · simp at h
  · simp at h

/-- The general form of `do_page_in_bits`: a bit that `do_page_in` clears is the
bit of the slot of the page that is read in. -/
theorem do_page_in_clears (c : Config) (s s1 : State) (r : PageRef) (ok : Bool)
    (hnr : page_frame s r = none) (h : do_page_in c s r = some (ok, s1)) :
    ∀ i : Nat, s.swap_bitmap[i]? = some true →
      s1.swap_bitmap[i]? = some true ∨
      ∃ p sec, getPage s r = some p ∧ p.sector = some sec ∧ i = sec / PAGE_SECTORS c := by
  cases hp : getPage s r with
  | some p =>
    have hpn : p.frame = none := by
      unfold page_frame at hnr
      rw [hp] at hnr
      exact hnr
    intro i hi
    rcases do_page_in_bits c s s1 r ok p hp hpn h i hi with h1 | ⟨sec, h2, h3⟩
    · exact Or.inl h1
    · exact Or.inr ⟨p, sec, rfl, h2, h3⟩
  | none =>
    intro i hi
    left
    unfold do_page_in at h
    cases hfa : frame_alloc_and_lock c s r with
    | none => simp [hfa] at h
    | some x =>
      obtain ⟨res, s0⟩ := x
      have hb0 : BitsKept s.swap_bitmap s0.swap_bitmap :=
        frame_alloc_retry_bits c r 3 s s0 res hfa
      have heff := frame_alloc_and_lock_effect c s s0 r res hfa
      have hp0 : getPage s0 r = none := by
        rcases heff with ⟨-, hv⟩ | ⟨j, -, -, -, -, h5⟩
        · rw [hv.2.1 r]
          exact hp
        · rcases h5 with ⟨-, h7⟩ | ⟨q, p, p1, -, h7, -, -, h10⟩
          · rw [h7 r]
            exact hp
          · have hrq : r ≠ q := by
              intro heq
              rw [heq, h7] at hp
              exact absurd hp (by simp)
            rw [h10 r hrq]
            exact hp
      cases res with
      | none =>
        simp only [hfa, Option.some.injEq, Prod.mk.injEq] at h
        rw [← h.2]
        exact hb0 i hi
      | some fi =>
        simp only [hfa] at h
        have hsame : getPage (setPage s0 r (fun q => { q with frame := some fi })) r = none := by
          rw [getPage_setPage_same _ _ _ (by intro x; rfl), hp0]
          rfl
        simp [hsame] at h

/-- The only bit `page_in` can clear is that of the slot of the faulting page. -/
theorem page_in_clears (c : Config) (s s1 : State) (fault_addr : Nat)
    (malloc_ok pt_ok ok : Bool) (h : page_in c s fault_addr malloc_ok pt_ok = some (ok, s1)) :
    ∀ i : Nat, s.swap_bitmap[i]? = some true →
      s1.swap_bitmap[i]? = some true ∨
      ∃ p sec, getPage s (s.cur, pg_round_down c fault_addr) = some p ∧
        p.sector = some sec ∧ i = sec / PAGE_SECTORS c := by
  intro i hi
  unfold page_in at h
  cases hpt : s.pages s.cur with
  | none =>
    simp only [hpt, Option.some.injEq, Prod.mk.injEq] at h
    rw [← h.2]
    exact Or.inl hi
  | some tbl =>
    simp only [hpt] at h
    cases hpf : page_for_addr c s fault_addr malloc_ok with
    | none => simp [hpf] at h
    | some x =>
      obtain ⟨res, sa⟩ := x
      have hba := page_for_addr_bitmap c s sa _ _ _ hpf
      have hgrow := page_for_addr_grows c s sa _ _ _ hpf
      cases res with
      | none =>
        simp only [hpf, Option.some.injEq, Prod.mk.injEq] at h
        rw [← h.2, hba]
        exact Or.inl hi
      | some r =>
        have hr := page_for_addr_ref c s sa _ _ r hpf
        simp only [hpf] at h
        cases hfl : frame_lock sa r with
        | none => simp [hfl] at h
        | some sb =>
          simp only [hfl] at h
          have hbb : sb.swap_bitmap = s.swap_bitmap := by
            rw [frame_lock_bitmap sa sb r hfl, hba]
          have hpaged : ∀ b sc,
              (match (getPage sb r).bind (fun p => p.frame) with
                | none => do_page_in c sb r
                | some _ => some (true, sb)) = some (b, sc) →
              sc.swap_bitmap[i]? = some true ∨
              ∃ p sec, getPage s (s.cur, pg_round_down c fault_addr) = some p ∧
                p.sector = some sec ∧ i = sec / PAGE_SECTORS c := by
            intro b sc hm
            cases hres : (getPage sb r).bind (fun p => p.frame) with
            | none =>
              rw [hres] at hm
              rcases do_page_in_clears c sb sc r b hres hm i (by rw [hbb]; exact hi) with
                h1 | ⟨p, sec, h2, h3, h4⟩
              · exact Or.inl h1
              · right
                rw [frame_lock_getPage sa sb r hfl r] at h2
                rcases hgrow.2.2 r with h5 | ⟨-, q, h6, -, h7⟩
                · rw [h5, hr] at h2
                  exact ⟨p, sec, h2, h3, h4⟩
                · rw [h6] at h2
                  rw [← Option.some.inj h2, h7] at h3
                  exact absurd h3 (by simp)
            | some fi =>
              rw [hres] at hm
              simp only [Option.some.injEq, Prod.mk.injEq] at hm
              rw [← hm.2, hbb]
              exact Or.inl hi
          split at h
          · simp at h
          · rename_i sc hm
            simp only [Option.some.injEq, Prod.mk.injEq] at h
            rw [← h.2]
            exact hpaged _ _ hm
          · rename_i sc hm
            cases hp : getPage sc r with
            | none => simp [hp] at h
            | some p =>
              simp only [hp] at h
              cases hfr : p.frame with
              | none => simp [hfr] at h
              | some fi =>
                simp only [hfr] at h
                cases hf : sc.frames[fi]? with
                | none => simp [hf] at h
                | some f =>
                  simp only [hf] at h
                  split at h
                  · simp at h
                  · simp only [Option.map_eq_some', Prod.mk.injEq] at h
                    obtain ⟨s5, hun, -, rfl⟩ := h
                    have h5 : s5.swap_bitmap = sc.swap_bitmap := by
                      rw [frame_unlock_bitmap _ _ _ hun]
                      unfold pagedir_set_page
                      cases pt_ok <;> rfl
                    rw [h5]
                    exact hpaged _ _ hm

/-- The only bit `page_lock` can clear is that of the slot of the page it pins. -/
theorem page_lock_clears (c : Config) (s s1 : State) (addr : Nat)
    (will_write malloc_ok pt_ok ok : Bool)
    (h : page_lock c s addr will_write malloc_ok pt_ok = some (ok, s1)) :
    ∀ i : Nat, s.swap_bitmap[i]? = some true →
      s1.swap_bitmap[i]? = some true ∨
      ∃ p sec, getPage s (s.cur, pg_round_down c addr) = some p ∧
        p.sector = some sec ∧ i = sec / PAGE_SECTORS c := by
  intro i hi
  unfold page_lock at h
  cases hpf : page_for_addr c s addr malloc_ok with
  | none => simp [hpf] at h
  | some x =>
    obtain ⟨res, sa⟩ := x
    have hba := page_for_addr_bitmap c s sa _ _ _ hpf
    have hgrow := page_for_addr_grows c s sa _ _ _ hpf
    cases res with
    | none =>
      simp only [hpf, Option.some.injEq, Prod.mk.injEq] at h
      rw [← h.2, hba]
      exact Or.inl hi
    | some r =>
      have hr := page_for_addr_ref c s sa _ _ r hpf
      simp only [hpf] at h
      cases hp : getPage sa r with
      | none => simp [hp] at h
      | some p =>
        simp only [hp] at h
        split at h
        · simp only [Option.some.injEq, Prod.mk.injEq] at h
          rw [← h.2, hba]
          exact Or.inl hi
        · cases hfl : frame_lock sa r with
          | none => simp [hfl] at h
          | some sb =>
            simp only [hfl] at h
            have hbb : sb.swap_bitmap = s.swap_bitmap := by
              rw [frame_lock_bitmap sa sb r hfl, hba]
            cases hres : (getPage sb r).bind (fun q => q.frame) with
            | some fi =>
              simp only [hres, Option.some.injEq, Prod.mk.injEq] at h
              rw [← h.2, hbb]
              exact Or.inl hi
            | none =>
              simp only [hres] at h
              cases hdo : do_page_in c sb r with
              | none => simp [hdo] at h
              | some y =>
                obtain ⟨b, sc⟩ := y
                have hc : sc.swap_bitmap[i]? = some true ∨
                    ∃ p sec, getPage s (s.cur, pg_round_down c addr) = some p ∧
                      p.sector = some sec ∧ i = sec / PAGE_SECTORS c := by
                  rcases do_page_in_clears c sb sc r b hres hdo i (by rw [hbb]; exact hi) with
                    h1 | ⟨p2, sec, h2, h3, h4⟩
                  · exact Or.inl h1
                  · right
                    rw [frame_lock_getPage sa sb r hfl r] at h2
                    rcases hgrow.2.2 r with h5 | ⟨-, q, h6, -, h7⟩
                    · rw [h5, hr] at h2
                      exact ⟨p2, sec, h2, h3, h4⟩
                    · rw [h6] at h2
                      rw [← Option.some.inj h2, h7] at h3
                      exact absurd h3 (by simp)
                cases b with
                | false =>
                  simp only [hdo, Option.some.injEq, Prod.mk.injEq] at h
                  rw [← h.2]
                  exact hc
                | true =>
                  simp only [hdo] at h
                  cases hq : getPage sc r with
                  | none => simp [hq] at h
                  | some q =>
                    simp only [hq] at h
                    cases hfr : q.frame with
                    | none => simp [hfr] at h
                    | some fi =>
                      simp only [hfr] at h
                      cases hf : sc.frames[fi]? with
                      | none => simp [hf] at h
                      | some f =>
                        simp only [hf, Option.some.injEq] at h
                        have h5 : s1.swap_bitmap = sc.swap_bitmap := by
                          have h6 := congrArg (fun x => x.2.swap_bitmap) h
                          simp only [] at h6
                          rw [← h6]
                          unfold pagedir_set_page
                          cases pt_ok <;> rfl
                        rw [h5]
                        exact hc

/-- C28: `page_deallocate` and `page_exit` never modify the swap bitmap, so the
slot of a descriptor that is destroyed while swapped out keeps its bit set.
The other operations never clear a bit either, except through `swap_in`:
`swap_out`, `page_out`, `frame_alloc_and_lock` keep every set bit, and
`page_allocate` and `page_unlock` leave the bitmap alone; `swap_in` clears the
bit of the slot it reads, and a bit that `do_page_in`, `page_in` or `page_lock`
clears is the bit of the slot of the page they read in with `swap_in`. -/
theorem swap_bits_cleared_only_by_swap_in (c : Config) (s : State) :
    (∀ vaddr malloc_ok s1, page_deallocate c s vaddr malloc_ok = some s1 →
      s1.swap_bitmap = s.swap_bitmap) ∧
    (∀ s1, page_exit s = some s1 → s1.swap_bitmap = s.swap_bitmap) ∧
    (∀ r ok s1, swap_out c s r = some (ok, s1) → BitsKept s.swap_bitmap s1.swap_bitmap) ∧
    (∀ r ok s1, page_out c s r = some (ok, s1) → BitsKept s.swap_bitmap s1.swap_bitmap) ∧
    (∀ r res s1, frame_alloc_and_lock c s r = some (res, s1) →
      BitsKept s.swap_bitmap s1.swap_bitmap) ∧
    (∀ vaddr read_only malloc_ok res s1,
      page_allocate c s vaddr read_only malloc_ok = some (res, s1) →
      s1.swap_bitmap = s.swap_bitmap) ∧
    (∀ addr malloc_ok s1, page_unlock c s addr malloc_ok = some s1 →
      s1.swap_bitmap = s.swap_bitmap) ∧
    (∀ r s1, swap_in c s r = some s1 →
      ∃ p sec, getPage s r = some p ∧ p.sector = some sec ∧
        s1.swap_bitmap = bitmap_reset s.swap_bitmap (sec / PAGE_SECTORS c)) ∧
    (∀ r ok s1, page_frame s r = none → do_page_in c s r = some (ok, s1) →
      ∀ i : Nat, s.swap_bitmap[i]? = some true →
        s1.swap_bitmap[i]? = some true ∨
        ∃ p sec, getPage s r = some p ∧ p.sector = some sec ∧ i = sec / PAGE_SECTORS c) ∧
    (∀ addr malloc_ok pt_ok ok s1, page_in c s addr malloc_ok pt_ok = some (ok, s1) →
      ∀ i : Nat, s.swap_bitmap[i]? = some true →
        s1.swap_bitmap[i]? = some true ∨
        ∃ p sec, getPage s (s.cur, pg_round_down c addr) = some p ∧
          p.sector = some sec ∧ i = sec / PAGE_SECTORS c) ∧
    (∀ addr will_write malloc_ok pt_ok ok s1,
      page_lock c s addr will_write malloc_ok pt_ok = some (ok, s1) →
      ∀ i : Nat, s.swap_bitmap[i]? = some true →
        s1.swap_bitmap[i]? = some true ∨
        ∃ p sec, getPage s (s.cur, pg_round_down c addr) = some p ∧
          p.sector = some sec ∧ i = sec / PAGE_SECTORS c) := by
  refine ⟨?_, ?_, ?_, ?_, ?_, ?_, ?_, ?_, ?_, ?_, ?_⟩
  · intro vaddr malloc_ok s1 h
    exact page_deallocate_bitmap c s s1 vaddr malloc_ok h
  · intro s1 h
    exact page_exit_bitmap s s1 h
  · intro r ok s1 h
    exact swap_out_bits c s s1 r ok h
  · intro r ok s1 h
    exact (page_out_bits c s s1 r ok h).1
  · intro r res s1 h
    exact frame_alloc_retry_bits c r 3 s s1 res h
  · intro vaddr read_only malloc_ok res s1 h
    exact page_allocate_bitmap c s s1 vaddr read_only malloc_ok res h
  · intro addr malloc_ok s1 h
    unfold page_unlock at h
    cases hpf : page_for_addr c s addr malloc_ok with
    | none => simp [hpf] at h
    | some x =>
      obtain ⟨res, sa⟩ := x
      have hba := page_for_addr_bitmap c s sa _ _ _ hpf
      cases res with
      | none => simp [hpf] at h
      | some r =>
        simp only [hpf] at h
        cases hres : (getPage sa r).bind (fun p => p.frame) with
        | none => simp [hres] at h
        | some fi =>
          simp only [hres] at h
          rw [frame_unlock_bitmap _ _ _ h, hba]
  · intro r s1 h
    obtain ⟨p, fi, sec, h1, -, h3, h4⟩ := swap_in_elim c s s1 r h
    refine ⟨p, sec, h1, h3, ?_⟩
    rw [h4]
    rfl
  · intro r ok s1 hnr h
    exact do_page_in_clears c s s1 r ok hnr h
  · intro addr malloc_ok pt_ok ok s1 h
    exact page_in_clears c s s1 addr malloc_ok pt_ok ok h
  · intro addr will_write malloc_ok pt_ok ok s1 h
    exact page_lock_clears c s s1 addr will_write malloc_ok pt_ok ok h

theorem swap_bits_cleared_only_by_swap_in_witness :
    getPage (exState [exSwapped] [true] false false false) (1, 0x8048000) = some exSwapped ∧
    (∃ s1, page_deallocate exCfg (exState [exSwapped] [true] false false false) 0x8048000 true
        = some s1 ∧
      getPage s1 (1, 0x8048000) = none ∧ s1.swap_bitmap = [true]) ∧
    ∃ s2, page_exit (exState [exSwapped] [true] false false false) = some s2 ∧
      getPage s2 (1, 0x8048000) = none ∧ s2.swap_bitmap = [true] := by
  have hd : ∃ s1, page_deallocate exCfg (exState [exSwapped] [true] false false false)
      0x8048000 true = some s1 ∧ getPage s1 (1, 0x8048000) = none := ⟨_, rfl, rfl⟩
  have he : ∃ s2, page_exit (exState [exSwapped] [true] false false false) = some s2 ∧
      getPage s2 (1, 0x8048000) = none := ⟨_, rfl, rfl⟩
  obtain ⟨s1, h1, h2⟩ := hd
  obtain ⟨s2, h3, h4⟩ := he
  obtain ⟨k1, k2, -⟩ := swap_bits_cleared_only_by_swap_in exCfg
    (exState [exSwapped] [true] false false false)
  exact ⟨rfl, ⟨s1, h1, h2, k1 _ _ s1 h1⟩, s2, h3, h4, k2 s2 h3⟩

/-! ## Locks held by `try_frame_alloc_and_lock` -/

theorem evict_frame_log_fst (c : Config) (r : PageRef) :
    ∀ (n : Nat) (s : State), (evict_frame_log c r n s).1 = evict_frame c r n s := by
  intro n
  induction n with
  | zero =>
    intro s
    rfl
  | succ n ih =>
    intro s
    unfold evict_frame_log evict_frame
    cases hfr : s.frames[s.hand]? with
    | none => rfl
    | some f =>
      simp only []
      cases hlk : f.lock with
      | some t =>
        simp only [lock_try_acquire]
        exact ih _
      | none =>
        simp only [lock_try_acquire]
        cases hpg : f.page with
        | none => rfl
        | some q =>
          simp only []
          cases hpa : page_accessed_recently
              (setFrame { s with hand := if s.hand + 1 ≥ s.frames.length then 0 else s.hand + 1 }
                s.hand (fun g => { g with lock := some s.cur })) q with
          | none => rfl
          | some x =>
            obtain ⟨b, s3⟩ := x
            cases b with
            | true =>
              simp only []
              exact ih _
            | false =>
              simp only [evict_victim]

theorem evict_frame_log_snd (c : Config) (r : PageRef) :
    ∀ (n : Nat) (s : State) (l : Option Nat), l ∈ (evict_frame_log c r n s).2 → l = none := by
  intro n
  induction n with
  | zero =>
    intro s l hl
    simp [evict_frame_log] at hl
  | succ n ih =>
    intro s l hl
    unfold evict_frame_log at hl
    cases hfr : s.frames[s.hand]? with
    | none => simp [hfr] at hl
    | some f =>
      simp only [hfr] at hl
      cases hlk : f.lock with
      | some t =>
        simp only [hlk, lock_try_acquire] at hl
        exact ih _ l hl
      | none =>
        simp only [hlk, lock_try_acquire] at hl
        cases hpg : f.page with
        | none => simp [hpg] at hl
        | some q =>
          simp only [hpg] at hl
          cases hpa : page_accessed_recently
              (setFrame { s with hand := if s.hand + 1 ≥ s.frames.length then 0 else s.hand + 1 }
                s.hand (fun g => { g with lock := some s.cur })) q with
          | none => simp [hpa] at hl
          | some x =>
            obtain ⟨b, s3⟩ := x
            cases b with
            | true =>
              simp only [hpa] at hl
              exact ih _ l hl
            | false =>
              simp only [hpa, List.mem_singleton] at hl
              exact hl

theorem swap_out_scan_lock (c : Config) (s s1 : State) (r : PageRef) (ok : Bool)
    (h : swap_out c s r = some (ok, s1)) : s1.scan_lock = s.scan_lock := by
  cases ok with
  | false => rw [swap_out_false_state c s s1 r h]
  | true =>
    obtain ⟨p, fi, slot, -, -, -, h4⟩ := swap_out_elim c s s1 r h
    rw [h4]
    rfl

theorem page_out_scan_lock (c : Config) (s s1 : State) (q : PageRef) (ok : Bool)
    (h : page_out c s q = some (ok, s1)) : s1.scan_lock = s.scan_lock := by
  unfold page_out at h
  cases hq : getPage s q with
  | none => simp [hq] at h
  | some p =>
    simp only [hq] at h
    cases hfr : p.frame with
    | none => simp [hfr] at h
    | some fi =>
      simp only [hfr] at h
      cases hfm : s.frames[fi]? with
      | none => simp [hfm] at h
      | some f =>
        simp only [hfm] at h
        split at h
        · simp at h
        · split at h
          · simp at h
          · rename_i ok2 s2 hrouted
            have hk : s2.scan_lock = s.scan_lock := by
              split at hrouted
              · exact swap_out_scan_lock c (pagedir_clear_page s p.thread p.addr) _ q _ hrouted
              · split at hrouted
                · split at hrouted
                  · exact swap_out_scan_lock c (pagedir_clear_page s p.thread p.addr) _ q _
                      hrouted
                  · simp only [Option.some.injEq, Prod.mk.injEq] at hrouted
                    rw [← hrouted.2]
                    rfl
                · simp only [Option.some.injEq, Prod.mk.injEq] at hrouted
                  rw [← hrouted.2]
                  rfl
            split at h
            · simp only [Option.some.injEq, Prod.mk.injEq] at h
              rw [← h.2]
              exact hk
            · simp only [Option.some.injEq, Prod.mk.injEq] at h
              rw [← h.2]
              exact hk

theorem find_free_frame_result (s : State) (r : PageRef) :
    ∀ (n i : Nat) (s1 : State) (res : Option Nat),
      find_free_frame s r n i = some (res, s1) →
      (res = none → s1 = s) ∧
      (∀ j, res = some j → ∃ f, s.frames[j]? = some f ∧ f.lock = none ∧
        s1 = { setFrame s j (fun g => { g with lock := some s.cur, page := some r }) with
               scan_lock := none }) := by
  intro n
  induction n with
  | zero =>
    intro i s1 res h
    simp only [find_free_frame, Option.some.injEq, Prod.mk.injEq] at h
    obtain ⟨rfl, rfl⟩ := h
    exact ⟨fun _ => rfl, fun j hj => absurd hj (by simp)⟩
  | succ n ih =>
    intro i s1 res h
    unfold find_free_frame at h
    cases hfr : s.frames[i]? with
    | none => simp [hfr] at h
    | some f =>
      simp only [hfr] at h
      cases hlk : f.lock with
      | some t =>
        simp only [hlk, lock_try_acquire] at h
        exact ih _ _ _ h
      | none =>
        simp only [hlk, lock_try_acquire] at h
        cases hpg : f.page with
        | some q =>
          simp only [hpg] at h
          exact ih _ _ _ h
        | none =>
          simp only [hpg, Option.some.injEq, Prod.mk.injEq] at h
          obtain ⟨rfl, rfl⟩ := h
          refine ⟨fun hn => absurd hn (by simp), fun j hj => ?_⟩
          have hji : i = j := Option.some.inj hj
          subst hji
          exact ⟨f, hfr, hlk, rfl⟩

/-- The frame locks after the second loop: the frame returned is locked by the
caller, every other lock is what it was, and the scan lock is free. -/
theorem evict_frame_locks (c : Config) (r : PageRef) :
    ∀ (n : Nat) (s s1 : State) (res : Option Nat),
      evict_frame c r n s = some (res, s1) →
      s1.scan_lock = none ∧ s1.cur = s.cur ∧
      ∀ (j : Nat) (f : Frame), s.frames[j]? = some f →
        ∃ f1, s1.frames[j]? = some f1 ∧
          (res = some j → f.lock = none ∧ f1.lock = some s.cur) ∧
          (res ≠ some j → f1.lock = f.lock) := by
  intro n
  induction n with
  | zero =>
    intro s s1 res h
    simp only [evict_frame, Option.some.injEq, Prod.mk.injEq] at h
    obtain ⟨rfl, rfl⟩ := h
    exact ⟨rfl, rfl, fun j f hj => ⟨f, hj, fun h1 => absurd h1 (by simp), fun _ => rfl⟩⟩
  | succ n ih =>
    intro s s1 res h
    unfold evict_frame at h
    cases hfr : s.frames[s.hand]? with
    | none => simp [hfr] at h
    | some f0 =>
      simp only [hfr] at h
      cases hlk : f0.lock with
      | some t =>
        simp only [hlk, lock_try_acquire] at h
        have h2 := ih _ _ _ h
        exact h2
      | none =>
        simp only [hlk, lock_try_acquire] at h
        cases hpg : f0.page with
        | none =>
          simp only [hpg, Option.some.injEq, Prod.mk.injEq] at h
          obtain ⟨rfl, rfl⟩ := h
          refine ⟨rfl, rfl, ?_⟩
          intro j f hj
          by_cases hjh : s.hand = j
          · subst hjh
            rw [hfr] at hj
            have hff : f0 = f := Option.some.inj hj
            subst hff
            refine ⟨{ base := f0.base, lock := some s.cur, page := some r }, ?_,
              fun _ => ⟨hlk, rfl⟩, fun hn => absurd rfl hn⟩
            show (List.modify _ s.hand (List.modify _ s.hand s.frames))[s.hand]? = _
            rw [List.getElem?_modify_eq, List.getElem?_modify_eq, hfr]
            rfl
          · refine ⟨f, ?_, fun h1 => absurd (Option.some.inj h1) hjh, fun _ => rfl⟩
            show (List.modify _ s.hand (List.modify _ s.hand s.frames))[j]? = _
            rw [List.getElem?_modify_ne _ _ hjh, List.getElem?_modify_ne _ _ hjh]
            exact hj
        | some q =>
          simp only [hpg] at h
          cases hpa : page_accessed_recently
              (setFrame { s with hand := if s.hand + 1 ≥ s.frames.length then 0 else s.hand + 1 }
                s.hand (fun g => { g with lock := some s.cur })) q with
          | none => simp [hpa] at h
          | some x =>
            obtain ⟨b, s3⟩ := x
            obtain ⟨-, hc3, hf3, -⟩ := page_accessed_recently_keeps _ _ _ _ hpa
            have hc3' : s3.cur = s.cur := hc3
            have hf3' : s3.frames
                = List.modify (fun g => { g with lock := some s.cur }) s.hand s.frames := hf3
            cases b with
            | true =>
              simp only [hpa] at h
              obtain ⟨i1, i2, i3⟩ := ih _ _ _ h
              refine ⟨i1, by rw [i2]; exact hc3', ?_⟩
              intro j f hj
              -- the frame as the recursive call finds it
              have hmid : ∃ f', (setFrame s3 s.hand (fun g => { g with lock := none })).frames[j]?
                  = some f' ∧ f'.lock = f.lock := by
                show ∃ f', (List.modify _ s.hand s3.frames)[j]? = some f' ∧ f'.lock = f.lock
                rw [hf3']
                by_cases hjh : s.hand = j
                · subst hjh
                  rw [hfr] at hj
                  have hff : f0 = f := Option.some.inj hj
                  subst hff
                  rw [List.getElem?_modify_eq, List.getElem?_modify_eq, hfr]
                  exact ⟨_, rfl, hlk.symm⟩
                · rw [List.getElem?_modify_ne _ _ hjh, List.getElem?_modify_ne _ _ hjh]
                  exact ⟨f, hj, rfl⟩
              obtain ⟨f', hf', hl'⟩ := hmid
              obtain ⟨f1, k1, k2, k3⟩ := i3 j f' hf'
              refine ⟨f1, k1, fun hres => ?_, fun hres => ?_⟩
              · obtain ⟨k4, k5⟩ := k2 hres
                refine ⟨by rw [← hl']; exact k4, ?_⟩
                rw [k5]
                show some s3.cur = some s.cur
                rw [hc3']
              · rw [k3 hres, hl']
            | false =>
              simp only [hpa] at h
              cases hpo : page_out c { s3 with scan_lock := none } q with
              | none => simp [hpo] at h
              | some y =>
                obtain ⟨ok, s4⟩ := y
                obtain ⟨-, hc4, hf4, -⟩ := page_out_keeps c _ _ _ _ hpo
                have hsl4 : s4.scan_lock = none := page_out_scan_lock c _ _ _ _ hpo
                have hc4' : s4.cur = s.cur := by
                  rw [hc4]
                  exact hc3'
                have hf4' : s4.frames
                    = List.modify (fun g => { g with lock := some s.cur }) s.hand s.frames := by
                  rw [hf4]
                  exact hf3'
                cases ok with
                | false =>
                  simp only [hpo, Option.some.injEq, Prod.mk.injEq] at h
                  obtain ⟨rfl, rfl⟩ := h
                  refine ⟨hsl4, hc4', ?_⟩
                  intro j f hj
                  show ∃ f1, (List.modify _ s.hand s4.frames)[j]? = some f1 ∧ _
                  rw [hf4']
                  by_cases hjh : s.hand = j
                  · subst hjh
                    rw [hfr] at hj
                    have hff : f0 = f := Option.some.inj hj
                    subst hff
                    rw [List.getElem?_modify_eq, List.getElem?_modify_eq, hfr]
                    exact ⟨_, rfl, fun h1 => absurd h1 (by simp), fun _ => hlk.symm⟩
                  · rw [List.getElem?_modify_ne _ _ hjh, List.getElem?_modify_ne _ _ hjh]
                    exact ⟨f, hj, fun h1 => absurd h1 (by simp), fun _ => rfl⟩
                | true =>
                  simp only [hpo, Option.some.injEq, Prod.mk.injEq] at h
                  obtain ⟨rfl, rfl⟩ := h
                  refine ⟨hsl4, hc4', ?_⟩
                  intro j f hj
                  show ∃ f1, (List.modify _ s.hand s4.frames)[j]? = some f1 ∧ _
                  rw [hf4']
                  by_cases hjh : s.hand = j
                  · subst hjh
                    rw [hfr] at hj
                    have hff : f0 = f := Option.some.inj hj
                    subst hff
                    rw [List.getElem?_modify_eq, List.getElem?_modify_eq, hfr]
                    exact ⟨_, rfl, fun _ => ⟨hlk, rfl⟩, fun hn => absurd rfl hn⟩
                  · rw [List.getElem?_modify_ne _ _ hjh, List.getElem?_modify_ne _ _ hjh]
                    exact ⟨f, hj, fun h1 => absurd (Option.some.inj h1) hjh, fun _ => rfl⟩

/-- C23: `try_frame_alloc_and_lock` calls `page_out` only with the scan lock
released (the record of the scan lock's holder at every call of `page_out`
holds nothing but "free", and the function with the record computes what
`try_frame_alloc_and_lock` computes).  Whenever it returns, the scan lock is
free; if it returns frame `j`, that frame was unlocked and is now locked by the
caller and the lock of every other frame is what it was before the call; if it
returns none, the lock of every frame is what it was before the call. -/
theorem try_frame_alloc_and_lock_locks (c : Config) (s : State) (r : PageRef) :
    (try_frame_alloc_and_lock_log c s r).1 = try_frame_alloc_and_lock c s r ∧
    (∀ l, l ∈ (try_frame_alloc_and_lock_log c s r).2 → l = none) ∧
    (∀ res s1, try_frame_alloc_and_lock c s r = some (res, s1) →
      s1.scan_lock = none ∧
      ∀ (j : Nat) (f : Frame), s.frames[j]? = some f →
        ∃ f1, s1.frames[j]? = some f1 ∧
          (res = some j → f.lock = none ∧ f1.lock = some s.cur) ∧
          (res ≠ some j → f1.lock = f.lock)) := by
  refine ⟨?_, ?_, ?_⟩
  · unfold try_frame_alloc_and_lock_log try_frame_alloc_and_lock
    cases hla : lock_acquire s.scan_lock s.cur with
    | none => rfl
    | some l =>
      simp only []
      cases hff : find_free_frame { s with scan_lock := l } r s.frames.length 0 with
      | none => rfl
      | some x =>
        obtain ⟨res2, s2⟩ := x
        cases res2 with
        | some i => rfl
        | none =>
          simp only []
          exact evict_frame_log_fst c r _ s2
  · intro l hl
    unfold try_frame_alloc_and_lock_log at hl
    cases hla : lock_acquire s.scan_lock s.cur with
    | none => simp [hla] at hl
    | some l0 =>
      simp only [hla] at hl
      cases hff : find_free_frame { s with scan_lock := l0 } r s.frames.length 0 with
      | none => simp [hff] at hl
      | some x =>
        obtain ⟨res2, s2⟩ := x
        cases res2 with
        | some i => simp [hff] at hl
        | none =>
          simp only [hff] at hl
          exact evict_frame_log_snd c r _ s2 l hl
  · intro res s1 h
    unfold try_frame_alloc_and_lock at h
    cases hla : lock_acquire s.scan_lock s.cur with
    | none => simp [hla] at h
    | some l0 =>
      simp only [hla] at h
      cases hff : find_free_frame { s with scan_lock := l0 } r s.frames.length 0 with
      | none => simp [hff] at h
      | some x =>
        obtain ⟨res2, s2⟩ := x
        have hres := find_free_frame_result _ r _ _ _ _ hff
        cases res2 with
        | some i =>
          simp only [hff, Option.some.injEq, Prod.mk.injEq] at h
          obtain ⟨rfl, rfl⟩ := h
          obtain ⟨f0, hf0, hl0, hs2⟩ := hres.2 i rfl
          have hf0' : s.frames[i]? = some f0 := hf0
          rw [hs2]
          refine ⟨rfl, ?_⟩
          intro j f hj
          show ∃ f1, (List.modify _ i s.frames)[j]? = some f1 ∧ _
          by_cases hji : i = j
          · subst hji
            rw [hf0'] at hj
            have hff0 : f0 = f := Option.some.inj hj
            subst hff0
            rw [List.getElem?_modify_eq, hf0']
            exact ⟨_, rfl, fun _ => ⟨hl0, rfl⟩, fun hn => absurd rfl hn⟩
          · rw [List.getElem?_modify_ne _ _ hji]
            exact ⟨f, hj, fun h1 => absurd (Option.some.inj h1) hji, fun _ => rfl⟩
        | none =>
          simp only [hff] at h
          have hs2 : s2 = { s with scan_lock := l0 } := hres.1 rfl
          rw [hs2] at h
          have h3 := evict_frame_locks c r _ _ _ _ h
          exact ⟨h3.1, h3.2.2⟩

theorem try_frame_alloc_and_lock_locks_witness :
    (try_frame_alloc_and_lock_log exCfg exClock (1, 0x8050000)).2 = [none] ∧
    ∃ s1, try_frame_alloc_and_lock exCfg exClock (1, 0x8050000) = some (some 2, s1) ∧
      s1.scan_lock = none ∧
      (∃ f1, s1.frames[2]? = some f1 ∧ f1.lock = some 1) ∧
      (∃ f1, s1.frames[0]? = some f1 ∧ f1.lock = none) ∧
      (∃ f1, s1.frames[1]? = some f1 ∧ f1.lock = none) := by
  refine ⟨by decide, ?_⟩
  have hret : ∃ s1, try_frame_alloc_and_lock exCfg exClock (1, 0x8050000)
      = some (some 2, s1) := ⟨_, rfl⟩
  obtain ⟨s1, hs1⟩ := hret
  obtain ⟨h1, h2⟩ :=
    (try_frame_alloc_and_lock_locks exCfg exClock (1, 0x8050000)).2.2 (some 2) s1 hs1
  refine ⟨s1, hs1, h1, ?_, ?_, ?_⟩
  · obtain ⟨f1, k1, k2, -⟩ := h2 2 _ rfl
    exact ⟨f1, k1, (k2 rfl).2⟩
  · obtain ⟨f1, k1, -, k3⟩ := h2 0 _ rfl
    exact ⟨f1, k1, k3 (by decide)⟩
  · obtain ⟨f1, k1, -, k3⟩ := h2 1 _ rfl
    exact ⟨f1, k1, k3 (by decide)⟩

/-! ## The clock sweep of `try_frame_alloc_and_lock` -/

theorem hand_step (h n : Nat) (hn : h < n) :
    (if h + 1 ≥ n then 0 else h + 1) = (h + 1) % n := by
  by_cases hc : h + 1 ≥ n
  · have he : h + 1 = n := by omega
    rw [if_pos hc, he, Nat.mod_self]
  · rw [if_neg hc, Nat.mod_eq_of_lt (by omega)]

theorem hand_mod_inj (h n i j : Nat) (hi : i < n) (hj : j < n)
    (he : (h + i) % n = (h + j) % n) : i = j := by
  have h1 : (h + i) % n = (h + j) % n := he
  have hn : 0 < n := by omega
  have d1 := Nat.div_add_mod (h + i) n
  have d2 := Nat.div_add_mod (h + j) n
  rw [h1] at d1
  rcases Nat.lt_trichotomy ((h + i) / n) ((h + j) / n) with hlt | heq | hgt
  · have : n * ((h + i) / n) + n ≤ n * ((h + j) / n) := by
      have := Nat.mul_le_mul_left n (Nat.succ_le_of_lt hlt)
      rw [Nat.mul_succ] at this
      exact this
    omega
  · rw [heq] at d1
    omega
  · have : n * ((h + j) / n) + n ≤ n * ((h + i) / n) := by
      have := Nat.mul_le_mul_left n (Nat.succ_le_of_lt hgt)
      rw [Nat.mul_succ] at this
      exact this
    omega

theorem modify_lock_restore (l : List Frame) (v : Nat) (t : Nat) (f : Frame)
    (hf : l[v]? = some f) (hl : f.lock = none) :
    List.modify (fun g => { g with lock := none }) v
      (List.modify (fun g => { g with lock := some t }) v l) = l := by
  apply List.ext_getElem?
  intro j
  by_cases hj : v = j
  · subst hj
    rw [List.getElem?_modify_eq, List.getElem?_modify_eq, hf]
    show some ({ base := f.base, lock := none, page := f.page } : Frame) = some f
    rw [← hl]
  · rw [List.getElem?_modify_ne _ _ hj, List.getElem?_modify_ne _ _ hj]

theorem find_free_frame_occupied (s : State) (r : PageRef)
    (hocc : ∀ (j : Nat) (f : Frame), s.frames[j]? = some f → f.page ≠ none) :
    ∀ (n i : Nat), i + n ≤ s.frames.length → find_free_frame s r n i = some (none, s) := by
  intro n
  induction n with
  | zero =>
    intro i _
    rfl
  | succ n ih =>
    intro i hi
    have hlt : i < s.frames.length := by omega
    have hfr : s.frames[i]? = some (s.frames[i]) := List.getElem?_eq_getElem hlt
    have hpg := hocc i _ hfr
    unfold find_free_frame
    rw [hfr]
    simp only []
    cases hlk : (s.frames[i]).lock with
    | some t =>
      simp only [lock_try_acquire]
      exact ih _ (by omega)
    | none =>
      simp only [lock_try_acquire]
      cases hp : (s.frames[i]).page with
      | none => exact absurd hp hpg
      | some q =>
        simp only []
        exact ih _ (by omega)

theorem page_accessed_recently_eq (s : State) (q : PageRef) (p : Page) (fi : Nat) (f : Frame)
    (hq : getPage s q = some p) (hfr : p.frame = some fi) (hf : s.frames[fi]? = some f)
    (hl : f.lock = some s.cur) :
    page_accessed_recently s q
      = if (s.pagedir p.thread p.addr).accessed then
          some (true, pagedir_set_accessed s p.thread p.addr false)
        else some (false, s) := by
  unfold page_accessed_recently
  rw [hq]
  simp only [hfr, hf, hl, lock_held_by_current_thread, pagedir_is_accessed]
  simp

/-- One iteration of the second loop at a frame that is unlocked and holds a
resident page. -/
theorem evict_frame_step (c : Config) (r : PageRef) (m : Nat) (t : State) (f : Frame)
    (q : PageRef) (p : Page) (hf : t.frames[t.hand]? = some f) (hl : f.lock = none)
    (hp : f.page = some q) (hq : getPage t q = some p) (hpf : p.frame = some t.hand) :
    evict_frame c r (m + 1) t
      = if (t.pagedir p.thread p.addr).accessed then
          evict_frame c r m
            { t with
              hand := if t.hand + 1 ≥ t.frames.length then 0 else t.hand + 1
              pagedir := (pagedir_set_accessed t p.thread p.addr false).pagedir
              frames := List.modify (fun g => { g with lock := none }) t.hand
                (List.modify (fun g => { g with lock := some t.cur }) t.hand t.frames) }
        else
          evict_victim c r t.hand q
            { t with
              hand := if t.hand + 1 ≥ t.frames.length then 0 else t.hand + 1
              scan_lock := none
              frames := List.modify (fun g => { g with lock := some t.cur }) t.hand t.frames } := by
  rw [evict_frame]
  simp only [hf, hl, lock_try_acquire, hp]
  have hpa := page_accessed_recently_eq
    (setFrame { t with hand := if t.hand + 1 ≥ t.frames.length then 0 else t.hand + 1 }
      t.hand (fun g => { g with lock := some t.cur })) q p t.hand
    { base := f.base, lock := some t.cur, page := f.page } hq hpf
    (by
      show (List.modify _ t.hand t.frames)[t.hand]? = _
      rw [List.getElem?_modify_eq, hf]
      rfl) rfl
  rw [hpa]
  by_cases hacc : (t.pagedir p.thread p.addr).accessed = true
  · have h1 : ((setFrame { t with hand := if t.hand + 1 ≥ t.frames.length then 0
        else t.hand + 1 } t.hand (fun g => { g with lock := some t.cur })).pagedir
          p.thread p.addr).accessed = true := hacc
    rw [if_pos h1, if_pos hacc]
    rfl
  · have h1 : ¬ ((setFrame { t with hand := if t.hand + 1 ≥ t.frames.length then 0
        else t.hand + 1 } t.hand (fun g => { g with lock := some t.cur })).pagedir
          p.thread p.addr).accessed = true := hacc
    rw [if_neg h1, if_neg hacc]
    rfl

theorem state_ext (a b : State) (h1 : a.cur = b.cur) (h2 : a.pages = b.pages)
    (h3 : a.pagedir = b.pagedir) (h4 : a.user_esp = b.user_esp) (h5 : a.frames = b.frames)
    (h6 : a.kmem = b.kmem) (h7 : a.hand = b.hand) (h8 : a.scan_lock = b.scan_lock)
    (h9 : a.swap_bitmap = b.swap_bitmap) (h10 : a.swap_lock = b.swap_lock)
    (h11 : a.swap_device = b.swap_device) (h12 : a.fs = b.fs) : a = b := by
  cases a
  cases b
  simp only at h1 h2 h3 h4 h5 h6 h7 h8 h9 h10 h11 h12
  subst h1 h2 h3 h4 h5 h6 h7 h8 h9 h10 h11 h12
  rfl

theorem getPage_addr (s : State) (q : PageRef) (p : Page) (h : getPage s q = some p) :
    p.addr = q.2 := by
  unfold getPage at h
  cases hp : s.pages q.1 with
  | none => simp [hp] at h
  | some l =>
    rw [hp] at h
    exact hash_find_addr h

theorem clear_passed_zero (s : State) : clear_passed s 0 = s.pagedir := by
  funext t u
  simp [clear_passed]

theorem clear_passed_succ (s : State) (k : Nat) (q : PageRef)
    (hq : frame_page s ((s.hand + k) % s.frames.length) = some q) :
    (pagedir_set_accessed (sweep_state s k) q.1 q.2 false).pagedir = clear_passed s (k + 1) := by
  funext t u
  show (if t = q.1 ∧ u = q.2 then { clear_passed s k q.1 u with accessed := false }
    else clear_passed s k t u) = clear_passed s (k + 1) t u
  have hany : (List.range (k + 1)).any
      (fun i => frame_page s ((s.hand + i) % s.frames.length) == some (t, u))
      = ((List.range k).any
          (fun i => frame_page s ((s.hand + i) % s.frames.length) == some (t, u))
        || (frame_page s ((s.hand + k) % s.frames.length) == some (t, u))) := by
    rw [List.range_succ, List.any_append]
    simp
  by_cases hc : t = q.1 ∧ u = q.2
  · obtain ⟨rfl, rfl⟩ := hc
    have hself : (frame_page s ((s.hand + k) % s.frames.length) == some (q.1, q.2)) = true := by
      rw [hq]
      simp
    rw [if_pos ⟨rfl, rfl⟩]
    unfold clear_passed
    rw [hany, hself, Bool.or_true, if_pos rfl]
    split <;> rfl
  · have hne : (frame_page s ((s.hand + k) % s.frames.length) == some (t, u)) = false := by
      rw [hq]
      simp only [beq_eq_false_iff_ne, ne_eq, Option.some.injEq]
      intro he
      apply hc
      rw [he]
      exact ⟨rfl, rfl⟩
    rw [if_neg hc]
    unfold clear_passed
    rw [hany, hne, Bool.or_false]

/-- The frame under the hand and its page, in a state where every frame is
occupied. -/
theorem occupied_frame (s : State) (hocc : Occupied s) (v : Nat) (hv : v < s.frames.length) :
    ∃ f q p, s.frames[v]? = some f ∧ f.lock = none ∧ f.page = some q ∧
      frame_page s v = some q ∧ getPage s q = some p ∧ p.frame = some v ∧
      p.thread = q.1 ∧ p.addr = q.2 := by
  have hfr : s.frames[v]? = some (s.frames[v]) := List.getElem?_eq_getElem hv
  obtain ⟨hl, q, p, hp, hq, hpf, hpt⟩ := hocc v _ hfr
  refine ⟨_, q, p, hfr, hl, hp, ?_, hq, hpf, hpt, getPage_addr s q p hq⟩
  unfold frame_page
  rw [hfr]
  exact hp

/-- Distinct frames hold distinct pages. -/
theorem occupied_inj (s : State) (hocc : Occupied s) (v w : Nat) (q : PageRef)
    (hv : frame_page s v = some q) (hw : frame_page s w = some q) : v = w := by
  unfold frame_page at hv hw
  cases hfv : s.frames[v]? with
  | none => simp [hfv] at hv
  | some f =>
    cases hfw : s.frames[w]? with
    | none => simp [hfw] at hw
    | some g =>
      rw [hfv] at hv
      rw [hfw] at hw
      have hv1 : f.page = some q := hv
      have hw1 : g.page = some q := hw
      obtain ⟨-, q1, p1, a1, a2, a3, -⟩ := hocc v f hfv
      obtain ⟨-, q2, p2, b1, b2, b3, -⟩ := hocc w g hfw
      rw [hv1] at a1
      rw [hw1] at b1
      have e1 : q = q1 := Option.some.inj a1
      have e2 : q = q2 := Option.some.inj b1
      subst e1
      subst e2
      rw [a2] at b2
      have e3 : p1 = p2 := Option.some.inj b2
      subst e3
      rw [a3] at b3
      exact Option.some.inj b3

/-- The loop passes over a frame whose page has its accessed bit set. -/
theorem sweep_pass (c : Config) (r : PageRef) (s : State) (k m : Nat)
    (hn : 0 < s.frames.length) (hocc : Occupied s) (q : PageRef)
    (hq : frame_page s ((s.hand + k) % s.frames.length) = some q)
    (hacc : (clear_passed s k q.1 q.2).accessed = true) :
    evict_frame c r (m + 1) (sweep_state s k) = evict_frame c r m (sweep_state s (k + 1)) := by
  have hv : (s.hand + k) % s.frames.length < s.frames.length := Nat.mod_lt _ hn
  obtain ⟨f, q2, p, hf, hl, hp, hfp, hgp, hpf, hpt, hpa⟩ := occupied_frame s hocc _ hv
  rw [hq] at hfp
  have hqq : q = q2 := Option.some.inj hfp
  subst hqq
  have hstep := evict_frame_step c r m (sweep_state s k) f q p hf hl hp hgp hpf
  rw [hstep, hpt, hpa]
  have hacc2 : ((sweep_state s k).pagedir q.1 q.2).accessed = true := hacc
  rw [if_pos hacc2]
  congr 1
  apply state_ext
  · rfl
  · rfl
  · exact clear_passed_succ s k q hq
  · rfl
  · exact modify_lock_restore s.frames _ s.cur f hf hl
  · rfl
  · show (if (s.hand + k) % s.frames.length + 1 ≥ s.frames.length then 0
        else (s.hand + k) % s.frames.length + 1) = (s.hand + (k + 1)) % s.frames.length
    rw [hand_step _ _ hv, Nat.mod_add_mod, Nat.add_assoc]
  · rfl
  · rfl
  · rfl
  · rfl
  · rfl

/-- The loop stops at a frame whose page has its accessed bit clear. -/
theorem sweep_victim (c : Config) (r : PageRef) (s : State) (k m : Nat)
    (hn : 0 < s.frames.length) (hocc : Occupied s) (q : PageRef)
    (hq : frame_page s ((s.hand + k) % s.frames.length) = some q)
    (hacc : (clear_passed s k q.1 q.2).accessed = false) :
    evict_frame c r (m + 1) (sweep_state s k)
      = evict_victim c r ((s.hand + k) % s.frames.length) q (clock_state s k) := by
  have hv : (s.hand + k) % s.frames.length < s.frames.length := Nat.mod_lt _ hn
  obtain ⟨f, q2, p, hf, hl, hp, hfp, hgp, hpf, hpt, hpa⟩ := occupied_frame s hocc _ hv
  rw [hq] at hfp
  have hqq : q = q2 := Option.some.inj hfp
  subst hqq
  have hstep := evict_frame_step c r m (sweep_state s k) f q p hf hl hp hgp hpf
  rw [hstep, hpt, hpa]
  have hacc2 : ¬ ((sweep_state s k).pagedir q.1 q.2).accessed = true := by
    show ¬ (clear_passed s k q.1 q.2).accessed = true
    rw [hacc]
    simp
  rw [if_neg hacc2]
  show evict_victim c r ((s.hand + k) % s.frames.length) q _ = _
  congr 1
  apply state_ext
  · rfl
  · rfl
  · rfl
  · rfl
  · rfl
  · rfl
  · show (if (s.hand + k) % s.frames.length + 1 ≥ s.frames.length then 0
        else (s.hand + k) % s.frames.length + 1)
        = ((s.hand + k) % s.frames.length + 1) % s.frames.length
    exact hand_step _ _ hv
  · rfl
  · rfl
  · rfl
  · rfl
  · rfl

theorem swap_out_hand_accessed (c : Config) (s s1 : State) (r : PageRef) (ok : Bool)
    (h : swap_out c s r = some (ok, s1)) : s1.hand = s.hand ∧ s1.pagedir = s.pagedir := by
  cases ok with
  | false =>
    rw [swap_out_false_state c s s1 r h]
    exact ⟨rfl, rfl⟩
  | true =>
    obtain ⟨p, fi, slot, -, -, -, h4⟩ := swap_out_elim c s s1 r h
    rw [h4]
    exact ⟨rfl, rfl⟩

theorem pagedir_clear_page_accessed (s : State) (a b t u : Nat) :
    ((pagedir_clear_page s a b).pagedir t u).accessed = (s.pagedir t u).accessed := by
  unfold pagedir_clear_page
  simp only []
  split
  · rename_i hc
    obtain ⟨rfl, rfl⟩ := hc
    rfl
  · rfl

theorem page_out_hand_accessed (c : Config) (s s1 : State) (q : PageRef) (ok : Bool)
    (h : page_out c s q = some (ok, s1)) :
    s1.hand = s.hand ∧ ∀ t u, (s1.pagedir t u).accessed = (s.pagedir t u).accessed := by
  unfold page_out at h
  cases hq : getPage s q with
  | none => simp [hq] at h
  | some p =>
    simp only [hq] at h
    cases hfr : p.frame with
    | none => simp [hfr] at h
    | some fi =>
      simp only [hfr] at h
      cases hfm : s.frames[fi]? with
      | none => simp [hfm] at h
      | some f =>
        simp only [hfm] at h
        split at h
        · simp at h
        · split at h
          · simp at h
          · rename_i ok2 s2 hrouted
            have hk : s2.hand = s.hand ∧
                ∀ t u, (s2.pagedir t u).accessed = (s.pagedir t u).accessed := by
              split at hrouted
              · obtain ⟨a1, a2⟩ :=
                  swap_out_hand_accessed c (pagedir_clear_page s p.thread p.addr) _ q _ hrouted
                refine ⟨a1, fun t u => ?_⟩
                rw [a2]
                exact pagedir_clear_page_accessed s _ _ t u
              · split at hrouted
                · split at hrouted
                  · obtain ⟨a1, a2⟩ :=
                      swap_out_hand_accessed c (pagedir_clear_page s p.thread p.addr) _ q _
                        hrouted
                    refine ⟨a1, fun t u => ?_⟩
                    rw [a2]
                    exact pagedir_clear_page_accessed s _ _ t u
                  · simp only [Option.some.injEq, Prod.mk.injEq] at hrouted
                    rw [← hrouted.2]
                    exact ⟨rfl, fun t u => pagedir_clear_page_accessed s _ _ t u⟩
                · simp only [Option.some.injEq, Prod.mk.injEq] at hrouted
                  rw [← hrouted.2]
                  exact ⟨rfl, fun t u => pagedir_clear_page_accessed s _ _ t u⟩
            split at h
            · simp only [Option.some.injEq, Prod.mk.injEq] at h
              rw [← h.2]
              exact hk
            · simp only [Option.some.injEq, Prod.mk.injEq] at h
              rw [← h.2]
              exact hk

theorem evict_victim_result (c : Config) (r : PageRef) (v : Nat) (q : PageRef)
    (s s1 : State) (res : Option Nat) (h : evict_victim c r v q s = some (res, s1)) :
    (res = none ∨ res = some v) ∧ s1.hand = s.hand ∧
    ∀ t u, (s1.pagedir t u).accessed = (s.pagedir t u).accessed := by
  unfold evict_victim at h
  cases hpo : page_out c s q with
  | none => simp [hpo] at h
  | some x =>
    obtain ⟨ok, s4⟩ := x
    obtain ⟨a1, a2⟩ := page_out_hand_accessed c s s4 q ok hpo
    cases ok with
    | false =>
      simp only [hpo, Option.some.injEq, Prod.mk.injEq] at h
      obtain ⟨rfl, rfl⟩ := h
      exact ⟨Or.inl rfl, a1, a2⟩
    | true =>
      simp only [hpo, Option.some.injEq, Prod.mk.injEq] at h
      obtain ⟨rfl, rfl⟩ := h
      exact ⟨Or.inr rfl, a1, a2⟩

theorem clear_passed_not_passed (s : State) (k : Nat) (q : PageRef)
    (h : ∀ i, i < k → frame_page s ((s.hand + i) % s.frames.length) ≠ some q) :
    clear_passed s k q.1 q.2 = s.pagedir q.1 q.2 := by
  unfold clear_passed
  have hany : (List.range k).any
      (fun i => frame_page s ((s.hand + i) % s.frames.length) == some (q.1, q.2)) = false := by
    rw [List.any_eq_false]
    intro i hi
    have hik : i < k := List.mem_range.mp hi
    have := h i hik
    simpa using this
  rw [hany]
  rfl

theorem clear_passed_passed (s : State) (k i : Nat) (q : PageRef) (hi : i < k)
    (h : frame_page s ((s.hand + i) % s.frames.length) = some q) :
    (clear_passed s k q.1 q.2).accessed = false := by
  unfold clear_passed
  have hany : (List.range k).any
      (fun i => frame_page s ((s.hand + i) % s.frames.length) == some (q.1, q.2)) = true := by
    rw [List.any_eq_true]
    refine ⟨i, List.mem_range.mpr hi, ?_⟩
    rw [h]
    simp
  rw [hany]
  rfl

theorem frame_accessed_eq (s : State) (v : Nat) (q : PageRef) (hq : frame_page s v = some q) :
    frame_accessed s v = (s.pagedir q.1 q.2).accessed := by
  unfold frame_accessed
  rw [hq]

theorem sweep_state_zero (s : State) (hh : s.hand < s.frames.length) :
    sweep_state s 0 = { s with scan_lock := some s.cur } := by
  apply state_ext
  · rfl
  · rfl
  · exact clear_passed_zero s
  · rfl
  · rfl
  · rfl
  · show (s.hand + 0) % s.frames.length = s.hand
    rw [Nat.add_zero, Nat.mod_eq_of_lt hh]
  · rfl
  · rfl
  · rfl
  · rfl
  · rfl

/-- The loop passes over the first `j` frames when their accessed bits are set. -/
theorem sweep_run (c : Config) (r : PageRef) (s : State) (k : Nat)
    (hn : 0 < s.frames.length) (hocc : Occupied s) (hk : k ≤ s.frames.length)
    (hset : ∀ i, i < k → frame_accessed s ((s.hand + i) % s.frames.length) = true) :
    ∀ (j : Nat), j ≤ k → ∀ (m : Nat),
      evict_frame c r (m + j) (sweep_state s 0) = evict_frame c r m (sweep_state s j) := by
  intro j
  induction j with
  | zero =>
    intro _ m
    rfl
  | succ j ih =>
    intro hj m
    have h1 : m + (j + 1) = (m + 1) + j := by omega
    rw [h1, ih (by omega) (m + 1)]
    have hv : (s.hand + j) % s.frames.length < s.frames.length := Nat.mod_lt _ hn
    obtain ⟨f, q, p, -, -, -, hfp, -, -, -, -⟩ := occupied_frame s hocc _ hv
    have hacc := hset j (by omega)
    rw [frame_accessed_eq s _ q hfp] at hacc
    apply sweep_pass c r s j m hn hocc q hfp
    rw [clear_passed_not_passed s j q]
    · exact hacc
    · intro i hi hcon
      have hvw := occupied_inj s hocc _ _ q hcon hfp
      have := hand_mod_inj s.hand s.frames.length i j (by omega) (by omega) hvw
      omega

/-- C21: clock victim selection.  In a state with at least one frame, the hand
inside the table, the scan lock free, no frame locked and every frame holding a
resident page, let `k` count the frames from the hand on, in cyclic order, whose
page has its accessed bit set, up to the first frame whose bit is clear (`k` is
`frame_cnt` when every bit is set).  Then `try_frame_alloc_and_lock` selects the
frame `(hand + k) mod frame_cnt` as victim: it calls `page_out` on that frame's
page in the state `clock_state s k`, in which the accessed bits of exactly the
pages of the `k` frames passed over are cleared, the victim is locked and the hand
is at `(victim + 1) mod frame_cnt`.  The victim is the frame at the starting hand
position when every bit is set; the loop takes `k + 1` steps, at most
`2 * frame_cnt`; and whenever the call returns, it returns the victim or none, the
hand is at `(victim + 1) mod frame_cnt`, which is below `frame_cnt`, and the
accessed bits are those after clearing the passed pages. -/
theorem try_frame_alloc_and_lock_clock (c : Config) (s : State) (r : PageRef) (k : Nat)
    (hn : 0 < s.frames.length) (hh : s.hand < s.frames.length) (hsl : s.scan_lock = none)
    (hocc : Occupied s) (hk : k ≤ s.frames.length)
    (hset : ∀ i, i < k → frame_accessed s ((s.hand + i) % s.frames.length) = true)
    (hclr : k < s.frames.length →
      frame_accessed s ((s.hand + k) % s.frames.length) = false) :
    ∃ q, frame_page s ((s.hand + k) % s.frames.length) = some q ∧
      try_frame_alloc_and_lock c s r
        = evict_victim c r ((s.hand + k) % s.frames.length) q (clock_state s k) ∧
      (k = s.frames.length → (s.hand + k) % s.frames.length = s.hand) ∧
      k + 1 ≤ s.frames.length * 2 ∧
      (∀ res s1, try_frame_alloc_and_lock c s r = some (res, s1) →
        (res = none ∨ res = some ((s.hand + k) % s.frames.length)) ∧
        s1.hand = ((s.hand + k) % s.frames.length + 1) % s.frames.length ∧
        s1.hand < s.frames.length ∧
        ∀ t u, (s1.pagedir t u).accessed = (clear_passed s k t u).accessed) := by
  have hv : (s.hand + k) % s.frames.length < s.frames.length := Nat.mod_lt _ hn
  obtain ⟨f, q, p, -, -, -, hfp, -, -, -, -⟩ := occupied_frame s hocc _ hv
  have hstart : k = s.frames.length → (s.hand + k) % s.frames.length = s.hand := by
    intro he
    rw [he, Nat.add_mod_right, Nat.mod_eq_of_lt hh]
  -- the accessed bit of the victim when the loop reaches it
  have hacc : (clear_passed s k q.1 q.2).accessed = false := by
    by_cases hkn : k < s.frames.length
    · have h1 := hclr hkn
      rw [frame_accessed_eq s _ q hfp] at h1
      rw [clear_passed_not_passed s k q]
      · exact h1
      · intro i hi hcon
        have hvw := occupied_inj s hocc _ _ q hcon hfp
        have := hand_mod_inj s.hand s.frames.length i k (by omega) hkn hvw
        omega
    · have hke : k = s.frames.length := by omega
      apply clear_passed_passed s k 0 q (by omega)
      rw [Nat.add_zero, Nat.mod_eq_of_lt hh]
      rw [hstart hke] at hfp
      exact hfp
  have heq : try_frame_alloc_and_lock c s r
      = evict_victim c r ((s.hand + k) % s.frames.length) q (clock_state s k) := by
    unfold try_frame_alloc_and_lock
    have hla : lock_acquire s.scan_lock s.cur = some (some s.cur) := by
      rw [hsl]
      rfl
    rw [hla]
    simp only []
    have hff := find_free_frame_occupied { s with scan_lock := some s.cur } r
      (fun j f hj hp => by
        obtain ⟨-, q1, p1, a1, -⟩ := hocc j f hj
        rw [a1] at hp
        exact absurd hp (by simp))
      s.frames.length 0 (by
        show 0 + s.frames.length ≤ s.frames.length
        omega)
    rw [hff]
    simp only []
    rw [← sweep_state_zero s hh]
    have hfuel : s.frames.length * 2 = (s.frames.length * 2 - k - 1 + 1) + k := by omega
    rw [hfuel, sweep_run c r s k hn hocc hk hset k (Nat.le_refl k)]
    exact sweep_victim c r s k _ hn hocc q hfp hacc
  refine ⟨q, hfp, heq, hstart, by omega, ?_⟩
  intro res s1 hret
  rw [heq] at hret
  obtain ⟨a1, a2, a3⟩ := evict_victim_result c r _ q _ s1 res hret
  refine ⟨a1, a2, ?_, a3⟩
  rw [a2]
  exact Nat.mod_lt _ hn

theorem exClock_occupied : Occupied exClock := by
  intro j f hj
  match j with
  | 0 =>
    have hf : f = { base := 0xC0100000, lock := none, page := some (1, 0x8048000) } :=
      (Option.some.inj hj).symm
    subst hf
    exact ⟨rfl, (1, 0x8048000), exClockPage 0, rfl, rfl, rfl, rfl⟩
  | 1 =>
    have hf : f = { base := 0xC0101000, lock := none, page := some (1, 0x8048000 + 4096 * 1) } :=
      (Option.some.inj hj).symm
    subst hf
    exact ⟨rfl, (1, 0x8048000 + 4096 * 1), exClockPage 1, rfl, rfl, rfl, rfl⟩
  | 2 =>
    have hf : f = { base := 0xC0102000, lock := none, page := some (1, 0x8048000 + 4096 * 2) } :=
      (Option.some.inj hj).symm
    subst hf
    exact ⟨rfl, (1, 0x8048000 + 4096 * 2), exClockPage 2, rfl, rfl, rfl, rfl⟩
  | j + 3 =>
    simp [exClock] at hj

theorem try_frame_alloc_and_lock_clock_witness :
    exClock.hand = 1 ∧ exClock.frames.length = 3 ∧
    frame_accessed exClock 1 = true ∧ frame_accessed exClock 2 = false ∧
    try_frame_alloc_and_lock exCfg exClock (1, 0x8050000)
      = evict_victim exCfg (1, 0x8050000) 2 (1, 0x8048000 + 4096 * 2) (clock_state exClock 1) ∧
    ∃ s1, try_frame_alloc_and_lock exCfg exClock (1, 0x8050000) = some (some 2, s1) ∧
      s1.hand = 0 ∧
      (s1.pagedir 1 0x8048000).accessed = true ∧
      (s1.pagedir 1 (0x8048000 + 4096 * 1)).accessed = false ∧
      (s1.pagedir 1 (0x8048000 + 4096 * 2)).accessed = false := by
  obtain ⟨q, hq, heq, -, -, hret⟩ :=
    try_frame_alloc_and_lock_clock exCfg exClock (1, 0x8050000) 1 (by decide) (by decide) rfl
      exClock_occupied (by decide)
      (fun i hi => by
        have hi0 : i = 0 := Nat.lt_one_iff.mp hi
        subst hi0
        rfl)
      (fun _ => rfl)
  have hq2 : some ((1 : Nat), 0x8048000 + 4096 * 2) = some q := hq
  have hqe : q = (1, 0x8048000 + 4096 * 2) := (Option.some.inj hq2).symm
  subst hqe
  refine ⟨rfl, rfl, rfl, rfl, heq, ?_⟩
  have hex : ∃ s1, try_frame_alloc_and_lock exCfg exClock (1, 0x8050000)
      = some (some 2, s1) := ⟨_, rfl⟩
  obtain ⟨s1, hs1⟩ := hex
  obtain ⟨-, b2, -, b4⟩ := hret _ s1 hs1
  refine ⟨s1, hs1, b2, ?_, ?_, ?_⟩
  · rw [b4]
    rfl
  · rw [b4]
    rfl
  · rw [b4]
    rfl

end Pintos
